import Mathlib

/-! # OpenABM-Covid19: event pool, daily network and transmission kernel

A shallow embedding of `src/model.c`.  Pointers into the event pool, the
interaction pool and the population are array indices (`Nat`), a C pointer
that may be `NULL` is an `Option Nat`, and a function that dereferences
`NULL` or writes outside an array returns `none`.  Arrays indexed by a day
are total maps `Nat → _`.  Random draws come from an oracle that is part of
the model state.
-/

namespace OpenABM

/-! ## Data model -/

/-- The event lists: the ten lists of `model` in model.c (`model->presymptomatic`,
...) and the list of `CASE` events, to which only interventions.c adds
(`model->event_lists[type]`). -/
inductive event_kind
  | presymptomatic | asymptomatic | symptomatic | hospitalised | recovered | death
  | quarantined | quarantine_release | test_take | test_result | CASE
  deriving DecidableEq, Repr

/-- Disease status of an individual. -/
inductive disease_status
  | UNINFECTED | PRESYMPTOMATIC | ASYMPTOMATIC | SYMPTOMATIC | HOSPITALISED | RECOVERED | DEATH
  deriving DecidableEq, Repr

/-- Record of the event pool: `individual`, `next`, `last`, the fields that
model.c writes, and `time` and `type`, which interventions.c relies on
(`quarantine_release_event->time`, `remove_event_from_event_list( model, event )`)
and the functions of model.c never touch. -/
structure event where
  individual : Option Nat
  next : Option Nat
  last : Option Nat
  time : Nat
  type : event_kind
  deriving DecidableEq, Repr

/-- Modelled from the spec: the values of the test slot `quarantine_test_result`.
The constants `NO_TEST` and `TEST_ORDERED` are defined in constant.h, which is
not in the sources; the spec lists the slot as an enum of `NO_TEST`,
`TEST_ORDERED`, true and false.  `result b` is the C value `TRUE` or `FALSE`. -/
inductive test_status
  | NO_TEST | TEST_ORDERED | result (positive : Bool)
  deriving DecidableEq, Repr

/-- One event list: per-day head pointer and counters, running totals and the
infectious-rate curve. -/
structure event_list where
  events : Nat → Option Nat
  n_daily : Nat → Int
  n_daily_current : Nat → Int
  n_current : Int
  n_total : Int
  infectious_curve : Nat → Int

/-- Record of the interaction pool: the other party and the next record of the
same individual's day list, the two fields that model.c writes, and the
ternary `traceable` of interventions.c, `none` for `UNKNOWN`. -/
structure interaction where
  individual : Option Nat
  next : Option Nat
  traceable : Option Bool
  deriving DecidableEq, Repr

/-- Record of the pool of trace tokens. -/
structure trace_token where
  last : Option Nat
  next : Option Nat
  next_index : Option Nat
  deriving DecidableEq, Repr

/-- The household directory: `n_jdx[h]` members `val[h][0 .. n_jdx[h] - 1]` of
household `h`. -/
structure directory where
  n_jdx : Nat → Nat
  val : Nat → Nat → Nat

/-- Per-person state.  `hazard` is a C `double`; it is modelled by an exact
integer number of hazard units, rounding is not modelled. -/
structure individual where
  status : disease_status
  hazard : Int
  mean_interactions : Nat
  quarantined : Bool
  n_interactions : Nat → Nat
  interactions : Nat → Option Nat
  current_event : Option Nat
  quarantine_event : Option Nat
  next_event_type : disease_status
  infector : Option Nat
  time_infected : Nat
  time_asymptomatic : Nat
  time_symptomatic : Nat
  time_hospitalised : Nat
  time_recovered : Nat
  time_death : Nat
  time_quarantined : Nat
  quarantine_test_result : test_status
  quarantine_release_event : Option Nat
  is_case : Bool
  idx : Nat
  house_no : Nat
  app_user : Bool
  index_trace_token : Option Nat
  traced_on_this_trace : Bool

/-- A C `double` that holds a fraction or a rate: modelled by the exact ratio
`num / den`, `den > 0`; rounding is not modelled. -/
structure fraction where
  num : Int
  den : Nat

/-- The parameters read by the functions embedded here.  `MAX_INFECTIOUS_PERIOD`,
`NOT_RECURSIVE` and `N_INTERACTION_TYPES` are constants of `constant.h`, which is
not part of the sources; they are carried as parameters. -/
structure parameters where
  n_total : Nat
  n_seed_infection : Nat
  mean_daily_interactions : Nat
  days_of_interactions : Nat
  quarantine_days : Nat
  test_result_wait : Nat
  test_insensititve_period : Nat
  allow_clinical_diagnosis : Bool
  app_turned_on : Bool
  quarantine_on_traced : Bool
  quarantine_household_on_traced : Bool
  quarantine_household_on_positive : Bool
  quarantine_household_contacts_on_positive : Bool
  test_on_traced : Bool
  trace_on_positive : Bool
  test_order_wait : Nat
  tracing_network_depth : Nat
  NOT_RECURSIVE : Nat
  MAX_INFECTIOUS_PERIOD : Nat
  quarantine_household_on_symptoms : Bool
  test_on_symptoms : Bool
  trace_on_symptoms : Bool
  lockdown_on : Bool
  app_turn_on_time : Int
  lockdown_time_on : Int
  lockdown_time_off : Int
  testing_symptoms_time_on : Int
  testing_symptoms_time_off : Int
  daily_fraction_work : fraction
  daily_fraction_work_used : fraction
  relative_transmission_by_type : Nat → fraction
  relative_transmission_by_type_used : Nat → fraction
  N_INTERACTION_TYPES : Nat

/-- The random-number oracle: the outcome of the `k`-th random call of a run.
`bernoulli` stands for `gsl_ran_bernoulli`, `draw` for `sample_draw_list`,
`uniform_int` for `gsl_rng_uniform_int` and `shuffle` for `gsl_ran_shuffle`. -/
structure rng_oracle where
  bernoulli : Nat → Bool
  draw : Nat → Nat
  uniform_int : Nat → Nat → Nat
  shuffle : Nat → List Nat → List Nat

/-- The model state. -/
structure model where
  params : parameters
  time : Nat
  lists : event_kind → event_list
  events : Nat → event
  next_event : Option Nat
  population : Nat → individual
  interactions : Nat → interaction
  n_interactions : Nat
  interaction_idx : Nat
  interaction_day_idx : Nat
  possible_interactions : List Nat
  n_total_intereactions : Nat
  rng : rng_oracle
  rng_calls : Nat
  household_directory : directory
  trace_tokens : Nat → trace_token
  next_trace_token : Option Nat
  n_quarantine_days : Int

/-! ## Memory writes -/

/-- The write `p->next = v` in the event pool. -/
def set_next (ev : Nat → event) (p : Nat) (v : Option Nat) : Nat → event :=
  fun q => if q = p then
    (match ev q with
      | { individual := i, next := _, last := l, time := t, type := k } =>
        { individual := i, next := v, last := l, time := t, type := k })
    else ev q

/-- The write `p->last = v` in the event pool. -/
def set_last (ev : Nat → event) (p : Nat) (v : Option Nat) : Nat → event :=
  fun q => if q = p then
    (match ev q with
      | { individual := i, next := n, last := _, time := t, type := k } =>
        { individual := i, next := n, last := v, time := t, type := k })
    else ev q

/-- The write `p->individual = v` in the event pool. -/
def set_individual (ev : Nat → event) (p : Nat) (v : Option Nat) : Nat → event :=
  fun q => if q = p then
    (match ev q with
      | { individual := _, next := n, last := l, time := t, type := k } =>
        { individual := v, next := n, last := l, time := t, type := k })
    else ev q

/-! ## Event pool -/

/-- The `calloc`ed event array: every field `NULL`. -/
def calloc_events : Nat → event := fun _ =>
  { individual := none, next := none, last := none, time := 0,
    type := event_kind.presymptomatic }

/-- Embedding of `set_up_events`: a ring of `6 * n_total` events, doubly linked,
with `next_event` on element 0.  With an empty population the source writes
before the start of the array; that is `none` here. -/
def set_up_events (m : model) : Option model :=
  let n := 6 * m.params.n_total
  if n = 0 then none
  else
    let ev1 := (List.range (n - 1)).foldl
      (fun ev i => set_last (set_next ev i (some (i + 1))) (i + 1) (some i)) calloc_events
    let ev2 := set_next ev1 (n - 1) (some 0)
    let ev3 := set_last ev2 0 (some (n - 1))
    some { m with events := ev3, next_event := some 0 }

/-- Embedding of `new_event`: hands out `next_event` and unlinks it from the
free ring.  The returned event keeps its old `next` and `last`. -/
def new_event (m : model) : Option (Nat × model) :=
  match m.next_event with
  | none => none
  | some event =>
    match (m.events event).next with
    | none => none
    | some nx =>
      let ev1 := set_last m.events nx (m.events event).last
      match (ev1 event).last with
      | none => none
      | some lst =>
        some (event, { m with next_event := some nx, events := set_next ev1 lst (some nx) })

/-- The pointer writes of `add_individual_to_event_list` (the `if` on
`n_daily_current[time]`): `n` is the bucket's current count, `head` its head
pointer, `e` the new event. -/
def link_event (ev : Nat → event) (n : Int) (head : Option Nat) (e : Nat) :
    Option (Nat → event) :=
  if n > 1 then
    match head with
    | none => none
    | some h => some (set_next (set_last ev h (some e)) e (some h))
  else if n = 1 then
    match head with
    | none => none
    | some h =>
      some (set_last (set_next (set_last (set_next ev h (some e)) h (some e)) e (some h)) e
        (some h))
  else some ev

/-- Embedding of `add_individual_to_event_list`. -/
def add_individual_to_event_list (k : event_kind) (indiv : Nat) (time : Nat) (m : model) :
    Option (Nat × model) :=
  match new_event m with
  | none => none
  | some (e, m1) =>
    let list := m1.lists k
    match link_event (set_individual m1.events e (some indiv))
        (list.n_daily_current time) (list.events time) e with
    | none => none
    | some ev =>
      let list1 : event_list :=
        { list with
          events := Function.update list.events time (some e)
          n_daily := Function.update list.n_daily time (list.n_daily time + 1)
          n_daily_current :=
            Function.update list.n_daily_current time (list.n_daily_current time + 1) }
      some (e, { m1 with events := ev, lists := Function.update m1.lists k list1 })

/-- The first half of `remove_event_from_event_list`: takes `e` out of its
bucket.  `n` is the bucket's current count and `head` its head pointer; the
result is the new memory and the new head pointer. -/
def unlink_event (ev : Nat → event) (n : Int) (head : Option Nat) (e : Nat) :
    Option ((Nat → event) × Option Nat) :=
  if n > 1 then
    if some e ≠ head then
      match (ev e).last with
      | none => none
      | some p =>
        let e1 := set_next ev p (ev e).next
        match (e1 e).next with
        | none => none
        | some q => some (set_last e1 q (e1 e).last, head)
    else some (ev, (ev e).next)
  else some (ev, none)

/-- The second half of `remove_event_from_event_list`: puts `e` back into the
free ring, right before `next_event`. -/
def release_event (ev : Nat → event) (next_event : Option Nat) (e : Nat) :
    Option (Nat → event) :=
  match next_event with
  | none => none
  | some ne =>
    match (ev ne).last with
    | none => none
    | some l =>
      let e1 := set_next ev l (some e)
      let e2 := set_last e1 e (e1 ne).last
      let e3 := set_next e2 e (some ne)
      some (set_last e3 ne (some e))

/-- Embedding of `remove_event_from_event_list`. -/
def remove_event_from_event_list (k : event_kind) (e : Nat) (m : model) (time : Nat) :
    Option model :=
  let list := m.lists k
  match unlink_event m.events (list.n_daily_current time) (list.events time) e with
  | none => none
  | some (ev, head) =>
    match release_event ev m.next_event e with
    | none => none
    | some ev1 =>
      let list1 : event_list :=
        { list with
          events := Function.update list.events time head
          n_current := list.n_current - 1
          n_daily_current :=
            Function.update list.n_daily_current time (list.n_daily_current time - 1) }
      some { m with events := ev1, lists := Function.update m.lists k list1 }

/-- Embedding of `update_event_list_counters`. -/
def update_event_list_counters (k : event_kind) (m : model) : model :=
  let list := m.lists k
  let list1 : event_list :=
    { list with
      n_current := list.n_current + list.n_daily_current m.time
      n_total := list.n_total + list.n_daily m.time }
  { m with lists := Function.update m.lists k list1 }

/-- Embedding of `set_up_event_list`; the arrays are total maps, so every day is
cleared, and the head pointers are those of the zeroed allocation. -/
def set_up_event_list (list : event_list) : event_list :=
  { list with
    events := fun _ => none
    n_current := 0
    n_total := 0
    n_daily := fun _ => 0
    n_daily_current := fun _ => 0 }

/-! ## Zeroed allocations -/

/-- An event list as `calloc` leaves it. -/
def calloc_event_list : event_list :=
  { events := fun _ => none, n_daily := fun _ => 0, n_daily_current := fun _ => 0,
    n_current := 0, n_total := 0, infectious_curve := fun _ => 0 }

/-- An individual before any infection: status `UNINFECTED`, no contacts, no events. -/
def calloc_individual : individual :=
  { status := disease_status.UNINFECTED, hazard := 0, mean_interactions := 0,
    quarantined := false, n_interactions := fun _ => 0, interactions := fun _ => none,
    current_event := none, quarantine_event := none,
    next_event_type := disease_status.UNINFECTED, infector := none,
    time_infected := 0, time_asymptomatic := 0, time_symptomatic := 0,
    time_hospitalised := 0, time_recovered := 0, time_death := 0, time_quarantined := 0,
    quarantine_test_result := test_status.result false, quarantine_release_event := none,
    is_case := false, idx := 0, house_no := 0, app_user := false, index_trace_token := none,
    traced_on_this_trace := false }

/-- The model right after `calloc` and the ten `set_up_event_list` calls of
`new_model`: time 0, every list empty, no pool yet. -/
def calloc_model (params : parameters) (rng : rng_oracle) : model :=
  { params := params, time := 0,
    lists := fun _ => set_up_event_list calloc_event_list,
    events := calloc_events, next_event := none,
    population := fun _ => calloc_individual,
    interactions := fun _ => { individual := none, next := none, traceable := some false },
    n_interactions := 0, interaction_idx := 0, interaction_day_idx := 0,
    possible_interactions := [], n_total_intereactions := 0,
    rng := rng, rng_calls := 0,
    household_directory := { n_jdx := fun _ => 0, val := fun _ _ => 0 },
    trace_tokens := fun _ => { last := none, next := none, next_index := none },
    next_trace_token := none, n_quarantine_days := 0 }

/-! ## Sequences of pool operations and their specification -/

/-- A call of `add_individual_to_event_list` or of `remove_event_from_event_list`. -/
inductive pool_op
  | add (k : event_kind) (indiv : Nat) (time : Nat)
  | remove (k : event_kind) (event : Nat) (time : Nat)
  deriving DecidableEq, Repr

/-- Specification side of the event lists: the events of each (list, day)
bucket, most recently added first. -/
abbrev buckets := event_kind → Nat → List Nat

/-- The bucket map with bucket `(k, d)` replaced by `l`. -/
def buckets.set (b : buckets) (k : event_kind) (d : Nat) (l : List Nat) : buckets :=
  fun k' d' => if k' = k ∧ d' = d then l else b k' d'

/-- One operation on the code and on the specification side: an add puts the
returned event in front of its bucket, a remove erases the event from it. -/
def pool_step (s : model × buckets) : pool_op → Option (model × buckets)
  | pool_op.add k indiv time =>
      match add_individual_to_event_list k indiv time s.1 with
      | none => none
      | some (e, m1) => some (m1, s.2.set k time (e :: s.2 k time))
  | pool_op.remove k e time =>
      match remove_event_from_event_list k e s.1 time with
      | none => none
      | some m1 => some (m1, s.2.set k time ((s.2 k time).erase e))

/-- A sequence of operations, run from left to right. -/
def pool_run (s : model × buckets) : List pool_op → Option (model × buckets)
  | [] => some s
  | op :: ops =>
      match pool_step s op with
      | none => none
      | some s1 => pool_run s1 ops

/-- Each remove of the sequence names an event that is in the named bucket when
the remove is reached. -/
def removes_valid (s : model × buckets) : List pool_op → Bool
  | [] => true
  | pool_op.add k indiv time :: ops =>
      match pool_step s (pool_op.add k indiv time) with
      | some s1 => removes_valid s1 ops
      | none => true
  | pool_op.remove k event time :: ops =>
      decide (event ∈ s.2 k time) &&
      match pool_step s (pool_op.remove k event time) with
      | some s1 => removes_valid s1 ops
      | none => true

/-- Number of adds in a sequence. -/
def count_adds : List pool_op → Nat
  | [] => 0
  | pool_op.add _ _ _ :: ops => count_adds ops + 1
  | pool_op.remove _ _ _ :: ops => count_adds ops

/-- The events met by walking `n` steps along `next` from `head`. -/
def walk_next (ev : Nat → event) : Nat → Option Nat → Option (List Nat)
  | 0, _ => some []
  | _ + 1, none => none
  | n + 1, some e =>
      match walk_next ev n (ev e).next with
      | none => none
      | some rest => some (e :: rest)

/-- The walk over bucket `(k, d)`: `n_daily_current[d]` steps from the head. -/
def bucket_walk (m : model) (k : event_kind) (d : Nat) : Option (List Nat) :=
  walk_next m.events ((m.lists k).n_daily_current d).toNat ((m.lists k).events d)

/-- The events reached from `start` along `next` before `start` comes up again,
with at most `fuel` steps. -/
def ring_from (ev : Nat → event) (start : Nat) : Nat → Nat → List Nat
  | 0, _ => []
  | fuel + 1, cur =>
      cur :: (match (ev cur).next with
        | some nx => if nx = start then [] else ring_from ev start fuel nx
        | none => [])

/-- The free ring: the events reachable from `next_event`. -/
def free_ring (m : model) : List Nat :=
  match m.next_event with
  | some e => ring_from m.events e (6 * m.params.n_total) e
  | none => []

/-- The event lists. -/
def all_kinds : List event_kind :=
  [event_kind.presymptomatic, event_kind.asymptomatic, event_kind.symptomatic,
    event_kind.hospitalised, event_kind.recovered, event_kind.death,
    event_kind.quarantined, event_kind.quarantine_release, event_kind.test_take,
    event_kind.test_result, event_kind.CASE]

/-- Sum of `n_daily_current` over the lists and the days below `ndays`. -/
def live_count (m : model) (ndays : Nat) : Int :=
  (all_kinds.map
    (fun k => ((List.range ndays).map (fun d => (m.lists k).n_daily_current d)).sum)).sum

/-- Number of events in the buckets of the lists and the days below `ndays`,
on the specification side. -/
def bucket_total (b : buckets) (ndays : Nat) : Int :=
  (all_kinds.map
    (fun k => ((List.range ndays).map (fun d => ((b k d).length : Int))).sum)).sum

/-- The day an operation works on. -/
def op_day : pool_op → Nat
  | pool_op.add _ _ time => time
  | pool_op.remove _ _ time => time

/-- Parameters of a population of `n` individuals, everything else zero. -/
def params_of_size (n : Nat) : parameters :=
  { n_total := n, n_seed_infection := 0, mean_daily_interactions := 0,
    days_of_interactions := 0, quarantine_days := 0, test_result_wait := 0,
    test_insensititve_period := 0, allow_clinical_diagnosis := false,
    app_turned_on := false, quarantine_on_traced := false,
    quarantine_household_on_traced := false, quarantine_household_on_positive := false,
    quarantine_household_contacts_on_positive := false, test_on_traced := false,
    trace_on_positive := false, test_order_wait := 0, tracing_network_depth := 0,
    NOT_RECURSIVE := 0, MAX_INFECTIOUS_PERIOD := 0,
    quarantine_household_on_symptoms := false, test_on_symptoms := false,
    trace_on_symptoms := false, lockdown_on := false, app_turn_on_time := 0,
    lockdown_time_on := 0, lockdown_time_off := 0, testing_symptoms_time_on := 0,
    testing_symptoms_time_off := 0, daily_fraction_work := { num := 0, den := 1 },
    daily_fraction_work_used := { num := 0, den := 1 },
    relative_transmission_by_type := fun _ => { num := 0, den := 1 },
    relative_transmission_by_type_used := fun _ => { num := 0, den := 1 },
    N_INTERACTION_TYPES := 0 }

/-- An oracle whose draws are all zero and whose shuffle is the identity. -/
def rng_zero : rng_oracle :=
  { bernoulli := fun _ => false, draw := fun _ => 0, uniform_int := fun _ _ => 0,
    shuffle := fun _ l => l }

/-- The pool of `set_up_events` for `n` individuals with empty event lists. -/
def fresh_pool (n : Nat) : Option model :=
  set_up_events (calloc_model (params_of_size n) rng_zero)

/-- The model reached from the pool of `set_up_events` for `n` individuals by a
sequence of pool operations (the zeroed model when a step fails). -/
def pool_after (n : Nat) (ops : List pool_op) : model :=
  match (fresh_pool n).bind (fun m => pool_run (m, fun _ _ => []) ops) with
  | some s => s.1
  | none => calloc_model (params_of_size n) rng_zero

/-- The specification-side buckets after the same sequence. -/
def buckets_after (n : Nat) (ops : List pool_op) : buckets :=
  match (fresh_pool n).bind (fun m => pool_run (m, fun _ _ => []) ops) with
  | some s => s.2
  | none => fun _ _ => []

/-! ## Invariant of the event pool -/

/-- Last element of `a :: l`. -/
def last_of (a : Nat) : List Nat → Nat
  | [] => a
  | b :: r => last_of b r

/-- Following `next` from `a` goes through the elements of `l` in order and then
reaches `z`. -/
def next_seg (ev : Nat → event) (a : Nat) : List Nat → Nat → Prop
  | [], z => (ev a).next = some z
  | b :: r, z => (ev a).next = some b ∧ next_seg ev b r z

/-- Links of the part `l` of a bucket that comes after the event `p`: `next`
leads from `p` through `l`; every event of `l` but the last has `last` on its
predecessor; the last event of `l` either has `last` on its predecessor and
`next` on a returned event of `D`, on its predecessor or on itself, or has both
links on itself. -/
def linked (ev : Nat → event) (D : List Nat) (p : Nat) : List Nat → Prop
  | [] => True
  | [e] => (ev p).next = some e ∧
      (((ev e).last = some p ∧ ∃ y, (ev e).next = some y ∧ (y ∈ D ∨ y = p ∨ y = e)) ∨
        ((ev e).last = some e ∧ (ev e).next = some e))
  | e :: e1 :: r => (ev p).next = some e ∧ (ev e).last = some p ∧ linked ev D e (e1 :: r)

/-- Links of a whole bucket, head first; the head's `last` is free. -/
def bucket_ok (ev : Nat → event) (D : List Nat) : List Nat → Prop
  | [] => True
  | e :: r => linked ev D e r

/-- The invariant that ties the pool to its specification: `fresh` are the
events never handed out, in ring order, `dead` the events handed out and
returned, in order of return, and `b` the buckets. -/
structure pool_inv (m : model) (b : buckets) (fresh dead : List Nat) : Prop where
  ring : ∃ f fs, fresh = f :: fs ∧ m.next_event = some f ∧
    next_seg m.events f (fs ++ dead) f ∧ (m.events f).last = some (last_of f (fs ++ dead))
  nodup_ring : (fresh ++ dead).Nodup
  nodup_bucket : ∀ k d, (b k d).Nodup
  disj_ring : ∀ k d e, e ∈ b k d → e ∉ fresh ++ dead
  disj_bucket : ∀ k d k1 d1 e, e ∈ b k d → e ∈ b k1 d1 → k = k1 ∧ d = d1
  head : ∀ k d, b k d ≠ [] → (m.lists k).events d = (b k d).head?
  count : ∀ k d, (m.lists k).n_daily_current d = ((b k d).length : Int)
  links : ∀ k d, bucket_ok m.events dead (b k d)

/-- An add to bucket (symptomatic, 0), used in the concrete runs below. -/
def add_sym : pool_op := pool_op.add event_kind.symptomatic 7 0

/-- A remove from bucket (symptomatic, 0). -/
def remove_sym (e : Nat) : pool_op := pool_op.remove event_kind.symptomatic e 0

/-- Eight operations on a pool of six events; at most five events are in use at
any time. -/
def ops_lost_event : List pool_op :=
  [add_sym, add_sym, add_sym, add_sym, add_sym, remove_sym 1, add_sym, remove_sym 0]

/-- Ten operations on a pool of six events; at most five events are in use at
any time and four are in use at the end. -/
def ops_reused_event : List pool_op :=
  [add_sym, add_sym, add_sym, add_sym, add_sym, remove_sym 1, add_sym, remove_sym 0,
    add_sym, remove_sym 5]

/-! ## Daily network builder -/

/-- The write of record `p` of the interaction pool. -/
def set_interaction (mem : Nat → interaction) (p : Nat) (r : interaction) :
    Nat → interaction :=
  fun q => if q = p then r else mem q

/-- The first loop of `build_daily_newtork`: `n_interactions[day] = 0` for the
individuals `0 .. n - 1`. -/
def clear_n_interactions (day : Nat) : Nat → (Nat → individual) → (Nat → individual)
  | 0, pop => pop
  | n + 1, pop =>
    let pop1 := clear_n_interactions day n pop
    Function.update pop1 n
      { pop1 n with n_interactions := Function.update (pop1 n).n_interactions day 0 }

/-- The second loop of `build_daily_newtork`: the stub array holds each person
`mean_interactions` times, persons in increasing order. -/
def fill_stubs (pop : Nat → individual) : Nat → List Nat
  | 0 => []
  | n + 1 => fill_stubs pop n ++ List.replicate (pop n).mean_interactions n

/-- The two writes to an individual when a record is put in front of its day
list: `interactions[day] = r` and `n_interactions[day]++`. -/
def add_contact (pop : Nat → individual) (day r i : Nat) : Nat → individual :=
  Function.update pop i
    { pop i with
      interactions := Function.update (pop i).interactions day (some r)
      n_interactions := Function.update (pop i).n_interactions day
        ((pop i).n_interactions day + 1) }

/-- The body of the pairing loop for an accepted pair `(i1, i2)`: two records are
taken at `interaction_idx`, each is put in front of the day list of one of the
two individuals, and `interaction_idx` is reset to 0 when it has passed
`n_interactions`.  A record outside the pool is `none`. -/
def connect_pair (m : model) (day i1 i2 : Nat) : Option model :=
  let inter1 := m.interaction_idx
  let inter2 := m.interaction_idx + 1
  if inter2 < m.n_interactions then
    let mem1 := set_interaction m.interactions inter1
      { individual := some i2, next := (m.population i1).interactions day,
        traceable := (m.interactions inter1).traceable }
    let pop1 := add_contact m.population day inter1 i1
    let mem2 := set_interaction mem1 inter2
      { individual := some i1, next := (pop1 i2).interactions day,
        traceable := (m.interactions inter2).traceable }
    let pop2 := add_contact pop1 day inter2 i2
    some { m with
      interactions := mem2
      population := pop2
      n_total_intereactions := m.n_total_intereactions + 1
      interaction_idx :=
        if m.interaction_idx + 2 > m.n_interactions then 0 else m.interaction_idx + 2 }
  else none

/-- The pairing loop of `build_daily_newtork` with `idx` on the stub `a` and
`l` the stubs after it: equal neighbours advance `idx` by one, an accepted pair
by two, and the loop stops when fewer than two stubs are left. -/
def pair_from (day : Nat) (a : Nat) : List Nat → model → Option model
  | [], m => some m
  | b :: rest, m =>
    if a = b then pair_from day b rest m
    else
      match connect_pair m day a b with
      | none => none
      | some m1 =>
        match rest with
        | [] => some m1
        | c :: rest1 => pair_from day c rest1 m1

/-- The pairing loop from the start of the stub array. -/
def pair_stubs (day : Nat) : List Nat → model → Option model
  | [], m => some m
  | a :: l, m => pair_from day a l m

/-- Embedding of `build_daily_newtork`. -/
def build_daily_newtork (m : model) : Option model :=
  let day := m.interaction_day_idx
  let pop := clear_n_interactions day m.params.n_total m.population
  let stubs := fill_stubs pop m.params.n_total
  let shuffled := m.rng.shuffle m.rng_calls stubs
  pair_stubs day shuffled
    { m with
      population := pop
      possible_interactions := shuffled
      rng_calls := m.rng_calls + 1 }

/-- The pairs the pairing loop accepts, most recent first, with `idx` on the stub
`a` and `l` the stubs after it; `acc` are the pairs accepted before. -/
def accepted_from (a : Nat) : List Nat → List (Nat × Nat) → List (Nat × Nat)
  | [], acc => acc
  | b :: rest, acc =>
    if a = b then accepted_from b rest acc
    else
      match rest with
      | [] => (a, b) :: acc
      | c :: rest1 => accepted_from c rest1 ((a, b) :: acc)

/-- The pairs the pairing loop accepts on a stub array, most recent first. -/
def accepted_pairs : List Nat → List (Nat × Nat)
  | [] => []
  | a :: l => accepted_from a l []

/-- The partners of individual `i` in a list of pairs, in list order. -/
def partners (i : Nat) : List (Nat × Nat) → List Nat
  | [] => []
  | (a, b) :: ps =>
    if a = i then b :: partners i ps
    else if b = i then a :: partners i ps
    else partners i ps

/-- The records met by walking `n` steps along `next` from `head` in the
interaction pool. -/
def interaction_walk (mem : Nat → interaction) : Nat → Option Nat → Option (List Nat)
  | 0, _ => some []
  | _ + 1, none => none
  | n + 1, some r =>
      match interaction_walk mem n (mem r).next with
      | none => none
      | some rest => some (r :: rest)

/-- The individuals that the first `n_interactions[day]` records of the day list
of `i` point to. -/
def contacts (m : model) (i day : Nat) : Option (List (Option Nat)) :=
  (interaction_walk m.interactions ((m.population i).n_interactions day)
    ((m.population i).interactions day)).map
    (fun rs => rs.map (fun r => (m.interactions r).individual))

/-- Embedding of `set_up_interactions`; the stub array is kept as a list. -/
def set_up_interactions (m : model) : model :=
  let n_daily_interactions := m.params.n_total * m.params.mean_daily_interactions
  let n_interactions := n_daily_interactions * m.params.days_of_interactions
  { m with
    interactions := fun _ => { individual := none, next := none, traceable := some false }
    n_interactions := n_interactions
    interaction_idx := 0
    interaction_day_idx := 0
    possible_interactions := fill_stubs m.population m.params.n_total
    n_total_intereactions := 0 }

/-- A population of two individuals with one daily interaction each and a window
of one day, after `set_up_interactions`: the interaction pool has two records. -/
def two_person_model : model :=
  set_up_interactions
    { calloc_model
        { params_of_size 2 with mean_daily_interactions := 1, days_of_interactions := 1 }
        rng_zero with
      population := fun _ => { calloc_individual with mean_interactions := 1 } }

/-- Sum of `f 0 .. f (n - 1)`. -/
def sum_upto (f : Nat → Nat) : Nat → Nat
  | 0 => 0
  | n + 1 => sum_upto f n + f n

/-- Sum of `n_interactions[day]` over the individuals `0 .. n - 1`. -/
def total_n_interactions (m : model) (day n : Nat) : Nat :=
  sum_upto (fun i => (m.population i).n_interactions day) n

/-- The loop invariant of the pairing loop, relative to the state `m0` at the
start of the loop: `P` are the pairs accepted so far, most recent first; the day
list of every individual holds one record per accepted pair it is part of, most
recent first, pointing to the partner, and all these records were taken in this
build. -/
structure network_inv (n day : Nat) (m0 : model) (P : List (Nat × Nat)) (m : model) :
    Prop where
  idx : m.interaction_idx = m0.interaction_idx + 2 * P.length
  size : m.n_interactions = m0.n_interactions
  total : m.n_total_intereactions = m0.n_total_intereactions + P.length
  walk : ∀ i, i < n → ∃ rs,
    interaction_walk m.interactions ((m.population i).n_interactions day)
      ((m.population i).interactions day) = some rs ∧
    (∀ r ∈ rs, r < m0.interaction_idx + 2 * P.length) ∧
    rs.map (fun r => (m.interactions r).individual) = (partners i P).map some
  count : ∀ i, i < n → (m.population i).n_interactions day = (partners i P).length
  mean : ∀ i, (m.population i).mean_interactions = (m0.population i).mean_interactions
  pairs : ∀ p ∈ P, p.1 ≠ p.2 ∧ p.1 < n ∧ p.2 < n

/-! ## Transmission kernel -/

/-- Embedding of `new_infection`: the Bernoulli draw picks the asymptomatic or
the presymptomatic branch; the individual is put in today's bucket of that list
and in the bucket of its next event, `draw` days ahead. -/
def new_infection (m : model) (infected infector : Nat) : Option model :=
  if m.rng.bernoulli m.rng_calls then
    let p1 : individual :=
      { m.population infected with
        infector := some infector
        status := disease_status.ASYMPTOMATIC
        time_infected := m.time
        time_asymptomatic := m.time }
    match add_individual_to_event_list event_kind.asymptomatic infected m.time
        { m with
          population := Function.update m.population infected p1
          rng_calls := m.rng_calls + 1 } with
    | none => none
    | some (e, m1) =>
      let time_recovery := m.time + m.rng.draw (m.rng_calls + 1)
      let p2 : individual :=
        { m1.population infected with
          current_event := some e
          time_recovered := time_recovery
          next_event_type := disease_status.RECOVERED }
      match add_individual_to_event_list event_kind.recovered infected time_recovery
          { m1 with
            population := Function.update m1.population infected p2
            rng_calls := m.rng_calls + 2 } with
      | none => none
      | some (_, m2) => some m2
  else
    let p1 : individual :=
      { m.population infected with
        infector := some infector
        status := disease_status.PRESYMPTOMATIC
        time_infected := m.time }
    match add_individual_to_event_list event_kind.presymptomatic infected m.time
        { m with
          population := Function.update m.population infected p1
          rng_calls := m.rng_calls + 1 } with
    | none => none
    | some (e, m1) =>
      let time_symptoms := m.time + m.rng.draw (m.rng_calls + 1)
      let p2 : individual :=
        { m1.population infected with
          current_event := some e
          time_symptomatic := time_symptoms
          next_event_type := disease_status.SYMPTOMATIC }
      match add_individual_to_event_list event_kind.symptomatic infected time_symptoms
          { m1 with
            population := Function.update m1.population infected p2
            rng_calls := m.rng_calls + 2 } with
      | none => none
      | some (_, m2) => some m2

/-- The write `contact->hazard -= hazard_rate`. -/
def reduce_hazard (m : model) (contact : Nat) (hazard_rate : Int) : model :=
  { m with
    population := Function.update m.population contact
      { m.population contact with hazard := (m.population contact).hazard - hazard_rate } }

/-- The body of the innermost loop of `transmit_virus_by_type` for one
interaction record pointing to `contact`. -/
def transmit_contact (m : model) (hazard_rate : Int) (infector contact : Nat) : Option model :=
  if (m.population contact).status = disease_status.UNINFECTED then
    let m1 := reduce_hazard m contact hazard_rate
    if (m1.population contact).hazard < 0 then new_infection m1 contact infector
    else some m1
  else some m

/-- The loop over the interaction records of one infector: `n` records are still
to be visited and `interaction` is the current record. -/
def transmit_contacts (hazard_rate : Int) (infector : Nat) :
    Nat → Option Nat → model → Option model
  | 0, _, m => some m
  | _ + 1, none, _ => none
  | n + 1, some r, m =>
    match (m.interactions r).individual with
    | none => none
    | some contact =>
      match transmit_contact m hazard_rate infector contact with
      | none => none
      | some m1 => transmit_contacts hazard_rate infector n (m1.interactions r).next m1

/-- The loop over the events of one bucket: `n` events are still to be visited
and `next_event` is the next one.  `event->next` is read before the infector's
contacts are visited. -/
def transmit_events (hazard_rate : Int) : Nat → Option Nat → model → Option model
  | 0, _, m => some m
  | _ + 1, none, _ => none
  | n + 1, some e, m =>
    match (m.events e).individual with
    | none => none
    | some infector =>
      match transmit_contacts hazard_rate infector
          ((m.population infector).n_interactions m.interaction_day_idx)
          ((m.population infector).interactions m.interaction_day_idx) m with
      | none => none
      | some m1 => transmit_events hazard_rate n (m.events e).next m1

/-- The body of the loop over the days in `transmit_virus_by_type`. -/
def transmit_day (k : event_kind) (day : Nat) (m : model) : Option model :=
  transmit_events ((m.lists k).infectious_curve (m.time - 1 - day))
    ((m.lists k).n_daily_current day).toNat ((m.lists k).events day) m

/-- The loop `for( day = time - 1; day >= max( 0, time - MAX_INFECTIOUS_PERIOD ); day-- )`;
the first argument is `day + 1`. -/
def transmit_days (k : event_kind) : Nat → model → Option model
  | 0, m => some m
  | day + 1, m =>
    if m.time - m.params.MAX_INFECTIOUS_PERIOD ≤ day then
      match transmit_day k day m with
      | none => none
      | some m1 => transmit_days k day m1
    else some m

/-- Embedding of `transmit_virus_by_type`. -/
def transmit_virus_by_type (m : model) (k : event_kind) : Option model :=
  transmit_days k m.time m

/-- Embedding of `transmit_virus`. -/
def transmit_virus (m : model) : Option model :=
  match transmit_virus_by_type m event_kind.presymptomatic with
  | none => none
  | some m1 =>
    match transmit_virus_by_type m1 event_kind.symptomatic with
    | none => none
    | some m2 =>
      match transmit_virus_by_type m2 event_kind.asymptomatic with
      | none => none
      | some m3 => transmit_virus_by_type m3 event_kind.hospitalised

/-- The days whose buckets the claim names: `max(0, t - MAX) ≤ d ≤ t - 1`, latest
first. -/
def infectious_days (t MAX : Nat) : List Nat :=
  ((List.range t).filter (fun d => decide (t - MAX ≤ d))).reverse

/-- The day body run over a list of days, in list order. -/
def transmit_over (k : event_kind) : List Nat → model → Option model
  | [], m => some m
  | d :: ds, m =>
    match transmit_day k d m with
    | none => none
    | some m1 => transmit_over k ds m1

/-- The contact body run over a list of contacts, in list order. -/
def transmit_to (hazard_rate : Int) (infector : Nat) : List Nat → model → Option model
  | [], m => some m
  | c :: cs, m =>
    match transmit_contact m hazard_rate infector c with
    | none => none
    | some m1 => transmit_to hazard_rate infector cs m1

/-- What the transmission kernel leaves alone: the clock, the parameters, the
interaction pool, the day slot, the oracle and, for every individual, its day
lists and its `mean_interactions`. -/
def transmit_frame (m m1 : model) : Prop :=
  m1.time = m.time ∧ m1.params = m.params ∧ m1.interactions = m.interactions ∧
  m1.interaction_day_idx = m.interaction_day_idx ∧ m1.rng = m.rng ∧
  ∀ i, (m1.population i).n_interactions = (m.population i).n_interactions ∧
    (m1.population i).interactions = (m.population i).interactions

/-- A model at time 1 for a concrete run of the kernel: a pool of twelve events
with person 0 in the presymptomatic bucket of day 0; the two persons met today
(records 0 and 1); person 1 is uninfected with hazard 5, and the rate of every
list is 7 on every day. -/
def transmit_example : model :=
  let m1 := pool_after 2 [pool_op.add event_kind.presymptomatic 0 0]
  { m1 with
    time := 1
    params := { m1.params with MAX_INFECTIOUS_PERIOD := 14 }
    lists := fun k => { m1.lists k with infectious_curve := fun _ => 7 }
    population := fun i =>
      if i = 0 then
        { calloc_individual with
          status := disease_status.PRESYMPTOMATIC, current_event := some 0,
          n_interactions := fun _ => 1, interactions := fun _ => some 0 }
      else if i = 1 then
        { calloc_individual with
          hazard := 5, n_interactions := fun _ => 1, interactions := fun _ => some 1 }
      else calloc_individual
    interactions := fun r =>
      if r = 0 then { individual := some 1, next := none, traceable := some false }
      else if r = 1 then { individual := some 0, next := none, traceable := some false }
      else { individual := none, next := none, traceable := some false }
    n_interactions := 2
    interaction_idx := 2 }

/-! ## Who acts as an infector -/

/-- Number of individuals below `n` whose status is `UNINFECTED`. -/
def uninfected_count (m : model) (n : Nat) : Nat :=
  sum_upto (fun i => if (m.population i).status = disease_status.UNINFECTED then 1 else 0) n

/-- The four lists whose buckets `transmit_virus` walks. -/
def infectious_kinds : List event_kind :=
  [event_kind.presymptomatic, event_kind.symptomatic, event_kind.asymptomatic,
    event_kind.hospitalised]

/-- The infectors that the loop over the events of one bucket visits, in the
order of the visits. -/
def infectors_of_events (hazard_rate : Int) : Nat → Option Nat → model → List Nat
  | 0, _, _ => []
  | _ + 1, none, _ => []
  | n + 1, some e, m =>
    match (m.events e).individual with
    | none => []
    | some infector =>
      infector ::
        (match transmit_contacts hazard_rate infector
            ((m.population infector).n_interactions m.interaction_day_idx)
            ((m.population infector).interactions m.interaction_day_idx) m with
          | none => []
          | some m1 => infectors_of_events hazard_rate n (m.events e).next m1)

/-- The infectors visited by the day body. -/
def infectors_of_day (k : event_kind) (day : Nat) (m : model) : List Nat :=
  infectors_of_events ((m.lists k).infectious_curve (m.time - 1 - day))
    ((m.lists k).n_daily_current day).toNat ((m.lists k).events day) m

/-- The infectors visited by the loop over the days; the first argument is
`day + 1`. -/
def infectors_of_days (k : event_kind) : Nat → model → List Nat
  | 0, _ => []
  | day + 1, m =>
    if m.time - m.params.MAX_INFECTIOUS_PERIOD ≤ day then
      infectors_of_day k day m ++
        (match transmit_day k day m with
          | none => []
          | some m1 => infectors_of_days k day m1)
    else []

/-- The infectors visited by `transmit_virus_by_type`. -/
def infectors_by_type (m : model) (k : event_kind) : List Nat :=
  infectors_of_days k m.time m

/-- The infectors visited by `transmit_virus`, over its four calls of
`transmit_virus_by_type`. -/
def infectors_of_transmit_virus (m : model) : List Nat :=
  infectors_by_type m event_kind.presymptomatic ++
    (match transmit_virus_by_type m event_kind.presymptomatic with
      | none => []
      | some m1 =>
        infectors_by_type m1 event_kind.symptomatic ++
          (match transmit_virus_by_type m1 event_kind.symptomatic with
            | none => []
            | some m2 =>
              infectors_by_type m2 event_kind.asymptomatic ++
                (match transmit_virus_by_type m2 event_kind.asymptomatic with
                  | none => []
                  | some m3 => infectors_by_type m3 event_kind.hospitalised)))

/-- What holds during a call of `transmit_virus` started in `m0` with buckets
`b0`: the pool invariant with two events never handed out for every individual
that is still uninfected, the buckets of the days before today and the owners
of their events as at the start, and the frame of the kernel. -/
structure transmit_inv (m0 : model) (b0 : buckets) (N : Nat) (m : model) : Prop where
  pool : ∃ b fresh dead, pool_inv m b fresh dead ∧
    2 * uninfected_count m N < fresh.length ∧ ∀ k d, d < m0.time → b k d = b0 k d
  owners : ∀ k d e, d < m0.time → e ∈ b0 k d →
    (m.events e).individual = (m0.events e).individual
  frame : transmit_frame m0 m

/-! ## Calls of `new_infection` -/

/-- The call `new_infection( model, contact, infector )` that the innermost loop
body of `transmit_virus_by_type` makes for one record, as a list of pairs
(infected, infector): one pair when the call is made, none otherwise. -/
def infection_of_contact (m : model) (hazard_rate : Int) (infector contact : Nat) :
    List (Nat × Nat) :=
  if (m.population contact).status = disease_status.UNINFECTED then
    if ((reduce_hazard m contact hazard_rate).population contact).hazard < 0 then
      [(contact, infector)]
    else []
  else []

/-- The calls of `new_infection` made by the loop over the records of one
infector, in the order of the calls. -/
def infections_of_contacts (hazard_rate : Int) (infector : Nat) :
    Nat → Option Nat → model → List (Nat × Nat)
  | 0, _, _ => []
  | _ + 1, none, _ => []
  | n + 1, some r, m =>
    match (m.interactions r).individual with
    | none => []
    | some contact =>
      infection_of_contact m hazard_rate infector contact ++
        (match transmit_contact m hazard_rate infector contact with
          | none => []
          | some m1 =>
            infections_of_contacts hazard_rate infector n (m1.interactions r).next m1)

/-- The calls of `new_infection` made by the loop over the events of one bucket. -/
def infections_of_events (hazard_rate : Int) : Nat → Option Nat → model → List (Nat × Nat)
  | 0, _, _ => []
  | _ + 1, none, _ => []
  | n + 1, some e, m =>
    match (m.events e).individual with
    | none => []
    | some infector =>
      infections_of_contacts hazard_rate infector
          ((m.population infector).n_interactions m.interaction_day_idx)
          ((m.population infector).interactions m.interaction_day_idx) m ++
        (match transmit_contacts hazard_rate infector
            ((m.population infector).n_interactions m.interaction_day_idx)
            ((m.population infector).interactions m.interaction_day_idx) m with
          | none => []
          | some m1 => infections_of_events hazard_rate n (m.events e).next m1)

/-- The calls of `new_infection` made by the day body. -/
def infections_of_day (k : event_kind) (day : Nat) (m : model) : List (Nat × Nat) :=
  infections_of_events ((m.lists k).infectious_curve (m.time - 1 - day))
    ((m.lists k).n_daily_current day).toNat ((m.lists k).events day) m

/-- The calls of `new_infection` made by the loop over the days; the first
argument is `day + 1`. -/
def infections_of_days (k : event_kind) : Nat → model → List (Nat × Nat)
  | 0, _ => []
  | day + 1, m =>
    if m.time - m.params.MAX_INFECTIOUS_PERIOD ≤ day then
      infections_of_day k day m ++
        (match transmit_day k day m with
          | none => []
          | some m1 => infections_of_days k day m1)
    else []

/-- The calls of `new_infection` made by `transmit_virus_by_type`. -/
def infections_by_type (m : model) (k : event_kind) : List (Nat × Nat) :=
  infections_of_days k m.time m

/-- The calls of `new_infection` made by `transmit_virus`, over its four calls
of `transmit_virus_by_type`. -/
def infections_of_transmit_virus (m : model) : List (Nat × Nat) :=
  infections_by_type m event_kind.presymptomatic ++
    (match transmit_virus_by_type m event_kind.presymptomatic with
      | none => []
      | some m1 =>
        infections_by_type m1 event_kind.symptomatic ++
          (match transmit_virus_by_type m1 event_kind.symptomatic with
            | none => []
            | some m2 =>
              infections_by_type m2 event_kind.asymptomatic ++
                (match transmit_virus_by_type m2 event_kind.asymptomatic with
                  | none => []
                  | some m3 => infections_by_type m3 event_kind.hospitalised)))

/-- The loop of `set_up_seed_infection`: `n` seeds are still to be drawn. -/
def seed_infections : Nat → model → Option model
  | 0, m => some m
  | n + 1, m =>
    let person := m.rng.uniform_int m.rng_calls m.params.n_total
    match new_infection { m with rng_calls := m.rng_calls + 1 } person person with
    | none => none
    | some m1 => seed_infections n m1

/-- Embedding of `set_up_seed_infection`. -/
def set_up_seed_infection (m : model) : Option model :=
  match seed_infections m.params.n_seed_infection m with
  | none => none
  | some m1 =>
    some (update_event_list_counters event_kind.asymptomatic
      (update_event_list_counters event_kind.presymptomatic m1))

/-- The calls of `new_infection` made by the loop of `set_up_seed_infection`, as
pairs (infected, infector). -/
def infections_of_seed : Nat → model → List (Nat × Nat)
  | 0, _ => []
  | n + 1, m =>
    let person := m.rng.uniform_int m.rng_calls m.params.n_total
    (person, person) ::
      (match new_infection { m with rng_calls := m.rng_calls + 1 } person person with
        | none => []
        | some m1 => infections_of_seed n m1)

/-- Every event that has an owner is owned by an individual of the population. -/
def owners_in_population (m : model) : Prop :=
  ∀ e i, (m.events e).individual = some i → i < m.params.n_total

/-- The day lists of the individuals of the population hold no record of the
individual itself and only records of individuals of the population. -/
def no_self_contact (N : Nat) (m : model) : Prop :=
  ∀ i, i < N → ∃ (rs cs : List Nat),
    interaction_walk m.interactions ((m.population i).n_interactions m.interaction_day_idx)
      ((m.population i).interactions m.interaction_day_idx) = some rs ∧
    rs.map (fun r => (m.interactions r).individual) = cs.map some ∧
    ∀ c ∈ cs, c ≠ i ∧ c < N

/-- What the network builder leaves alone: the parameters, the clock, the event
pool and the event lists, the day slot and the oracle. -/
def network_frame (m m1 : model) : Prop :=
  m1.params = m.params ∧ m1.time = m.time ∧ m1.events = m.events ∧
  m1.next_event = m.next_event ∧ m1.lists = m.lists ∧
  m1.interaction_day_idx = m.interaction_day_idx ∧ m1.rng = m.rng

/-- A model at time 1 before the build of today's network: a pool of twelve
events with person 0 in the presymptomatic bucket of day 0, each of the two
persons with one stub, an interaction pool of two records, person 1 uninfected
with hazard 5, and rate 7 on every list and day. -/
def contact_example : model :=
  let m1 := pool_after 2 [pool_op.add event_kind.presymptomatic 0 0]
  { m1 with
    time := 1
    params := { m1.params with MAX_INFECTIOUS_PERIOD := 14 }
    lists := fun k => { m1.lists k with infectious_curve := fun _ => 7 }
    population := fun i =>
      if i = 0 then
        { calloc_individual with
          status := disease_status.PRESYMPTOMATIC
          current_event := some 0
          mean_interactions := 1 }
      else if i = 1 then { calloc_individual with hazard := 5, mean_interactions := 1 }
      else calloc_individual
    n_interactions := 2 }


/-- A model at time 3 with a fresh pool of twelve events, whose oracle answers
every Bernoulli draw with success and every waiting time with 5. -/
def infection_example : model :=
  { pool_after 2 [] with
    time := 3
    rng := { rng_zero with bernoulli := fun _ => true, draw := fun _ => 5 } }


/-! ## Intervention engine: quarantine and the test pipeline (interventions.c)

interventions.c is written against a later revision of the event lists than
model.c: it calls `add_individual_to_event_list( model, type, indiv, time )`
and `remove_event_from_event_list( model, event )`, and reads `event->time`.
These two functions and the helpers of individual.c are not in the sources. -/

/-- The writes `e->time = t` and `e->type = k` in the event pool. -/
def set_time_type (ev : Nat → event) (p : Nat) (t : Nat) (k : event_kind) : Nat → event :=
  fun q => if q = p then
    (match ev q with
      | { individual := i, next := n, last := l, time := _, type := _ } =>
        { individual := i, next := n, last := l, time := t, type := k })
    else ev q

/-- Modelled from the spec: the four-argument
`add_individual_to_event_list( model, type, indiv, time )` that interventions.c
calls is not in the sources (model.c has the earlier function that takes the
list).  It is `add_to_list(list, individual, day)` of the spec on the list of
kind `type`, here the function of model.c, and it records `type` and `time` in
the event, which `intervention_quarantine_until` reads back. -/
def add_individual_to_event_list_typed (type : event_kind) (indiv time : Nat) (m : model) :
    Option (Nat × model) :=
  match add_individual_to_event_list type indiv time m with
  | none => none
  | some (e, m1) => some (e, { m1 with events := set_time_type m1.events e time type })

/-- Modelled from the spec: the two-argument
`remove_event_from_event_list( model, event )` that interventions.c calls is not
in the sources.  It is `remove_from_list(list, event, day)` of the spec, here
the function of model.c, on the list and day recorded in the event. -/
def remove_event_from_event_list_typed (e : Nat) (m : model) : Option model :=
  remove_event_from_event_list (m.events e).type e m (m.events e).time

/-- Modelled from the spec: `set_quarantine_status` is defined in individual.c,
which is not in the sources.  It sets or clears the flag `quarantined`; when it
sets the flag it records the day in `time_quarantined`, the day of the bucket
that holds the quarantine event. -/
def set_quarantine_status (indiv : individual) (_params : parameters) (time : Nat)
    (status : Bool) : individual :=
  if status then { indiv with quarantined := true, time_quarantined := time }
  else { indiv with quarantined := false }

/-- Modelled from the spec: `set_case` is defined in individual.c, which is not
in the sources.  It sets `is_case`. -/
def set_case (indiv : individual) (_time : Nat) : individual :=
  { indiv with is_case := true }

/-- Modelled from the spec: `is_in_hospital` is declared in individual.h, which is
not in the sources.  An individual is in hospital when its status is
`HOSPITALISED`. -/
def is_in_hospital (indiv : individual) : Bool :=
  decide (indiv.status = disease_status.HOSPITALISED)

/-- Modelled from the spec: `time_infected` is declared in individual.h, which is
not in the sources.  It is the time stamp of the infection. -/
def time_infected (indiv : individual) : Nat :=
  indiv.time_infected

/-- The first block of `intervention_quarantine_until`: an individual without a
quarantine event gets one in today's bucket and its status is set. -/
def quarantine_start (m : model) (indiv : Nat) : Option model :=
  match (m.population indiv).quarantine_event with
  | none =>
    match add_individual_to_event_list_typed event_kind.quarantined indiv m.time m with
    | none => none
    | some (e, m1) =>
      some { m1 with
        population := Function.update m1.population indiv
          (set_quarantine_status { m1.population indiv with quarantine_event := some e }
            m1.params m1.time true) }
  | some _ => some m

/-- The last statement of `intervention_quarantine_until`: a release event at
`time`, kept in `quarantine_release_event`. -/
def schedule_release (m : model) (indiv time : Nat) : Option model :=
  match add_individual_to_event_list_typed event_kind.quarantine_release indiv time m with
  | none => none
  | some (e, m1) =>
    some { m1 with
      population := Function.update m1.population indiv
        { m1.population indiv with quarantine_release_event := some e } }

/-- The second block of `intervention_quarantine_until` and its last statement:
a scheduled release that is later than `time` is kept when `maxof` is set;
otherwise it is removed and a release at `time` is scheduled. -/
def reschedule_release (m : model) (indiv time : Nat) (maxof : Bool) : Option model :=
  match (m.population indiv).quarantine_release_event with
  | none => schedule_release m indiv time
  | some r =>
    if maxof = true ∧ (m.events r).time > time then some m
    else
      match remove_event_from_event_list_typed r m with
      | none => none
      | some m1 => schedule_release m1 indiv time

/-- Embedding of `intervention_quarantine_until`. -/
def intervention_quarantine_until (m : model) (indiv time : Nat) (maxof : Bool) :
    Option model :=
  if time = m.time then some m
  else
    match quarantine_start m indiv with
    | none => none
    | some m1 => reschedule_release m1 indiv time maxof

/-- Embedding of `intervention_quarantine_release`. -/
def intervention_quarantine_release (m : model) (indiv : Nat) : Option model :=
  match (match (m.population indiv).quarantine_release_event with
      | none => some m
      | some r => remove_event_from_event_list_typed r m) with
  | none => none
  | some m1 =>
    match (m1.population indiv).quarantine_event with
    | none => some m1
    | some q =>
      match remove_event_from_event_list_typed q m1 with
      | none => none
      | some m2 =>
        some { m2 with
          population := Function.update m2.population indiv
            (set_quarantine_status (m2.population indiv) m2.params m2.time false) }

/-- Embedding of `intervention_test_order`. -/
def intervention_test_order (m : model) (indiv time : Nat) : Option model :=
  if (m.population indiv).quarantine_test_result = test_status.NO_TEST ∧
      (m.population indiv).is_case = false then
    match add_individual_to_event_list_typed event_kind.test_take indiv time m with
    | none => none
    | some (_, m1) =>
      some { m1 with
        population := Function.update m1.population indiv
          { m1.population indiv with quarantine_test_result := test_status.TEST_ORDERED } }
  else some m

/-- The result that `intervention_test_take` records: negative for an
uninfected or recovered individual, otherwise positive when the infection is at
least `test_insensititve_period` days old.  The subtraction is the one of C
`int`s. -/
def test_outcome (m : model) (indiv : individual) : Bool :=
  if indiv.status = disease_status.UNINFECTED ∨ indiv.status = disease_status.RECOVERED then
    false
  else
    decide ((m.time : Int) - (time_infected indiv : Int) ≥
      (m.params.test_insensititve_period : Int))

/-- Embedding of `intervention_test_take`. -/
def intervention_test_take (m : model) (indiv : Nat) : Option model :=
  let p := m.population indiv
  let m1 : model :=
    { m with
      population := Function.update m.population indiv
        { p with quarantine_test_result := test_status.result (test_outcome m p) } }
  match add_individual_to_event_list_typed event_kind.test_result indiv
      (m1.time + m1.params.test_result_wait) m1 with
  | none => none
  | some (_, m2) => some m2

/-- What the functions of the event lists leave alone: everything but the event
pool, its cursor and the lists. -/
def pool_frame (m m1 : model) : Prop :=
  m1.population = m.population ∧ m1.params = m.params ∧ m1.time = m.time ∧
  m1.rng = m.rng ∧ m1.rng_calls = m.rng_calls ∧ m1.interactions = m.interactions ∧
  m1.interaction_day_idx = m.interaction_day_idx ∧ m1.n_interactions = m.n_interactions ∧
  m1.interaction_idx = m.interaction_idx

/-- The events other than `e` keep their owner, day and kind. -/
def events_kept (m m1 : model) (e : Option Nat) : Prop :=
  ∀ q, some q ≠ e → (m1.events q).individual = (m.events q).individual ∧
    (m1.events q).time = (m.events q).time ∧ (m1.events q).type = (m.events q).type


/-- The release handle of individual `i`, when it has one, names an event of the
release list that sits in the bucket of the day it carries and is owned by `i`. -/
def release_handle_ok (m : model) (b : buckets) (i : Nat) : Prop :=
  ∀ r, (m.population i).quarantine_release_event = some r →
    (m.events r).type = event_kind.quarantine_release ∧
    r ∈ b event_kind.quarantine_release (m.events r).time ∧
    (m.events r).individual = some i

/-- The buckets after the scheduled release of `i`, if any, has been removed. -/
def release_erased (m : model) (b : buckets) (i : Nat) : buckets :=
  match (m.population i).quarantine_release_event with
  | none => b
  | some r =>
    b.set event_kind.quarantine_release (m.events r).time
      ((b event_kind.quarantine_release (m.events r).time).erase r)

/-- The returned events after the scheduled release of `i`, if any, has been
removed. -/
def release_returned (m : model) (dead : List Nat) (i : Nat) : List Nat :=
  match (m.population i).quarantine_release_event with
  | none => dead
  | some r => dead ++ [r]

/-- The day of the release that `intervention_quarantine_until` leaves scheduled
for an individual whose scheduled release, if any, is at day `r`. -/
def release_day (r : Option Nat) (time : Nat) (maxof : Bool) : Nat :=
  match r with
  | none => time
  | some r => if maxof = true ∧ r > time then r else time

/-- A model at time 1 with a fresh pool of twelve events and nobody in
quarantine. -/
def quarantine_example : model :=
  { pool_after 2 [] with time := 1 }


/-- The individuals held by a bucket, in the order of the walk from its head. -/
def bucket_individuals (m : model) (k : event_kind) (d : Nat) : Option (List (Option Nat)) :=
  (bucket_walk m k d).map (fun l => l.map (fun e => (m.events e).individual))


/-- Orders of a test for individual `indiv`, one per day of the list, in list
order. -/
def order_tests (m : model) (indiv : Nat) : List Nat → Option model
  | [] => some m
  | t :: ts =>
    match intervention_test_order m indiv t with
    | none => none
    | some m1 => order_tests m1 indiv ts


/-- The model `quarantine_example` at time 5 with the given
`test_insensititve_period`. -/
def test_example (period : Nat) : model :=
  { quarantine_example with
    time := 5
    params := { quarantine_example.params with test_insensititve_period := period } }


/-! ## Intervention engine: the positive-result cascade (interventions.c) -/

/-- Embedding of `new_trace_token`. -/
def new_trace_token (m : model) : Option (Nat × model) :=
  match m.next_trace_token with
  | none => none
  | some token =>
    some (token,
      { m with
        next_trace_token := (m.trace_tokens token).next_index
        trace_tokens := Function.update m.trace_tokens token
          { last := none, next := none, next_index := none } })

/-- Embedding of `index_trace_token`. -/
def index_trace_token (m : model) (indiv : Nat) : Option (Nat × model) :=
  match (m.population indiv).index_trace_token with
  | none =>
    match new_trace_token m with
    | none => none
    | some (token, m1) =>
      some (token,
        { m1 with
          population := Function.update m1.population indiv
            { m1.population indiv with
              index_trace_token := some token
              traced_on_this_trace := true } })
  | some token =>
    some (token,
      { m with
        population := Function.update m.population indiv
          { m.population indiv with traced_on_this_trace := true } })

/-- Modelled from the spec: `sample_transition_time` is not in the sources; it
returns the next entry of a draw list, here the next answer of the oracle. -/
def sample_transition_time (m : model) : Nat × model :=
  (m.rng.draw m.rng_calls, { m with rng_calls := m.rng_calls + 1 })

/-- Modelled from the spec: the macro `ring_dec` of utilities.h is not in the
sources; it steps a day slot backwards in the ring of `n` slots. -/
def ring_dec (day : Int) (n : Nat) : Int :=
  if day = 0 then (n : Int) - 1 else day - 1

/-- Modelled from the spec: the macro `ring_inc` of utilities.h is not in the
sources; it steps a day slot forwards in the ring of `n` slots. -/
def ring_inc (day : Int) (n : Nat) : Int :=
  if day = (n : Int) - 1 then 0 else day + 1

/-- The write `inter->traceable = v` in the interaction pool. -/
def set_traceable (mem : Nat → interaction) (p : Nat) (v : Option Bool) : Nat → interaction :=
  fun q => if q = p then
    (match mem q with
      | { individual := i, next := n, traceable := _ } =>
        { individual := i, next := n, traceable := v })
    else mem q

/-- The body of the loop over the interaction records in
`intervention_notify_contacts` for the record `r` pointing to `contact`;
`on_traced` is the call of `intervention_on_traced` for a contact. -/
def notify_contact (on_traced : model → Nat → Option model) (m : model) (r contact : Nat) :
    Option model :=
  if (m.population contact).app_user = true then
    let m1 : model :=
      if (m.interactions r).traceable = none then
        { m with
          interactions := set_traceable m.interactions r (some (m.rng.bernoulli m.rng_calls))
          rng_calls := m.rng_calls + 1 }
      else m
    if (m1.interactions r).traceable = some true then on_traced m1 contact
    else some m1
  else some m

/-- The loop over the interaction records of one day in
`intervention_notify_contacts`: `n` records are still to be visited. -/
def notify_records (on_traced : model → Nat → Option model) :
    Nat → Option Nat → model → Option model
  | 0, _, m => some m
  | _ + 1, none, _ => none
  | n + 1, some r, m =>
    match (m.interactions r).individual with
    | none => none
    | some contact =>
      match notify_contact on_traced m r contact with
      | none => none
      | some m1 => notify_records on_traced n (m1.interactions r).next m1

/-- The second loop of `intervention_notify_contacts`, over the days: the first
argument is `ddx + 1` and `day` the slot of the day visited next; a slot outside
the arrays is `none`. -/
def notify_days (on_traced : model → Nat → Int → Option model) (indiv : Nat) :
    Nat → Int → model → Option model
  | 0, _, m => some m
  | ddx + 1, day, m =>
    if day < 0 then none
    else
      match notify_records (fun m1 c => on_traced m1 c ((m.time : Int) - (ddx : Int)))
          ((m.population indiv).n_interactions day.toNat)
          ((m.population indiv).interactions day.toNat) m with
      | none => none
      | some m1 => notify_days on_traced indiv ddx (ring_inc day m.params.days_of_interactions) m1

/-- The first loop of `intervention_notify_contacts`: `n` steps backwards in the
ring of day slots. -/
def ring_back (n_days : Nat) : Nat → Int → Int
  | 0, day => day
  | n + 1, day => ring_back n_days n (ring_dec day n_days)

/-- Embedding of `intervention_notify_contacts`; `on_traced m contact
contact_time` is the call `intervention_on_traced( model, contact, contact_time,
level, index_token )`. -/
def intervention_notify_contacts (on_traced : model → Nat → Int → Option model) (m : model)
    (indiv : Nat) : Option model :=
  if (m.population indiv).app_user = false ∨ m.params.app_turned_on = false then some m
  else
    notify_days on_traced indiv m.params.quarantine_days
      (ring_back m.params.days_of_interactions (m.params.quarantine_days - 1)
        (m.interaction_day_idx : Int)) m

/-- The loop of `intervention_quarantine_household` over the members of the
household: `n` members are still to be visited and `idx` is the next one;
`notify m contact` is the call `intervention_notify_contacts( model, contact,
NOT_RECURSIVE, index_token )`. -/
def quarantine_members (notify : model → Nat → Option model) (members : Nat → Nat)
    (indiv time_event : Nat) (contact_trace : Bool) : Nat → Nat → model → Option model
  | 0, _, m => some m
  | n + 1, idx, m =>
    if members idx ≠ (m.population indiv).idx then
      match intervention_quarantine_until m (members idx) time_event true with
      | none => none
      | some m1 =>
        match (if contact_trace = true ∧
              (m1.params.quarantine_on_traced = true ∨ m1.params.test_on_traced = true) then
            notify m1 (members idx)
          else some m1) with
        | none => none
        | some m2 => quarantine_members notify members indiv time_event contact_trace n (idx + 1) m2
    else quarantine_members notify members indiv time_event contact_trace n (idx + 1) m

/-- Embedding of `intervention_quarantine_household`; `time` is `none` for
`UNKNOWN`. -/
def intervention_quarantine_household (notify : model → Nat → Option model) (m : model)
    (indiv : Nat) (time : Option Nat) (contact_trace : Bool) : Option model :=
  let n := m.household_directory.n_jdx (m.population indiv).house_no
  let members := m.household_directory.val (m.population indiv).house_no
  match time with
  | some t => quarantine_members notify members indiv t contact_trace n 0 m
  | none =>
    quarantine_members notify members indiv (m.time + (sample_transition_time m).1)
      contact_trace n 0 (sample_transition_time m).2

/-- Embedding of `intervention_on_traced`.  The first argument bounds the depth
of the calls from `intervention_on_traced` through
`intervention_notify_contacts` back to itself; every such call has a
`recursion_level` below `tracing_network_depth` and raises it by one. -/
def intervention_on_traced :
    Nat → model → Nat → Int → Nat → Nat → Option model
  | 0, _, _, _, _, _ => none
  | fuel + 1, m, indiv, contact_time, recursion_level, index_token =>
    if is_in_hospital (m.population indiv) = true ∨ (m.population indiv).is_case = true then
      some m
    else
      match (if m.params.quarantine_on_traced = true then
          match intervention_quarantine_until (sample_transition_time m).2 indiv
              (m.time + (sample_transition_time m).1) true with
          | none => none
          | some m1 =>
            if m1.params.quarantine_household_on_traced = true then
              intervention_quarantine_household
                (fun m2 c => intervention_notify_contacts
                  (fun m3 c3 t3 => intervention_on_traced fuel m3 c3 t3
                    m.params.NOT_RECURSIVE index_token) m2 c)
                m1 indiv (some (m.time + (sample_transition_time m).1)) false
            else some m1
        else some m) with
      | none => none
      | some m1 =>
        match (if m1.params.test_on_traced = true then
            intervention_test_order m1 indiv
              (max ((m1.time : Int) + (m1.params.test_order_wait : Int))
                (contact_time + (m1.params.test_insensititve_period : Int))).toNat
          else some m1) with
        | none => none
        | some m2 =>
          if recursion_level < m2.params.tracing_network_depth then
            intervention_notify_contacts
              (fun m3 c3 t3 => intervention_on_traced fuel m3 c3 t3 (recursion_level + 1)
                index_token) m2 indiv
          else some m2

/-- Embedding of `intervention_on_positive_result`.  A chain of calls of
`intervention_on_traced` is never longer than `tracing_network_depth + 1`. -/
def intervention_on_positive_result (m : model) (indiv : Nat) : Option model :=
  match index_trace_token m indiv with
  | none => none
  | some (index_token, m0) =>
    let fuel := m0.params.tracing_network_depth + 1
    match (if is_in_hospital (m0.population indiv) = false then
        match intervention_quarantine_until (sample_transition_time m0).2 indiv
            (m0.time + (sample_transition_time m0).1) true with
        | none => none
        | some m1 => some (some (m0.time + (sample_transition_time m0).1), m1)
      else some (none, m0)) with
    | none => none
    | some (time_event, m1) =>
      match (if m1.params.quarantine_household_on_positive = true then
          intervention_quarantine_household
            (fun m2 c => intervention_notify_contacts
              (fun m3 c3 t3 => intervention_on_traced fuel m3 c3 t3
                m1.params.NOT_RECURSIVE index_token) m2 c)
            m1 indiv time_event m1.params.quarantine_household_contacts_on_positive
        else some m1) with
      | none => none
      | some m2 =>
        if m2.params.trace_on_positive = true ∧
            (m2.params.quarantine_on_traced = true ∨ m2.params.test_on_traced = true) then
          intervention_notify_contacts
            (fun m3 c3 t3 => intervention_on_traced fuel m3 c3 t3 1 index_token) m2 indiv
        else some m2

/-- The first block of the positive branch of `intervention_test_result`: an
individual that is not a case yet becomes one and gets a `CASE` event today. -/
def record_case (m : model) (indiv : Nat) : Option model :=
  if (m.population indiv).is_case = false then
    match add_individual_to_event_list_typed event_kind.CASE indiv m.time
        { m with
          population := Function.update m.population indiv
            (set_case (m.population indiv) m.time) } with
    | none => none
    | some (_, m1) => some m1
  else some m

/-- The last statement of `intervention_test_result`:
`indiv->quarantine_test_result = NO_TEST`. -/
def reset_test (m : model) (indiv : Nat) : model :=
  { m with
    population := Function.update m.population indiv
      { m.population indiv with quarantine_test_result := test_status.NO_TEST } }

/-- Embedding of `intervention_test_result`. -/
def intervention_test_result (m : model) (indiv : Nat) : Option model :=
  match (if (m.population indiv).quarantine_test_result = test_status.result false then
      if (m.population indiv).quarantined = true then intervention_quarantine_release m indiv
      else some m
    else
      match record_case m indiv with
      | none => none
      | some m1 =>
        if is_in_hospital (m1.population indiv) = false ∨
            m1.params.allow_clinical_diagnosis = false then
          intervention_on_positive_result m1 indiv
        else some m1) with
  | none => none
  | some m2 => some (reset_test m2 indiv)


/-- The quarantine handle of individual `i`, when it has one, names an event of
the quarantined list that sits in the bucket of the day it carries. -/
def quarantine_handle_ok (m : model) (b : buckets) (i : Nat) : Prop :=
  ∀ q, (m.population i).quarantine_event = some q →
    (m.events q).type = event_kind.quarantined ∧
    q ∈ b event_kind.quarantined (m.events q).time

/-- A model at time 1 with a fresh pool of twelve events and one trace token:
person 0 is symptomatic and holds a positive test result; every waiting time of
the oracle is 5 and every policy flag is off. -/
def result_example : model :=
  { pool_after 2 [] with
    time := 1
    rng := { rng_zero with draw := fun _ => 5 }
    next_trace_token := some 0
    population := fun i =>
      if i = 0 then
        { calloc_individual with
          status := disease_status.SYMPTOMATIC
          quarantine_test_result := test_status.result true }
      else calloc_individual }


/-! ## Disease transitions and the tick driver (model.c) -/

/-- The loop header shared by the passes of the tick driver over today's bucket
of a list: `n` events are still to be visited and `next_event` is the next one;
`event->next` is read before the body runs on `event`. -/
def for_each_event (body : Nat → model → Option model) :
    Nat → Option Nat → model → Option model
  | 0, _, m => some m
  | _ + 1, none, _ => none
  | n + 1, some e, m =>
    match body e m with
    | none => none
    | some m1 => for_each_event body n (m.events e).next m1

/-- A pass over today's bucket of list `k`: `n_daily_current[time]` events from
`events[time]` on. -/
def pass_today (k : event_kind) (body : Nat → model → Option model) (m : model) :
    Option model :=
  for_each_event body ((m.lists k).n_daily_current m.time).toNat ((m.lists k).events m.time) m

/-- Modelled from the spec: `set_hospitalised` is defined in individual.c, which
is not in the sources.  It moves the individual to `HOSPITALISED` at `time`. -/
def set_hospitalised (indiv : individual) (_params : parameters) (time : Nat) : individual :=
  { indiv with status := disease_status.HOSPITALISED, time_hospitalised := time }

/-- Modelled from the spec: `set_recovered` is defined in individual.c, which is
not in the sources.  It moves the individual to `RECOVERED` and clears its
current event. -/
def set_recovered (indiv : individual) (_params : parameters) (time : Nat) : individual :=
  { indiv with
    status := disease_status.RECOVERED
    time_recovered := time
    current_event := none }

/-- Modelled from the spec: `set_dead` is defined in individual.c, which is not in
the sources.  It moves the individual to `DEATH` and clears its current event. -/
def set_dead (indiv : individual) (time : Nat) : individual :=
  { indiv with
    status := disease_status.DEATH
    time_death := time
    current_event := none }

/-- The body of the loop of `transition_to_symptomatic` for the event `event`. -/
def symptomatic_event (event : Nat) (m : model) : Option model :=
  match (m.events event).individual with
  | none => none
  | some indiv =>
    let m1 : model :=
      { m with
        population := Function.update m.population indiv
          { m.population indiv with status := disease_status.SYMPTOMATIC } }
    match (m1.population indiv).current_event with
    | none => none
    | some current =>
      match remove_event_from_event_list event_kind.presymptomatic current m1
          (m1.population indiv).time_infected with
      | none => none
      | some m2 =>
        let time_hospital := m2.time + m2.rng.draw m2.rng_calls
        match add_individual_to_event_list event_kind.hospitalised indiv time_hospital
            { m2 with
              rng_calls := m2.rng_calls + 1
              population := Function.update m2.population indiv
                { m2.population indiv with
                  time_hospitalised := time_hospital
                  next_event_type := disease_status.HOSPITALISED
                  current_event := some event } } with
        | none => none
        | some (_, m3) => some m3

/-- Embedding of `transition_to_symptomatic`. -/
def transition_to_symptomatic (m : model) : Option model :=
  pass_today event_kind.symptomatic symptomatic_event m

/-- The body of the innermost loop of `quarantine_contacts` for a record
pointing to `contact`: a contact that is neither in hospital, dead nor
quarantined is quarantined when the Bernoulli draw succeeds; it gets a
quarantine event today and a test at `time_event`. -/
def quarantine_contact (m : model) (contact time_event : Nat) : Option model :=
  if (m.population contact).status ≠ disease_status.HOSPITALISED ∧
      (m.population contact).status ≠ disease_status.DEATH ∧
      (m.population contact).quarantined = false then
    if m.rng.bernoulli m.rng_calls = true then
      match add_individual_to_event_list event_kind.quarantined contact m.time
          { m with
            rng_calls := m.rng_calls + 1
            population := Function.update m.population contact
              (set_quarantine_status (m.population contact) m.params m.time true) } with
      | none => none
      | some (e, m1) =>
        match add_individual_to_event_list event_kind.test_take contact time_event
            { m1 with
              population := Function.update m1.population contact
                { m1.population contact with quarantine_event := some e } } with
        | none => none
        | some (_, m2) => some m2
    else some { m with rng_calls := m.rng_calls + 1 }
  else some m

/-- The loop `for( idx = 1; idx < n_contacts; idx++ )` of `quarantine_contacts`:
`n` records are still to be visited and `inter` is the current one. -/
def quarantine_records (time_event : Nat) : Nat → Option Nat → model → Option model
  | 0, _, m => some m
  | _ + 1, none, _ => none
  | n + 1, some r, m =>
    match (m.interactions r).individual with
    | none => none
    | some contact =>
      match quarantine_contact m contact time_event with
      | none => none
      | some m1 => quarantine_records time_event n (m1.interactions r).next m1

/-- The loop over the days of `quarantine_contacts`: `n` days are still to be
visited, `ddx` is the current one and `day` its slot; a slot outside the arrays
is `none`. -/
def quarantine_days (indiv : Nat) : Nat → Nat → Int → model → Option model
  | 0, _, _, m => some m
  | n + 1, ddx, day, m =>
    if day < 0 then none
    else
      match (if (m.population indiv).n_interactions day.toNat > 0 then
          quarantine_records (m.time + max (m.params.test_insensititve_period - ddx) 1)
            ((m.population indiv).n_interactions day.toNat - 1)
            ((m.population indiv).interactions day.toNat) m
        else some m) with
      | none => none
      | some m1 =>
        quarantine_days indiv n (ddx + 1)
          (if day = 0 then (m1.params.days_of_interactions : Int) - 1 else day - 1) m1

/-- Embedding of `quarantine_contacts`. -/
def quarantine_contacts (m : model) (indiv : Nat) : Option model :=
  quarantine_days indiv m.params.quarantine_days 0 (m.interaction_day_idx : Int) m

/-- The first block of the body of `transition_to_hospitalised`: a quarantined
individual loses its quarantine event and its flag. -/
def release_hospitalised (m : model) (indiv : Nat) : Option model :=
  if (m.population indiv).quarantined = true then
    match (m.population indiv).quarantine_event with
    | none => none
    | some q =>
      match remove_event_from_event_list event_kind.quarantined q m
          (m.population indiv).time_quarantined with
      | none => none
      | some m1 =>
        some { m1 with
          population := Function.update m1.population indiv
            (set_quarantine_status (m1.population indiv) m1.params m1.time false) }
  else some m

/-- The second block: `set_hospitalised`, the removal of the symptomatic event
and `indiv->current_event = event`. -/
def admit_hospitalised (m : model) (indiv event : Nat) : Option model :=
  let m1 : model :=
    { m with
      population := Function.update m.population indiv
        (set_hospitalised (m.population indiv) m.params m.time) }
  match (m1.population indiv).current_event with
  | none => none
  | some current =>
    match remove_event_from_event_list event_kind.symptomatic current m1
        (m1.population indiv).time_symptomatic with
    | none => none
    | some m2 =>
      some { m2 with
        population := Function.update m2.population indiv
          { m2.population indiv with current_event := some event } }

/-- The third block: the Bernoulli draw on `cfr` schedules the death or the
recovery of the individual. -/
def schedule_outcome (m : model) (indiv : Nat) : Option model :=
  let time_event := m.time + m.rng.draw (m.rng_calls + 1)
  if m.rng.bernoulli m.rng_calls = true then
    match add_individual_to_event_list event_kind.death indiv time_event
        { m with
          rng_calls := m.rng_calls + 2
          population := Function.update m.population indiv
            { m.population indiv with
              time_death := time_event
              next_event_type := disease_status.DEATH } } with
    | none => none
    | some (_, m1) => some m1
  else
    match add_individual_to_event_list event_kind.recovered indiv time_event
        { m with
          rng_calls := m.rng_calls + 2
          population := Function.update m.population indiv
            { m.population indiv with
              time_recovered := time_event
              next_event_type := disease_status.RECOVERED } } with
    | none => none
    | some (_, m1) => some m1

/-- The body of the loop of `transition_to_hospitalised` for the event `event`. -/
def hospitalised_event (event : Nat) (m : model) : Option model :=
  match (m.events event).individual with
  | none => none
  | some indiv =>
    match release_hospitalised m indiv with
    | none => none
    | some m1 =>
      match admit_hospitalised m1 indiv event with
      | none => none
      | some m2 =>
        match schedule_outcome m2 indiv with
        | none => none
        | some m3 => quarantine_contacts m3 indiv

/-- Embedding of `transition_to_hospitalised`. -/
def transition_to_hospitalised (m : model) : Option model :=
  pass_today event_kind.hospitalised hospitalised_event m

/-- The body of the loop of `transition_to_recovered` for the event `event`. -/
def recovered_event (event : Nat) (m : model) : Option model :=
  match (m.events event).individual with
  | none => none
  | some indiv =>
    match (m.population indiv).current_event with
    | none => none
    | some current =>
      match (if (m.population indiv).status = disease_status.HOSPITALISED then
          remove_event_from_event_list event_kind.hospitalised current m
            (m.population indiv).time_hospitalised
        else
          remove_event_from_event_list event_kind.asymptomatic current m
            (m.population indiv).time_asymptomatic) with
      | none => none
      | some m1 =>
        some { m1 with
          population := Function.update m1.population indiv
            (set_recovered (m1.population indiv) m1.params m1.time) }

/-- Embedding of `transition_to_recovered`. -/
def transition_to_recovered (m : model) : Option model :=
  pass_today event_kind.recovered recovered_event m

/-- The body of the loop of `transition_to_death` for the event `event`. -/
def death_event (event : Nat) (m : model) : Option model :=
  match (m.events event).individual with
  | none => none
  | some indiv =>
    match (m.population indiv).current_event with
    | none => none
    | some current =>
      match remove_event_from_event_list event_kind.hospitalised current m
          (m.population indiv).time_hospitalised with
      | none => none
      | some m1 =>
        some { m1 with
          population := Function.update m1.population indiv
            (set_dead (m1.population indiv) m1.time) }

/-- Embedding of `transition_to_death`. -/
def transition_to_death (m : model) : Option model :=
  pass_today event_kind.death death_event m

/-- The body of the loop of `release_from_quarantine` for the event `event`. -/
def release_event_of (event : Nat) (m : model) : Option model :=
  match (m.events event).individual with
  | none => none
  | some indiv =>
    if (m.population indiv).quarantined = true then
      match (m.population indiv).quarantine_event with
      | none => none
      | some q =>
        match remove_event_from_event_list event_kind.quarantined q m
            (m.population indiv).time_quarantined with
        | none => none
        | some m1 =>
          match remove_event_from_event_list event_kind.quarantine_release event m1 m1.time with
          | none => none
          | some m2 =>
            some { m2 with
              population := Function.update m2.population indiv
                (set_quarantine_status (m2.population indiv) m2.params m2.time false) }
    else some m

/-- Embedding of `release_from_quarantine`. -/
def release_from_quarantine (m : model) : Option model :=
  pass_today event_kind.quarantine_release release_event_of m

/-- The body of the loop of `quarantined_test_take` for the event `event`. -/
def test_take_event (event : Nat) (m : model) : Option model :=
  match (m.events event).individual with
  | none => none
  | some indiv =>
    let result :=
      if (m.population indiv).status = disease_status.UNINFECTED ∨
          (m.population indiv).status = disease_status.RECOVERED then false
      else true
    match add_individual_to_event_list event_kind.test_result indiv
        (m.time + m.params.test_result_wait)
        { m with
          population := Function.update m.population indiv
            { m.population indiv with quarantine_test_result := test_status.result result } } with
    | none => none
    | some (_, m1) => remove_event_from_event_list event_kind.test_take event m1 m1.time

/-- Embedding of `quarantined_test_take`. -/
def quarantined_test_take (m : model) : Option model :=
  pass_today event_kind.test_take test_take_event m

/-- The body of the loop of `quarantined_test_result` for the event `event`. -/
def test_result_event (event : Nat) (m : model) : Option model :=
  match (m.events event).individual with
  | none => none
  | some indiv =>
    match (if (m.population indiv).quarantine_test_result = test_status.result false then
        match add_individual_to_event_list event_kind.quarantine_release indiv m.time m with
        | none => none
        | some (_, m1) => some m1
      else
        match add_individual_to_event_list event_kind.quarantine_release indiv (m.time + 14)
            m with
        | none => none
        | some (_, m1) => quarantine_contacts m1 indiv) with
    | none => none
    | some m2 => remove_event_from_event_list event_kind.test_result event m2 m2.time

/-- Embedding of `quarantined_test_result`. -/
def quarantined_test_result (m : model) : Option model :=
  pass_today event_kind.test_result test_result_event m

/-- Embedding of `one_time_step`; the return value 1 is left out. -/
def one_time_step (m : model) : Option model :=
  let m1 := update_event_list_counters event_kind.test_result
    (update_event_list_counters event_kind.test_take
      (update_event_list_counters event_kind.death
        (update_event_list_counters event_kind.recovered
          (update_event_list_counters event_kind.hospitalised
            (update_event_list_counters event_kind.symptomatic
              { m with time := m.time + 1 })))))
  match build_daily_newtork m1 with
  | none => none
  | some m2 =>
  match transmit_virus m2 with
  | none => none
  | some m3 =>
  match transition_to_symptomatic m3 with
  | none => none
  | some m4 =>
  match transition_to_hospitalised m4 with
  | none => none
  | some m5 =>
  match transition_to_recovered m5 with
  | none => none
  | some m6 =>
  match transition_to_death m6 with
  | none => none
  | some m7 =>
  match quarantined_test_take m7 with
  | none => none
  | some m8 =>
  match quarantined_test_result m8 with
  | none => none
  | some m9 =>
  match release_from_quarantine m9 with
  | none => none
  | some m10 =>
    let m11 := update_event_list_counters event_kind.quarantined
      (update_event_list_counters event_kind.asymptomatic
        (update_event_list_counters event_kind.presymptomatic m10))
    some { m11 with
      n_quarantine_days := m11.n_quarantine_days + (m11.lists event_kind.quarantined).n_current
      interaction_day_idx :=
        (ring_inc (m11.interaction_day_idx : Int) m11.params.days_of_interactions).toNat }

/-- A model at time 0 whose next tick takes person 0 to hospital: person 0 is
symptomatic since day 0 (event 0) and due in hospital at day 1 (event 1); it
has two stubs and persons 1 and 2 one each, shuffled to the pairs (0, 1) and
(0, 2); contacts of the last day are quarantined and every Bernoulli draw of
the oracle succeeds, every waiting time is 3. -/
def tick_example : model :=
  let m1 := pool_after 3 [pool_op.add event_kind.symptomatic 0 0,
    pool_op.add event_kind.hospitalised 0 1]
  { m1 with
    params :=
      { m1.params with
        quarantine_days := 1
        days_of_interactions := 1
        mean_daily_interactions := 2
        MAX_INFECTIOUS_PERIOD := 14 }
    rng :=
      { bernoulli := fun _ => true
        draw := fun _ => 3
        uniform_int := fun _ _ => 0
        shuffle := fun _ _ => [0, 1, 0, 2] }
    population := fun i =>
      if i = 0 then
        { calloc_individual with
          status := disease_status.SYMPTOMATIC
          current_event := some 0
          time_hospitalised := 1
          next_event_type := disease_status.HOSPITALISED
          mean_interactions := 2 }
      else { calloc_individual with mean_interactions := 1 }
    n_interactions := 6 }

/-! ## Invariants of the transition loops -/

/-- The loop of `for_each_event` together with the value of `next_event` when it
stops. -/
def for_each_event_ptr (body : Nat → model → Option model) :
    Nat → Option Nat → model → Option (Option Nat × model)
  | 0, p, m => some (p, m)
  | _ + 1, none, _ => none
  | n + 1, some e, m =>
    match body e m with
    | none => none
    | some m1 => for_each_event_ptr body n (m.events e).next m1

/-- The number of records that `quarantine_contacts` visits for an individual
with the daily counts `ni`: `n` days from the slot `day` backwards, in a ring of
`doi` slots. -/
def quarantine_visits (ni : Nat → Nat) (doi : Nat) : Nat → Int → Nat
  | 0, _ => 0
  | n + 1, day =>
    (ni day.toNat - 1) +
      quarantine_visits ni doi n (if day = 0 then (doi : Int) - 1 else day - 1)

/-- The `n` records from `r` on exist and point to an individual. -/
def records_ok (mem : Nat → interaction) : Nat → Option Nat → Bool
  | 0, _ => true
  | _ + 1, none => false
  | n + 1, some r => (mem r).individual.isSome && records_ok mem n (mem r).next

/-- The slots that `quarantine_contacts` visits are slots of the arrays and the
records it visits there exist: `n` days from the slot `day` backwards. -/
def days_ok (mem : Nat → interaction) (ni : Nat → Nat) (heads : Nat → Option Nat)
    (doi : Nat) : Nat → Int → Bool
  | 0, _ => true
  | n + 1, day =>
    decide (0 ≤ day) && records_ok mem (ni day.toNat - 1) (heads day.toNat) &&
      days_ok mem ni heads doi n (if day = 0 then (doi : Int) - 1 else day - 1)

/-- Every quarantined individual holds a quarantine event of its own that sits
in the bucket of the day it was quarantined. -/
def handles_ok (m : model) (b : buckets) : Prop :=
  ∀ p, (m.population p).quarantined = true →
    ∃ q, (m.population p).quarantine_event = some q ∧
      q ∈ b event_kind.quarantined (m.population p).time_quarantined ∧
      (m.events q).individual = some p

/-- The record `a1` differs from `a` in the three quarantine fields at most. -/
def quarantine_fields_only (a a1 : individual) : Prop :=
  a1 =
    { a with
      quarantined := a1.quarantined
      time_quarantined := a1.time_quarantined
      quarantine_event := a1.quarantine_event }

/-- What the loops of `quarantine_contacts` keep, relative to the model `mr`
with buckets `br` and unused events `freshr` at their start. -/
structure contacts_inv (mr : model) (br : buckets) (freshr dead : List Nat)
    (m : model) (b : buckets) (fresh : List Nat) : Prop where
  pool : pool_inv m b fresh dead
  time : m.time = mr.time
  params : m.params = mr.params
  interactions : m.interactions = mr.interactions
  day_idx : m.interaction_day_idx = mr.interaction_day_idx
  rng : m.rng = mr.rng
  suffix : ∃ used, freshr = used ++ fresh
  other : ∀ k, k ≠ event_kind.quarantined → k ≠ event_kind.test_take → ∀ d, b k d = br k d
  owners : ∀ q, q ∉ freshr → (m.events q).individual = (mr.events q).individual
  frame : ∀ p, quarantine_fields_only (mr.population p) (m.population p)
  hosp : ∀ p, (mr.population p).status = disease_status.HOSPITALISED →
    m.population p = mr.population p
  handles : handles_ok m b

/-- The list in which `schedule_outcome` puts the follow-up event in `m`: the
death list when the Bernoulli draw on `cfr` succeeds, the recovered list
otherwise. -/
def outcome_kind (m : model) : event_kind :=
  if m.rng.bernoulli m.rng_calls = true then event_kind.death else event_kind.recovered

/-- The next event type that `schedule_outcome` records in `m`. -/
def outcome_type (m : model) : disease_status :=
  if m.rng.bernoulli m.rng_calls = true then disease_status.DEATH
  else disease_status.RECOVERED

/-- The day on which `schedule_outcome` puts the follow-up event in `m`. -/
def outcome_day (m : model) : Nat :=
  m.time + m.rng.draw (m.rng_calls + 1)

/-- The number of records that `quarantine_contacts` visits for `indiv` in `m`. -/
def contact_visits (m : model) (indiv : Nat) : Nat :=
  quarantine_visits (m.population indiv).n_interactions m.params.days_of_interactions
    m.params.quarantine_days (m.interaction_day_idx : Int)

/-- The slots and records that `quarantine_contacts` visits for `indiv` in `m`
exist. -/
def contact_days_ok (m : model) (indiv : Nat) : Bool :=
  days_ok m.interactions (m.population indiv).n_interactions
    (m.population indiv).interactions m.params.days_of_interactions
    m.params.quarantine_days (m.interaction_day_idx : Int)

/-- What the turn of individual `i` for the event `e` of today's hospitalised
bucket does to the pool and the population; `x` is the follow-up event. -/
structure hospital_step (i e x : Nat) (m : model) (b : buckets) (fresh dead : List Nat)
    (m1 : model) (b1 : buckets) (fresh1 dead1 : List Nat) : Prop where
  pool : pool_inv m1 b1 fresh1 dead1
  handles : handles_ok m1 b1
  time : m1.time = m.time
  params : m1.params = m.params
  interactions : m1.interactions = m.interactions
  day_idx : m1.interaction_day_idx = m.interaction_day_idx
  rng : m1.rng = m.rng
  suffix : ∃ used, fresh = x :: (used ++ fresh1)
  spent : fresh.length ≤ fresh1.length + (1 + 2 * contact_visits m i)
  dead : ∀ y, y ∈ dead → y ∈ dead1
  returned : ∀ s, (m.population i).current_event = some s → s ∈ dead1
  hosp_bucket : ∀ d, b1 event_kind.hospitalised d = b event_kind.hospitalised d
  sympt : ∀ d y, y ∈ b event_kind.symptomatic d → (m.population i).current_event ≠ some y →
    y ∈ b1 event_kind.symptomatic d
  outcome : x ∈ b1 (outcome_kind m) (outcome_day m)
  outcome_grow : ∀ k d y, k = event_kind.death ∨ k = event_kind.recovered → y ∈ b k d →
    y ∈ b1 k d
  outcome_only : ∀ k d y, k = event_kind.death ∨ k = event_kind.recovered → y ∈ b1 k d →
    y ∈ b k d ∨ y = x
  owner : (m1.events x).individual = some i
  owners : ∀ q, q ∉ fresh → (m1.events q).individual = (m.events q).individual
  others : ∀ p, p ≠ i → quarantine_fields_only (m.population p) (m1.population p)
  others_hosp : ∀ p, p ≠ i → (m.population p).status = disease_status.HOSPITALISED →
    m1.population p = m.population p
  self_quarantined : (m1.population i).quarantined = false
  self_status : (m1.population i).status = disease_status.HOSPITALISED
  self_event : (m1.population i).current_event = some e
  self_next : (m1.population i).next_event_type = outcome_type m

/-- The number of events that the turn for the event `e` of the hospitalised
list may take from the pool: one follow-up event and two events per record that
`quarantine_contacts` visits. -/
def hospital_cost (m : model) (e : Nat) : Nat :=
  match (m.events e).individual with
  | none => 0
  | some i => 1 + 2 * contact_visits m i

/-- The event `e` of the hospitalised list is ready for its turn: it belongs to
an individual whose current event is a symptomatic event of its own, in the
bucket of the day it became symptomatic, and whose contact records exist. -/
def hospital_ready (m : model) (b : buckets) (e : Nat) : Prop :=
  ∃ i s, (m.events e).individual = some i ∧ (m.population i).current_event = some s ∧
    s ∈ b event_kind.symptomatic (m.population i).time_symptomatic ∧
    (m.events s).individual = some i ∧ contact_days_ok m i = true

/-- What holds in the model `m`, with buckets `b`, for the event `e` whose turn
started in the model `mj`, once the turn is over: `ma` is the model after the
first block of the turn and `x` the follow-up event. -/
def hospital_post (m0 : model) (b0 : buckets) (fresh0 : List Nat) (e : Nat) (mj m : model)
    (b : buckets) (fresh dead : List Nat) : Prop :=
  ∃ i s ma x,
    (m0.events e).individual = some i ∧ (m0.population i).current_event = some s ∧
    release_hospitalised mj i = some ma ∧ (ma.population i).quarantined = false ∧
    (∀ q, (mj.population i).quarantined = true →
      (mj.population i).quarantine_event = some q →
      (∃ lq, bucket_walk ma event_kind.quarantined (mj.population i).time_quarantined =
        some lq ∧ q ∉ lq) ∧ q ∈ dead) ∧
    (∀ d, bucket_walk ma event_kind.death d = bucket_walk mj event_kind.death d ∧
      bucket_walk ma event_kind.recovered d = bucket_walk mj event_kind.recovered d) ∧
    s ∈ dead ∧
    (m.population i).quarantined = false ∧
    (m.population i).status = disease_status.HOSPITALISED ∧
    (m.population i).current_event = some e ∧
    (m.population i).next_event_type = outcome_type mj ∧
    x ∈ b (outcome_kind mj) (outcome_day mj) ∧
    (m.events x).individual = some i ∧ x ∈ fresh0 ∧ x ∉ fresh ∧
    (∀ k d y, k = event_kind.death ∨ k = event_kind.recovered → y ∈ b k d →
      (m.events y).individual = some i → y = x ∨ y ∈ b0 k d)

/-- The invariant of the loop of `transition_to_hospitalised` over the bucket `l`
once the events `done` have had their turn; `m0`, `b0` and `fresh0` are the
model, the buckets and the unused events when the loop starts. -/
structure hospital_inv (m0 : model) (b0 : buckets) (fresh0 : List Nat) (l done : List Nat)
    (m : model) (b : buckets) (fresh dead : List Nat) : Prop where
  pool : pool_inv m b fresh dead
  time : m.time = m0.time
  params : m.params = m0.params
  interactions : m.interactions = m0.interactions
  day_idx : m.interaction_day_idx = m0.interaction_day_idx
  rng : m.rng = m0.rng
  suffix : ∃ used, fresh0 = used ++ fresh
  budget : ((l.drop done.length).map (hospital_cost m0)).sum < fresh.length
  bucket : ∀ d, b event_kind.hospitalised d = b0 event_kind.hospitalised d
  owners : ∀ q, q ∉ fresh0 → (m.events q).individual = (m0.events q).individual
  handles : handles_ok m b
  pending : ∀ e, e ∈ l → e ∉ done → ∀ i, (m0.events e).individual = some i →
    quarantine_fields_only (m0.population i) (m.population i) ∧
    ∀ s, (m0.population i).current_event = some s →
      s ∈ b event_kind.symptomatic (m0.population i).time_symptomatic
  outcome_old : ∀ k d y, k = event_kind.death ∨ k = event_kind.recovered → y ∈ b k d →
    y ∈ b0 k d ∨ ∃ e, e ∈ done ∧ (m.events y).individual = (m0.events e).individual
  results : ∀ j e, done[j]? = some e →
    ∃ mj, for_each_event hospitalised_event j l.head? m0 = some mj ∧
      hospital_post m0 b0 fresh0 e mj m b fresh dead

/-- The pool operations behind `hospital_example`: person 0 gets a symptomatic
event on day 0 (event 0), a hospitalised event on day 1 (event 1) and a
quarantine event on day 0 (event 2). -/
def hospital_ops : List pool_op :=
  [pool_op.add event_kind.symptomatic 0 0, pool_op.add event_kind.hospitalised 0 1,
    pool_op.add event_kind.quarantined 0 0]

/-- A model at time 1 with three persons and eighteen events: person 0 is
symptomatic and quarantined since day 0 and due in hospital today; its two
contact records of the current slot point to persons 1 and 2; the contacts of
one day are quarantined, every Bernoulli draw of the oracle succeeds and every
waiting time is 3. -/
def hospital_example : model :=
  let m1 := pool_after 3 hospital_ops
  { m1 with
    time := 1
    params :=
      { m1.params with
        quarantine_days := 1
        days_of_interactions := 1 }
    rng :=
      { rng_zero with
        bernoulli := fun _ => true
        draw := fun _ => 3 }
    interactions := fun r =>
      if r = 0 then { individual := some 1, next := some 1, traceable := some false }
      else if r = 1 then { individual := some 2, next := none, traceable := some false }
      else { individual := none, next := none, traceable := some false }
    population := fun i =>
      if i = 0 then
        { calloc_individual with
          status := disease_status.SYMPTOMATIC
          current_event := some 0
          time_hospitalised := 1
          next_event_type := disease_status.HOSPITALISED
          quarantined := true
          quarantine_event := some 2
          n_interactions := fun d => if d = 0 then 2 else 0
          interactions := fun d => if d = 0 then some 0 else none }
      else calloc_individual }

/-- The event `e` of the symptomatic list is ready for its turn: it belongs to
an individual whose current event is a presymptomatic event of its own, in the
bucket of the day it was infected. -/
def symptomatic_ready (m : model) (b : buckets) (e : Nat) : Prop :=
  ∃ i c, (m.events e).individual = some i ∧ (m.population i).current_event = some c ∧
    c ∈ b event_kind.presymptomatic (m.population i).time_infected ∧
    (m.events c).individual = some i

/-- What holds in the model `m`, with buckets `b`, for the event `e` of the
symptomatic list whose turn started in the model `mj`, once the turn is over;
`x` is the hospitalised event. -/
def symptomatic_post (m0 : model) (fresh0 : List Nat) (e : Nat) (mj m : model)
    (b : buckets) (fresh : List Nat) : Prop :=
  ∃ i x, (m0.events e).individual = some i ∧
    (m.population i).status = disease_status.SYMPTOMATIC ∧
    (m.population i).current_event = some e ∧
    (m.population i).next_event_type = disease_status.HOSPITALISED ∧
    (m.population i).time_hospitalised = m0.time + m0.rng.draw mj.rng_calls ∧
    x ∈ b event_kind.hospitalised (m.population i).time_hospitalised ∧
    (m.events x).individual = some i ∧ x ∈ fresh0 ∧ x ∉ fresh

/-- The invariant of the loop of `transition_to_symptomatic` over the bucket `l`
once the events `done` have had their turn; `m0`, `b0` and `fresh0` are the
model, the buckets and the unused events when the loop starts. -/
structure symptomatic_inv (m0 : model) (b0 : buckets) (fresh0 : List Nat) (l done : List Nat)
    (m : model) (b : buckets) (fresh dead : List Nat) : Prop where
  pool : pool_inv m b fresh dead
  time : m.time = m0.time
  rng : m.rng = m0.rng
  suffix : ∃ used, fresh0 = used ++ fresh
  budget : (l.drop done.length).length < fresh.length
  bucket : ∀ d, b event_kind.symptomatic d = b0 event_kind.symptomatic d
  owners : ∀ q, q ∉ fresh0 → (m.events q).individual = (m0.events q).individual
  pending : ∀ e, e ∈ l → e ∉ done → ∀ i, (m0.events e).individual = some i →
    m.population i = m0.population i ∧
    ∀ c, (m0.population i).current_event = some c →
      c ∈ b event_kind.presymptomatic (m0.population i).time_infected
  results : ∀ j e, done[j]? = some e →
    ∃ mj, for_each_event symptomatic_event j l.head? m0 = some mj ∧
      symptomatic_post m0 fresh0 e mj m b fresh

/-- The pool operations behind `symptomatic_example`: person 0 gets a
presymptomatic event on day 0 (event 0) and a symptomatic event on day 1
(event 1). -/
def symptomatic_ops : List pool_op :=
  [pool_op.add event_kind.presymptomatic 0 0, pool_op.add event_kind.symptomatic 0 1]

/-- A model at time 1 with two persons and twelve events: person 0 was infected
on day 0, is presymptomatic and due to show symptoms today; every waiting time
of the oracle is 3. -/
def symptomatic_example : model :=
  let m1 := pool_after 2 symptomatic_ops
  { m1 with
    time := 1
    rng := { rng_zero with draw := fun _ => 3 }
    population := fun i =>
      if i = 0 then
        { calloc_individual with
          status := disease_status.PRESYMPTOMATIC
          current_event := some 0
          time_symptomatic := 1
          next_event_type := disease_status.SYMPTOMATIC }
      else calloc_individual }

/-! ## App users (interventions.c) -/

/-- The value of `ceil( n * target )` for the ratio `target`. -/
def ceil_mul (n : Nat) (target : fraction) : Int :=
  -((-((n : Int) * target.num)) / (target.den : Int))

/-- The first loop of `set_up_app_users`: the number of app users among the
individuals `0 .. n - 1`. -/
def count_app_users (pop : Nat → individual) : Nat → Nat
  | 0 => 0
  | n + 1 => count_app_users pop n + (if (pop n).app_user = true then 1 else 0)

/-- The last loop of `set_up_app_users`: `n` individuals from `idx` on are still
to be visited and `jdx` is the cursor in `users`; an individual that does not use
the app gets the next entry of `users`.  The cursor stays inside `users` when
`users` has one entry per individual that does not use the app. -/
def mark_app_users (users : List Nat) : Nat → Nat → Nat → (Nat → individual) →
    (Nat → individual)
  | 0, _, _, pop => pop
  | n + 1, idx, jdx, pop =>
    if (pop idx).app_user = false then
      mark_app_users users n (idx + 1) (jdx + 1)
        (Function.update pop idx { pop idx with app_user := decide (users.getD jdx 0 ≠ 0) })
    else mark_app_users users n (idx + 1) jdx pop

/-- Embedding of `set_up_app_users`; `print_exit` is the error of `Except`. -/
def set_up_app_users (m : model) (target : fraction) : Except String model :=
  let current_users := count_app_users m.population m.params.n_total
  let not_users := m.params.n_total - current_users
  let max_user : Int := ceil_mul m.params.n_total target - (current_users : Int)
  if max_user < 0 ∨ max_user > (not_users : Int) then
    Except.error "Bad target app_fraction_users"
  else
    let users := List.replicate max_user.toNat 1 ++ List.replicate (not_users - max_user.toNat) 0
    let shuffled := m.rng.shuffle m.rng_calls users
    Except.ok
      { m with
        rng_calls := m.rng_calls + 1
        population := mark_app_users shuffled m.params.n_total 0 0 m.population }

/-- The interval of the specification for the target of `set_up_app_users`:
`0 ≤ target ≤ 1 - current / n`, for the ratio `target = num / den`, with both
sides multiplied by `n * den`. -/
def target_in_spec_interval (n current : Nat) (target : fraction) : Prop :=
  0 ≤ target.num ∧ target.num * (n : Int) ≤ ((n : Int) - (current : Int)) * (target.den : Int)

instance (n current : Nat) (target : fraction) :
    Decidable (target_in_spec_interval n current target) := by
  unfold target_in_spec_interval
  exact inferInstance

/-- Two persons, of whom person 0 uses the app. -/
def app_example : model :=
  { pool_after 2 [] with
    population := fun i =>
      if i = 0 then { calloc_individual with app_user := true } else calloc_individual }

/-! ## The test-take pass of the tick driver -/

/-- The result that `quarantined_test_take` of model.c records for an individual:
negative for an uninfected or recovered individual, positive otherwise. -/
def tick_test_outcome (indiv : individual) : Bool :=
  if indiv.status = disease_status.UNINFECTED ∨ indiv.status = disease_status.RECOVERED then
    false
  else true

/-- The invariant of the loop of `quarantined_test_take` over the bucket `l` once
the events `done` have had their turn; `m0`, `b0` and `fresh0` are the model, the
buckets and the unused events when the loop starts, `xs` the events put in the
test-result list so far, most recent first. -/
structure test_take_inv (m0 : model) (b0 : buckets) (fresh0 : List Nat) (l done : List Nat)
    (m : model) (b : buckets) (fresh dead : List Nat) (xs : List Nat) : Prop where
  pool : pool_inv m b fresh dead
  time : m.time = m0.time
  params : m.params = m0.params
  suffix : ∃ used, fresh0 = used ++ fresh
  budget : (l.drop done.length).length < fresh.length
  bucket : b event_kind.test_take m0.time = l.drop done.length
  result_bucket : b event_kind.test_result (m0.time + m0.params.test_result_wait) =
    xs ++ b0 event_kind.test_result (m0.time + m0.params.test_result_wait)
  new_owners : xs.map (fun x => (m.events x).individual) =
    (done.map (fun e => (m0.events e).individual)).reverse
  owners : ∀ q, q ∉ fresh0 → (m.events q).individual = (m0.events q).individual
  status : ∀ p, (m.population p).status = (m0.population p).status
  slot : ∀ e, e ∈ done → ∀ i, (m0.events e).individual = some i →
    (m.population i).quarantine_test_result =
      test_status.result (tick_test_outcome (m0.population i))

/-- A model at time 5 with two persons and twelve events: person 0 was infected
on day 4, is presymptomatic and has a test to take today; a test is sensitive
from the third day of an infection on and its result takes two days. -/
def test_take_example : model :=
  let m1 := pool_after 2 [pool_op.add event_kind.test_take 0 5]
  { m1 with
    time := 5
    params :=
      { m1.params with
        test_insensititve_period := 3
        test_result_wait := 2 }
    population := fun i =>
      if i = 0 then
        { calloc_individual with
          status := disease_status.PRESYMPTOMATIC
          time_infected := 4
          quarantine_test_result := test_status.TEST_ORDERED }
      else calloc_individual }

/-- The sum of `n_current` over the six lists of the disease states. -/
def disease_n_current (m : model) : Int :=
  (m.lists event_kind.presymptomatic).n_current + (m.lists event_kind.asymptomatic).n_current +
  (m.lists event_kind.symptomatic).n_current + (m.lists event_kind.hospitalised).n_current +
  (m.lists event_kind.recovered).n_current + (m.lists event_kind.death).n_current

/-- The model that `new_model` hands to `set_up_seed_infection` for two
uninfected persons with one daily interaction each and two seed infections, with
an oracle whose uniform draws are all 0, whose Bernoulli draws all fail and whose
waiting times are all 3; the rate of every list is 1 on every day. -/
def seed_example : model :=
  let m1 := pool_after 2 []
  { m1 with
    params :=
      { m1.params with
        n_seed_infection := 2
        mean_daily_interactions := 1
        days_of_interactions := 1
        MAX_INFECTIOUS_PERIOD := 14 }
    rng := { rng_zero with draw := fun _ => 3 }
    lists := fun k => { m1.lists k with infectious_curve := fun _ => 1 }
    population := fun _ => { calloc_individual with mean_interactions := 1 }
    n_interactions := 4 }

/-! ## The policy hook (interventions.c) -/

/-- Modelled from the spec: `set_param_app_turned_on` is defined in params.c,
which is not in the sources.  It sets the flag `app_turned_on`. -/
def set_param_app_turned_on (m : model) (value : Bool) : model :=
  { m with params := { m.params with app_turned_on := value } }

/-- Modelled from the spec: `set_param_lockdown_on` is defined in params.c, which
is not in the sources.  It sets the flag `lockdown_on`. -/
def set_param_lockdown_on (m : model) (value : Bool) : model :=
  { m with params := { m.params with lockdown_on := value } }

/-- Modelled from the spec: `set_param_test_on_symptoms` is defined in params.c,
which is not in the sources.  It sets the flag `test_on_symptoms`. -/
def set_param_test_on_symptoms (m : model) (value : Bool) : model :=
  { m with params := { m.params with test_on_symptoms := value } }

/-- Embedding of `update_intervention_policy`. -/
def update_intervention_policy (m : model) (time : Int) : model :=
  let m0 : model :=
    if time = 0 then
      { m with
        params :=
          { m.params with
            app_turned_on := false
            lockdown_on := false
            daily_fraction_work_used := m.params.daily_fraction_work
            relative_transmission_by_type_used := fun type =>
              if type < m.params.N_INTERACTION_TYPES then
                m.params.relative_transmission_by_type type
              else m.params.relative_transmission_by_type_used type } }
    else m
  let m1 := if time = m0.params.app_turn_on_time then set_param_app_turned_on m0 true else m0
  let m2 := if time = m1.params.lockdown_time_on then set_param_lockdown_on m1 true else m1
  let m3 := if time = m2.params.lockdown_time_off then set_param_lockdown_on m2 false else m2
  let m4 :=
    if time = m3.params.testing_symptoms_time_on then set_param_test_on_symptoms m3 true
    else m3
  if time = m4.params.testing_symptoms_time_off then set_param_test_on_symptoms m4 false
  else m4

/-- The model `tick_example` with the app, the lockdown and the testing on
symptoms configured to start on day 1 and the lockdown and the testing to end on
day 9. -/
def policy_example : model :=
  { tick_example with
    params :=
      { tick_example.params with
        app_turn_on_time := 1
        lockdown_time_on := 1
        lockdown_time_off := 9
        testing_symptoms_time_on := 1
        testing_symptoms_time_off := 9 } }

/-- The policy flags and the configured days of a model: `app_turned_on`,
`lockdown_on`, `test_on_symptoms`, and the five on and off days in the order of
`update_intervention_policy`. -/
def policy_view (m : model) : (Bool × Bool × Bool) × (Int × Int × Int × Int × Int) :=
  ((m.params.app_turned_on, m.params.lockdown_on, m.params.test_on_symptoms),
    (m.params.app_turn_on_time, m.params.lockdown_time_on, m.params.lockdown_time_off,
      m.params.testing_symptoms_time_on, m.params.testing_symptoms_time_off))

/-- The number of individuals of the population whose status is not
`UNINFECTED`. -/
def n_infected (m : model) : Nat :=
  (List.range m.params.n_total).countP
    (fun i => decide ((m.population i).status ≠ disease_status.UNINFECTED))

/-- The running counts `n_current` of the ten event lists, in the order
presymptomatic, asymptomatic, symptomatic, hospitalised, recovered, death,
quarantined, quarantine_release, test_take, test_result. -/
def all_n_current (m : model) : List Int :=
  [event_kind.presymptomatic, event_kind.asymptomatic, event_kind.symptomatic,
    event_kind.hospitalised, event_kind.recovered, event_kind.death, event_kind.quarantined,
    event_kind.quarantine_release, event_kind.test_take, event_kind.test_result].map
    (fun k => (m.lists k).n_current)

/-- A model at time 1 with one uninfected person that has no interactions: it
is in quarantine since day 1 (event 0), which the counters of the quarantined
list record, and its release is due at day 2 (event 1). -/
def release_example : model :=
  let m1 := pool_after 1 [pool_op.add event_kind.quarantined 0 1,
    pool_op.add event_kind.quarantine_release 0 2]
  { m1 with
    time := 1
    params := { m1.params with days_of_interactions := 1, MAX_INFECTIOUS_PERIOD := 14 }
    lists := fun k =>
      if k = event_kind.quarantined then { m1.lists k with n_current := 1 } else m1.lists k
    population := fun _ =>
      { calloc_individual with
        quarantined := true
        quarantine_event := some 0
        time_quarantined := 1 } }

/-- The body of the innermost loop of `quarantine_contacts` run on the records
of the list `l`, one after the other in list order. -/
def quarantine_list (time_event : Nat) : List Nat → model → Option model
  | [], m => some m
  | r :: rs, m =>
    match (m.interactions r).individual with
    | none => none
    | some contact =>
      match quarantine_contact m contact time_event with
      | none => none
      | some m1 => quarantine_list time_event rs m1

/-! ## Intervention engine: the tracing cascade (interventions.c) -/

/-- The first block of `intervention_on_traced`, under
`if( params->quarantine_on_traced )`: the individual is quarantined and, with
`quarantine_household_on_traced`, its household; `self` stands for the calls of
`intervention_on_traced` that `intervention_quarantine_household` would make. -/
def traced_quarantine (self : model → Nat → Int → Nat → Nat → Option model) (m : model)
    (indiv index_token : Nat) : Option model :=
  if m.params.quarantine_on_traced = true then
    match intervention_quarantine_until (sample_transition_time m).2 indiv
        (m.time + (sample_transition_time m).1) true with
    | none => none
    | some m1 =>
      if m1.params.quarantine_household_on_traced = true then
        intervention_quarantine_household
          (fun m2 c => intervention_notify_contacts
            (fun m3 c3 t3 => self m3 c3 t3 m.params.NOT_RECURSIVE index_token) m2 c)
          m1 indiv (some (m.time + (sample_transition_time m).1)) false
      else some m1
  else some m

/-- The second block of `intervention_on_traced`, under
`if( params->test_on_traced )`. -/
def traced_test (m : model) (indiv : Nat) (contact_time : Int) : Option model :=
  if m.params.test_on_traced = true then
    intervention_test_order m indiv
      (max ((m.time : Int) + (m.params.test_order_wait : Int))
        (contact_time + (m.params.test_insensititve_period : Int))).toNat
  else some m

/-- The body of `intervention_on_traced` with its calls of itself (through
`intervention_notify_contacts` and `intervention_quarantine_household`) handed
to `self`. -/
def on_traced_step (self : model → Nat → Int → Nat → Nat → Option model) (m : model)
    (indiv : Nat) (contact_time : Int) (recursion_level index_token : Nat) : Option model :=
  if is_in_hospital (m.population indiv) = true ∨ (m.population indiv).is_case = true then
    some m
  else
    match traced_quarantine self m indiv index_token with
    | none => none
    | some m1 =>
      match traced_test m1 indiv contact_time with
      | none => none
      | some m2 =>
        if recursion_level < m2.params.tracing_network_depth then
          intervention_notify_contacts
            (fun m3 c3 t3 => self m3 c3 t3 (recursion_level + 1) index_token) m2 indiv
        else some m2

/-- The cascade in which every call of `intervention_on_traced` at a recursion
level above `depth`, and every call nested more than `n` deep, is handed to
`trap` instead of being run. -/
def on_traced_guarded (trap : model → Nat → Int → Nat → Nat → Option model) (depth : Nat) :
    Nat → model → Nat → Int → Nat → Nat → Option model
  | 0 => trap
  | n + 1 => fun m indiv contact_time recursion_level index_token =>
    if recursion_level ≤ depth then
      on_traced_step (on_traced_guarded trap depth n) m indiv contact_time recursion_level
        index_token
    else trap m indiv contact_time recursion_level index_token

/-- Embedding of `intervention_on_symptoms`.  The Bernoulli draw on
`self_quarantine_fraction` is made only for an individual that is not
quarantined (`||` short-circuits).  A chain of calls of
`intervention_on_traced` is never longer than `tracing_network_depth + 1`. -/
def intervention_on_symptoms (m : model) (indiv : Nat) : Option model :=
  match index_trace_token m indiv with
  | none => none
  | some (index_token, m0) =>
    let fuel := m0.params.tracing_network_depth + 1
    let quarantine : Bool :=
      (m0.population indiv).quarantined || m0.rng.bernoulli m0.rng_calls
    let m1 : model :=
      if (m0.population indiv).quarantined = true then m0
      else { m0 with rng_calls := m0.rng_calls + 1 }
    if quarantine = true then
      match intervention_quarantine_until (sample_transition_time m1).2 indiv
          (m1.time + (sample_transition_time m1).1) true with
      | none => none
      | some m2 =>
        match (if m2.params.quarantine_household_on_symptoms = true then
            intervention_quarantine_household
              (fun m3 c => intervention_notify_contacts
                (fun m4 c4 t4 => intervention_on_traced fuel m4 c4 t4
                  m2.params.NOT_RECURSIVE index_token) m3 c)
              m2 indiv (some (m1.time + (sample_transition_time m1).1)) false
          else some m2) with
        | none => none
        | some m3 =>
          match (if m3.params.test_on_symptoms = true then
              intervention_test_order m3 indiv (m3.time + m3.params.test_order_wait)
            else some m3) with
          | none => none
          | some m4 =>
            if m4.params.trace_on_symptoms = true ∧
                (m4.params.quarantine_on_traced = true ∨ m4.params.test_on_traced = true) then
              intervention_notify_contacts
                (fun m5 c5 t5 => intervention_on_traced fuel m5 c5 t5 1 index_token) m4 indiv
            else some m4
    else some m1

/-- A relation between the model before and after a step that holds across the
steps the tracing cascade is made of: a call of
`intervention_quarantine_until`, a call of `intervention_test_order`, a draw of
a waiting time and the draw that decides a record whose `traceable` is
`UNKNOWN`. -/
structure cascade_rel (R : model → model → Prop) : Prop where
  refl : ∀ m, R m m
  trans : ∀ a b c, R a b → R b c → R a c
  quarantine : ∀ m i t maxof m1, intervention_quarantine_until m i t maxof = some m1 → R m m1
  order : ∀ m i t m1, intervention_test_order m i t = some m1 → R m m1
  sample : ∀ m, R m (sample_transition_time m).2
  draw : ∀ m r, (m.interactions r).traceable = none →
    R m { m with
      interactions := set_traceable m.interactions r (some (m.rng.bernoulli m.rng_calls))
      rng_calls := m.rng_calls + 1 }

/-- The record `a1` differs from `a` at most in the fields that
`intervention_quarantine_until` and `intervention_test_order` write, and a test
slot other than `NO_TEST` is kept. -/
def traced_fields_only (a a1 : individual) : Prop :=
  a1 =
    { a with
      quarantined := a1.quarantined
      time_quarantined := a1.time_quarantined
      quarantine_event := a1.quarantine_event
      quarantine_release_event := a1.quarantine_release_event
      quarantine_test_result := a1.quarantine_test_result } ∧
  (a.quarantine_test_result ≠ test_status.NO_TEST →
    a1.quarantine_test_result = a.quarantine_test_result)

/-- The interaction record `r1` is `r` with, at most, a `traceable` that was
`UNKNOWN` decided. -/
def record_kept (r r1 : interaction) : Prop :=
  r1.individual = r.individual ∧ r1.next = r.next ∧
  ∀ v, r.traceable = some v → r1.traceable = some v

/-- What the tracing cascade keeps: the parameters, the clock, the oracle, the
interaction ring and its records up to the decision of undecided ones, and of
every individual all but the quarantine and test fields. -/
def cascade_frame (m m1 : model) : Prop :=
  m1.params = m.params ∧ m1.time = m.time ∧ m1.rng = m.rng ∧
  m1.interaction_day_idx = m.interaction_day_idx ∧
  (∀ r, record_kept (m.interactions r) (m1.interactions r)) ∧
  ∀ p, traced_fields_only (m.population p) (m1.population p)

/-- A model at time 1 with a fresh pool of twenty-four events and one trace
token: persons 0 and 1 use the app, which is on; the day list of person 0 holds
two records of person 1 and the day list of person 1 one record of person 0,
all undecided; nobody has a test in flight; contacts are traced on symptoms, quarantined and tested when
traced, two levels deep, and not tested on symptoms; every Bernoulli draw of
the oracle succeeds and the `k`-th waiting time is `k + 2`. -/
def trace_example : model :=
  let m1 := pool_after 4 []
  { m1 with
    time := 1
    params :=
      { m1.params with
        quarantine_days := 1
        days_of_interactions := 1
        app_turned_on := true
        trace_on_symptoms := true
        quarantine_on_traced := true
        test_on_traced := true
        tracing_network_depth := 2 }
    rng := { rng_zero with bernoulli := fun _ => true, draw := fun k => k + 2 }
    next_trace_token := some 0
    interactions := fun r =>
      if r = 0 then { individual := some 1, next := some 1, traceable := none }
      else if r = 1 then { individual := some 1, next := none, traceable := none }
      else if r = 2 then { individual := some 0, next := none, traceable := none }
      else { individual := none, next := none, traceable := none }
    population := fun i =>
      if i = 0 then
        { calloc_individual with
          status := disease_status.SYMPTOMATIC
          quarantine_test_result := test_status.NO_TEST
          app_user := true
          n_interactions := fun d => if d = 0 then 2 else 0
          interactions := fun d => if d = 0 then some 0 else none }
      else if i = 1 then
        { calloc_individual with
          idx := 1
          quarantine_test_result := test_status.NO_TEST
          app_user := true
          n_interactions := fun d => if d = 0 then 1 else 0
          interactions := fun d => if d = 0 then some 2 else none }
      else calloc_individual }

/-- The day of the release scheduled for individual `i`, if any. -/
def release_time (m : model) (i : Nat) : Option Nat :=
  (m.population i).quarantine_release_event.map (fun e => (m.events e).time)

/-- The model `trace_example` after the second record of person 0 has been
decided as not traceable. -/
def decided_example : model :=
  { trace_example with
    interactions := fun r =>
      if r = 1 then { individual := some 1, next := none, traceable := some false }
      else trace_example.interactions r }

/-- The model `trace_example` with community testing on symptoms and an oracle
whose Bernoulli draws all fail. -/
def symptoms_example : model :=
  { trace_example with
    params := { trace_example.params with test_on_symptoms := true }
    rng := { rng_zero with draw := fun k => k + 2 } }

/-- The model `trace_example` with community testing on symptoms. -/
def ordered_example : model :=
  { trace_example with params := { trace_example.params with test_on_symptoms := true } }

/-- The slot of the interaction ring that lies `k` days back from the slot
`idx`, in a ring of `doi` slots. -/
def slot_back (idx doi k : Nat) : Nat :=
  if k ≤ idx then idx - k else idx + doi - k

/-- The loop body of `intervention_notify_contacts` run on the records of the
list `l`, one after the other in list order. -/
def notify_list (on_traced : model → Nat → Option model) : List Nat → model → Option model
  | [], m => some m
  | r :: rs, m =>
    match (m.interactions r).individual with
    | none => none
    | some contact =>
      match notify_contact on_traced m r contact with
      | none => none
      | some m1 => notify_list on_traced rs m1

/-- The visits that the specification asks of `intervention_notify_contacts`,
called at time `t` with today's slot `idx` in a ring of `doi` slots: for each
`k` of the list in turn, all the records of the day list of the slot `k` days
back, that is the `n_interactions` records reached from its head, are visited in
list order with contact time `t - k`. -/
def notify_window (on_traced : model → Nat → Int → Option model) (indiv idx doi t : Nat) :
    List Nat → model → Option model
  | [], m => some m
  | k :: ks, m =>
    match interaction_walk m.interactions
        ((m.population indiv).n_interactions (slot_back idx doi k))
        ((m.population indiv).interactions (slot_back idx doi k)) with
    | none => none
    | some l =>
      match notify_list (fun m1 c => on_traced m1 c ((t : Int) - (k : Int))) l m with
      | none => none
      | some m1 => notify_window on_traced indiv idx doi t ks m1

/-- The model `trace_example` with a ring of three day slots, of which the two
most recent are traced. -/
def window_example : model :=
  { trace_example with
    params := { trace_example.params with quarantine_days := 2, days_of_interactions := 3 } }

/-- The invariant of the loop of `release_from_quarantine` over the bucket `l`
once the events `done` have had their turn; `m0` is the model when the loop
starts and `fresh` the events never handed out. -/
structure release_inv (m0 : model) (fresh l done : List Nat) (m : model) (b : buckets)
    (dead : List Nat) : Prop where
  pool : pool_inv m b fresh dead
  time : m.time = m0.time
  params : m.params = m0.params
  owners : ∀ x, (m.events x).individual = (m0.events x).individual
  bucket : ∃ kept, b event_kind.quarantine_release m0.time = kept ++ l.drop done.length
  handles : handles_ok m b
  released : ∀ e, e ∈ done → ∀ i, (m0.events e).individual = some i →
    (m.population i).quarantined = false
  kept_flag : ∀ p, (m.population p).quarantined = true → m.population p = m0.population p
  returned : ∀ p, (m0.population p).quarantined = true → (m.population p).quarantined = false →
    ∃ q x, (m0.population p).quarantine_event = some q ∧ x ∈ l ∧
      (m0.events x).individual = some p ∧ q ∈ dead ∧ x ∈ dead

/-- The number of events that the turn of `quarantined_test_result` for an
event of individual `i` may take from the pool: the release event and, for a
positive result, two events per record that `quarantine_contacts` visits. -/
def result_turn_cost (m : model) (i : Nat) : Nat :=
  if (m.population i).quarantine_test_result = test_status.result false then 1
  else 1 + 2 * contact_visits m i

/-- The number of events that the turn of `quarantined_test_result` for the
event `e` may take from the pool. -/
def result_cost (m : model) (e : Nat) : Nat :=
  match (m.events e).individual with
  | none => 0
  | some i => result_turn_cost m i

/-- The event `e` of the test-result list is ready for its turn: it has an
owner, and the contact records of an owner with a positive result exist. -/
def result_ready (m : model) (e : Nat) : Prop :=
  ∃ i, (m.events e).individual = some i ∧
    ((m.population i).quarantine_test_result ≠ test_status.result false →
      contact_days_ok m i = true)

/-- The invariant of the loop of `quarantined_test_result` over the bucket `l`
once the events `done` have had their turn; `m0` and `fresh0` are the model and
the unused events when the loop starts. -/
structure result_inv (m0 : model) (fresh0 l done : List Nat) (m : model) (b : buckets)
    (fresh dead : List Nat) : Prop where
  pool : pool_inv m b fresh dead
  time : m.time = m0.time
  params : m.params = m0.params
  interactions : m.interactions = m0.interactions
  day_idx : m.interaction_day_idx = m0.interaction_day_idx
  suffix : ∃ used, fresh0 = used ++ fresh
  budget : ((l.drop done.length).map (result_cost m0)).sum + 1 < fresh.length
  bucket : b event_kind.test_result m0.time = l.drop done.length
  owners : ∀ q, q ∉ fresh0 → (m.events q).individual = (m0.events q).individual
  frame : ∀ p, quarantine_fields_only (m0.population p) (m.population p)
  kept_flag : ∀ p, (m0.population p).quarantined = true → m.population p = m0.population p
  handles : handles_ok m b
  release : ∀ e, e ∈ done → ∀ i, (m0.events e).individual = some i →
    (m0.population i).quarantine_test_result = test_status.result false →
    ∃ x, x ∈ b event_kind.quarantine_release m0.time ∧ (m.events x).individual = some i
  release_owned : ∀ x, x ∈ b event_kind.quarantine_release m0.time →
    ∃ i, (m.events x).individual = some i

/-- The part of `one_time_step` before the call of `quarantined_test_result`:
the clock, the counters of six lists, the network, the transmission, the four
disease transitions and the tests taken. -/
def tick_before_results (m : model) : Option model :=
  let m1 := update_event_list_counters event_kind.test_result
    (update_event_list_counters event_kind.test_take
      (update_event_list_counters event_kind.death
        (update_event_list_counters event_kind.recovered
          (update_event_list_counters event_kind.hospitalised
            (update_event_list_counters event_kind.symptomatic
              { m with time := m.time + 1 })))))
  match build_daily_newtork m1 with
  | none => none
  | some m2 =>
  match transmit_virus m2 with
  | none => none
  | some m3 =>
  match transition_to_symptomatic m3 with
  | none => none
  | some m4 =>
  match transition_to_hospitalised m4 with
  | none => none
  | some m5 =>
  match transition_to_recovered m5 with
  | none => none
  | some m6 =>
  match transition_to_death m6 with
  | none => none
  | some m7 => quarantined_test_take m7

/-- The part of `one_time_step` after the call of `release_from_quarantine`:
the counters of three lists, `n_quarantine_days` and the step of the day slot. -/
def tick_finish (m10 : model) : model :=
  let m11 := update_event_list_counters event_kind.quarantined
    (update_event_list_counters event_kind.asymptomatic
      (update_event_list_counters event_kind.presymptomatic m10))
  { m11 with
    n_quarantine_days := m11.n_quarantine_days + (m11.lists event_kind.quarantined).n_current
    interaction_day_idx :=
      (ring_inc (m11.interaction_day_idx : Int) m11.params.days_of_interactions).toNat }

/-- The events of a pool of twelve in which person 0 has a quarantine event of
day 1 and a test result due on day 2. -/
def negative_ops : List pool_op :=
  [pool_op.add event_kind.quarantined 0 1, pool_op.add event_kind.test_result 0 2]

/-- A model at time 2, as `one_time_step` hands it to `quarantined_test_result`:
person 0 is in quarantine since day 1 (event 0) and its test result, negative,
is due today (event 1). -/
def negative_example : model :=
  let m1 := pool_after 2 negative_ops
  { m1 with
    time := 2
    population := fun i =>
      if i = 0 then
        { calloc_individual with
          quarantined := true
          quarantine_event := some 0
          time_quarantined := 1
          quarantine_test_result := test_status.result false }
      else calloc_individual }

/-! # Properties -/

/-! ## Reading a field after a write -/

@[simp] theorem set_next_next (ev : Nat → event) (p q : Nat) (v : Option Nat) :
    (set_next ev p v q).next = if q = p then v else (ev q).next := by
  unfold set_next; split <;> rfl

@[simp] theorem set_next_last (ev : Nat → event) (p q : Nat) (v : Option Nat) :
    (set_next ev p v q).last = (ev q).last := by
  unfold set_next; split <;> rfl

@[simp] theorem set_next_individual (ev : Nat → event) (p q : Nat) (v : Option Nat) :
    (set_next ev p v q).individual = (ev q).individual := by
  unfold set_next; split <;> rfl

@[simp] theorem set_last_next (ev : Nat → event) (p q : Nat) (v : Option Nat) :
    (set_last ev p v q).next = (ev q).next := by
  unfold set_last; split <;> rfl

@[simp] theorem set_last_last (ev : Nat → event) (p q : Nat) (v : Option Nat) :
    (set_last ev p v q).last = if q = p then v else (ev q).last := by
  unfold set_last; split <;> rfl

@[simp] theorem set_last_individual (ev : Nat → event) (p q : Nat) (v : Option Nat) :
    (set_last ev p v q).individual = (ev q).individual := by
  unfold set_last; split <;> rfl

@[simp] theorem set_individual_next (ev : Nat → event) (p q : Nat) (v : Option Nat) :
    (set_individual ev p v q).next = (ev q).next := by
  unfold set_individual; split <;> rfl

@[simp] theorem set_individual_last (ev : Nat → event) (p q : Nat) (v : Option Nat) :
    (set_individual ev p v q).last = (ev q).last := by
  unfold set_individual; split <;> rfl

@[simp] theorem set_individual_individual (ev : Nat → event) (p q : Nat) (v : Option Nat) :
    (set_individual ev p v q).individual = if q = p then v else (ev q).individual := by
  unfold set_individual; split <;> rfl

/-- The result of `new_event` when the head of the free ring has both links. -/
theorem new_event_eq (m : model) (e nx l : Nat) (hne : m.next_event = some e)
    (hnx : (m.events e).next = some nx) (hl : (m.events e).last = some l) :
    new_event m = some (e,
      { m with
        next_event := some nx
        events := set_next (set_last m.events nx (some l)) l (some nx) }) := by
  simp [new_event, hne, hnx, hl]

/-- The pointer writes of an add succeed on a bucket with a head pointer, keep
the owner of the new event and put its `next` on the previous head. -/
theorem link_event_spec (ev : Nat → event) (n : Int) (head : Option Nat) (e indiv : Nat)
    (hi : (ev e).individual = some indiv) (hhead : 1 ≤ n → ∃ h, head = some h) :
    ∃ ev1, link_event ev n head e = some ev1 ∧ (ev1 e).individual = some indiv ∧
      (1 ≤ n → (ev1 e).next = head) := by
  by_cases h2 : n > 1
  · obtain ⟨h, rfl⟩ := hhead (by omega)
    exact ⟨set_next (set_last ev h (some e)) e (some h), by simp [link_event, h2],
      by simpa using hi, by intro _; simp⟩
  · by_cases h1 : n = 1
    · obtain ⟨h, rfl⟩ := hhead (by omega)
      exact ⟨set_last (set_next (set_last (set_next ev h (some e)) h (some e)) e (some h)) e
        (some h), by simp [link_event, h1], by simpa using hi, by intro _; simp⟩
    · exact ⟨ev, by simp [link_event, h1, h2], hi, by intro h; omega⟩

/-- Unfolding of `add_individual_to_event_list` once `new_event` and the pointer
writes are known to succeed. -/
theorem add_individual_to_event_list_eq (m m1 : model) (k : event_kind) (indiv time e : Nat)
    (ev : Nat → event) (hnew : new_event m = some (e, m1))
    (hlink : link_event (set_individual m1.events e (some indiv))
      ((m1.lists k).n_daily_current time) ((m1.lists k).events time) e = some ev) :
    add_individual_to_event_list k indiv time m = some (e,
      { m1 with
        events := ev
        lists := Function.update m1.lists k
          { m1.lists k with
            events := Function.update (m1.lists k).events time (some e)
            n_daily := Function.update (m1.lists k).n_daily time ((m1.lists k).n_daily time + 1)
            n_daily_current := Function.update (m1.lists k).n_daily_current time
              ((m1.lists k).n_daily_current time + 1) } }) := by
  simp [add_individual_to_event_list, hnew, hlink]

/-- C1: with the head of the free ring linked on both sides and a head pointer
on every non-empty bucket, `add_individual_to_event_list` returns an event owned
by the individual, makes it the head of the bucket with `next` on the previous
head when the bucket was non-empty, raises `n_daily[day]` and
`n_daily_current[day]` of the list by one each and leaves every other counter of
this list and every other list as it was. -/
theorem add_individual_to_event_list_spec (m : model) (k : event_kind) (indiv time : Nat)
    (e nx l : Nat) (hne : m.next_event = some e)
    (hnx : (m.events e).next = some nx) (hl : (m.events e).last = some l)
    (hhead : 1 ≤ (m.lists k).n_daily_current time → ∃ h, (m.lists k).events time = some h) :
    ∃ m1, add_individual_to_event_list k indiv time m = some (e, m1) ∧
      (m1.events e).individual = some indiv ∧
      (m1.lists k).events time = some e ∧
      (1 ≤ (m.lists k).n_daily_current time →
        (m1.events e).next = (m.lists k).events time) ∧
      (m1.lists k).n_daily time = (m.lists k).n_daily time + 1 ∧
      (m1.lists k).n_daily_current time = (m.lists k).n_daily_current time + 1 ∧
      (∀ d, d ≠ time → (m1.lists k).n_daily d = (m.lists k).n_daily d ∧
        (m1.lists k).n_daily_current d = (m.lists k).n_daily_current d) ∧
      (m1.lists k).n_current = (m.lists k).n_current ∧
      (m1.lists k).n_total = (m.lists k).n_total ∧
      (∀ k1, k1 ≠ k → m1.lists k1 = m.lists k1) := by
  have hlink : ∃ ev, link_event (set_individual
        (set_next (set_last m.events nx (some l)) l (some nx)) e (some indiv))
        ((m.lists k).n_daily_current time) ((m.lists k).events time) e = some ev ∧
      (ev e).individual = some indiv ∧
      (1 ≤ (m.lists k).n_daily_current time → (ev e).next = (m.lists k).events time) :=
    link_event_spec _ _ _ e indiv (by simp) hhead
  obtain ⟨ev, hev, hi, hn⟩ := hlink
  have hadd := add_individual_to_event_list_eq m _ k indiv time e ev
    (new_event_eq m e nx l hne hnx hl) hev
  refine ⟨_, hadd, hi, by simp, hn, by simp, by simp, ?_, by simp, by simp, ?_⟩
  · intro d hd; simp [Function.update_noteq hd]
  · intro k1 hk; simp [Function.update_noteq hk]

/-- C1 at a concrete pool: the second add to bucket (symptomatic, 3) of a pool of
six events returns event 1, owned by individual 8, with `next` on event 0. -/
theorem add_individual_to_event_list_spec_witness :
    ∃ m1, add_individual_to_event_list event_kind.symptomatic 8 3
        (pool_after 1 [pool_op.add event_kind.symptomatic 7 3]) = some (1, m1) ∧
      (m1.events 1).individual = some 8 ∧
      (m1.lists event_kind.symptomatic).events 3 = some 1 ∧
      (m1.events 1).next = some 0 ∧
      (m1.lists event_kind.symptomatic).n_daily 3 = 2 ∧
      (m1.lists event_kind.symptomatic).n_daily_current 3 = 2 := by
  obtain ⟨m1, h1, h2, h3, h4, h5, h6, _⟩ :=
    add_individual_to_event_list_spec (pool_after 1 [pool_op.add event_kind.symptomatic 7 3])
      event_kind.symptomatic 8 3 1 2 5 (by decide) (by decide) (by decide)
      (fun _ => ⟨0, by decide⟩)
  exact ⟨m1, h1, h2, h3, (h4 (by decide)).trans (by decide), h5.trans (by decide),
    h6.trans (by decide)⟩
/-- C2 as stated fails: removing the only event of bucket (symptomatic, 3) takes
the running total `n_current` of the list from 0 to -1. -/
theorem remove_event_changes_n_current :
    ((pool_after 1 [pool_op.add event_kind.symptomatic 7 3]).lists
        event_kind.symptomatic).n_current = 0 ∧
    (remove_event_from_event_list event_kind.symptomatic 0
        (pool_after 1 [pool_op.add event_kind.symptomatic 7 3]) 3).map
      (fun m => (m.lists event_kind.symptomatic).n_current) = some (-1) := by
  decide

/-- The first half of a remove succeeds when the links it follows are not
`NULL`, and leaves a `last` link on `next_event`. -/
theorem unlink_event_some (ev : Nat → event) (n : Int) (head : Option Nat) (e ne l : Nat)
    (hl : (ev ne).last = some l)
    (hlinks : n > 1 → some e ≠ head → ∃ p q, (ev e).last = some p ∧ (ev e).next = some q) :
    ∃ ev1 head1, unlink_event ev n head e = some (ev1, head1) ∧
      ∃ l1, (ev1 ne).last = some l1 := by
  by_cases h2 : n > 1
  · by_cases hh : some e = head
    · exact ⟨ev, (ev e).next, by simp [unlink_event, h2, hh.symm], l, hl⟩
    · obtain ⟨p, q, hp, hq⟩ := hlinks h2 hh
      refine ⟨set_last (set_next ev p (some q)) q (some p), head,
        by simp [unlink_event, h2, hh, hp, hq], ?_⟩
      by_cases hq1 : ne = q
      · exact ⟨p, by simp [hq1]⟩
      · exact ⟨l, by simp [hq1, hl]⟩
  · exact ⟨ev, none, by simp [unlink_event, h2], l, hl⟩

/-- Unfolding of `remove_event_from_event_list` once both halves are known to
succeed. -/
theorem remove_event_from_event_list_eq (m : model) (k : event_kind) (e time : Nat)
    (ev ev1 : Nat → event) (head : Option Nat)
    (hun : unlink_event m.events ((m.lists k).n_daily_current time)
      ((m.lists k).events time) e = some (ev, head))
    (hrel : release_event ev m.next_event e = some ev1) :
    remove_event_from_event_list k e m time = some
      { m with
        events := ev1
        lists := Function.update m.lists k
          { m.lists k with
            events := Function.update (m.lists k).events time head
            n_current := (m.lists k).n_current - 1
            n_daily_current := Function.update (m.lists k).n_daily_current time
              ((m.lists k).n_daily_current time - 1) } } := by
  simp [remove_event_from_event_list, hun, hrel]

/-- Unfolding of `release_event` when `next_event` has a `last` link. -/
theorem release_event_eq (ev : Nat → event) (e ne l : Nat) (hl : (ev ne).last = some l) :
    release_event ev (some ne) e = some
      (set_last (set_next (set_last (set_next ev l (some e)) e (some l)) e (some ne)) ne
        (some e)) := by
  simp [release_event, hl]

/-- C2, amended: when the pointers it follows are not `NULL`,
`remove_event_from_event_list` lowers `n_daily_current[time]` and the running
total `n_current` of the list by one each; `n_daily`, `n_total`, the counters of
the other days and the other lists are unchanged. -/
theorem remove_event_from_event_list_counters (m : model) (k : event_kind)
    (e time ne l : Nat) (hne : m.next_event = some ne)
    (hl : (m.events ne).last = some l)
    (hlinks : (m.lists k).n_daily_current time > 1 → some e ≠ (m.lists k).events time →
      ∃ p q, (m.events e).last = some p ∧ (m.events e).next = some q) :
    ∃ m1, remove_event_from_event_list k e m time = some m1 ∧
      (m1.lists k).n_daily_current time = (m.lists k).n_daily_current time - 1 ∧
      (m1.lists k).n_current = (m.lists k).n_current - 1 ∧
      (m1.lists k).n_daily = (m.lists k).n_daily ∧
      (m1.lists k).n_total = (m.lists k).n_total ∧
      (∀ d, d ≠ time → (m1.lists k).n_daily_current d = (m.lists k).n_daily_current d) ∧
      (∀ k1, k1 ≠ k → m1.lists k1 = m.lists k1) := by
  have hunlink : ∃ ev head, unlink_event m.events ((m.lists k).n_daily_current time)
      ((m.lists k).events time) e = some (ev, head) ∧ ∃ l1, (ev ne).last = some l1 :=
    unlink_event_some _ _ _ e ne l hl hlinks
  obtain ⟨ev, head, hev, l1, hl1⟩ := hunlink
  have hrem := remove_event_from_event_list_eq m k e time ev _ head hev
    (hne ▸ release_event_eq ev e ne l1 hl1)
  refine ⟨_, hrem, by simp, by simp, by simp, by simp, ?_, ?_⟩
  · intro d hd; simp [Function.update_noteq hd]
  · intro k1 hk; simp [Function.update_noteq hk]

/-- C2 amended, at a concrete pool: removing event 1 from bucket (symptomatic, 3)
holding events 2, 1, 0 leaves two events and a running total of -1. -/
theorem remove_event_from_event_list_counters_witness :
    ∃ m1, remove_event_from_event_list event_kind.symptomatic 1
        (pool_after 1 [pool_op.add event_kind.symptomatic 7 3,
          pool_op.add event_kind.symptomatic 8 3, pool_op.add event_kind.symptomatic 9 3]) 3
        = some m1 ∧
      (m1.lists event_kind.symptomatic).n_daily_current 3 = 2 ∧
      (m1.lists event_kind.symptomatic).n_current = -1 := by
  obtain ⟨m1, h1, h2, h3, _⟩ :=
    remove_event_from_event_list_counters
      (pool_after 1 [pool_op.add event_kind.symptomatic 7 3,
          pool_op.add event_kind.symptomatic 8 3, pool_op.add event_kind.symptomatic 9 3])
      event_kind.symptomatic 1 3 3 5 (by decide) (by decide)
      (fun _ _ => ⟨2, 0, by decide, by decide⟩)
  exact ⟨m1, h1, h2.trans (by decide), h3.trans (by decide)⟩

/-! ## Lists of events linked by `next` -/

theorem last_of_mem (a : Nat) (l : List Nat) : last_of a l ∈ a :: l := by
  induction l generalizing a with
  | nil => simp [last_of]
  | cons b r ih =>
    have := ih b
    simp only [last_of, List.mem_cons] at this ⊢
    tauto

theorem last_of_append (a x : Nat) (l : List Nat) : last_of a (l ++ [x]) = x := by
  induction l generalizing a with
  | nil => simp [last_of]
  | cons b r ih => simpa [last_of] using ih b

/-- A segment only depends on the `next` fields of its events. -/
theorem next_seg_congr (ev ev1 : Nat → event) (a z : Nat) (l : List Nat)
    (h : ∀ q ∈ a :: l, (ev1 q).next = (ev q).next) (hs : next_seg ev a l z) :
    next_seg ev1 a l z := by
  induction l generalizing a with
  | nil => simpa [next_seg, h a (by simp)] using hs
  | cons b r ih =>
    obtain ⟨h1, h2⟩ := hs
    refine ⟨by rw [h a (by simp)]; exact h1, ih b (fun q hq => h q ?_) h2⟩
    exact List.mem_cons_of_mem _ hq

/-- Redirecting the `next` of the last event of a segment redirects the segment. -/
theorem next_seg_redirect (ev : Nat → event) (a z z1 : Nat) (l : List Nat)
    (hnd : (a :: l).Nodup) (hs : next_seg ev a l z) :
    next_seg (set_next ev (last_of a l) (some z1)) a l z1 := by
  induction l generalizing a with
  | nil => simp [next_seg, last_of]
  | cons b r ih =>
    obtain ⟨h1, h2⟩ := hs
    have hab : a ≠ last_of b r := by
      intro h
      have hm := last_of_mem b r
      rw [← h] at hm
      exact (List.nodup_cons.mp hnd).1 hm
    refine ⟨by simp [last_of, hab, h1], ?_⟩
    exact ih b (List.nodup_cons.mp hnd).2 h2

/-- Appending an event to a segment: the old last event points to it and it
points to the target. -/
theorem next_seg_append (ev : Nat → event) (a z x : Nat) (l : List Nat)
    (hnd : (a :: l).Nodup) (hx : x ∉ a :: l) (hs : next_seg ev a l z) :
    next_seg (set_next (set_next ev (last_of a l) (some x)) x (some z)) a (l ++ [x]) z := by
  induction l generalizing a with
  | nil =>
    have hax : a ≠ x := by intro h; exact hx (by simp [h])
    simp [next_seg, last_of, hax]
  | cons b r ih =>
    obtain ⟨h1, h2⟩ := hs
    have hax : a ≠ x := by intro h; exact hx (by simp [h])
    have hab : a ≠ last_of b r := by
      intro h
      have hm := last_of_mem b r
      rw [← h] at hm
      exact (List.nodup_cons.mp hnd).1 hm
    refine ⟨by simp [last_of, hab, hax, h1], ?_⟩
    exact ih b (List.nodup_cons.mp hnd).2 (fun hm => hx (List.mem_cons_of_mem _ hm)) h2

/-- The events of a segment are what a walk from its first event finds. -/
theorem ring_from_of_next_seg (ev : Nat → event) (start a : Nat) (l : List Nat) (fuel : Nat)
    (hfuel : l.length < fuel) (hnot : start ∉ l) (hs : next_seg ev a l start) :
    ring_from ev start fuel a = a :: l := by
  induction l generalizing a fuel with
  | nil =>
    obtain ⟨n, rfl⟩ : ∃ n, fuel = n + 1 := ⟨fuel - 1, by simp at hfuel; omega⟩
    have hs1 : (ev a).next = some start := hs
    simp [ring_from, hs1]
  | cons b r ih =>
    obtain ⟨n, rfl⟩ : ∃ n, fuel = n + 1 := ⟨fuel - 1, by simp at hfuel; omega⟩
    obtain ⟨h1, h2⟩ := hs
    have hb : b ≠ start := by intro h; exact hnot (by simp [h])
    have := ih b n (by simp at hfuel; omega) (fun hm => hnot (List.mem_cons_of_mem _ hm)) h2
    simp [ring_from, h1, hb, this]

/-! ## Links of a bucket -/

/-- The first event of a linked part is the `next` of its predecessor. -/
theorem linked_next (ev : Nat → event) (D : List Nat) (p e : Nat) (r : List Nat)
    (h : linked ev D p (e :: r)) : (ev p).next = some e := by
  cases r with
  | nil => exact h.1
  | cons e1 r => exact h.1

/-- Dropping the first event of a linked part. -/
theorem linked_tail (ev : Nat → event) (D : List Nat) (p e : Nat) (r : List Nat)
    (h : linked ev D p (e :: r)) : linked ev D e r := by
  cases r with
  | nil => trivial
  | cons e1 r => exact h.2.2

/-- The links of a part only depend on the `next` of the predecessor and on the
links of the events of the part; the returned events may grow. -/
theorem linked_congr (ev ev1 : Nat → event) (D D1 : List Nat) (p : Nat) (l : List Nat)
    (hn : ∀ q ∈ p :: l, (ev1 q).next = (ev q).next)
    (hl : ∀ q ∈ l, (ev1 q).last = (ev q).last)
    (hD : ∀ y ∈ D, y ∈ D1) (h : linked ev D p l) : linked ev1 D1 p l := by
  induction l generalizing p with
  | nil => trivial
  | cons e r ih =>
    cases r with
    | nil =>
      obtain ⟨h1, h2⟩ := h
      refine ⟨by rw [hn p (by simp)]; exact h1, ?_⟩
      rw [hn e (by simp), hl e (by simp)]
      rcases h2 with ⟨h3, y, h4, h5⟩ | h3
      · exact Or.inl ⟨h3, y, h4, h5.imp_left (hD y)⟩
      · exact Or.inr h3
    | cons e1 r =>
      obtain ⟨h1, h2, h3⟩ := h
      refine ⟨by rw [hn p (by simp)]; exact h1, by rw [hl e (by simp)]; exact h2, ?_⟩
      exact ih e (fun q hq => hn q (List.mem_cons_of_mem _ hq))
        (fun q hq => hl q (List.mem_cons_of_mem _ hq)) h3

/-- Walking a linked part finds its events in order. -/
theorem walk_next_of_linked (ev : Nat → event) (D : List Nat) (p : Nat) (l : List Nat)
    (h : linked ev D p l) : walk_next ev l.length (ev p).next = some l := by
  induction l generalizing p with
  | nil => simp [walk_next]
  | cons e r ih =>
    rw [linked_next ev D p e r h]
    simp [walk_next, ih e (linked_tail ev D p e r h)]

/-- Walking a well-linked bucket from its head finds its events in order. -/
theorem walk_next_of_bucket_ok (ev : Nat → event) (D : List Nat) (l : List Nat)
    (h : bucket_ok ev D l) : walk_next ev l.length l.head? = some l := by
  cases l with
  | nil => simp [walk_next]
  | cons e r => simp [walk_next, walk_next_of_linked ev D e r h]

/-- Taking an event `x` out of the part `l` of a bucket that comes after `p`, as
the first half of a remove does it for an event that is not the head: `x` has
both links, the two writes leave the rest of the part linked, they touch the
`next` of an event of the bucket and the `last` of an event of the bucket or of
a returned event, and they leave the `last` of `p` alone while the part is not
emptied. -/
theorem linked_unlink (ev : Nat → event) (D D1 : List Nat) (x : Nat)
    (hD1 : ∀ y ∈ D, y ∈ D1) (hx1 : x ∈ D1) :
    ∀ (l : List Nat) (p : Nat), linked ev D p l → x ∈ l → (p :: l).Nodup →
      (∀ y ∈ D, y ∉ p :: l) →
      ∃ pr q, (ev x).last = some pr ∧ (ev x).next = some q ∧ pr ∈ p :: l ∧
        (q ∈ l ∨ q ∈ D ∨ q = p) ∧ (l.erase x ≠ [] → q ≠ p) ∧
        linked (set_last (set_next ev pr (some q)) q (some pr)) D1 p (l.erase x)
  | [], _, _, hx, _, _ => by simp at hx
  | [a], p, hl, hx, hnd, hD => by
    obtain rfl : x = a := by simpa using hx
    obtain ⟨_, h2⟩ := hl
    rcases h2 with ⟨h3, y, h4, h5⟩ | ⟨h3, h4⟩
    · refine ⟨p, y, h3, h4, by simp, ?_, by simp, by simp [linked]⟩
      rcases h5 with h5 | h5 | h5
      · exact Or.inr (Or.inl h5)
      · exact Or.inr (Or.inr h5)
      · exact Or.inl (by simp [h5])
    · exact ⟨x, x, h3, h4, by simp, by simp, by simp, by simp [linked]⟩
  | [a, c], p, hl, hx, hnd, hD => by
    have hpa : p ≠ a := by intro h; simp [h] at hnd
    have hpc : p ≠ c := by intro h; simp [h] at hnd
    have hac : a ≠ c := by intro h; simp [h] at hnd
    by_cases hxa : x = a
    · subst hxa
      obtain ⟨h1, h2, h3, h4⟩ := hl
      refine ⟨p, c, h2, h3, by simp, by simp, fun _ => hpc.symm, ?_⟩
      have he : [x, c].erase x = [c] := by simp
      rw [he]
      refine ⟨by simp, ?_⟩
      rcases h4 with ⟨_, y, h6, h7⟩ | ⟨_, h6⟩
      · refine Or.inl ⟨by simp, y, by simp [hpc.symm, h6], ?_⟩
        rcases h7 with h7 | h7 | h7
        · exact Or.inl (hD1 y h7)
        · exact Or.inl (h7 ▸ hx1)
        · exact Or.inr (Or.inr h7)
      · exact Or.inl ⟨by simp, c, by simp [hpc.symm, h6], Or.inr (Or.inr rfl)⟩
    · obtain rfl : x = c := by
        rcases List.mem_cons.mp hx with h | h
        · exact absurd h hxa
        · simpa using h
      obtain ⟨h1, h2, h3, h4⟩ := hl
      have he : [a, x].erase x = [a] := by
        rw [List.erase_cons_tail (by simpa using hac)]; simp
      rw [he]
      rcases h4 with ⟨h5, y, h6, h7⟩ | ⟨h5, h6⟩
      · refine ⟨a, y, h5, h6, by simp, ?_, ?_, ?_⟩
        · rcases h7 with h7 | h7 | h7
          · exact Or.inr (Or.inl h7)
          · exact Or.inl (by simp [h7])
          · exact Or.inl (by simp [h7])
        · intro _ hyp
          rcases h7 with h7 | h7 | h7
          · exact hD y h7 (by simp [hyp])
          · exact hpa (hyp.symm.trans h7)
          · exact hpc (hyp.symm.trans h7)
        · refine ⟨by simp [hpa, h1], ?_⟩
          rcases h7 with h7 | h7 | h7
          · have hay : a ≠ y := by intro h; exact hD y h7 (by simp [h])
            exact Or.inl ⟨by simp [hay, h2], y, by simp, Or.inl (hD1 y h7)⟩
          · exact Or.inr ⟨by simp [h7], by simp [h7]⟩
          · exact Or.inl ⟨by simp [h7, hac, h2], y, by simp, Or.inl (h7 ▸ hx1)⟩
      · refine ⟨x, x, h5, h6, by simp, by simp, fun _ => hpc.symm, ?_⟩
        exact ⟨by simp [hpc, h1], Or.inl ⟨by simp [hac, h2], x, by simp [hac, h3],
          Or.inl hx1⟩⟩
  | a :: c :: c1 :: r, p, hl, hx, hnd, hD => by
    have hpa : p ≠ a := by intro h; simp [h] at hnd
    have hpc : p ≠ c := by intro h; simp [h] at hnd
    have hac : a ≠ c := by intro h; simp [h] at hnd
    have hnd1 : (a :: c :: c1 :: r).Nodup := (List.nodup_cons.mp hnd).2
    obtain ⟨h1, h2, h3⟩ := hl
    by_cases hxa : x = a
    · subst hxa
      have hn := linked_next ev D x c (c1 :: r) h3
      refine ⟨p, c, h2, hn, by simp, by simp, fun _ => hpc.symm, ?_⟩
      have he : (x :: c :: c1 :: r).erase x = c :: c1 :: r := by simp
      rw [he]
      refine ⟨by simp, by simp, ?_⟩
      refine linked_congr ev _ D D1 c (c1 :: r) ?_ ?_ hD1 h3.2.2
      · intro q hq
        have hqp : q ≠ p := by
          intro h
          exact (List.nodup_cons.mp hnd).1 (h ▸ List.mem_cons_of_mem _ hq)
        simp [hqp]
      · intro q hq
        have hqc : q ≠ c := by
          intro h
          exact (List.nodup_cons.mp (List.nodup_cons.mp hnd1).2).1 (h ▸ hq)
        simp [hqc]
    · have hx2 : x ∈ c :: c1 :: r := by
        rcases List.mem_cons.mp hx with h | h
        · exact absurd h hxa
        · exact h
      obtain ⟨pr, q, g1, g2, g3, g4, g5, g6⟩ :=
        linked_unlink ev D D1 x hD1 hx1 (c :: c1 :: r) a h3 hx2 hnd1
          (fun y hy hm => hD y hy (List.mem_cons_of_mem _ hm))
      have hne : (c :: c1 :: r).erase x ≠ [] := by
        intro h
        have := congrArg List.length h
        rw [List.length_erase_of_mem hx2] at this
        simp at this
      have he : (a :: c :: c1 :: r).erase x = a :: (c :: c1 :: r).erase x := by
        rw [List.erase_cons_tail (by simpa using fun h => hxa h.symm)]
      have hq : q ∈ a :: c :: c1 :: r ∨ q ∈ D := by
        rcases g4 with h | h | h
        · exact Or.inl (List.mem_cons_of_mem _ h)
        · exact Or.inr h
        · exact Or.inl (by simp [h])
      have hqp : q ≠ p := by
        rcases hq with h | h
        · intro hh; exact (List.nodup_cons.mp hnd).1 (hh ▸ h)
        · intro hh; exact hD q h (by simp [hh])
      have hprp : p ≠ pr := by
        intro hh; exact (List.nodup_cons.mp hnd).1 (hh ▸ g3)
      refine ⟨pr, q, g1, g2, List.mem_cons_of_mem _ g3, ?_, fun _ => hqp, ?_⟩
      · rcases hq with h | h
        · exact Or.inl h
        · exact Or.inr (Or.inl h)
      · rw [he]
        obtain ⟨e1, E, hE⟩ : ∃ e1 E, (c :: c1 :: r).erase x = e1 :: E := by
          cases h : (c :: c1 :: r).erase x with
          | nil => exact absurd h hne
          | cons e1 E => exact ⟨e1, E, rfl⟩
        rw [hE] at g6 ⊢
        exact ⟨by simp [hprp, h1], by simp [(g5 hne).symm, h2], g6⟩

/-! ## Writes away from an event -/

theorem set_next_of_ne (ev : Nat → event) (p q : Nat) (v : Option Nat) (h : q ≠ p) :
    set_next ev p v q = ev q := by
  simp [set_next, h]

theorem set_last_of_ne (ev : Nat → event) (p q : Nat) (v : Option Nat) (h : q ≠ p) :
    set_last ev p v q = ev q := by
  simp [set_last, h]

theorem set_individual_of_ne (ev : Nat → event) (p q : Nat) (v : Option Nat) (h : q ≠ p) :
    set_individual ev p v q = ev q := by
  simp [set_individual, h]

/-- A bucket stays well linked when the memory of its events is unchanged. -/
theorem bucket_ok_congr (ev ev1 : Nat → event) (D D1 : List Nat) (l : List Nat)
    (h : ∀ q ∈ l, ev1 q = ev q) (hD : ∀ y ∈ D, y ∈ D1) (hok : bucket_ok ev D l) :
    bucket_ok ev1 D1 l := by
  cases l with
  | nil => trivial
  | cons e r =>
    exact linked_congr ev ev1 D D1 e r (fun q hq => by rw [h q hq])
      (fun q hq => by rw [h q (List.mem_cons_of_mem _ hq)]) hD hok

/-- The pointer writes of an add on a well-linked bucket `l`: they succeed,
leave `f :: l` well linked and only touch `f` and the old head. -/
theorem link_event_bucket (ev : Nat → event) (D : List Nat) (f : Nat) (l : List Nat)
    (head : Option Nat) (hhd : l ≠ [] → head = l.head?)
    (hok : bucket_ok ev D l) (hf : f ∉ l) (hnd : l.Nodup) :
    ∃ ev1, link_event ev (l.length : Int) head f = some ev1 ∧ bucket_ok ev1 D (f :: l) ∧
      (∀ q, q ≠ f → l.head? ≠ some q → ev1 q = ev q) := by
  match l, hhd, hok, hf, hnd with
  | [], _, _, _, _ =>
    exact ⟨ev, by simp [link_event], trivial, fun _ _ _ => rfl⟩
  | [h], hhd, _, hf, _ =>
    obtain rfl := hhd (by simp)
    have hfh : f ≠ h := by intro hh; exact hf (by simp [hh])
    refine ⟨set_last (set_next (set_last (set_next ev h (some f)) h (some f)) f (some h)) f
      (some h), by simp [link_event], ?_, ?_⟩
    · exact ⟨by simp, Or.inl ⟨by simp [hfh.symm], f, by simp [hfh.symm], Or.inr (Or.inl rfl)⟩⟩
    · intro q hq1 hq2
      have hqh : q ≠ h := by intro hh; exact hq2 (by simp [hh])
      simp [set_next, set_last, hq1, hqh]
  | h :: h2 :: r, hhd, hok, hf, hnd =>
    obtain rfl := hhd (by simp)
    have hfh : f ≠ h := by intro hh; exact hf (by simp [hh])
    have hlen : ((h :: h2 :: r).length : Int) > 1 := by
      simp only [List.length_cons]; push_cast; omega
    refine ⟨set_next (set_last ev h (some f)) f (some h), by simp [link_event, hlen], ?_, ?_⟩
    · refine ⟨by simp, by simp [hfh.symm], ?_⟩
      refine linked_congr ev _ D D h (h2 :: r) ?_ ?_ (fun _ hy => hy) hok
      · intro q hq
        have hqf : q ≠ f := by intro hh; exact hf (hh ▸ hq)
        simp [hqf]
      · intro q hq
        have hqh : q ≠ h := by intro hh; exact (List.nodup_cons.mp hnd).1 (hh ▸ hq)
        simp [hqh]
    · intro q hq1 hq2
      have hqh : q ≠ h := by intro hh; exact hq2 (by simp [hh])
      simp [set_next, set_last, hq1, hqh]

/-- The first half of a remove on a well-linked bucket `l` that holds `x`: it
succeeds, yields the head of `l.erase x`, leaves `l.erase x` well linked, and
only touches events of `l` and the `last` of returned events. -/
theorem unlink_event_bucket (ev : Nat → event) (D D1 : List Nat) (x : Nat) (l : List Nat)
    (hok : bucket_ok ev D l) (hx : x ∈ l) (hnd : l.Nodup) (hD : ∀ y ∈ D, y ∉ l)
    (hD1 : ∀ y ∈ D, y ∈ D1) (hx1 : x ∈ D1) :
    ∃ ev1, unlink_event ev (l.length : Int) l.head? x = some (ev1, (l.erase x).head?) ∧
      bucket_ok ev1 D1 (l.erase x) ∧
      (∀ q, q ∉ l → (ev1 q).next = (ev q).next) ∧
      (∀ q, q ∉ l → q ∉ D → ev1 q = ev q) := by
  match l, hok, hx, hnd, hD with
  | [], _, hx, _, _ => simp at hx
  | [a], _, hx, _, _ =>
    obtain rfl : x = a := by simpa using hx
    exact ⟨ev, by simp [unlink_event], by simp [bucket_ok], fun _ _ => rfl, fun _ _ _ => rfl⟩
  | a :: c :: r, hok, hx, hnd, hD =>
    have hlen : ((a :: c :: r).length : Int) > 1 := by
      simp only [List.length_cons]; push_cast; omega
    by_cases hxa : x = a
    · subst hxa
      have hn := linked_next ev D x c r hok
      refine ⟨ev, by simp [unlink_event, hlen, hn], ?_, fun _ _ => rfl, fun _ _ _ => rfl⟩
      have he : (x :: c :: r).erase x = c :: r := by simp
      rw [he]
      exact linked_congr ev ev D D1 c r (fun _ _ => rfl) (fun _ _ => rfl) hD1
        (linked_tail ev D x c r hok)
    · have hx2 : x ∈ c :: r := by
        rcases List.mem_cons.mp hx with h | h
        · exact absurd h hxa
        · exact h
      obtain ⟨pr, q, g1, g2, g3, g4, _, g6⟩ :=
        linked_unlink ev D D1 x hD1 hx1 (c :: r) a hok hx2 hnd hD
      have he : (a :: c :: r).erase x = a :: (c :: r).erase x := by
        rw [List.erase_cons_tail (by simpa using fun h => hxa h.symm)]
      have hxh : some x ≠ (a :: c :: r).head? := by simpa using hxa
      have hq1 : (set_next ev pr (some q) x).next = some q := by
        by_cases h : x = pr <;> simp [h, g2]
      have hq2 : (set_next ev pr (some q) x).last = some pr := by simp [g1]
      refine ⟨set_last (set_next ev pr (some q)) q (some pr), ?_, ?_, ?_, ?_⟩
      · unfold unlink_event
        rw [if_pos hlen, if_pos hxh]
        simp [g1, g2, hq1, hq2, he]
      · rw [he]; exact g6
      · intro z hz
        have hzp : z ≠ pr := by intro hh; exact hz (hh ▸ g3)
        simp [hzp]
      · intro z hz hzD
        have hzp : z ≠ pr := by intro hh; exact hz (hh ▸ g3)
        have hzq : z ≠ q := by
          intro hh
          rcases g4 with h | h | h
          · exact hz (hh ▸ List.mem_cons_of_mem _ h)
          · exact hzD (hh ▸ h)
          · exact hz (by simp [hh, h])
        simp [set_next, set_last, hzp, hzq]

/-! ## The invariant is kept by an add and by a remove -/

@[simp] theorem buckets_set_same (b : buckets) (k : event_kind) (d : Nat) (l : List Nat) :
    b.set k d l k d = l := by
  simp [buckets.set]

theorem buckets_set_other (b : buckets) (k k1 : event_kind) (d d1 : Nat) (l : List Nat)
    (h : ¬(k1 = k ∧ d1 = d)) : b.set k d l k1 d1 = b k1 d1 := by
  simp [buckets.set, h]

/-- An add on a pool with two events never handed out: it returns the first of
them and the invariant holds again with that event in front of its bucket. -/
theorem pool_inv_add (m : model) (b : buckets) (f g : Nat) (fs dead : List Nat)
    (k : event_kind) (indiv time : Nat) (hinv : pool_inv m b (f :: g :: fs) dead) :
    ∃ m1, add_individual_to_event_list k indiv time m = some (f, m1) ∧
      m1.params = m.params ∧
      pool_inv m1 (b.set k time (f :: b k time)) (g :: fs) dead := by
  obtain ⟨f0, fs0, hfr, hne, hseg, hlast⟩ := hinv.ring
  obtain ⟨rfl, rfl⟩ : f = f0 ∧ g :: fs = fs0 := by simpa using hfr
  have hnd := hinv.nodup_ring
  have hnd1 : (f :: (g :: (fs ++ dead))).Nodup := by simpa using hnd
  have hnd2 : (g :: (fs ++ dead)).Nodup := (List.nodup_cons.mp hnd1).2
  have hfg : f ≠ g := by intro h; simp [h] at hnd1
  obtain ⟨hfn, hseg1⟩ : (m.events f).next = some g ∧ next_seg m.events g (fs ++ dead) f := hseg
  have hL : last_of f ((g :: fs) ++ dead) = last_of g (fs ++ dead) := rfl
  rw [hL] at hlast
  have hLmem := last_of_mem g (fs ++ dead)
  have hfL : f ≠ last_of g (fs ++ dead) := by
    intro h; rw [← h] at hLmem; exact (List.nodup_cons.mp hnd1).1 hLmem
  have hnew := new_event_eq m f g _ hne hfn hlast
  -- events of the buckets are not in the ring
  have hring : ∀ k1 d1 q, q ∈ b k1 d1 → q ≠ f ∧ q ∉ g :: (fs ++ dead) := by
    intro k1 d1 q hq
    have := hinv.disj_ring k1 d1 q hq
    simp only [List.cons_append, List.mem_cons, not_or] at this ⊢
    exact ⟨this.1, this.2⟩
  have hfb : f ∉ b k time := fun h => (hring k time f h).1 rfl
  -- memory after `new_event` and the owner write, on events outside the ring
  have hI : ∀ q, q ≠ f → q ∉ g :: (fs ++ dead) →
      set_individual (set_next (set_last m.events g (some (last_of g (fs ++ dead))))
        (last_of g (fs ++ dead)) (some g)) f (some indiv) q = m.events q := by
    intro q hqf hq
    have hqg : q ≠ g := by intro h; exact hq (by simp [h])
    have hqL : q ≠ last_of g (fs ++ dead) := by intro h; exact hq (h ▸ hLmem)
    simp [set_individual, set_next, set_last, hqf, hqg, hqL]
  obtain ⟨ev1, hlink, hok1, hfr1⟩ := link_event_bucket
    (set_individual (set_next (set_last m.events g (some (last_of g (fs ++ dead))))
        (last_of g (fs ++ dead)) (some g)) f (some indiv)) dead f (b k time)
    ((m.lists k).events time) (hinv.head k time)
    (bucket_ok_congr m.events _ dead dead (b k time)
      (fun q hq => hI q (hring k time q hq).1 (hring k time q hq).2) (fun _ h => h)
      (hinv.links k time)) hfb (hinv.nodup_bucket k time)
  have hadd := add_individual_to_event_list_eq m _ k indiv time f ev1 hnew
    (by simpa [hinv.count k time] using hlink)
  refine ⟨_, hadd, rfl, ?_⟩
  -- the old head of the bucket is an event of the bucket
  have hhead : ∀ q, (b k time).head? = some q → q ∈ b k time := by
    intro q hq
    cases hb : b k time with
    | nil => simp [hb] at hq
    | cons a r => simp [hb] at hq; simp [hq]
  constructor
  · refine ⟨g, fs, rfl, rfl, ?_, ?_⟩
    · refine next_seg_congr _ _ g g (fs ++ dead) ?_
        (next_seg_redirect m.events g f g (fs ++ dead) hnd2 hseg1)
      intro q hq
      have hqf : q ≠ f := by intro h; exact (List.nodup_cons.mp hnd1).1 (h ▸ hq)
      have hqh : (b k time).head? ≠ some q := by
        intro h; exact (hring k time q (hhead q h)).2 hq
      show (ev1 q).next = _
      rw [hfr1 q hqf hqh]
      simp
    · have hgh : (b k time).head? ≠ some g := by
        intro h; exact (hring k time g (hhead g h)).2 (by simp)
      show (ev1 g).last = _
      rw [hfr1 g hfg.symm hgh]
      have hgL : g = last_of g (fs ++ dead) ∨ g ≠ last_of g (fs ++ dead) := em _
      rcases hgL with h | h <;> simp
  · simpa using hnd2
  · intro k1 d1
    by_cases hk : k1 = k ∧ d1 = time
    · obtain ⟨rfl, rfl⟩ := hk
      simpa using ⟨hfb, hinv.nodup_bucket k1 d1⟩
    · rw [buckets_set_other b k k1 time d1 _ hk]; exact hinv.nodup_bucket k1 d1
  · intro k1 d1 e he
    by_cases hk : k1 = k ∧ d1 = time
    · obtain ⟨rfl, rfl⟩ := hk
      rw [buckets_set_same] at he
      rcases List.mem_cons.mp he with rfl | he
      · simpa using (List.nodup_cons.mp hnd1).1
      · simpa using (hring k1 d1 e he).2
    · rw [buckets_set_other b k k1 time d1 _ hk] at he
      simpa using (hring k1 d1 e he).2
  · intro k1 d1 k2 d2 e he1 he2
    by_cases hk1 : k1 = k ∧ d1 = time
    · by_cases hk2 : k2 = k ∧ d2 = time
      · exact ⟨hk1.1.trans hk2.1.symm, hk1.2.trans hk2.2.symm⟩
      · rw [buckets_set_other b k k2 time d2 _ hk2] at he2
        obtain ⟨rfl, rfl⟩ := hk1
        rw [buckets_set_same] at he1
        rcases List.mem_cons.mp he1 with rfl | he1
        · exact absurd rfl (hring k2 d2 e he2).1
        · exact hinv.disj_bucket _ _ _ _ e he1 he2
    · rw [buckets_set_other b k k1 time d1 _ hk1] at he1
      by_cases hk2 : k2 = k ∧ d2 = time
      · obtain ⟨rfl, rfl⟩ := hk2
        rw [buckets_set_same] at he2
        rcases List.mem_cons.mp he2 with rfl | he2
        · exact absurd rfl (hring k1 d1 e he1).1
        · exact hinv.disj_bucket _ _ _ _ e he1 he2
      · rw [buckets_set_other b k k2 time d2 _ hk2] at he2
        exact hinv.disj_bucket _ _ _ _ e he1 he2
  · intro k1 d1
    by_cases hk : k1 = k ∧ d1 = time
    · obtain ⟨rfl, rfl⟩ := hk
      intro _
      simp
    · rw [buckets_set_other b k k1 time d1 _ hk]
      intro hne1
      by_cases hk1 : k1 = k
      · subst hk1
        have hd : d1 ≠ time := fun h => hk ⟨rfl, h⟩
        simpa [Function.update_noteq hd] using hinv.head k1 d1 hne1
      · simpa [Function.update_noteq hk1] using hinv.head k1 d1 hne1
  · intro k1 d1
    by_cases hk : k1 = k ∧ d1 = time
    · obtain ⟨rfl, rfl⟩ := hk
      simp [hinv.count k1 d1]
    · rw [buckets_set_other b k k1 time d1 _ hk]
      by_cases hk1 : k1 = k
      · subst hk1
        have hd : d1 ≠ time := fun h => hk ⟨rfl, h⟩
        simpa [Function.update_noteq hd] using hinv.count k1 d1
      · simpa [Function.update_noteq hk1] using hinv.count k1 d1
  · intro k1 d1
    by_cases hk : k1 = k ∧ d1 = time
    · obtain ⟨rfl, rfl⟩ := hk
      rw [buckets_set_same]; exact hok1
    · rw [buckets_set_other b k k1 time d1 _ hk]
      refine bucket_ok_congr m.events _ dead dead (b k1 d1) ?_ (fun _ h => h)
        (hinv.links k1 d1)
      intro q hq
      have hqh : (b k time).head? ≠ some q := by
        intro h
        exact hk (hinv.disj_bucket _ _ _ _ q hq (hhead q h))
      show ev1 q = _
      rw [hfr1 q (hring k1 d1 q hq).1 hqh]
      exact hI q (hring k1 d1 q hq).1 (hring k1 d1 q hq).2

/-- A remove of an event of the named bucket: it succeeds and the invariant
holds again with the event erased from its bucket and appended to the returned
events. -/
theorem pool_inv_remove (m : model) (b : buckets) (fresh dead : List Nat)
    (k : event_kind) (x time : Nat) (hinv : pool_inv m b fresh dead) (hx : x ∈ b k time) :
    ∃ m1, remove_event_from_event_list k x m time = some m1 ∧
      m1.params = m.params ∧
      pool_inv m1 (b.set k time ((b k time).erase x)) fresh (dead ++ [x]) := by
  obtain ⟨f, fs, rfl, hne, hseg, hlast⟩ := hinv.ring
  have hnd := hinv.nodup_ring
  have hnd1 : (f :: (fs ++ dead)).Nodup := by simpa using hnd
  have hLmem := last_of_mem f (fs ++ dead)
  -- events of the buckets are not in the ring
  have hring : ∀ k1 d1 q, q ∈ b k1 d1 → q ∉ f :: (fs ++ dead) := by
    intro k1 d1 q hq
    simpa using hinv.disj_ring k1 d1 q hq
  have hdead : ∀ y ∈ dead, y ∈ f :: (fs ++ dead) := by
    intro y hy; simp [hy]
  have hxr : x ∉ f :: (fs ++ dead) := hring k time x hx
  have hxf : x ≠ f := by intro h; exact hxr (by simp [h])
  have hxL : x ≠ last_of f (fs ++ dead) := by intro h; exact hxr (h ▸ hLmem)
  obtain ⟨ev1, hun, hok1, hn1, hfr1⟩ := unlink_event_bucket m.events dead (dead ++ [x]) x
    (b k time) (hinv.links k time) hx (hinv.nodup_bucket k time)
    (fun y hy hm => hring k time y hm (hdead y hy)) (fun y hy => by simp [hy]) (by simp)
  have hfb : f ∉ b k time := fun h => hring k time f h (by simp)
  have hfd : f ∉ dead := by
    intro h
    have : f ∈ fs ++ dead := by simp [h]
    exact (List.nodup_cons.mp hnd1).1 this
  have hlast1 : (ev1 f).last = some (last_of f (fs ++ dead)) := by
    rw [hfr1 f hfb hfd]; exact hlast
  have hrel := release_event_eq ev1 x f _ hlast1
  have hrem := remove_event_from_event_list_eq m k x time ev1 _ ((b k time).erase x).head?
    (by simpa [hinv.count k time, hinv.head k time (List.ne_nil_of_mem hx)] using hun)
    (by rw [hne]; exact hrel)
  refine ⟨_, hrem, rfl, ?_⟩
  -- memory after the release, away from `x` and from the two ends of the ring
  have hR : ∀ q, q ≠ x → q ≠ f → q ≠ last_of f (fs ++ dead) →
      set_last (set_next (set_last (set_next ev1 (last_of f (fs ++ dead)) (some x)) x
        (some (last_of f (fs ++ dead)))) x (some f)) f (some x) q = ev1 q := by
    intro q h1 h2 h3
    simp [set_next, set_last, h1, h2, h3]
  have herase : ∀ q, q ∈ (b k time).erase x → q ∈ b k time ∧ q ≠ x := by
    intro q hq
    exact ⟨List.mem_of_mem_erase hq,
      fun h => (List.Nodup.mem_erase_iff (hinv.nodup_bucket k time)).mp hq |>.1 h⟩
  constructor
  · refine ⟨f, fs, rfl, hne, ?_, ?_⟩
    · have hs1 : next_seg ev1 f (fs ++ dead) f :=
        next_seg_congr m.events ev1 f f (fs ++ dead)
          (fun q hq => hn1 q (fun hm => hring k time q hm hq)) hseg
      have hs2 := next_seg_append ev1 f f x (fs ++ dead) hnd1 hxr hs1
      rw [← List.append_assoc]
      refine next_seg_congr _ _ f f ((fs ++ dead) ++ [x]) ?_ hs2
      intro q _
      simp
    · show (set_last _ f (some x) f).last = _
      rw [← List.append_assoc, last_of_append]
      simp
  · have : (f :: ((fs ++ dead) ++ [x])).Nodup := by
      rw [← List.cons_append]
      refine List.Nodup.append hnd1 (by simp) ?_
      intro a ha hax
      simp only [List.mem_singleton] at hax
      exact hxr (hax ▸ ha)
    simpa using this
  · intro k1 d1
    by_cases hk : k1 = k ∧ d1 = time
    · obtain ⟨rfl, rfl⟩ := hk
      rw [buckets_set_same]; exact (hinv.nodup_bucket k1 d1).erase x
    · rw [buckets_set_other b k k1 time d1 _ hk]; exact hinv.nodup_bucket k1 d1
  · intro k1 d1 e he
    have he1 : e ∈ b k1 d1 ∧ (k1 = k ∧ d1 = time → e ≠ x) := by
      by_cases hk : k1 = k ∧ d1 = time
      · obtain ⟨rfl, rfl⟩ := hk
        rw [buckets_set_same] at he
        exact ⟨(herase e he).1, fun _ => (herase e he).2⟩
      · rw [buckets_set_other b k k1 time d1 _ hk] at he
        exact ⟨he, fun h => absurd h hk⟩
    have h1 := hring k1 d1 e he1.1
    have hex : e ≠ x := by
      intro h
      by_cases hk : k1 = k ∧ d1 = time
      · exact he1.2 hk h
      · exact hk (hinv.disj_bucket _ _ _ _ e he1.1 (h ▸ hx))
    intro hm
    rw [show (f :: fs) ++ (dead ++ [x]) = (f :: (fs ++ dead)) ++ [x] by simp] at hm
    rcases List.mem_append.mp hm with h | h
    · exact h1 h
    · exact hex (by simpa using h)
  · intro k1 d1 k2 d2 e he1 he2
    have h1 : e ∈ b k1 d1 := by
      by_cases hk : k1 = k ∧ d1 = time
      · obtain ⟨rfl, rfl⟩ := hk
        rw [buckets_set_same] at he1; exact (herase e he1).1
      · rw [buckets_set_other b k k1 time d1 _ hk] at he1; exact he1
    have h2 : e ∈ b k2 d2 := by
      by_cases hk : k2 = k ∧ d2 = time
      · obtain ⟨rfl, rfl⟩ := hk
        rw [buckets_set_same] at he2; exact (herase e he2).1
      · rw [buckets_set_other b k k2 time d2 _ hk] at he2; exact he2
    exact hinv.disj_bucket _ _ _ _ e h1 h2
  · intro k1 d1
    by_cases hk : k1 = k ∧ d1 = time
    · obtain ⟨rfl, rfl⟩ := hk
      intro _
      simp
    · rw [buckets_set_other b k k1 time d1 _ hk]
      intro hne1
      by_cases hk1 : k1 = k
      · subst hk1
        have hd : d1 ≠ time := fun h => hk ⟨rfl, h⟩
        simpa [Function.update_noteq hd] using hinv.head k1 d1 hne1
      · simpa [Function.update_noteq hk1] using hinv.head k1 d1 hne1
  · intro k1 d1
    by_cases hk : k1 = k ∧ d1 = time
    · obtain ⟨rfl, rfl⟩ := hk
      have hpos : 0 < (b k1 d1).length := List.length_pos_of_mem hx
      simp [hinv.count k1 d1, List.length_erase_of_mem hx]
      omega
    · rw [buckets_set_other b k k1 time d1 _ hk]
      by_cases hk1 : k1 = k
      · subst hk1
        have hd : d1 ≠ time := fun h => hk ⟨rfl, h⟩
        simpa [Function.update_noteq hd] using hinv.count k1 d1
      · simpa [Function.update_noteq hk1] using hinv.count k1 d1
  · intro k1 d1
    by_cases hk : k1 = k ∧ d1 = time
    · obtain ⟨rfl, rfl⟩ := hk
      rw [buckets_set_same]
      refine bucket_ok_congr ev1 _ (dead ++ [x]) (dead ++ [x]) _ ?_ (fun _ h => h) hok1
      intro q hq
      have hq1 := hring k1 d1 q (herase q hq).1
      exact hR q (herase q hq).2 (fun h => hq1 (by simp [h])) (fun h => hq1 (h ▸ hLmem))
    · rw [buckets_set_other b k k1 time d1 _ hk]
      refine bucket_ok_congr m.events _ dead (dead ++ [x]) (b k1 d1) ?_
        (fun y hy => by simp [hy]) (hinv.links k1 d1)
      intro q hq
      have hq1 := hring k1 d1 q hq
      have hqx : q ≠ x := by
        intro h
        exact hk (hinv.disj_bucket _ _ _ _ q hq (h ▸ hx))
      have hqb : q ∉ b k time := fun h => hk (hinv.disj_bucket _ _ _ _ q hq h)
      have hqd : q ∉ dead := fun h => hq1 (hdead q h)
      show set_last _ f (some x) q = _
      rw [hR q hqx (fun h => hq1 (by simp [h])) (fun h => hq1 (h ▸ hLmem))]
      exact hfr1 q hqb hqd

/-! ## Counting the events of the buckets -/

/-- Changing one summand of a sum over a list without repetition. -/
theorem sum_map_change {α : Type} (L : List α) (a : α) (f g : α → Int) (hnd : L.Nodup)
    (ha : a ∈ L) (h : ∀ y, y ≠ a → g y = f y) :
    (L.map g).sum = (L.map f).sum - f a + g a := by
  induction L with
  | nil => simp at ha
  | cons c r ih =>
    have hc := List.nodup_cons.mp hnd
    by_cases hca : c = a
    · subst hca
      have hr : r.map g = r.map f := by
        apply List.map_congr_left
        intro y hy
        exact h y (fun hyc => hc.1 (hyc ▸ hy))
      simp only [List.map_cons, List.sum_cons, hr]
      ring
    · have har : a ∈ r := by
        rcases List.mem_cons.mp ha with h1 | h1
        · exact absurd h1.symm hca
        · exact h1
      simp only [List.map_cons, List.sum_cons, ih hc.2 har, h c hca]
      ring

theorem mem_all_kinds (k : event_kind) : k ∈ all_kinds := by
  cases k <;> simp [all_kinds]

theorem all_kinds_nodup : all_kinds.Nodup := by
  decide

/-- Replacing one bucket of a day below `ndays` changes the total by the
difference of the lengths. -/
theorem bucket_total_set (b : buckets) (k : event_kind) (t ndays : Nat) (l : List Nat)
    (ht : t < ndays) :
    bucket_total (b.set k t l) ndays = bucket_total b ndays - (b k t).length + l.length := by
  unfold bucket_total
  rw [sum_map_change all_kinds k
    (fun k1 => ((List.range ndays).map (fun d => ((b k1 d).length : Int))).sum)
    (fun k1 => ((List.range ndays).map (fun d => ((b.set k t l k1 d).length : Int))).sum)
    all_kinds_nodup (mem_all_kinds k)]
  · rw [sum_map_change (List.range ndays) t (fun d => ((b k d).length : Int))
      (fun d => ((b.set k t l k d).length : Int)) (List.nodup_range ndays)
      (List.mem_range.mpr ht)]
    · simp only [buckets_set_same]
      ring
    · intro d hd
      rw [buckets_set_other b k k t d l (fun h => hd h.2)]
  · intro k1 hk1
    congr 1
    apply List.map_congr_left
    intro d _
    rw [buckets_set_other b k k1 t d l (fun h => hk1 h.1)]

theorem bucket_total_nonneg (b : buckets) (ndays : Nat) : 0 ≤ bucket_total b ndays := by
  unfold bucket_total
  apply List.sum_nonneg
  intro x hx
  obtain ⟨k, _, rfl⟩ := List.mem_map.mp hx
  apply List.sum_nonneg
  intro y hy
  obtain ⟨d, _, rfl⟩ := List.mem_map.mp hy
  exact Int.natCast_nonneg _

/-- Under the invariant the counters of the code add up to the number of events
of the buckets. -/
theorem live_count_eq_bucket_total (m : model) (b : buckets) (fresh dead : List Nat)
    (hinv : pool_inv m b fresh dead) (ndays : Nat) :
    live_count m ndays = bucket_total b ndays := by
  unfold live_count bucket_total
  congr 1
  apply List.map_congr_left
  intro k _
  congr 1
  apply List.map_congr_left
  intro d _
  exact hinv.count k d

/-! ## The pool of `set_up_events` -/

/-- The loop of `set_up_events` after `k` rounds: the first `k` events have
`next` on their successor. -/
theorem set_up_events_loop_next (k i : Nat) (hi : i < k) :
    (((List.range k).foldl
      (fun ev i => set_last (set_next ev i (some (i + 1))) (i + 1) (some i)) calloc_events)
      i).next = some (i + 1) := by
  induction k with
  | zero => omega
  | succ n ih =>
    rw [List.range_succ, List.foldl_append]
    simp only [List.foldl_cons, List.foldl_nil, set_last_next, set_next_next]
    by_cases h : i = n
    · simp [h]
    · simp only [h, if_false]
      exact ih (by omega)

/-- Consecutive events linked by `next`, the last one back to event 0. -/
theorem next_seg_range (ev : Nat → event) (M : Nat)
    (hnext : ∀ i, i + 1 < M → (ev i).next = some (i + 1))
    (hwrap : (ev (M - 1)).next = some 0) :
    ∀ (n a : Nat), a + n + 1 = M → next_seg ev a (List.range' (a + 1) n) 0
  | 0, a, h => by
    have : a = M - 1 := by omega
    simpa [next_seg, this] using hwrap
  | n + 1, a, h => by
    rw [List.range'_succ]
    exact ⟨hnext a (by omega), next_seg_range ev M hnext hwrap n (a + 1) (by omega)⟩

theorem last_of_range (n a : Nat) : last_of a (List.range' (a + 1) n) = a + n := by
  induction n generalizing a with
  | zero => simp [last_of]
  | succ n ih =>
    rw [List.range'_succ]
    simp only [last_of]
    rw [ih (a + 1)]
    omega

/-- The pool built by `set_up_events` on lists whose counters are zero satisfies
the invariant, with every event never handed out and every bucket empty. -/
theorem pool_inv_init (m0 m : model) (hm : set_up_events m0 = some m)
    (hzero : ∀ k d, (m0.lists k).n_daily_current d = 0) :
    m.params = m0.params ∧ 0 < m0.params.n_total ∧
      pool_inv m (fun _ _ => []) (List.range' 0 (6 * m0.params.n_total)) [] := by
  unfold set_up_events at hm
  by_cases hn : 6 * m0.params.n_total = 0
  · simp [hn] at hm
  · simp only [hn, if_false, Option.some.injEq] at hm
    subst hm
    refine ⟨rfl, by omega, ?_⟩
    obtain ⟨M, hM⟩ : ∃ M, 6 * m0.params.n_total = M + 1 := ⟨6 * m0.params.n_total - 1, by omega⟩
    rw [hM]
    constructor
    · refine ⟨0, List.range' 1 M, by rw [List.range'_succ], rfl, ?_, ?_⟩
      · rw [List.append_nil]
        refine next_seg_range _ (M + 1) ?_ ?_ M 0 (by omega)
        · intro i hi
          have hiM : i ≠ M := by omega
          simp only [set_last_next, set_next_next, Nat.add_sub_cancel, hiM, if_false]
          exact set_up_events_loop_next M i (by omega)
        · simp
      · rw [List.append_nil]
        have := last_of_range M 0
        simp only [Nat.zero_add] at this
        simp [this]
    · simpa using List.nodup_range' 0 (M + 1)
    · intro _ _; exact List.nodup_nil
    · intro _ _ e he; simp at he
    · intro _ _ _ _ e he; simp at he
    · intro _ _ h; exact absurd rfl h
    · intro k d; simpa using hzero k d
    · intro _ _; trivial

/-! ## Sequences of adds and removes -/

/-- A sequence of operations with valid removes and fewer adds than there are
events never handed out: it runs to the end, the invariant holds at the end,
each add used up one event never handed out, and the events of the ring and of
the buckets are as many as before. -/
theorem pool_run_inv : ∀ (ops : List pool_op) (m : model) (b : buckets) (fresh dead : List Nat),
    pool_inv m b fresh dead → removes_valid (m, b) ops = true →
    count_adds ops < fresh.length →
    ∃ m1 b1 fresh1 dead1, pool_run (m, b) ops = some (m1, b1) ∧ m1.params = m.params ∧
      pool_inv m1 b1 fresh1 dead1 ∧ fresh1.length + count_adds ops = fresh.length ∧
      ∀ ndays, (∀ op ∈ ops, op_day op < ndays) →
        bucket_total b1 ndays + ((fresh1 ++ dead1).length : Int) =
          bucket_total b ndays + ((fresh ++ dead).length : Int)
  | [], m, b, fresh, dead, hinv, _, _ =>
    ⟨m, b, fresh, dead, rfl, rfl, hinv, by simp [count_adds], fun _ _ => rfl⟩
  | pool_op.add k indiv time :: ops, m, b, fresh, dead, hinv, hval, hadds => by
    obtain ⟨f, g, fs, rfl⟩ : ∃ f g fs, fresh = f :: g :: fs := by
      match fresh, hadds with
      | [], h => simp [count_adds] at h
      | [_], h => simp [count_adds] at h
      | f :: g :: fs, _ => exact ⟨f, g, fs, rfl⟩
    obtain ⟨m1, hadd, hp, hinv1⟩ := pool_inv_add m b f g fs dead k indiv time hinv
    have hstep : pool_step (m, b) (pool_op.add k indiv time) =
        some (m1, b.set k time (f :: b k time)) := by
      simp [pool_step, hadd]
    have hval1 : removes_valid (m1, b.set k time (f :: b k time)) ops = true := by
      simpa [removes_valid, hstep] using hval
    obtain ⟨m2, b2, fresh2, dead2, hrun, hp2, hinv2, hlen, hcount⟩ :=
      pool_run_inv ops m1 _ (g :: fs) dead hinv1 hval1
        (by simp only [count_adds, List.length_cons] at hadds ⊢; omega)
    refine ⟨m2, b2, fresh2, dead2, by simp [pool_run, hstep, hrun], hp2.trans hp, hinv2,
      by simp only [count_adds, List.length_cons] at hlen ⊢; omega, ?_⟩
    intro ndays hdays
    have h1 := hcount ndays (fun op hop => hdays op (List.mem_cons_of_mem _ hop))
    have h2 := bucket_total_set b k time ndays (f :: b k time)
      (hdays _ (List.mem_cons_self _ _))
    rw [h1, h2]
    simp only [List.length_cons, List.length_append]
    push_cast
    ring
  | pool_op.remove k x time :: ops, m, b, fresh, dead, hinv, hval, hadds => by
    have hx : x ∈ b k time := by
      simp only [removes_valid, Bool.and_eq_true, decide_eq_true_eq] at hval
      exact hval.1
    obtain ⟨m1, hrem, hp, hinv1⟩ := pool_inv_remove m b fresh dead k x time hinv hx
    have hstep : pool_step (m, b) (pool_op.remove k x time) =
        some (m1, b.set k time ((b k time).erase x)) := by
      simp [pool_step, hrem]
    have hval1 : removes_valid (m1, b.set k time ((b k time).erase x)) ops = true := by
      simp only [removes_valid, Bool.and_eq_true, decide_eq_true_eq, hstep] at hval
      exact hval.2
    obtain ⟨m2, b2, fresh2, dead2, hrun, hp2, hinv2, hlen, hcount⟩ :=
      pool_run_inv ops m1 _ fresh (dead ++ [x]) hinv1 hval1
        (by simpa [count_adds] using hadds)
    refine ⟨m2, b2, fresh2, dead2, by simp [pool_run, hstep, hrun], hp2.trans hp, hinv2,
      by simpa [count_adds] using hlen, ?_⟩
    intro ndays hdays
    have h1 := hcount ndays (fun op hop => hdays op (List.mem_cons_of_mem _ hop))
    have h2 := bucket_total_set b k time ndays ((b k time).erase x)
      (hdays _ (List.mem_cons_self _ _))
    have hpos : 0 < (b k time).length := List.length_pos_of_mem hx
    rw [h1, h2, List.length_erase_of_mem hx]
    simp only [List.length_append, List.length_cons, List.length_nil]
    push_cast
    omega

/-- Under the invariant the walk over a bucket finds the events of the
specification side. -/
theorem bucket_walk_of_inv (m : model) (b : buckets) (fresh dead : List Nat)
    (hinv : pool_inv m b fresh dead) (k : event_kind) (d : Nat) :
    bucket_walk m k d = some (b k d) := by
  unfold bucket_walk
  rw [hinv.count k d, Int.toNat_ofNat]
  by_cases hb : b k d = []
  · simp [hb, walk_next]
  · rw [hinv.head k d hb]
    exact walk_next_of_bucket_ok m.events dead (b k d) (hinv.links k d)

/-- Under the invariant the free ring is the list of the events never handed out
followed by the returned events. -/
theorem free_ring_of_inv (m : model) (b : buckets) (fresh dead : List Nat)
    (hinv : pool_inv m b fresh dead)
    (hlen : (fresh ++ dead).length ≤ 6 * m.params.n_total) :
    free_ring m = fresh ++ dead := by
  obtain ⟨f, fs, rfl, hne, hseg, _⟩ := hinv.ring
  have hnd : (f :: (fs ++ dead)).Nodup := by simpa using hinv.nodup_ring
  unfold free_ring
  rw [hne]
  simp only [List.cons_append]
  exact ring_from_of_next_seg m.events f f (fs ++ dead) _
    (by simp only [List.cons_append, List.length_cons] at hlen; omega)
    (List.nodup_cons.mp hnd).1 hseg

/-- C3: from the pool of `set_up_events` and lists with zero counters, a
sequence of adds and removes whose removes name events of their bucket and which
adds fewer events than the pool holds runs to the end, and then the walk of
`n_daily_current[day]` steps along `next` from the head of any bucket visits the
events added to the bucket and not removed, most recent first, each once. -/
theorem bucket_walk_refines (m0 m : model) (ops : List pool_op)
    (hm : set_up_events m0 = some m)
    (hzero : ∀ k d, (m0.lists k).n_daily_current d = 0)
    (hvalid : removes_valid (m, fun _ _ => []) ops = true)
    (hadds : count_adds ops < 6 * m0.params.n_total) :
    ∃ m1 b1, pool_run (m, fun _ _ => []) ops = some (m1, b1) ∧
      ∀ k d, bucket_walk m1 k d = some (b1 k d) ∧ (b1 k d).Nodup := by
  obtain ⟨_, _, hinv⟩ := pool_inv_init m0 m hm hzero
  obtain ⟨m1, b1, fresh1, dead1, hrun, _, hinv1, _, _⟩ :=
    pool_run_inv ops m _ _ [] hinv hvalid (by simpa using hadds)
  exact ⟨m1, b1, hrun, fun k d =>
    ⟨bucket_walk_of_inv m1 b1 fresh1 dead1 hinv1 k d, hinv1.nodup_bucket k d⟩⟩

/-- The count of the pool on the runs that hand out no returned event again:
with fewer adds in total than the pool holds, the counters `n_daily_current`
and the free ring add up to the capacity `6 * n_total`. -/
theorem pool_count_invariant (m0 m : model) (ops : List pool_op) (ndays : Nat)
    (hm : set_up_events m0 = some m)
    (hzero : ∀ k d, (m0.lists k).n_daily_current d = 0)
    (hvalid : removes_valid (m, fun _ _ => []) ops = true)
    (hadds : count_adds ops < 6 * m0.params.n_total)
    (hdays : ∀ op ∈ ops, op_day op < ndays) :
    ∃ m1 b1, pool_run (m, fun _ _ => []) ops = some (m1, b1) ∧
      live_count m1 ndays + ((free_ring m1).length : Int) = ((6 * m0.params.n_total : Nat) : Int) := by
  obtain ⟨hp0, _, hinv⟩ := pool_inv_init m0 m hm hzero
  obtain ⟨m1, b1, fresh1, dead1, hrun, hp1, hinv1, _, hcount⟩ :=
    pool_run_inv ops m _ _ [] hinv hvalid (by simpa using hadds)
  have hc := hcount ndays hdays
  have h0 : bucket_total (fun _ _ => []) ndays = 0 := by
    have hnn := bucket_total_nonneg (fun _ _ => []) ndays
    unfold bucket_total at hnn ⊢
    simp
  rw [h0] at hc
  simp only [List.append_nil, List.length_range', zero_add] at hc
  have hnn := bucket_total_nonneg b1 ndays
  have hring := free_ring_of_inv m1 b1 fresh1 dead1 hinv1
    (by rw [hp1, hp0]; omega)
  refine ⟨m1, b1, hrun, ?_⟩
  rw [live_count_eq_bucket_total m1 b1 fresh1 dead1 hinv1, hring]
  exact hc

/-- On the runs that hand out no returned event again, that is with fewer adds
in total than the pool holds, the event that `new_event` returns for the next
add is in no bucket, neither on the specification side nor on a walk of the
code. -/
theorem new_event_not_live (m0 m : model) (ops : List pool_op)
    (hm : set_up_events m0 = some m)
    (hzero : ∀ k d, (m0.lists k).n_daily_current d = 0)
    (hvalid : removes_valid (m, fun _ _ => []) ops = true)
    (hadds : count_adds ops + 1 < 6 * m0.params.n_total) :
    ∃ m1 b1 e m2, pool_run (m, fun _ _ => []) ops = some (m1, b1) ∧
      new_event m1 = some (e, m2) ∧
      ∀ k d, e ∉ b1 k d ∧ bucket_walk m1 k d = some (b1 k d) := by
  obtain ⟨_, _, hinv⟩ := pool_inv_init m0 m hm hzero
  obtain ⟨m1, b1, fresh1, dead1, hrun, _, hinv1, hlen, _⟩ :=
    pool_run_inv ops m _ _ [] hinv hvalid (by simp only [List.length_range']; omega)
  simp only [List.length_range'] at hlen
  obtain ⟨f, g, fs, rfl⟩ : ∃ f g fs, fresh1 = f :: g :: fs := by
    match fresh1, hlen with
    | [], h => simp at h; omega
    | [_], h => simp at h; omega
    | f :: g :: fs, _ => exact ⟨f, g, fs, rfl⟩
  obtain ⟨f0, fs0, hfr, hne, hseg, hlast⟩ := hinv1.ring
  obtain ⟨rfl, rfl⟩ : f = f0 ∧ g :: fs = fs0 := by simpa using hfr
  have hnew := new_event_eq m1 f g _ hne hseg.1 hlast
  refine ⟨m1, b1, f, _, hrun, hnew, fun k d => ⟨?_, bucket_walk_of_inv m1 b1 _ dead1 hinv1 k d⟩⟩
  intro hf
  exact hinv1.disj_ring k d f hf (by simp)

/-- C3 at a concrete run on a pool of six events: three adds to one bucket, the
removal of the middle event and an add to another bucket. -/
theorem bucket_walk_refines_witness :
    ∃ m1 b1, pool_run (pool_after 1 [], fun _ _ => [])
        [pool_op.add event_kind.symptomatic 7 3, pool_op.add event_kind.symptomatic 8 3,
          pool_op.add event_kind.symptomatic 9 3, pool_op.remove event_kind.symptomatic 1 3,
          pool_op.add event_kind.asymptomatic 10 0] = some (m1, b1) ∧
      ∀ k d, bucket_walk m1 k d = some (b1 k d) ∧ (b1 k d).Nodup :=
  bucket_walk_refines (calloc_model (params_of_size 1) rng_zero) (pool_after 1 []) _ rfl
    (fun _ _ => rfl) (by decide) (by decide)

/-- C4 fails on the code: after eight valid operations on a pool of six events,
of which never more than five are in use, four events are in buckets and the
free ring reachable from `next_event` holds one event; event 0 is lost.  The
last operation removes event 0, the tail of its bucket, whose `next` still
names event 1, by then back in the free ring: `remove_event_from_event_list`
treats the tail as an interior event, `event->next->last = event->last` writes
into the free ring, and the splice of event 0 into the ring goes through that
link and is lost. -/
theorem pool_count_fails :
    removes_valid (pool_after 1 [], fun _ _ => []) ops_lost_event = true ∧
    live_count (pool_after 1 ops_lost_event) 1 = 4 ∧
    free_ring (pool_after 1 ops_lost_event) = [1] ∧
    bucket_walk (pool_after 1 ops_lost_event) event_kind.symptomatic 0 = some [5, 4, 3, 2] ∧
    live_count (pool_after 1 ops_lost_event) 1 +
      ((free_ring (pool_after 1 ops_lost_event)).length : Int) ≠ ((6 * 1 : Nat) : Int) := by
  decide

/-- The count of the pool at a concrete run of five operations on a pool of six
events. -/
theorem pool_count_invariant_witness :
    ∃ m1 b1, pool_run (pool_after 1 [], fun _ _ => [])
        [add_sym, add_sym, add_sym, remove_sym 1, add_sym] = some (m1, b1) ∧
      live_count m1 1 + ((free_ring m1).length : Int) = ((6 * 1 : Nat) : Int) :=
  pool_count_invariant (calloc_model (params_of_size 1) rng_zero) (pool_after 1 []) _ 1 rfl
    (fun _ _ => rfl) (by decide) (by decide) (by decide)

/-- C5 fails on the code: after ten valid operations on a pool of six events, of
which never more than five are in use, bucket (symptomatic, 0) holds the events
1, 4, 3, 2 and `new_event` returns event 1, without any failure report.  The
eighth operation, the removal of the tail event 0 through its stale `next`,
has cut the free ring down to event 1 alone; the ninth hands out event 1 and
leaves `next_event` on it, so that the next request gets the live event 1
although event 0 is in no bucket. -/
theorem new_event_returns_live_event :
    removes_valid (pool_after 1 [], fun _ _ => []) ops_reused_event = true ∧
    buckets_after 1 ops_reused_event event_kind.symptomatic 0 = [1, 4, 3, 2] ∧
    bucket_walk (pool_after 1 ops_reused_event) event_kind.symptomatic 0 = some [1, 4, 3, 2] ∧
    (new_event (pool_after 1 ops_reused_event)).map (fun r => r.1) = some 1 := by
  decide

/-- At a concrete run, after three adds and a remove on a pool of six events,
`new_event` returns an event that is in no bucket. -/
theorem new_event_not_live_witness :
    ∃ m1 b1 e m2, pool_run (pool_after 1 [], fun _ _ => [])
        [add_sym, add_sym, add_sym, remove_sym 1] = some (m1, b1) ∧
      new_event m1 = some (e, m2) ∧
      ∀ k d, e ∉ b1 k d ∧ bucket_walk m1 k d = some (b1 k d) :=
  new_event_not_live (calloc_model (params_of_size 1) rng_zero) (pool_after 1 []) _ rfl
    (fun _ _ => rfl) (by decide) (by decide)

/-! ## The daily network builder -/

/-- A walk only depends on the records it meets. -/
theorem interaction_walk_congr (mem mem1 : Nat → interaction) :
    ∀ (n : Nat) (h : Option Nat) (rs : List Nat), interaction_walk mem n h = some rs →
      (∀ r ∈ rs, mem1 r = mem r) → interaction_walk mem1 n h = some rs
  | 0, _, rs, hw, _ => by simpa [interaction_walk] using hw
  | n + 1, none, rs, hw, _ => by simp [interaction_walk] at hw
  | n + 1, some r, rs, hw, hm => by
    simp only [interaction_walk] at hw ⊢
    cases hrest : interaction_walk mem n (mem r).next with
    | none => simp [hrest] at hw
    | some rest =>
      simp only [hrest, Option.some.injEq] at hw
      subst hw
      rw [hm r (by simp)]
      rw [interaction_walk_congr mem mem1 n _ rest hrest
        (fun q hq => hm q (List.mem_cons_of_mem _ hq))]

/-! ### Fields of an individual after `add_contact` -/

@[simp] theorem add_contact_n_interactions (pop : Nat → individual) (day r i j : Nat) :
    (add_contact pop day r i j).n_interactions day =
      if j = i then (pop j).n_interactions day + 1 else (pop j).n_interactions day := by
  unfold add_contact
  by_cases h : j = i
  · subst h; simp
  · simp [Function.update_noteq h, h]

@[simp] theorem add_contact_interactions (pop : Nat → individual) (day r i j : Nat) :
    (add_contact pop day r i j).interactions day =
      if j = i then some r else (pop j).interactions day := by
  unfold add_contact
  by_cases h : j = i
  · subst h; simp
  · simp [Function.update_noteq h, h]

@[simp] theorem add_contact_mean_interactions (pop : Nat → individual) (day r i j : Nat) :
    (add_contact pop day r i j).mean_interactions = (pop j).mean_interactions := by
  unfold add_contact
  by_cases h : j = i
  · subst h; simp
  · simp [Function.update_noteq h]

@[simp] theorem set_interaction_same (mem : Nat → interaction) (p : Nat) (r : interaction) :
    set_interaction mem p r p = r := by
  simp [set_interaction]

theorem set_interaction_of_ne (mem : Nat → interaction) (p q : Nat) (r : interaction)
    (h : q ≠ p) : set_interaction mem p r q = mem q := by
  simp [set_interaction, h]

/-- Unfolding of `connect_pair` when both records are inside the pool. -/
theorem connect_pair_eq (m : model) (day a b : Nat)
    (hroom : m.interaction_idx + 1 < m.n_interactions) :
    connect_pair m day a b = some
      { m with
        interactions := set_interaction (set_interaction m.interactions m.interaction_idx
            { individual := some b, next := (m.population a).interactions day, traceable := (m.interactions m.interaction_idx).traceable })
          (m.interaction_idx + 1)
          { individual := some a,
            next := (add_contact m.population day m.interaction_idx a b).interactions day,
            traceable := (m.interactions (m.interaction_idx + 1)).traceable }
        population := add_contact (add_contact m.population day m.interaction_idx a) day
          (m.interaction_idx + 1) b
        n_total_intereactions := m.n_total_intereactions + 1
        interaction_idx := m.interaction_idx + 2 } := by
  have hnowrap : ¬ (m.interaction_idx + 2 > m.n_interactions) := by omega
  simp only [connect_pair, hroom, if_true, hnowrap, if_false]

/-- An accepted pair extends the loop invariant. -/
theorem connect_pair_inv (n day : Nat) (m0 m : model) (P : List (Nat × Nat)) (a b : Nat)
    (hinv : network_inv n day m0 P m) (hab : a ≠ b) (ha : a < n) (hb : b < n)
    (hroom : m.interaction_idx + 1 < m.n_interactions) :
    ∃ m1, connect_pair m day a b = some m1 ∧ network_inv n day m0 ((a, b) :: P) m1 := by
  have hidx := hinv.idx
  refine ⟨_, connect_pair_eq m day a b hroom, ?_⟩
  have hframe : ∀ rs : List Nat, (∀ r ∈ rs, r < m0.interaction_idx + 2 * P.length) →
      ∀ r ∈ rs, set_interaction (set_interaction m.interactions m.interaction_idx
          { individual := some b, next := (m.population a).interactions day, traceable := (m.interactions m.interaction_idx).traceable })
        (m.interaction_idx + 1)
          { individual := some a,
            next := (add_contact m.population day m.interaction_idx a b).interactions day,
            traceable := (m.interactions (m.interaction_idx + 1)).traceable } r
        = m.interactions r := by
    intro rs hrs r hr
    have := hrs r hr
    rw [set_interaction_of_ne _ _ _ _ (by omega), set_interaction_of_ne _ _ _ _ (by omega)]
  have hba : b ≠ a := fun h => hab h.symm
  constructor
  · simp only [List.length_cons]; omega
  · exact hinv.size
  · simp only [List.length_cons]; have := hinv.total; omega
  · intro i hi
    obtain ⟨rs, hw, hbd, hmap⟩ := hinv.walk i hi
    have hw1 := interaction_walk_congr m.interactions _ _ _ rs hw (hframe rs hbd)
    have hmap1 : rs.map (fun r => (set_interaction (set_interaction m.interactions
          m.interaction_idx { individual := some b, next := (m.population a).interactions day, traceable := (m.interactions m.interaction_idx).traceable })
        (m.interaction_idx + 1)
          { individual := some a,
            next := (add_contact m.population day m.interaction_idx a b).interactions day,
            traceable := (m.interactions (m.interaction_idx + 1)).traceable }
          r).individual) = (partners i P).map some := by
      rw [← hmap]
      apply List.map_congr_left
      intro r hr
      rw [hframe rs hbd r hr]
    by_cases hia : i = a
    · subst hia
      refine ⟨m.interaction_idx :: rs, ?_, ?_, ?_⟩
      · simp only [add_contact_n_interactions, add_contact_interactions, hab, if_false,
          if_true, interaction_walk]
        rw [set_interaction_of_ne _ _ _ _ (by omega), set_interaction_same]
        simp only [add_contact_interactions, hba, if_false] at hw1 ⊢
        rw [hw1]
      · intro r hr
        simp only [List.length_cons]
        rcases List.mem_cons.mp hr with h | h
        · omega
        · have := hbd r h; omega
      · simp only [List.map_cons, partners, if_true]
        rw [hmap1, set_interaction_of_ne _ _ _ _ (by omega), set_interaction_same]
    · by_cases hib : i = b
      · subst hib
        refine ⟨(m.interaction_idx + 1) :: rs, ?_, ?_, ?_⟩
        · simp only [add_contact_n_interactions, add_contact_interactions, hia, if_false,
            if_true, interaction_walk, set_interaction_same]
          simp only [add_contact_interactions, hia, if_false] at hw1
          rw [hw1]
        · intro r hr
          simp only [List.length_cons]
          rcases List.mem_cons.mp hr with h | h
          · omega
          · have := hbd r h; omega
        · simp only [List.map_cons, partners, hab, if_false, if_true]
          rw [hmap1, set_interaction_same]
      · refine ⟨rs, ?_, ?_, ?_⟩
        · simp only [add_contact_n_interactions, add_contact_interactions, hia, hib,
            if_false] at hw1 ⊢
          exact hw1
        · intro r hr
          simp only [List.length_cons]
          have := hbd r hr; omega
        · have h1 : ¬ a = i := fun h => hia h.symm
          have h2 : ¬ b = i := fun h => hib h.symm
          simp only [partners, h1, h2, if_false]
          exact hmap1
  · intro i hi
    have hc := hinv.count i hi
    by_cases hia : i = a
    · subst hia
      simp [hab, partners, hc]
    · by_cases hib : i = b
      · subst hib
        simp [hia, partners, hab, hc]
      · have h1 : ¬ a = i := fun h => hia h.symm
        have h2 : ¬ b = i := fun h => hib h.symm
        simp [hia, hib, partners, h1, h2, hc]
  · intro i
    simpa using hinv.mean i
  · intro p hp
    rcases List.mem_cons.mp hp with h | h
    · subst h; exact ⟨hab, ha, hb⟩
    · exact hinv.pairs p h

theorem connect_pair_some (m m1 : model) (day a b : Nat)
    (h : connect_pair m day a b = some m1) : m.interaction_idx + 1 < m.n_interactions := by
  unfold connect_pair at h
  by_contra hc
  simp [hc] at h

theorem accepted_from_length_ge : ∀ (l : List Nat) (a : Nat) (acc : List (Nat × Nat)),
    acc.length ≤ (accepted_from a l acc).length
  | [], _, _ => by simp [accepted_from]
  | b :: rest, a, acc => by
    unfold accepted_from
    by_cases hab : a = b
    · simp only [hab, if_true]
      exact accepted_from_length_ge rest b acc
    · simp only [hab, if_false]
      cases rest with
      | nil => simp
      | cons c rest1 =>
        have := accepted_from_length_ge rest1 c ((a, b) :: acc)
        simp only [List.length_cons] at this ⊢
        omega

/-- The pairing loop keeps the invariant: when it completes, the day lists hold
the accepted pairs, and it completes when the pool has room for two records per
accepted pair. -/
theorem pair_from_inv (n day : Nat) (m0 : model) :
    ∀ (l : List Nat) (a : Nat) (m : model) (P : List (Nat × Nat)),
      network_inv n day m0 P m → (∀ x ∈ a :: l, x < n) →
      (∀ m1, pair_from day a l m = some m1 →
        network_inv n day m0 (accepted_from a l P) m1) ∧
      (m0.interaction_idx + 2 * (accepted_from a l P).length ≤ m0.n_interactions →
        ∃ m1, pair_from day a l m = some m1)
  | [], a, m, P, hinv, _ => by
    refine ⟨fun m1 h => ?_, fun _ => ⟨m, rfl⟩⟩
    simp only [pair_from, Option.some.injEq] at h
    subst h
    exact hinv
  | b :: rest, a, m, P, hinv, hlt => by
    have ha : a < n := hlt a (by simp)
    have hb : b < n := hlt b (by simp)
    by_cases hab : a = b
    · subst hab
      have ih := pair_from_inv n day m0 rest a m P hinv
        (fun x hx => hlt x (List.mem_cons_of_mem _ hx))
      unfold accepted_from
      simp only [pair_from, if_true]
      exact ih
    · refine ⟨fun m1 h => ?_, fun hroom => ?_⟩
      · simp only [pair_from, hab, if_false] at h
        cases hc : connect_pair m day a b with
        | none => simp [hc] at h
        | some m2 =>
          obtain ⟨m3, h3, hinv3⟩ := connect_pair_inv n day m0 m P a b hinv hab ha hb
            (connect_pair_some m m2 day a b hc)
          rw [hc] at h3
          obtain rfl : m2 = m3 := by simpa using h3
          simp only [hc] at h
          cases rest with
          | nil =>
            simp only [Option.some.injEq] at h
            subst h
            unfold accepted_from
            simpa [hab] using hinv3
          | cons c rest1 =>
            have ih := pair_from_inv n day m0 rest1 c m2 ((a, b) :: P) hinv3
              (fun x hx => hlt x (List.mem_cons_of_mem _ (List.mem_cons_of_mem _ hx)))
            unfold accepted_from
            simp only [hab, if_false]
            exact ih.1 m1 h
      · have hlen : (P.length + 1) ≤ (accepted_from a (b :: rest) P).length := by
          unfold accepted_from
          simp only [hab, if_false]
          cases rest with
          | nil => simp
          | cons c rest1 =>
            have := accepted_from_length_ge rest1 c ((a, b) :: P)
            simpa using this
        have hr : m.interaction_idx + 1 < m.n_interactions := by
          rw [hinv.idx, hinv.size]; omega
        obtain ⟨m3, h3, hinv3⟩ := connect_pair_inv n day m0 m P a b hinv hab ha hb hr
        simp only [pair_from, hab, if_false, h3]
        cases rest with
        | nil => exact ⟨m3, rfl⟩
        | cons c rest1 =>
          have ih := pair_from_inv n day m0 rest1 c m3 ((a, b) :: P) hinv3
            (fun x hx => hlt x (List.mem_cons_of_mem _ (List.mem_cons_of_mem _ hx)))
          unfold accepted_from at hroom
          simp only [hab, if_false] at hroom
          exact ih.2 hroom

/-! ### The stub array -/

theorem clear_n_interactions_mean (day : Nat) (pop : Nat → individual) :
    ∀ (n i : Nat), (clear_n_interactions day n pop i).mean_interactions =
      (pop i).mean_interactions
  | 0, i => rfl
  | n + 1, i => by
    simp only [clear_n_interactions]
    by_cases h : i = n
    · subst h; simp [clear_n_interactions_mean day pop i i]
    · simp [Function.update_noteq h, clear_n_interactions_mean day pop n i]

theorem clear_n_interactions_zero (day : Nat) (pop : Nat → individual) :
    ∀ (n i : Nat), i < n → (clear_n_interactions day n pop i).n_interactions day = 0
  | 0, i, h => by omega
  | n + 1, i, h => by
    simp only [clear_n_interactions]
    by_cases hi : i = n
    · subst hi; simp
    · simp [Function.update_noteq hi, clear_n_interactions_zero day pop n i (by omega)]

theorem fill_stubs_congr (pop pop1 : Nat → individual)
    (h : ∀ i, (pop1 i).mean_interactions = (pop i).mean_interactions) :
    ∀ n, fill_stubs pop1 n = fill_stubs pop n
  | 0 => rfl
  | n + 1 => by simp only [fill_stubs, fill_stubs_congr pop pop1 h n, h n]

theorem fill_stubs_lt (pop : Nat → individual) : ∀ (n x : Nat), x ∈ fill_stubs pop n → x < n
  | 0, x, h => by simp [fill_stubs] at h
  | n + 1, x, h => by
    simp only [fill_stubs, List.mem_append, List.mem_replicate] at h
    rcases h with h | h
    · have := fill_stubs_lt pop n x h; omega
    · omega

theorem fill_stubs_count (pop : Nat → individual) :
    ∀ (n i : Nat), (fill_stubs pop n).count i = if i < n then (pop i).mean_interactions else 0
  | 0, i => by simp [fill_stubs]
  | n + 1, i => by
    simp only [fill_stubs, List.count_append, fill_stubs_count pop n i, List.count_replicate]
    by_cases h1 : i < n
    · have h2 : ¬ (n == i) = true := by simp; omega
      have h3 : i < n + 1 := by omega
      simp [h1, h2, h3]
    · by_cases h2 : i = n
      · subst h2; simp
      · have h3 : ¬ (n == i) = true := by simp; omega
        have h4 : ¬ i < n + 1 := by omega
        simp [h1, h3, h4]

/-! ### Partners in a list of pairs -/

theorem partners_count_symm (i j : Nat) :
    ∀ (P : List (Nat × Nat)), (∀ p ∈ P, p.1 ≠ p.2) →
      (partners i P).count j = (partners j P).count i
  | [], _ => rfl
  | (a, b) :: ps, h => by
    have ih := partners_count_symm i j ps (fun p hp => h p (List.mem_cons_of_mem _ hp))
    have hab : a ≠ b := h (a, b) (by simp)
    simp only [partners]
    by_cases h1 : a = i <;> by_cases h2 : b = i <;> by_cases h3 : a = j <;>
      by_cases h4 : b = j <;>
      simp_all [List.count_cons]

theorem partners_not_self (i : Nat) :
    ∀ (P : List (Nat × Nat)), (∀ p ∈ P, p.1 ≠ p.2) → i ∉ partners i P
  | [], _ => by simp [partners]
  | (a, b) :: ps, h => by
    have ih := partners_not_self i ps (fun p hp => h p (List.mem_cons_of_mem _ hp))
    have hab : a ≠ b := h (a, b) (by simp)
    simp only [partners]
    by_cases h1 : a = i
    · subst h1
      simp only [if_true, List.mem_cons, not_or]
      exact ⟨hab, ih⟩
    · by_cases h2 : b = i
      · subst h2
        simp only [h1, if_false, if_true, List.mem_cons, not_or]
        exact ⟨fun h => h1 h.symm, ih⟩
      · simpa [h1, h2] using ih

theorem sum_upto_congr (f g : Nat → Nat) :
    ∀ n, (∀ i, i < n → f i = g i) → sum_upto f n = sum_upto g n
  | 0, _ => rfl
  | n + 1, h => by
    simp only [sum_upto, sum_upto_congr f g n (fun i hi => h i (by omega)), h n (by omega)]

theorem sum_upto_indicator (a : Nat) (f : Nat → Nat) :
    ∀ n, a < n → sum_upto (fun i => (if a = i then 1 else 0) + f i) n = 1 + sum_upto f n
  | 0, h => by omega
  | n + 1, h => by
    simp only [sum_upto]
    by_cases han : a = n
    · subst han
      have : sum_upto (fun i => (if a = i then 1 else 0) + f i) a = sum_upto f a :=
        sum_upto_congr _ _ a (fun i hi => by
          have : ¬ a = i := by omega
          simp [this])
      rw [this]; simp; omega
    · rw [sum_upto_indicator a f n (by omega)]
      simp [han]; omega

theorem partners_total (n : Nat) :
    ∀ (P : List (Nat × Nat)), (∀ p ∈ P, p.1 ≠ p.2 ∧ p.1 < n ∧ p.2 < n) →
      sum_upto (fun i => (partners i P).length) n = 2 * P.length
  | [], _ => by
    simp only [partners, List.length_nil]
    clear * -
    induction n with
    | zero => rfl
    | succ k ih => simp [sum_upto, ih]
  | (a, b) :: ps, h => by
    have ih := partners_total n ps (fun p hp => h p (List.mem_cons_of_mem _ hp))
    obtain ⟨hab, ha, hb⟩ := h (a, b) (by simp)
    have hab1 : a ≠ b := hab
    have : sum_upto (fun i => (partners i ((a, b) :: ps)).length) n =
        sum_upto (fun i => (if a = i then 1 else 0) +
          ((if b = i then 1 else 0) + (partners i ps).length)) n := by
      apply sum_upto_congr
      intro i _
      simp only [partners]
      by_cases h1 : a = i <;> by_cases h2 : b = i <;> simp_all <;> omega
    rw [this, sum_upto_indicator a _ n ha, sum_upto_indicator b _ n hb, ih]
    simp only [List.length_cons]
    omega

theorem partners_length_le (i : Nat) :
    ∀ (l : List Nat) (a : Nat) (acc : List (Nat × Nat)),
      (partners i (accepted_from a l acc)).length ≤
        (partners i acc).length + (a :: l).count i
  | [], a, acc => by simp [accepted_from]
  | b :: rest, a, acc => by
    unfold accepted_from
    by_cases hab : a = b
    · simp only [hab, if_true]
      have := partners_length_le i rest b acc
      simp only [List.count_cons] at this ⊢
      omega
    · simp only [hab, if_false]
      have hstep : (partners i ((a, b) :: acc)).length ≤
          (partners i acc).length + (if (a == i) = true then 1 else 0) +
            (if (b == i) = true then 1 else 0) := by
        simp only [partners]
        by_cases h1 : a = i <;> by_cases h2 : b = i <;> simp_all
      cases rest with
      | nil =>
        simp only [List.count_cons, List.count_nil] at hstep ⊢
        omega
      | cons c rest1 =>
        have := partners_length_le i rest1 c ((a, b) :: acc)
        simp only [List.count_cons] at this hstep ⊢
        omega

/-! ### The whole build -/

/-- The state of `build_daily_newtork` when the pairing loop starts. -/
theorem build_daily_newtork_eq (m : model) :
    build_daily_newtork m =
      pair_stubs m.interaction_day_idx
        (m.rng.shuffle m.rng_calls (fill_stubs m.population m.params.n_total))
        { m with
          population := clear_n_interactions m.interaction_day_idx m.params.n_total m.population
          possible_interactions :=
            m.rng.shuffle m.rng_calls (fill_stubs m.population m.params.n_total)
          rng_calls := m.rng_calls + 1 } := by
  unfold build_daily_newtork
  simp only [fill_stubs_congr m.population _
    (fun i => clear_n_interactions_mean m.interaction_day_idx m.population m.params.n_total i)]

/-- A build on a shuffled stub array: when it completes, the loop invariant
holds for the pairs accepted on the shuffled array; it completes when the pool
has room for two records per accepted pair. -/
theorem build_daily_newtork_inv (m : model)
    (hperm : (m.rng.shuffle m.rng_calls (fill_stubs m.population m.params.n_total)).Perm
      (fill_stubs m.population m.params.n_total)) :
    (∀ m1, build_daily_newtork m = some m1 →
      network_inv m.params.n_total m.interaction_day_idx
        { m with
          population := clear_n_interactions m.interaction_day_idx m.params.n_total m.population
          possible_interactions :=
            m.rng.shuffle m.rng_calls (fill_stubs m.population m.params.n_total)
          rng_calls := m.rng_calls + 1 }
        (accepted_pairs (m.rng.shuffle m.rng_calls (fill_stubs m.population m.params.n_total)))
        m1) ∧
    (m.interaction_idx + 2 * (accepted_pairs
        (m.rng.shuffle m.rng_calls (fill_stubs m.population m.params.n_total))).length ≤
        m.n_interactions → ∃ m1, build_daily_newtork m = some m1) := by
  rw [build_daily_newtork_eq]
  have hlt : ∀ x ∈ m.rng.shuffle m.rng_calls (fill_stubs m.population m.params.n_total),
      x < m.params.n_total :=
    fun x hx => fill_stubs_lt m.population _ x (hperm.subset hx)
  have hinit : network_inv m.params.n_total m.interaction_day_idx
      { m with
        population := clear_n_interactions m.interaction_day_idx m.params.n_total m.population
        possible_interactions :=
          m.rng.shuffle m.rng_calls (fill_stubs m.population m.params.n_total)
        rng_calls := m.rng_calls + 1 } []
      { m with
        population := clear_n_interactions m.interaction_day_idx m.params.n_total m.population
        possible_interactions :=
          m.rng.shuffle m.rng_calls (fill_stubs m.population m.params.n_total)
        rng_calls := m.rng_calls + 1 } := by
    constructor
    · simp
    · rfl
    · simp
    · intro i hi
      refine ⟨[], ?_, by simp, by simp [partners]⟩
      simp only [clear_n_interactions_zero _ _ _ i hi, interaction_walk]
    · intro i hi
      simp only [clear_n_interactions_zero _ _ _ i hi, partners, List.length_nil]
    · intro i; rfl
    · intro p hp; simp at hp
  cases hS : m.rng.shuffle m.rng_calls (fill_stubs m.population m.params.n_total) with
  | nil =>
    refine ⟨fun m1 h => ?_, fun _ => ⟨_, rfl⟩⟩
    simp only [pair_stubs, Option.some.injEq] at h
    subst h
    rw [hS] at hinit
    simpa [accepted_pairs] using hinit
  | cons a l =>
    rw [hS] at hinit hlt
    simp only [pair_stubs, accepted_pairs]
    exact pair_from_inv _ _ _ l a _ [] hinit hlt

theorem count_map_some (l : List Nat) (x : Nat) : (l.map some).count (some x) = l.count x := by
  induction l with
  | nil => rfl
  | cons a r ih => simp [List.count_cons, ih]

/-- C6: when the pool has room for two records per accepted pair, the build
completes; afterwards, for individuals `i` and `j`, as many of the first
`n_interactions[d]` records of the day list of `i` point to `j` as records of
the day list of `j` point to `i`, and the `n_interactions[d]` add up to twice
the number of pairs accepted in this build, that is twice the length of
`accepted_pairs` of the shuffled stub array.  The day list of every individual
holds exactly its partners in the accepted pairs, and the counter
`n_total_intereactions` has grown by the number of accepted pairs. -/
theorem build_daily_newtork_symmetric (m : model)
    (hperm : (m.rng.shuffle m.rng_calls (fill_stubs m.population m.params.n_total)).Perm
      (fill_stubs m.population m.params.n_total))
    (hroom : m.interaction_idx + 2 * (accepted_pairs
        (m.rng.shuffle m.rng_calls (fill_stubs m.population m.params.n_total))).length ≤
        m.n_interactions) :
    ∃ m1, build_daily_newtork m = some m1 ∧
      (∀ i j, i < m.params.n_total → j < m.params.n_total →
        ∃ li lj, contacts m1 i m.interaction_day_idx = some li ∧
          contacts m1 j m.interaction_day_idx = some lj ∧
          li.count (some j) = lj.count (some i)) ∧
      total_n_interactions m1 m.interaction_day_idx m.params.n_total =
        2 * (accepted_pairs
          (m.rng.shuffle m.rng_calls (fill_stubs m.population m.params.n_total))).length ∧
      (∀ i, i < m.params.n_total →
        contacts m1 i m.interaction_day_idx = some ((partners i (accepted_pairs
          (m.rng.shuffle m.rng_calls (fill_stubs m.population m.params.n_total)))).map
            some)) ∧
      m1.n_total_intereactions = m.n_total_intereactions + (accepted_pairs
        (m.rng.shuffle m.rng_calls (fill_stubs m.population m.params.n_total))).length ∧
      total_n_interactions m1 m.interaction_day_idx m.params.n_total =
        2 * (m1.n_total_intereactions - m.n_total_intereactions) := by
  obtain ⟨hpart, htot⟩ := build_daily_newtork_inv m hperm
  obtain ⟨m1, hm1⟩ := htot hroom
  have hinv := hpart m1 hm1
  have hne : ∀ p ∈ accepted_pairs
      (m.rng.shuffle m.rng_calls (fill_stubs m.population m.params.n_total)), p.1 ≠ p.2 :=
    fun p hp => (hinv.pairs p hp).1
  have hcontacts : ∀ i, i < m.params.n_total →
      contacts m1 i m.interaction_day_idx = some ((partners i (accepted_pairs
        (m.rng.shuffle m.rng_calls (fill_stubs m.population m.params.n_total)))).map some) := by
    intro i hi
    obtain ⟨rs, hw, _, hmap⟩ := hinv.walk i hi
    simp only [contacts, hw, Option.map_some', hmap]
  refine ⟨m1, hm1, ?_, ?_, hcontacts, hinv.total, ?_⟩
  · intro i j hi hj
    refine ⟨_, _, hcontacts i hi, hcontacts j hj, ?_⟩
    rw [count_map_some, count_map_some]
    exact partners_count_symm i j _ hne
  · unfold total_n_interactions
    rw [sum_upto_congr _ _ _ (fun i hi => hinv.count i hi),
      partners_total _ _ hinv.pairs]
  · unfold total_n_interactions
    rw [sum_upto_congr _ _ _ (fun i hi => hinv.count i hi),
      partners_total _ _ hinv.pairs, hinv.total]
    simp

/-- C6 at a concrete model: two persons with one daily interaction each and a
pool of two records. -/
theorem build_daily_newtork_symmetric_witness :
    accepted_pairs (two_person_model.rng.shuffle two_person_model.rng_calls
      (fill_stubs two_person_model.population two_person_model.params.n_total)) = [(0, 1)] ∧
    ∃ m1, build_daily_newtork two_person_model = some m1 ∧
      (∀ i j, i < 2 → j < 2 →
        ∃ li lj, contacts m1 i 0 = some li ∧ contacts m1 j 0 = some lj ∧
          li.count (some j) = lj.count (some i)) ∧
      total_n_interactions m1 0 2 = 2 * 1 ∧
      contacts m1 0 0 = some [some 1] ∧ contacts m1 1 0 = some [some 0] ∧
      m1.n_total_intereactions = 1 := by
  have hacc : accepted_pairs (two_person_model.rng.shuffle two_person_model.rng_calls
      (fill_stubs two_person_model.population two_person_model.params.n_total)) = [(0, 1)] := by
    decide
  obtain ⟨m1, h1, h2, h3, h4, h5, _⟩ :=
    build_daily_newtork_symmetric two_person_model (List.Perm.refl _) (by decide)
  rw [hacc] at h3 h4 h5
  exact ⟨hacc, m1, h1, h2, h3, h4 0 (by decide), h4 1 (by decide), h5⟩

/-- C7: after a completed build on a shuffled stub array no individual has a
record pointing to itself among the first `n_interactions[d]` records of its
day list, and its `n_interactions[d]` is at most its `mean_interactions`. -/
theorem build_daily_newtork_no_self_loop (m m1 : model)
    (hperm : (m.rng.shuffle m.rng_calls (fill_stubs m.population m.params.n_total)).Perm
      (fill_stubs m.population m.params.n_total))
    (hbuild : build_daily_newtork m = some m1) :
    ∀ i, i < m.params.n_total →
      (∃ li, contacts m1 i m.interaction_day_idx = some li ∧ some i ∉ li) ∧
      (m1.population i).n_interactions m.interaction_day_idx ≤
        (m1.population i).mean_interactions := by
  intro i hi
  have hinv := (build_daily_newtork_inv m hperm).1 m1 hbuild
  have hne : ∀ p ∈ accepted_pairs
      (m.rng.shuffle m.rng_calls (fill_stubs m.population m.params.n_total)), p.1 ≠ p.2 :=
    fun p hp => (hinv.pairs p hp).1
  constructor
  · obtain ⟨rs, hw, _, hmap⟩ := hinv.walk i hi
    refine ⟨_, by simp only [contacts, hw, Option.map_some', hmap]; rfl, ?_⟩
    intro hmem
    obtain ⟨x, hx, hxi⟩ := List.mem_map.mp hmem
    obtain rfl : x = i := by simpa using hxi
    exact partners_not_self x _ hne hx
  · rw [hinv.count i hi, hinv.mean i]
    show _ ≤ (clear_n_interactions m.interaction_day_idx m.params.n_total m.population
      i).mean_interactions
    rw [clear_n_interactions_mean]
    have hcount : (m.rng.shuffle m.rng_calls
        (fill_stubs m.population m.params.n_total)).count i = (m.population i).mean_interactions := by
      rw [hperm.count_eq, fill_stubs_count, if_pos hi]
    rw [← hcount]
    cases hS : m.rng.shuffle m.rng_calls (fill_stubs m.population m.params.n_total) with
    | nil => simp [accepted_pairs, partners]
    | cons a l =>
      have := partners_length_le i l a []
      simpa [accepted_pairs, partners] using this

/-- C7 at a concrete model: two persons with one daily interaction each. -/
theorem build_daily_newtork_no_self_loop_witness :
    ∃ m1, build_daily_newtork two_person_model = some m1 ∧
      ∀ i, i < 2 →
        (∃ li, contacts m1 i 0 = some li ∧ some i ∉ li) ∧
        (m1.population i).n_interactions 0 ≤ (m1.population i).mean_interactions := by
  obtain ⟨m1, hm1⟩ : ∃ m1, build_daily_newtork two_person_model = some m1 :=
    Option.isSome_iff_exists.mp (by decide)
  exact ⟨m1, hm1, build_daily_newtork_no_self_loop two_person_model m1 (List.Perm.refl _) hm1⟩

/-- C8: with two persons, one daily interaction each and a window of one day the
pool has two records.  The first build takes records 0 and 1 and leaves
`interaction_idx` at 2, because the test `interaction_idx > n_interactions` does
not hold; the second build takes records 2 and 3, which are outside the pool. -/
theorem build_daily_newtork_out_of_range :
    two_person_model.n_interactions = 2 ∧
    (build_daily_newtork two_person_model).map
      (fun m => (m.interaction_idx, m.n_interactions, m.interaction_day_idx)) =
      some (2, 2, 0) ∧
    ((build_daily_newtork two_person_model).bind
      (fun m => connect_pair m 0 0 1)).isNone = true ∧
    ((build_daily_newtork two_person_model).bind build_daily_newtork).isNone = true := by
  decide

/-! ## The transmission kernel -/

/-- `new_event` only changes the event pool. -/
theorem new_event_shape (m m1 : model) (e : Nat) (h : new_event m = some (e, m1)) :
    ∃ ev ne, m1 = { m with events := ev, next_event := ne } := by
  unfold new_event at h
  split at h
  · simp at h
  · split at h
    · simp at h
    · dsimp only at h
      split at h
      · simp at h
      · simp only [Option.some.injEq, Prod.mk.injEq] at h
        exact ⟨_, _, h.2.symm⟩

/-- `add_individual_to_event_list` only changes the event pool and the lists. -/
theorem add_individual_to_event_list_shape (m m1 : model) (k : event_kind)
    (indiv time e : Nat) (h : add_individual_to_event_list k indiv time m = some (e, m1)) :
    ∃ ev ne ls, m1 = { m with events := ev, next_event := ne, lists := ls } := by
  unfold add_individual_to_event_list at h
  split at h
  · simp at h
  · rename_i e0 m0 hnew
    obtain ⟨ev0, ne0, rfl⟩ := new_event_shape m m0 e0 hnew
    dsimp only at h
    split at h
    · simp at h
    · simp only [Option.some.injEq, Prod.mk.injEq] at h
      exact ⟨_, _, _, h.2.symm⟩

theorem transmit_frame_refl (m : model) : transmit_frame m m :=
  ⟨rfl, rfl, rfl, rfl, rfl, fun _ => ⟨rfl, rfl⟩⟩

theorem transmit_frame_trans (m m1 m2 : model) (h1 : transmit_frame m m1)
    (h2 : transmit_frame m1 m2) : transmit_frame m m2 := by
  obtain ⟨htime, hpar, hmem, hslot, hrng, hpop⟩ := h1
  obtain ⟨htime2, hpar2, hmem2, hslot2, hrng2, hpop2⟩ := h2
  refine ⟨htime2.trans htime, hpar2.trans hpar, hmem2.trans hmem, hslot2.trans hslot,
    hrng2.trans hrng, fun i => ?_⟩
  exact ⟨(hpop2 i).1.trans (hpop i).1, (hpop2 i).2.trans (hpop i).2⟩

/-- `new_infection` leaves the frame and every hazard alone, and only changes
the status of the infected individual. -/
theorem new_infection_frame (m m1 : model) (infected infector : Nat)
    (h : new_infection m infected infector = some m1) :
    transmit_frame m m1 ∧ (∀ i, (m1.population i).hazard = (m.population i).hazard) ∧
      (∀ i, i ≠ infected → (m1.population i).status = (m.population i).status) ∧
      (m1.population infected).status ≠ disease_status.UNINFECTED := by
  unfold new_infection at h
  split at h
  · dsimp only at h
    split at h
    · simp at h
    · rename_i e ma h1
      obtain ⟨ev, ne, ls, rfl⟩ := add_individual_to_event_list_shape _ _ _ _ _ _ h1
      dsimp only at h
      split at h
      · simp at h
      · rename_i e2 mb h2
        obtain ⟨ev2, ne2, ls2, rfl⟩ := add_individual_to_event_list_shape _ _ _ _ _ _ h2
        simp only [Option.some.injEq] at h
        subst h
        refine ⟨⟨rfl, rfl, rfl, rfl, rfl, fun i => ?_⟩, fun i => ?_, fun i hi => ?_, ?_⟩
        · by_cases hi : i = infected
          · subst hi; simp
          · simp [Function.update_noteq hi]
        · by_cases hi : i = infected
          · subst hi; simp
          · simp [Function.update_noteq hi]
        · simp [Function.update_noteq hi]
        · simp
  · dsimp only at h
    split at h
    · simp at h
    · rename_i e ma h1
      obtain ⟨ev, ne, ls, rfl⟩ := add_individual_to_event_list_shape _ _ _ _ _ _ h1
      dsimp only at h
      split at h
      · simp at h
      · rename_i e2 mb h2
        obtain ⟨ev2, ne2, ls2, rfl⟩ := add_individual_to_event_list_shape _ _ _ _ _ _ h2
        simp only [Option.some.injEq] at h
        subst h
        refine ⟨⟨rfl, rfl, rfl, rfl, rfl, fun i => ?_⟩, fun i => ?_, fun i hi => ?_, ?_⟩
        · by_cases hi : i = infected
          · subst hi; simp
          · simp [Function.update_noteq hi]
        · by_cases hi : i = infected
          · subst hi; simp
          · simp [Function.update_noteq hi]
        · simp [Function.update_noteq hi]
        · simp

theorem reduce_hazard_frame (m : model) (c : Nat) (r : Int) :
    transmit_frame m (reduce_hazard m c r) := by
  refine ⟨rfl, rfl, rfl, rfl, rfl, fun i => ?_⟩
  unfold reduce_hazard
  by_cases hi : i = c
  · subst hi; simp
  · simp [Function.update_noteq hi]

theorem transmit_contact_frame (m m1 : model) (rate : Int) (infector c : Nat)
    (h : transmit_contact m rate infector c = some m1) : transmit_frame m m1 := by
  unfold transmit_contact at h
  split at h
  · dsimp only at h
    split at h
    · exact transmit_frame_trans _ _ _ (reduce_hazard_frame m c rate)
        (new_infection_frame _ _ _ _ h).1
    · simp only [Option.some.injEq] at h
      subst h
      exact reduce_hazard_frame m c rate
  · simp only [Option.some.injEq] at h
    subst h
    exact transmit_frame_refl m

theorem transmit_contacts_frame (rate : Int) (infector : Nat) :
    ∀ (n : Nat) (head : Option Nat) (m m1 : model),
      transmit_contacts rate infector n head m = some m1 → transmit_frame m m1
  | 0, _, m, m1, h => by
    simp only [transmit_contacts, Option.some.injEq] at h
    subst h
    exact transmit_frame_refl m
  | n + 1, none, m, m1, h => by simp [transmit_contacts] at h
  | n + 1, some r, m, m1, h => by
    simp only [transmit_contacts] at h
    split at h
    · simp at h
    · split at h
      · simp at h
      · rename_i c _ m2 h2
        exact transmit_frame_trans _ _ _ (transmit_contact_frame _ _ _ _ _ h2)
          (transmit_contacts_frame rate infector n _ m2 m1 h)

theorem transmit_events_frame (rate : Int) :
    ∀ (n : Nat) (head : Option Nat) (m m1 : model),
      transmit_events rate n head m = some m1 → transmit_frame m m1
  | 0, _, m, m1, h => by
    simp only [transmit_events, Option.some.injEq] at h
    subst h
    exact transmit_frame_refl m
  | n + 1, none, m, m1, h => by simp [transmit_events] at h
  | n + 1, some e, m, m1, h => by
    simp only [transmit_events] at h
    split at h
    · simp at h
    · split at h
      · simp at h
      · rename_i i _ m2 h2
        exact transmit_frame_trans _ _ _ (transmit_contacts_frame _ _ _ _ _ _ h2)
          (transmit_events_frame rate n _ m2 m1 h)

theorem transmit_day_frame (k : event_kind) (d : Nat) (m m1 : model)
    (h : transmit_day k d m = some m1) : transmit_frame m m1 :=
  transmit_events_frame _ _ _ m m1 h

/-- The loop over the records of one infector visits the contacts that the first
`n` records of its day list point to, in list order. -/
theorem transmit_contacts_eq (rate : Int) (infector : Nat) :
    ∀ (n : Nat) (head : Option Nat) (m : model) (rs cs : List Nat),
      interaction_walk m.interactions n head = some rs →
      rs.map (fun r => (m.interactions r).individual) = cs.map some →
      transmit_contacts rate infector n head m = transmit_to rate infector cs m
  | 0, _, m, rs, cs, hw, hmap => by
    simp only [interaction_walk, Option.some.injEq] at hw
    subst hw
    cases cs with
    | nil => rfl
    | cons c cs => simp at hmap
  | n + 1, none, m, rs, cs, hw, _ => by simp [interaction_walk] at hw
  | n + 1, some r, m, rs, cs, hw, hmap => by
    simp only [interaction_walk] at hw
    split at hw
    · simp at hw
    · rename_i rest hrest
      simp only [Option.some.injEq] at hw
      subst hw
      cases cs with
      | nil => simp at hmap
      | cons c cs =>
        simp only [List.map_cons, List.cons.injEq] at hmap
        obtain ⟨hc, hmap1⟩ := hmap
        simp only [transmit_contacts, transmit_to, hc]
        cases h1 : transmit_contact m rate infector c with
        | none => rfl
        | some m1 =>
          have hf := (transmit_contact_frame m m1 rate infector c h1).2.2.1
          simp only
          exact transmit_contacts_eq rate infector n _ m1 rest cs (by rw [hf]; exact hrest)
            (by rw [hf]; exact hmap1)

/-- The loop over the days runs the day body on the days from `n - 1` down to
`max(0, time - MAX_INFECTIOUS_PERIOD)`. -/
theorem transmit_days_eq (k : event_kind) :
    ∀ (n : Nat) (m : model), transmit_days k n m =
      transmit_over k (((List.range n).filter
        (fun d => decide (m.time - m.params.MAX_INFECTIOUS_PERIOD ≤ d))).reverse) m
  | 0, m => rfl
  | n + 1, m => by
    rw [List.range_succ, List.filter_append, List.reverse_append]
    by_cases hlo : m.time - m.params.MAX_INFECTIOUS_PERIOD ≤ n
    · simp only [transmit_days, hlo, if_true, List.filter_cons, decide_True, List.filter_nil,
        List.reverse_cons, List.reverse_nil, List.nil_append, List.singleton_append,
        transmit_over]
      cases h1 : transmit_day k n m with
      | none => rfl
      | some m1 =>
        obtain ⟨ht, hp, _⟩ := transmit_day_frame k n m m1 h1
        simp only
        rw [transmit_days_eq k n m1, ht, hp]
    · have hempty : (List.range n).filter
          (fun d => decide (m.time - m.params.MAX_INFECTIOUS_PERIOD ≤ d)) = [] := by
        rw [List.filter_eq_nil_iff]
        intro d hd
        have := List.mem_range.mp hd
        simp only [decide_eq_true_eq]
        omega
      rw [hempty]
      simp only [transmit_days, hlo, if_false, List.filter_cons, decide_False, List.filter_nil,
        List.reverse_nil, List.append_nil, transmit_over]

theorem mem_infectious_days (t MAX d : Nat) :
    d ∈ infectious_days t MAX ↔ t - MAX ≤ d ∧ d + 1 ≤ t := by
  simp only [infectious_days, List.mem_reverse, List.mem_filter, List.mem_range,
    decide_eq_true_eq]
  omega

/-- C9: `transmit_virus_by_type` at time `t` runs the day body on the buckets
of the days `d` with `max(0, t - MAX_INFECTIOUS_PERIOD) ≤ d ≤ t - 1`, latest
first, and on no other bucket; the day body walks `n_daily_current[d]` events
from the head of the bucket with the rate `infectious_curve[t - 1 - d]`; each
event met is visited with its owner as infector and `next` read before the
visit; the infector's loop visits the contacts of the first `n_interactions`
records of its list for today's slot; a contact whose status is `UNINFECTED`
gets its hazard reduced by the rate and `new_infection(contact, infector)` is
the rest of the step iff the reduced hazard is below zero; for any other
contact the step changes nothing. -/
theorem transmit_virus_by_type_spec (m : model) (k : event_kind) :
    transmit_virus_by_type m k =
      transmit_over k (infectious_days m.time m.params.MAX_INFECTIOUS_PERIOD) m ∧
    (∀ d, d ∈ infectious_days m.time m.params.MAX_INFECTIOUS_PERIOD ↔
      (m.time - m.params.MAX_INFECTIOUS_PERIOD ≤ d ∧ d + 1 ≤ m.time)) ∧
    (∀ d, transmit_day k d m =
      transmit_events ((m.lists k).infectious_curve (m.time - 1 - d))
        ((m.lists k).n_daily_current d).toNat ((m.lists k).events d) m) ∧
    (∀ rate n e infector, (m.events e).individual = some infector →
      transmit_events rate (n + 1) (some e) m =
        (transmit_contacts rate infector
          ((m.population infector).n_interactions m.interaction_day_idx)
          ((m.population infector).interactions m.interaction_day_idx) m).bind
          (transmit_events rate n (m.events e).next)) ∧
    (∀ rate infector cs, contacts m infector m.interaction_day_idx = some (cs.map some) →
      transmit_contacts rate infector
        ((m.population infector).n_interactions m.interaction_day_idx)
        ((m.population infector).interactions m.interaction_day_idx) m =
        transmit_to rate infector cs m) ∧
    (∀ rate infector c, (m.population c).status = disease_status.UNINFECTED →
      transmit_contact m rate infector c =
        (if (m.population c).hazard - rate < 0
          then new_infection (reduce_hazard m c rate) c infector
          else some (reduce_hazard m c rate)) ∧
      ((reduce_hazard m c rate).population c).hazard = (m.population c).hazard - rate ∧
      ∀ m1, transmit_contact m rate infector c = some m1 →
        (m1.population c).hazard = (m.population c).hazard - rate) ∧
    (∀ rate infector c, (m.population c).status ≠ disease_status.UNINFECTED →
      transmit_contact m rate infector c = some m) := by
  refine ⟨transmit_days_eq k m.time m, fun d => mem_infectious_days _ _ d, fun _ => rfl,
    ?_, ?_, ?_, ?_⟩
  · intro rate n e infector he
    simp only [transmit_events, he]
    cases transmit_contacts rate infector
      ((m.population infector).n_interactions m.interaction_day_idx)
      ((m.population infector).interactions m.interaction_day_idx) m <;> rfl
  · intro rate infector cs hc
    unfold contacts at hc
    cases hw : interaction_walk m.interactions
        ((m.population infector).n_interactions m.interaction_day_idx)
        ((m.population infector).interactions m.interaction_day_idx) with
    | none => simp [hw] at hc
    | some rs =>
      simp only [hw, Option.map_some', Option.some.injEq] at hc
      exact transmit_contacts_eq rate infector _ _ m rs cs hw hc
  · intro rate infector c hs
    have hred : ((reduce_hazard m c rate).population c).hazard =
        (m.population c).hazard - rate := by
      simp [reduce_hazard]
    have heq : transmit_contact m rate infector c =
        (if (m.population c).hazard - rate < 0
          then new_infection (reduce_hazard m c rate) c infector
          else some (reduce_hazard m c rate)) := by
      simp only [transmit_contact, hs, if_true, hred]
    refine ⟨heq, hred, fun m1 h1 => ?_⟩
    rw [heq] at h1
    split at h1
    · rw [(new_infection_frame _ _ _ _ h1).2.1 c, hred]
    · simp only [Option.some.injEq] at h1
      subst h1
      exact hred
  · intro rate infector c hs
    simp only [transmit_contact, hs, if_false]

/-- A concrete run of `transmit_virus_by_type`: person 0, presymptomatic since
day 0, meets person 1 at time 1; the hazard of person 1 goes from 5 to -2 and
person 1 is infected by person 0, with an event in today's presymptomatic
bucket; person 0 keeps its hazard. -/
theorem transmit_virus_by_type_example :
    (transmit_virus_by_type transmit_example event_kind.presymptomatic).map
      (fun m => ((m.population 1).hazard, (m.population 1).status, (m.population 1).infector)) =
      some (-2, disease_status.PRESYMPTOMATIC, some 0) ∧
    (transmit_virus_by_type transmit_example event_kind.presymptomatic).map
      (fun m => (bucket_walk m event_kind.presymptomatic 1,
        bucket_walk m event_kind.presymptomatic 0, (m.population 0).hazard)) =
      some (some [1], some [0], 0) := by
  constructor <;> decide

/-! ## Infectors were infected before the call -/

/-- The pool invariant only reads the event pool and, of the lists, the head
pointers and the counters `n_daily_current`. -/
theorem pool_inv_congr_lists (m m1 : model) (b : buckets) (fresh dead : List Nat)
    (he : m1.events = m.events) (hn : m1.next_event = m.next_event)
    (hl : ∀ k, (m1.lists k).events = (m.lists k).events ∧
      (m1.lists k).n_daily_current = (m.lists k).n_daily_current)
    (h : pool_inv m b fresh dead) : pool_inv m1 b fresh dead := by
  obtain ⟨h1, h2, h3, h4, h5, h6, h7, h8⟩ := h
  refine ⟨by rw [he, hn]; exact h1, h2, h3, h4, h5, fun k d hne => ?_, fun k d => ?_,
    by rw [he]; exact h8⟩
  · rw [(hl k).1]; exact h6 k d hne
  · rw [(hl k).2]; exact h7 k d

theorem pool_inv_congr (m m1 : model) (b : buckets) (fresh dead : List Nat)
    (he : m1.events = m.events) (hn : m1.next_event = m.next_event) (hl : m1.lists = m.lists)
    (h : pool_inv m b fresh dead) : pool_inv m1 b fresh dead :=
  pool_inv_congr_lists m m1 b fresh dead he hn (fun k => by rw [hl]; exact ⟨rfl, rfl⟩) h

/-- `link_event` keeps the owner of every event. -/
theorem link_event_individual (ev ev1 : Nat → event) (n : Int) (head : Option Nat) (e : Nat)
    (h : link_event ev n head e = some ev1) (q : Nat) :
    (ev1 q).individual = (ev q).individual := by
  unfold link_event at h
  split at h
  · split at h
    · simp at h
    · simp only [Option.some.injEq] at h
      subst h; simp
  · split at h
    · split at h
      · simp at h
      · simp only [Option.some.injEq] at h
        subst h; simp
    · simp only [Option.some.injEq] at h
      subst h; rfl

/-- `new_event` keeps the owner of every event. -/
theorem new_event_individual (m m1 : model) (e : Nat) (h : new_event m = some (e, m1))
    (q : Nat) : (m1.events q).individual = (m.events q).individual := by
  unfold new_event at h
  split at h
  · simp at h
  · split at h
    · simp at h
    · dsimp only at h
      split at h
      · simp at h
      · simp only [Option.some.injEq, Prod.mk.injEq] at h
        obtain ⟨_, rfl⟩ := h
        simp

/-- An add only changes the owner of the event it returns. -/
theorem add_individual_to_event_list_individual (m m1 : model) (k : event_kind)
    (indiv time e : Nat) (h : add_individual_to_event_list k indiv time m = some (e, m1))
    (q : Nat) (hq : q ≠ e) : (m1.events q).individual = (m.events q).individual := by
  unfold add_individual_to_event_list at h
  split at h
  · simp at h
  · rename_i e0 m0 hnew
    dsimp only at h
    split at h
    · simp at h
    · rename_i ev hlink
      simp only [Option.some.injEq, Prod.mk.injEq] at h
      obtain ⟨rfl, rfl⟩ := h
      show (ev q).individual = _
      rw [link_event_individual _ _ _ _ _ hlink q, set_individual_individual, if_neg hq]
      exact new_event_individual m m0 e0 hnew q

/-- An add changes the lists in one bucket only, and puts the returned event at
the head of that bucket. -/
theorem add_individual_to_event_list_lists (m m1 : model) (k : event_kind)
    (indiv time e : Nat) (h : add_individual_to_event_list k indiv time m = some (e, m1)) :
    (m1.lists k).events time = some e ∧
    ∀ k1 d, ¬(k1 = k ∧ d = time) →
      (m1.lists k1).events d = (m.lists k1).events d ∧
      (m1.lists k1).n_daily_current d = (m.lists k1).n_daily_current d := by
  unfold add_individual_to_event_list at h
  split at h
  · simp at h
  · rename_i e0 m0 hnew
    obtain ⟨ev0, ne0, rfl⟩ := new_event_shape m m0 e0 hnew
    dsimp only at h
    split at h
    · simp at h
    · simp only [Option.some.injEq, Prod.mk.injEq] at h
      obtain ⟨rfl, rfl⟩ := h
      refine ⟨by simp, fun k1 d hkd => ?_⟩
      by_cases hk : k1 = k
      · subst hk
        have hd : d ≠ time := fun hd => hkd ⟨rfl, hd⟩
        simp [Function.update_noteq hd]
      · simp [Function.update_noteq hk]

/-- One individual below `n` leaves the status `UNINFECTED`: the count drops by
one. -/
theorem uninfected_count_drop (m m1 : model) (c : Nat) :
    ∀ n, c < n → (m.population c).status = disease_status.UNINFECTED →
      (m1.population c).status ≠ disease_status.UNINFECTED →
      (∀ i, i ≠ c → (m1.population i).status = (m.population i).status) →
      uninfected_count m1 n + 1 = uninfected_count m n
  | 0, h, _, _, _ => by omega
  | n + 1, h, hc, hc1, hsame => by
    unfold uninfected_count at *
    simp only [sum_upto]
    by_cases hcn : c = n
    · subst hcn
      have : sum_upto (fun i =>
          if (m1.population i).status = disease_status.UNINFECTED then 1 else 0) c =
          sum_upto (fun i =>
            if (m.population i).status = disease_status.UNINFECTED then 1 else 0) c :=
        sum_upto_congr _ _ c (fun i hi => by rw [hsame i (by omega)])
      rw [this]
      simp [hc, hc1]
    · have ih := uninfected_count_drop m m1 c n (by omega) hc hc1 hsame
      unfold uninfected_count at ih
      rw [hsame n (fun h => hcn h.symm)]
      omega

/-- Equal statuses give equal counts. -/
theorem uninfected_count_congr (m m1 : model) (n : Nat)
    (h : ∀ i, (m1.population i).status = (m.population i).status) :
    uninfected_count m1 n = uninfected_count m n := by
  unfold uninfected_count
  exact sum_upto_congr _ _ n (fun i _ => by rw [h i])

/-- An uninfected individual below `n` makes the count positive. -/
theorem uninfected_count_pos (m : model) (c : Nat) :
    ∀ n, c < n → (m.population c).status = disease_status.UNINFECTED →
      0 < uninfected_count m n
  | 0, h, _ => by omega
  | n + 1, h, hc => by
    unfold uninfected_count
    simp only [sum_upto]
    by_cases hcn : c = n
    · subst hcn; simp [hc]
    · have := uninfected_count_pos m c n (by omega) hc
      unfold uninfected_count at this
      omega

/-- A completed add on a pool with two events never handed out returned the
first of them, and the invariant holds again. -/
theorem add_individual_to_event_list_step (m m1 : model) (b : buckets) (f g : Nat)
    (fs dead : List Nat) (k : event_kind) (indiv time e : Nat)
    (h : add_individual_to_event_list k indiv time m = some (e, m1))
    (hinv : pool_inv m b (f :: g :: fs) dead) :
    e = f ∧ pool_inv m1 (b.set k time (f :: b k time)) (g :: fs) dead := by
  obtain ⟨m2, h2, _, hinv2⟩ := pool_inv_add m b f g fs dead k indiv time hinv
  rw [h2] at h
  simp only [Option.some.injEq, Prod.mk.injEq] at h
  obtain ⟨rfl, rfl⟩ := h
  exact ⟨rfl, hinv2⟩

/-- A completed `new_infection` on a pool with three events never handed out:
it took the first two of them, put them in a bucket of today and in a bucket
of today or later, and kept the owners of all other events. -/
theorem new_infection_pool (m m1 : model) (c i : Nat) (b : buckets) (f g g2 : Nat)
    (fs dead : List Nat) (hpool : pool_inv m b (f :: g :: g2 :: fs) dead)
    (h : new_infection m c i = some m1) :
    ∃ K1 K2 t1 t2, m.time ≤ t1 ∧ m.time ≤ t2 ∧
      pool_inv m1 ((b.set K1 t1 (f :: b K1 t1)).set K2 t2
        (g :: (b.set K1 t1 (f :: b K1 t1)) K2 t2)) (g2 :: fs) dead ∧
      ∀ q, q ≠ f → q ≠ g → (m1.events q).individual = (m.events q).individual := by
  unfold new_infection at h
  split at h
  · dsimp only at h
    split at h
    · simp at h
    · rename_i e ma h1
      obtain ⟨rfl, hp1⟩ := add_individual_to_event_list_step _ _ b f g (g2 :: fs) dead _ _ _ _ h1
        (pool_inv_congr m _ b _ dead rfl rfl rfl hpool)
      split at h
      · simp at h
      · rename_i e2 mb h2
        obtain ⟨rfl, hp2⟩ := add_individual_to_event_list_step _ _ _ g g2 fs dead _ _ _ _ h2
          (pool_inv_congr ma _ _ _ dead rfl rfl rfl hp1)
        simp only [Option.some.injEq] at h
        subst h
        refine ⟨event_kind.asymptomatic, event_kind.recovered, m.time,
          m.time + m.rng.draw (m.rng_calls + 1), le_refl _, Nat.le_add_right _ _, hp2, ?_⟩
        intro q hq1 hq2
        exact (add_individual_to_event_list_individual _ _ _ _ _ _ h2 q hq2).trans
          (add_individual_to_event_list_individual _ _ _ _ _ _ h1 q hq1)
  · dsimp only at h
    split at h
    · simp at h
    · rename_i e ma h1
      obtain ⟨rfl, hp1⟩ := add_individual_to_event_list_step _ _ b f g (g2 :: fs) dead _ _ _ _ h1
        (pool_inv_congr m _ b _ dead rfl rfl rfl hpool)
      split at h
      · simp at h
      · rename_i e2 mb h2
        obtain ⟨rfl, hp2⟩ := add_individual_to_event_list_step _ _ _ g g2 fs dead _ _ _ _ h2
          (pool_inv_congr ma _ _ _ dead rfl rfl rfl hp1)
        simp only [Option.some.injEq] at h
        subst h
        refine ⟨event_kind.presymptomatic, event_kind.symptomatic, m.time,
          m.time + m.rng.draw (m.rng_calls + 1), le_refl _, Nat.le_add_right _ _, hp2, ?_⟩
        intro q hq1 hq2
        exact (add_individual_to_event_list_individual _ _ _ _ _ _ h2 q hq2).trans
          (add_individual_to_event_list_individual _ _ _ _ _ _ h1 q hq1)

/-- `new_infection` of an uninfected individual below `N` keeps the invariant of
the call. -/
theorem new_infection_inv (m0 : model) (b0 : buckets) (N : Nat) (m m1 : model) (c i : Nat)
    (hinv : transmit_inv m0 b0 N m) (hc : c < N)
    (hs : (m.population c).status = disease_status.UNINFECTED)
    (h : new_infection m c i = some m1) : transmit_inv m0 b0 N m1 := by
  obtain ⟨hframe, _, hstat, hstat1⟩ := new_infection_frame m m1 c i h
  obtain ⟨⟨b, fresh, dead, hpool, hU, hb⟩, hown, hfr⟩ := hinv
  have hpos := uninfected_count_pos m c N hc hs
  have hdrop := uninfected_count_drop m m1 c N hc hs hstat1 hstat
  have htime : m.time = m0.time := hfr.1
  obtain ⟨f, g, g2, fs, rfl⟩ : ∃ f g g2 fs, fresh = f :: g :: g2 :: fs := by
    match fresh, hU with
    | [], h => simp at h
    | [_], h => simp at h; omega
    | [_, _], h => simp at h; omega
    | f :: g :: g2 :: fs, _ => exact ⟨f, g, g2, fs, rfl⟩
  obtain ⟨K1, K2, t1, t2, ht1, ht2, hpool1, hind⟩ :=
    new_infection_pool m m1 c i b f g g2 fs dead hpool h
  refine ⟨⟨_, g2 :: fs, dead, hpool1, ?_, ?_⟩, ?_, transmit_frame_trans _ _ _ hfr hframe⟩
  · simp only [List.length_cons] at hU ⊢
    omega
  · intro k d hd
    rw [buckets_set_other _ _ _ _ _ _ (fun hh => by omega),
      buckets_set_other _ _ _ _ _ _ (fun hh => by omega)]
    exact hb k d hd
  · intro k d e hd he
    have he1 : e ∈ b k d := by rw [hb k d hd]; exact he
    have hne := hpool.disj_ring k d e he1
    rw [hind e (fun hh => hne (by simp [hh])) (fun hh => hne (by simp [hh]))]
    exact hown k d e hd he

theorem reduce_hazard_status (m : model) (c : Nat) (r : Int) (i : Nat) :
    ((reduce_hazard m c r).population i).status = (m.population i).status := by
  unfold reduce_hazard
  by_cases hi : i = c
  · subst hi; simp
  · simp [Function.update_noteq hi]

theorem reduce_hazard_inv (m0 : model) (b0 : buckets) (N : Nat) (m : model) (c : Nat) (r : Int)
    (hinv : transmit_inv m0 b0 N m) : transmit_inv m0 b0 N (reduce_hazard m c r) := by
  obtain ⟨⟨b, fresh, dead, hpool, hU, hb⟩, hown, hfr⟩ := hinv
  refine ⟨⟨b, fresh, dead, pool_inv_congr m _ b fresh dead rfl rfl rfl hpool, ?_, hb⟩, hown,
    transmit_frame_trans _ _ _ hfr (reduce_hazard_frame m c r)⟩
  rw [uninfected_count_congr m _ N (reduce_hazard_status m c r)]
  exact hU

/-- The step for one contact below `N` keeps the invariant of the call. -/
theorem transmit_contact_inv (m0 : model) (b0 : buckets) (N : Nat) (m m1 : model)
    (rate : Int) (i c : Nat) (hinv : transmit_inv m0 b0 N m) (hc : c < N)
    (h : transmit_contact m rate i c = some m1) : transmit_inv m0 b0 N m1 := by
  unfold transmit_contact at h
  split at h
  · rename_i hs
    dsimp only at h
    split at h
    · exact new_infection_inv m0 b0 N _ m1 c i (reduce_hazard_inv m0 b0 N m c rate hinv) hc
        (by rw [reduce_hazard_status]; exact hs) h
    · simp only [Option.some.injEq] at h
      subst h
      exact reduce_hazard_inv m0 b0 N m c rate hinv
  · simp only [Option.some.injEq] at h
    subst h
    exact hinv

/-- The loop over the records of one infector keeps the invariant of the call,
when the records of the pool point to individuals below `N`. -/
theorem transmit_contacts_inv (m0 : model) (b0 : buckets) (N : Nat) (rate : Int) (i : Nat)
    (hrec : ∀ r c, (m0.interactions r).individual = some c → c < N) :
    ∀ (n : Nat) (head : Option Nat) (m m1 : model), transmit_inv m0 b0 N m →
      transmit_contacts rate i n head m = some m1 → transmit_inv m0 b0 N m1
  | 0, _, m, m1, hinv, h => by
    simp only [transmit_contacts, Option.some.injEq] at h
    subst h
    exact hinv
  | n + 1, none, m, m1, _, h => by simp [transmit_contacts] at h
  | n + 1, some r, m, m1, hinv, h => by
    simp only [transmit_contacts] at h
    split at h
    · simp at h
    · rename_i c hc
      split at h
      · simp at h
      · rename_i m2 h2
        have hcN : c < N := hrec r c (by rw [← hinv.frame.2.2.1]; exact hc)
        exact transmit_contacts_inv m0 b0 N rate i hrec n _ m2 m1
          (transmit_contact_inv m0 b0 N m m2 rate i c hinv hcN h2) h

/-- In a linked part of a bucket every event has `next` on its successor. -/
theorem linked_next_of_suffix (ev : Nat → event) (D : List Nat) (e e1 : Nat) (r : List Nat) :
    ∀ (l : List Nat) (p : Nat), linked ev D p l → (e :: e1 :: r) <:+ (p :: l) →
      (ev e).next = some e1
  | [], p, _, hs => by
    have := hs.length_le
    simp at this
  | q :: l, p, hl, hs => by
    rcases List.suffix_cons_iff.mp hs with h | h
    · simp only [List.cons.injEq] at h
      obtain ⟨rfl, rfl, rfl⟩ := h
      exact linked_next ev D e e1 r hl
    · exact linked_next_of_suffix ev D e e1 r l q (linked_tail ev D p q l hl) h

theorem bucket_ok_next_of_suffix (ev : Nat → event) (D : List Nat) (e e1 : Nat)
    (r l : List Nat) (hok : bucket_ok ev D l) (hs : (e :: e1 :: r) <:+ l) :
    (ev e).next = some e1 := by
  cases l with
  | nil =>
    have := hs.length_le
    simp at this
  | cons p l => exact linked_next_of_suffix ev D e e1 r l p hok hs

/-- The loop over the events of a bucket of a day before today, from any event
of the bucket on: every infector it visits was not `UNINFECTED` when the call
started, and the invariant of the call holds when the loop is done. -/
theorem transmit_events_inv (m0 : model) (b0 : buckets) (N : Nat) (rate : Int)
    (k : event_kind) (d : Nat) (hd : d < m0.time)
    (hrec : ∀ r c, (m0.interactions r).individual = some c → c < N)
    (hown : ∀ e ∈ b0 k d, ∃ i, (m0.events e).individual = some i ∧
      (m0.population i).status ≠ disease_status.UNINFECTED) :
    ∀ (L : List Nat) (m : model) (ptr : Option Nat), transmit_inv m0 b0 N m →
      L <:+ b0 k d → (L ≠ [] → ptr = L.head?) →
      (∀ c ∈ infectors_of_events rate L.length ptr m,
        (m0.population c).status ≠ disease_status.UNINFECTED) ∧
      (∀ m1, transmit_events rate L.length ptr m = some m1 → transmit_inv m0 b0 N m1)
  | [], m, ptr, hinv, _, _ => by
    refine ⟨by simp [infectors_of_events], fun m1 h => ?_⟩
    simp only [List.length_nil, transmit_events, Option.some.injEq] at h
    subst h
    exact hinv
  | e :: rest, m, ptr, hinv, hsuf, hptr => by
    obtain rfl : ptr = some e := by simpa using hptr (by simp)
    have hmem : e ∈ b0 k d := hsuf.subset (by simp)
    obtain ⟨i, hi, hst⟩ := hown e hmem
    have hind : (m.events e).individual = some i := by
      rw [hinv.owners k d e hd hmem]; exact hi
    have hrest : rest <:+ b0 k d := (List.suffix_cons e rest).trans hsuf
    have hnext : rest ≠ [] → (m.events e).next = rest.head? := by
      intro hne
      obtain ⟨b, fresh, dead, hpool, _, hb⟩ := hinv.pool
      cases rest with
      | nil => exact absurd rfl hne
      | cons e1 r =>
        have hok := hpool.links k d
        rw [hb k d hd] at hok
        simpa using bucket_ok_next_of_suffix m.events dead e e1 r _ hok hsuf
    simp only [List.length_cons, infectors_of_events, transmit_events, hind]
    cases hc : transmit_contacts rate i
        ((m.population i).n_interactions m.interaction_day_idx)
        ((m.population i).interactions m.interaction_day_idx) m with
    | none =>
      refine ⟨fun c hcm => ?_, fun m1 h => by simp at h⟩
      obtain rfl : c = i := by simpa using hcm
      exact hst
    | some m2 =>
      have hinv2 := transmit_contacts_inv m0 b0 N rate i hrec _ _ m m2 hinv hc
      have ih := transmit_events_inv m0 b0 N rate k d hd hrec hown rest m2 (m.events e).next
        hinv2 hrest hnext
      refine ⟨fun c hcm => ?_, fun m1 h => ih.2 m1 h⟩
      rcases List.mem_cons.mp hcm with h | h
      · rw [h]; exact hst
      · exact ih.1 c h

/-- The day body on a bucket of a day before today: every infector it visits
was not `UNINFECTED` when the call started, and the invariant of the call
holds afterwards. -/
theorem transmit_day_inv (m0 : model) (b0 : buckets) (N : Nat) (k : event_kind) (d : Nat)
    (hd : d < m0.time)
    (hrec : ∀ r c, (m0.interactions r).individual = some c → c < N)
    (hown : ∀ e ∈ b0 k d, ∃ i, (m0.events e).individual = some i ∧
      (m0.population i).status ≠ disease_status.UNINFECTED)
    (m : model) (hinv : transmit_inv m0 b0 N m) :
    (∀ c ∈ infectors_of_day k d m, (m0.population c).status ≠ disease_status.UNINFECTED) ∧
    (∀ m1, transmit_day k d m = some m1 → transmit_inv m0 b0 N m1) := by
  obtain ⟨b, fresh, dead, hpool, _, hb⟩ := hinv.pool
  have hcount : ((m.lists k).n_daily_current d).toNat = (b0 k d).length := by
    rw [hpool.count k d, hb k d hd, Int.toNat_ofNat]
  have hhead : b0 k d ≠ [] → (m.lists k).events d = (b0 k d).head? := by
    intro hne
    rw [← hb k d hd] at hne ⊢
    exact hpool.head k d hne
  unfold infectors_of_day transmit_day
  rw [hcount]
  exact transmit_events_inv m0 b0 N _ k d hd hrec hown (b0 k d) m _ hinv
    (List.suffix_refl _) hhead

/-- The loop over the days, from day `n - 1` down. -/
theorem transmit_days_inv (m0 : model) (b0 : buckets) (N : Nat) (k : event_kind)
    (hrec : ∀ r c, (m0.interactions r).individual = some c → c < N)
    (hown : ∀ d, d < m0.time → ∀ e ∈ b0 k d, ∃ i, (m0.events e).individual = some i ∧
      (m0.population i).status ≠ disease_status.UNINFECTED) :
    ∀ (n : Nat) (m : model), n ≤ m0.time → transmit_inv m0 b0 N m →
      (∀ c ∈ infectors_of_days k n m, (m0.population c).status ≠ disease_status.UNINFECTED) ∧
      (∀ m1, transmit_days k n m = some m1 → transmit_inv m0 b0 N m1)
  | 0, m, _, hinv => by
    refine ⟨by simp [infectors_of_days], fun m1 h => ?_⟩
    simp only [transmit_days, Option.some.injEq] at h
    subst h
    exact hinv
  | n + 1, m, hn, hinv => by
    have hday := transmit_day_inv m0 b0 N k n (by omega) hrec (hown n (by omega)) m hinv
    by_cases hlo : m.time - m.params.MAX_INFECTIOUS_PERIOD ≤ n
    · simp only [infectors_of_days, transmit_days, hlo, if_true]
      cases hc : transmit_day k n m with
      | none =>
        refine ⟨fun c hcm => ?_, fun m1 h => by simp at h⟩
        exact hday.1 c (by simpa using hcm)
      | some m2 =>
        have ih := transmit_days_inv m0 b0 N k hrec hown n m2 (by omega) (hday.2 m2 hc)
        refine ⟨fun c hcm => ?_, fun m1 h => ih.2 m1 h⟩
        rcases List.mem_append.mp hcm with h | h
        · exact hday.1 c h
        · exact ih.1 c h
    · refine ⟨by simp [infectors_of_days, hlo], fun m1 h => ?_⟩
      simp only [transmit_days, hlo, if_false, Option.some.injEq] at h
      subst h
      exact hinv

/-- One call of `transmit_virus_by_type` within a call of `transmit_virus`. -/
theorem transmit_virus_by_type_inv (m0 : model) (b0 : buckets) (N : Nat) (k : event_kind)
    (hrec : ∀ r c, (m0.interactions r).individual = some c → c < N)
    (hown : ∀ d, d < m0.time → ∀ e ∈ b0 k d, ∃ i, (m0.events e).individual = some i ∧
      (m0.population i).status ≠ disease_status.UNINFECTED)
    (m : model) (hinv : transmit_inv m0 b0 N m) :
    (∀ c ∈ infectors_by_type m k, (m0.population c).status ≠ disease_status.UNINFECTED) ∧
    (∀ m1, transmit_virus_by_type m k = some m1 → transmit_inv m0 b0 N m1) :=
  transmit_days_inv m0 b0 N k hrec hown m.time m (le_of_eq hinv.frame.1) hinv

/-- What `new_infection` does to the lists: the new case gets an event at the
head of today's asymptomatic or presymptomatic bucket, kept in `current_event`,
and no bucket of a day before today changes. -/
theorem new_infection_enqueues_today (m m1 : model) (c i : Nat)
    (h : new_infection m c i = some m1) :
    (∃ K e, (K = event_kind.asymptomatic ∨ K = event_kind.presymptomatic) ∧
      (m1.population c).current_event = some e ∧ (m1.lists K).events m.time = some e) ∧
    ∀ k d, d < m.time → (m1.lists k).events d = (m.lists k).events d ∧
      (m1.lists k).n_daily_current d = (m.lists k).n_daily_current d := by
  unfold new_infection at h
  split at h
  · dsimp only at h
    split at h
    · simp at h
    · rename_i e ma h1
      obtain ⟨ev, ne, ls, hma⟩ := add_individual_to_event_list_shape _ _ _ _ _ _ h1
      obtain ⟨hh1, hf1⟩ := add_individual_to_event_list_lists _ _ _ _ _ _ h1
      split at h
      · simp at h
      · rename_i e2 mb h2
        obtain ⟨ev2, ne2, ls2, hmb⟩ := add_individual_to_event_list_shape _ _ _ _ _ _ h2
        obtain ⟨_, hf2⟩ := add_individual_to_event_list_lists _ _ _ _ _ _ h2
        simp only [Option.some.injEq] at h
        subst h
        refine ⟨⟨event_kind.asymptomatic, e, Or.inl rfl, ?_, ?_⟩, fun k d hd => ?_⟩
        · rw [hmb]; simp
        · rw [(hf2 event_kind.asymptomatic m.time (by simp)).1]; exact hh1
        · have a1 := hf1 k d (fun hh => by omega)
          have a2 := hf2 k d (fun hh => by omega)
          exact ⟨a2.1.trans a1.1, a2.2.trans a1.2⟩
  · dsimp only at h
    split at h
    · simp at h
    · rename_i e ma h1
      obtain ⟨ev, ne, ls, hma⟩ := add_individual_to_event_list_shape _ _ _ _ _ _ h1
      obtain ⟨hh1, hf1⟩ := add_individual_to_event_list_lists _ _ _ _ _ _ h1
      split at h
      · simp at h
      · rename_i e2 mb h2
        obtain ⟨ev2, ne2, ls2, hmb⟩ := add_individual_to_event_list_shape _ _ _ _ _ _ h2
        obtain ⟨_, hf2⟩ := add_individual_to_event_list_lists _ _ _ _ _ _ h2
        simp only [Option.some.injEq] at h
        subst h
        refine ⟨⟨event_kind.presymptomatic, e, Or.inr rfl, ?_, ?_⟩, fun k d hd => ?_⟩
        · rw [hmb]; simp
        · rw [(hf2 event_kind.presymptomatic m.time (by simp)).1]; exact hh1
        · have a1 := hf1 k d (fun hh => by omega)
          have a2 := hf2 k d (fun hh => by omega)
          exact ⟨a2.1.trans a1.1, a2.2.trans a1.2⟩

/-- The pool reached from `set_up_events` by a valid sequence with fewer adds
than the pool holds satisfies the invariant with the buckets of the
specification side. -/
theorem pool_after_inv (n : Nat) (ops : List pool_op) (hn : 0 < n)
    (hvalid : removes_valid (pool_after n [], fun _ _ => []) ops = true)
    (hadds : count_adds ops < 6 * n) :
    ∃ fresh dead, pool_inv (pool_after n ops) (buckets_after n ops) fresh dead ∧
      fresh.length + count_adds ops = 6 * n := by
  have hfresh : fresh_pool n = some (pool_after n []) := by
    unfold pool_after
    cases h : fresh_pool n with
    | none =>
      exfalso
      have h6 : ¬ (6 * n = 0) := by omega
      simp [fresh_pool, set_up_events, calloc_model, params_of_size, h6] at h
    | some m => simp [pool_run]
  obtain ⟨_, _, hinv⟩ := pool_inv_init (calloc_model (params_of_size n) rng_zero)
    (pool_after n []) hfresh (fun _ _ => rfl)
  obtain ⟨m1, b1, fresh1, dead1, hrun, _, hinv1, hlen, _⟩ :=
    pool_run_inv ops (pool_after n []) _ _ [] hinv hvalid
      (by simpa [calloc_model, params_of_size] using hadds)
  have hm : pool_after n ops = m1 := by
    unfold pool_after
    rw [hfresh]
    simp [hrun]
  have hb : buckets_after n ops = b1 := by
    unfold buckets_after
    rw [hfresh]
    simp [hrun]
  rw [hm, hb]
  exact ⟨fresh1, dead1, hinv1, by simpa [calloc_model, params_of_size] using hlen⟩

/-- C10: in a model whose event pool is well formed with two events never
handed out for every uninfected individual, whose interaction records point to
individuals of the population and whose infectious buckets of the days before
today hold infected individuals, an individual that is uninfected when
`transmit_virus` is called, and so every individual infected during the call,
never acts as an infector in that call.  The walked days are before today, and
`new_infection` puts the new case at the head of today's asymptomatic or
presymptomatic bucket and changes no bucket of an earlier day. -/
theorem transmit_virus_infectors_infected (m : model) (b : buckets) (fresh dead : List Nat)
    (hpool : pool_inv m b fresh dead)
    (hfresh : 2 * uninfected_count m m.params.n_total < fresh.length)
    (hrec : ∀ r c, (m.interactions r).individual = some c → c < m.params.n_total)
    (hown : ∀ k ∈ infectious_kinds, ∀ d, d < m.time → ∀ e ∈ b k d,
      ∃ i, (m.events e).individual = some i ∧
        (m.population i).status ≠ disease_status.UNINFECTED) :
    (∀ c, (m.population c).status = disease_status.UNINFECTED →
      c ∉ infectors_of_transmit_virus m) ∧
    (∀ d ∈ infectious_days m.time m.params.MAX_INFECTIOUS_PERIOD, d < m.time) ∧
    (∀ m0 m1 c i, new_infection m0 c i = some m1 →
      (∃ K e, (K = event_kind.asymptomatic ∨ K = event_kind.presymptomatic) ∧
        (m1.population c).current_event = some e ∧ (m1.lists K).events m0.time = some e) ∧
      ∀ k d, d < m0.time → (m1.lists k).events d = (m0.lists k).events d ∧
        (m1.lists k).n_daily_current d = (m0.lists k).n_daily_current d) := by
  have hinv : transmit_inv m b m.params.n_total m :=
    ⟨⟨b, fresh, dead, hpool, hfresh, fun _ _ _ => rfl⟩, fun _ _ _ _ _ => rfl,
      transmit_frame_refl m⟩
  have h1 := transmit_virus_by_type_inv m b _ event_kind.presymptomatic hrec
    (hown _ (by simp [infectious_kinds]))
  have h2 := transmit_virus_by_type_inv m b _ event_kind.symptomatic hrec
    (hown _ (by simp [infectious_kinds]))
  have h3 := transmit_virus_by_type_inv m b _ event_kind.asymptomatic hrec
    (hown _ (by simp [infectious_kinds]))
  have h4 := transmit_virus_by_type_inv m b _ event_kind.hospitalised hrec
    (hown _ (by simp [infectious_kinds]))
  refine ⟨fun c hs hc => ?_, fun d hd => ?_, new_infection_enqueues_today⟩
  · refine absurd hs ?_
    unfold infectors_of_transmit_virus at hc
    rcases List.mem_append.mp hc with hc | hc
    · exact (h1 m hinv).1 c hc
    · cases ha : transmit_virus_by_type m event_kind.presymptomatic with
      | none => simp [ha] at hc
      | some ma =>
        have hinva := (h1 m hinv).2 ma ha
        simp only [ha] at hc
        rcases List.mem_append.mp hc with hc | hc
        · exact (h2 ma hinva).1 c hc
        · cases hb : transmit_virus_by_type ma event_kind.symptomatic with
          | none => simp [hb] at hc
          | some mb =>
            have hinvb := (h2 ma hinva).2 mb hb
            simp only [hb] at hc
            rcases List.mem_append.mp hc with hc | hc
            · exact (h3 mb hinvb).1 c hc
            · cases hcc : transmit_virus_by_type mb event_kind.asymptomatic with
              | none => simp [hcc] at hc
              | some mc =>
                have hinvc := (h3 mb hinvb).2 mc hcc
                simp only [hcc] at hc
                exact (h4 mc hinvc).1 c hc
  · have := (mem_infectious_days _ _ d).mp hd
    omega

/-- C10 at a concrete model of two individuals at time 1: individual 0 has been
presymptomatic since day 0 and meets individual 1, whom the call infects. -/
theorem transmit_virus_infectors_infected_witness :
    ((∀ c, (transmit_example.population c).status = disease_status.UNINFECTED →
      c ∉ infectors_of_transmit_virus transmit_example) ∧
    (∀ d ∈ infectious_days transmit_example.time
        transmit_example.params.MAX_INFECTIOUS_PERIOD, d < transmit_example.time) ∧
    (∀ m0 m1 c i, new_infection m0 c i = some m1 →
      (∃ K e, (K = event_kind.asymptomatic ∨ K = event_kind.presymptomatic) ∧
        (m1.population c).current_event = some e ∧ (m1.lists K).events m0.time = some e) ∧
      ∀ k d, d < m0.time → (m1.lists k).events d = (m0.lists k).events d ∧
        (m1.lists k).n_daily_current d = (m0.lists k).n_daily_current d)) ∧
    (transmit_example.population 1).status = disease_status.UNINFECTED ∧
    infectors_of_transmit_virus transmit_example = [0] ∧
    (transmit_virus transmit_example).map (fun m => (m.population 1).status) =
      some disease_status.PRESYMPTOMATIC := by
  obtain ⟨fresh, dead, hinv, hlen⟩ :=
    pool_after_inv 2 [pool_op.add event_kind.presymptomatic 0 0] (by decide) (by decide)
      (by decide)
  have hlen1 : fresh.length = 11 := by
    simp only [count_adds] at hlen
    omega
  refine ⟨transmit_virus_infectors_infected transmit_example
    (buckets_after 2 [pool_op.add event_kind.presymptomatic 0 0]) fresh dead
    (pool_inv_congr_lists (pool_after 2 [pool_op.add event_kind.presymptomatic 0 0])
      transmit_example _ _ _ rfl rfl (fun _ => ⟨rfl, rfl⟩) hinv) ?_ ?_ ?_,
    by decide, by decide, by decide⟩
  · rw [hlen1]
    decide
  · intro r c h
    have h2 : (if r = 0 then some 1 else if r = 1 then some 0 else none) = some c := by
      rw [← h]
      show _ = (if r = 0 then _ else if r = 1 then _ else _ : interaction).individual
      split_ifs <;> rfl
    show c < 2
    split_ifs at h2 <;> simp at h2 <;> omega
  · intro k hk d hd e he
    have hd0 : d = 0 := by
      have : d < 1 := hd
      omega
    subst hd0
    simp only [infectious_kinds, List.mem_cons, List.mem_singleton, List.not_mem_nil,
      or_false] at hk
    rcases hk with rfl | rfl | rfl | rfl
    · have he0 : e ∈ [0] := he
      simp only [List.mem_singleton] at he0
      subst he0
      exact ⟨0, by decide, by decide⟩
    · exact absurd he (List.not_mem_nil e)
    · exact absurd he (List.not_mem_nil e)
    · exact absurd he (List.not_mem_nil e)


/-! ## No self-infection -/

theorem mem_partners_lt (i x n : Nat) :
    ∀ (P : List (Nat × Nat)), (∀ p ∈ P, p.1 ≠ p.2 ∧ p.1 < n ∧ p.2 < n) →
      x ∈ partners i P → x < n
  | [], _, h => by simp [partners] at h
  | (a, b) :: ps, hP, h => by
    have ih := mem_partners_lt i x n ps (fun p hp => hP p (List.mem_cons_of_mem _ hp))
    have hab := hP (a, b) (by simp)
    simp only [partners] at h
    split_ifs at h
    · rcases List.mem_cons.mp h with h | h
      · rw [h]; exact hab.2.2
      · exact ih h
    · rcases List.mem_cons.mp h with h | h
      · rw [h]; exact hab.2.1
      · exact ih h
    · exact ih h

/-- The kernel keeps the day lists, so it keeps `no_self_contact`. -/
theorem no_self_contact_frame (N : Nat) (m m1 : model) (hf : transmit_frame m m1)
    (h : no_self_contact N m) : no_self_contact N m1 := by
  obtain ⟨_, _, hi, hd, _, hp⟩ := hf
  intro i hiN
  obtain ⟨rs, cs, hw, hmap, hc⟩ := h i hiN
  refine ⟨rs, cs, ?_, ?_, hc⟩
  · rw [hi, hd, (hp i).1, (hp i).2]; exact hw
  · rw [hi]; exact hmap

/-- After a completed build the day lists of today hold no self-contact. -/
theorem build_daily_newtork_no_self_contact (m m1 : model)
    (hperm : (m.rng.shuffle m.rng_calls (fill_stubs m.population m.params.n_total)).Perm
      (fill_stubs m.population m.params.n_total))
    (hbuild : build_daily_newtork m = some m1)
    (hday : m1.interaction_day_idx = m.interaction_day_idx) :
    no_self_contact m.params.n_total m1 := by
  have hinv := (build_daily_newtork_inv m hperm).1 m1 hbuild
  intro i hi
  obtain ⟨rs, hw, _, hmap⟩ := hinv.walk i hi
  refine ⟨rs, _, by rw [hday]; exact hw, hmap, fun c hc => ⟨?_, ?_⟩⟩
  · intro hci
    rw [hci] at hc
    exact partners_not_self i _ (fun p hp => (hinv.pairs p hp).1) hc
  · exact mem_partners_lt i c _ _ hinv.pairs hc

theorem connect_pair_frame (m m1 : model) (day a b : Nat)
    (h : connect_pair m day a b = some m1) : network_frame m m1 := by
  unfold connect_pair at h
  dsimp only at h
  split at h
  · simp only [Option.some.injEq] at h
    subst h
    exact ⟨rfl, rfl, rfl, rfl, rfl, rfl, rfl⟩
  · simp at h

theorem network_frame_trans (m m1 m2 : model) (h1 : network_frame m m1)
    (h2 : network_frame m1 m2) : network_frame m m2 := by
  obtain ⟨hp, ht, he, hn, hl, hd, hr⟩ := h1
  obtain ⟨kp, kt, ke, kn, kl, kd, kr⟩ := h2
  exact ⟨kp.trans hp, kt.trans ht, ke.trans he, kn.trans hn, kl.trans hl, kd.trans hd,
    kr.trans hr⟩

theorem pair_from_frame (day : Nat) :
    ∀ (l : List Nat) (a : Nat) (m m1 : model), pair_from day a l m = some m1 →
      network_frame m m1
  | [], a, m, m1, h => by
    simp only [pair_from, Option.some.injEq] at h
    subst h
    exact ⟨rfl, rfl, rfl, rfl, rfl, rfl, rfl⟩
  | b :: rest, a, m, m1, h => by
    simp only [pair_from] at h
    split at h
    · exact pair_from_frame day rest b m m1 h
    · split at h
      · simp at h
      · rename_i m2 h2
        have hf := connect_pair_frame m m2 day a b h2
        cases rest with
        | nil =>
          simp only [Option.some.injEq] at h
          subst h
          exact hf
        | cons c rest1 =>
          exact network_frame_trans _ _ _ hf (pair_from_frame day rest1 c m2 m1 h)

/-- The network builder keeps the event pool, the lists, the clock and the day
slot. -/
theorem build_daily_newtork_frame (m m1 : model) (h : build_daily_newtork m = some m1) :
    network_frame m m1 := by
  unfold build_daily_newtork at h
  dsimp only at h
  cases hs : m.rng.shuffle m.rng_calls
      (fill_stubs (clear_n_interactions m.interaction_day_idx m.params.n_total m.population)
        m.params.n_total) with
  | nil =>
    rw [hs] at h
    simp only [pair_stubs, Option.some.injEq] at h
    subst h
    exact ⟨rfl, rfl, rfl, rfl, rfl, rfl, rfl⟩
  | cons a l =>
    rw [hs] at h
    simp only [pair_stubs] at h
    obtain ⟨hp, ht, he, hn, hl, hd, hr⟩ := pair_from_frame _ l a _ m1 h
    exact ⟨hp, ht, he, hn, hl, hd, hr⟩

/-- The event returned by an add is owned by the individual added. -/
theorem add_individual_to_event_list_owner (m m1 : model) (k : event_kind)
    (indiv time e : Nat) (h : add_individual_to_event_list k indiv time m = some (e, m1)) :
    (m1.events e).individual = some indiv := by
  unfold add_individual_to_event_list at h
  split at h
  · simp at h
  · rename_i e0 m0 hnew
    dsimp only at h
    split at h
    · simp at h
    · rename_i ev hlink
      simp only [Option.some.injEq, Prod.mk.injEq] at h
      obtain ⟨rfl, rfl⟩ := h
      show (ev e0).individual = _
      rw [link_event_individual _ _ _ _ _ hlink e0, set_individual_individual, if_pos rfl]

theorem add_individual_to_event_list_owners (N : Nat) (m m1 : model) (k : event_kind)
    (indiv time e : Nat) (h : add_individual_to_event_list k indiv time m = some (e, m1))
    (hi : indiv < N) (hown : ∀ q j, (m.events q).individual = some j → j < N) :
    ∀ q j, (m1.events q).individual = some j → j < N := by
  intro q j hq
  by_cases hqe : q = e
  · subst hqe
    rw [add_individual_to_event_list_owner m m1 k indiv time q h] at hq
    simp only [Option.some.injEq] at hq
    omega
  · rw [add_individual_to_event_list_individual m m1 k indiv time e h q hqe] at hq
    exact hown q j hq

theorem new_infection_owners (N : Nat) (m m1 : model) (c i : Nat)
    (h : new_infection m c i = some m1) (hc : c < N)
    (hown : ∀ q j, (m.events q).individual = some j → j < N) :
    ∀ q j, (m1.events q).individual = some j → j < N := by
  unfold new_infection at h
  split at h
  · dsimp only at h
    split at h
    · simp at h
    · rename_i e ma h1
      have ho1 := add_individual_to_event_list_owners N _ _ _ _ _ _ h1 hc hown
      split at h
      · simp at h
      · rename_i e2 mb h2
        simp only [Option.some.injEq] at h
        subst h
        exact add_individual_to_event_list_owners N _ _ _ _ _ _ h2 hc ho1
  · dsimp only at h
    split at h
    · simp at h
    · rename_i e ma h1
      have ho1 := add_individual_to_event_list_owners N _ _ _ _ _ _ h1 hc hown
      split at h
      · simp at h
      · rename_i e2 mb h2
        simp only [Option.some.injEq] at h
        subst h
        exact add_individual_to_event_list_owners N _ _ _ _ _ _ h2 hc ho1

theorem transmit_contact_owners (N : Nat) (m m1 : model) (rate : Int) (infector c : Nat)
    (h : transmit_contact m rate infector c = some m1) (hc : c < N)
    (hown : ∀ q j, (m.events q).individual = some j → j < N) :
    ∀ q j, (m1.events q).individual = some j → j < N := by
  unfold transmit_contact at h
  split at h
  · dsimp only at h
    split at h
    · exact new_infection_owners N _ _ _ _ h hc hown
    · simp only [Option.some.injEq] at h
      subst h
      exact hown
  · simp only [Option.some.injEq] at h
    subst h
    exact hown

/-- The calls of `new_infection` made for the records of one infector whose
first `n` records point to the individuals `cs`, none of them the infector. -/
theorem infections_of_contacts_ne (N : Nat) (rate : Int) (infector : Nat) :
    ∀ (n : Nat) (head : Option Nat) (m : model) (rs cs : List Nat),
      interaction_walk m.interactions n head = some rs →
      rs.map (fun r => (m.interactions r).individual) = cs.map some →
      (∀ c ∈ cs, c ≠ infector ∧ c < N) →
      (∀ q j, (m.events q).individual = some j → j < N) →
      (∀ p ∈ infections_of_contacts rate infector n head m, p.1 ≠ p.2) ∧
      (∀ m1, transmit_contacts rate infector n head m = some m1 →
        ∀ q j, (m1.events q).individual = some j → j < N)
  | 0, _, m, rs, cs, _, _, _, hown => by
    refine ⟨by simp [infections_of_contacts], fun m1 h => ?_⟩
    simp only [transmit_contacts, Option.some.injEq] at h
    subst h
    exact hown
  | n + 1, none, m, rs, cs, hw, _, _, _ => by simp [interaction_walk] at hw
  | n + 1, some r, m, rs, cs, hw, hmap, hcs, hown => by
    simp only [interaction_walk] at hw
    split at hw
    · simp at hw
    · rename_i rest hrest
      simp only [Option.some.injEq] at hw
      subst hw
      cases cs with
      | nil => simp at hmap
      | cons c cs =>
        simp only [List.map_cons, List.cons.injEq] at hmap
        obtain ⟨hc, hmap1⟩ := hmap
        have hcN := hcs c (by simp)
        simp only [infections_of_contacts, transmit_contacts, hc]
        cases h1 : transmit_contact m rate infector c with
        | none =>
          refine ⟨fun p hp => ?_, fun m1 h => by simp at h⟩
          simp only [List.append_nil, infection_of_contact] at hp
          split_ifs at hp
          · simp only [List.mem_singleton] at hp
            subst hp
            exact hcN.1
          · simp at hp
          · simp at hp
        | some m1 =>
          have hf := (transmit_contact_frame m m1 rate infector c h1).2.2.1
          have ih := infections_of_contacts_ne N rate infector n (m1.interactions r).next m1
            rest cs (by rw [hf]; exact hrest) (by rw [hf]; exact hmap1)
            (fun x hx => hcs x (List.mem_cons_of_mem _ hx))
            (transmit_contact_owners N m m1 rate infector c h1 hcN.2 hown)
          refine ⟨fun p hp => ?_, fun m2 h => ih.2 m2 h⟩
          rcases List.mem_append.mp hp with hp | hp
          · simp only [infection_of_contact] at hp
            split_ifs at hp
            · simp only [List.mem_singleton] at hp
              subst hp
              exact hcN.1
            · simp at hp
            · simp at hp
          · exact ih.1 p hp

theorem infections_of_events_ne (N : Nat) (rate : Int) :
    ∀ (n : Nat) (head : Option Nat) (m : model),
      no_self_contact N m →
      (∀ q j, (m.events q).individual = some j → j < N) →
      (∀ p ∈ infections_of_events rate n head m, p.1 ≠ p.2) ∧
      (∀ m1, transmit_events rate n head m = some m1 →
        no_self_contact N m1 ∧ ∀ q j, (m1.events q).individual = some j → j < N)
  | 0, _, m, hns, hown => by
    refine ⟨by simp [infections_of_events], fun m1 h => ?_⟩
    simp only [transmit_events, Option.some.injEq] at h
    subst h
    exact ⟨hns, hown⟩
  | n + 1, none, m, _, _ => by
    refine ⟨by simp [infections_of_events], fun m1 h => by simp [transmit_events] at h⟩
  | n + 1, some e, m, hns, hown => by
    cases hi : (m.events e).individual with
    | none =>
      refine ⟨by simp [infections_of_events, hi], fun m1 h => by simp [transmit_events, hi] at h⟩
    | some i =>
      obtain ⟨rs, cs, hw, hmap, hcs⟩ := hns i (hown e i hi)
      have hc := infections_of_contacts_ne N rate i _ _ m rs cs hw hmap hcs hown
      simp only [infections_of_events, transmit_events, hi]
      cases h1 : transmit_contacts rate i
          ((m.population i).n_interactions m.interaction_day_idx)
          ((m.population i).interactions m.interaction_day_idx) m with
      | none =>
        refine ⟨fun p hp => ?_, fun m1 h => by simp at h⟩
        rw [List.append_nil] at hp
        exact hc.1 p hp
      | some m1 =>
        have hf := transmit_contacts_frame rate i _ _ m m1 h1
        have ih := infections_of_events_ne N rate n (m.events e).next m1
          (no_self_contact_frame N m m1 hf hns) (hc.2 m1 h1)
        refine ⟨fun p hp => ?_, fun m2 h => ih.2 m2 h⟩
        rcases List.mem_append.mp hp with hp | hp
        · exact hc.1 p hp
        · exact ih.1 p hp

theorem infections_of_days_ne (N : Nat) (k : event_kind) :
    ∀ (n : Nat) (m : model),
      no_self_contact N m →
      (∀ q j, (m.events q).individual = some j → j < N) →
      (∀ p ∈ infections_of_days k n m, p.1 ≠ p.2) ∧
      (∀ m1, transmit_days k n m = some m1 →
        no_self_contact N m1 ∧ ∀ q j, (m1.events q).individual = some j → j < N)
  | 0, m, hns, hown => by
    refine ⟨by simp [infections_of_days], fun m1 h => ?_⟩
    simp only [transmit_days, Option.some.injEq] at h
    subst h
    exact ⟨hns, hown⟩
  | n + 1, m, hns, hown => by
    have hday := infections_of_events_ne N
      ((m.lists k).infectious_curve (m.time - 1 - n))
      ((m.lists k).n_daily_current n).toNat ((m.lists k).events n) m hns hown
    by_cases hlo : m.time - m.params.MAX_INFECTIOUS_PERIOD ≤ n
    · simp only [infections_of_days, transmit_days, hlo, if_true]
      cases hc : transmit_day k n m with
      | none =>
        refine ⟨fun p hp => ?_, fun m1 h => by simp at h⟩
        rw [List.append_nil] at hp
        exact hday.1 p hp
      | some m2 =>
        have h2 := hday.2 m2 hc
        have ih := infections_of_days_ne N k n m2 h2.1 h2.2
        refine ⟨fun p hp => ?_, fun m1 h => ih.2 m1 h⟩
        rcases List.mem_append.mp hp with hp | hp
        · exact hday.1 p hp
        · exact ih.1 p hp
    · refine ⟨by simp [infections_of_days, hlo], fun m1 h => ?_⟩
      simp only [transmit_days, hlo, if_false, Option.some.injEq] at h
      subst h
      exact ⟨hns, hown⟩

/-- The calls made by `set_up_seed_infection` have the individual as its own
infector. -/
theorem infections_of_seed_self :
    ∀ (n : Nat) (m : model), ∀ p ∈ infections_of_seed n m, p.1 = p.2
  | 0, m, p, hp => by simp [infections_of_seed] at hp
  | n + 1, m, p, hp => by
    simp only [infections_of_seed, List.mem_cons] at hp
    rcases hp with hp | hp
    · subst hp; rfl
    · split at hp
      · simp at hp
      · exact infections_of_seed_self n _ p hp

/-- C11: in a model whose interaction lists of today were produced by a
completed `build_daily_newtork` on a shuffled stub array, and whose events are
owned by individuals of the population, every call of `new_infection` made by
`transmit_virus` has an infected individual different from the infector; every
call made by the loop of `set_up_seed_infection` has the individual as its own
infector. -/
theorem transmit_virus_no_self_infection (m m1 : model)
    (hperm : (m.rng.shuffle m.rng_calls (fill_stubs m.population m.params.n_total)).Perm
      (fill_stubs m.population m.params.n_total))
    (hbuild : build_daily_newtork m = some m1)
    (hown : owners_in_population m) :
    (∀ p ∈ infections_of_transmit_virus m1, p.1 ≠ p.2) ∧
    (∀ (m0 : model), ∀ p ∈ infections_of_seed m0.params.n_seed_infection m0, p.1 = p.2) := by
  obtain ⟨hp, _, he, _, _, hd, _⟩ := build_daily_newtork_frame m m1 hbuild
  have hns : no_self_contact m.params.n_total m1 :=
    build_daily_newtork_no_self_contact m m1 hperm hbuild hd
  have hown1 : ∀ q j, (m1.events q).individual = some j → j < m.params.n_total := by
    intro q j hq
    rw [he] at hq
    exact hown q j hq
  refine ⟨fun p hp => ?_, fun m0 => infections_of_seed_self _ m0⟩
  have h1 := infections_of_days_ne m.params.n_total event_kind.presymptomatic m1.time m1 hns hown1
  unfold infections_of_transmit_virus infections_by_type transmit_virus_by_type at hp
  rcases List.mem_append.mp hp with hp | hp
  · exact h1.1 p hp
  · cases ha : transmit_days event_kind.presymptomatic m1.time m1 with
    | none => simp [ha] at hp
    | some ma =>
      have ka := h1.2 ma ha
      have h2 := infections_of_days_ne m.params.n_total event_kind.symptomatic ma.time ma
        ka.1 ka.2
      simp only [ha] at hp
      rcases List.mem_append.mp hp with hp | hp
      · exact h2.1 p hp
      · cases hb : transmit_days event_kind.symptomatic ma.time ma with
        | none => simp [hb] at hp
        | some mb =>
          have kb := h2.2 mb hb
          have h3 := infections_of_days_ne m.params.n_total event_kind.asymptomatic mb.time mb
            kb.1 kb.2
          simp only [hb] at hp
          rcases List.mem_append.mp hp with hp | hp
          · exact h3.1 p hp
          · cases hc : transmit_days event_kind.asymptomatic mb.time mb with
            | none => simp [hc] at hp
            | some mc =>
              have kc := h3.2 mc hc
              simp only [hc] at hp
              exact (infections_of_days_ne m.params.n_total event_kind.hospitalised mc.time mc
                kc.1 kc.2).1 p hp

/-! ### Owners of the events of a pool -/

theorem unlink_event_individual (ev ev1 : Nat → event) (n : Int) (head head1 : Option Nat)
    (e : Nat) (h : unlink_event ev n head e = some (ev1, head1)) (q : Nat) :
    (ev1 q).individual = (ev q).individual := by
  unfold unlink_event at h
  split at h
  · split at h
    · split at h
      · simp at h
      · dsimp only at h
        split at h
        · simp at h
        · simp only [Option.some.injEq, Prod.mk.injEq] at h
          obtain ⟨rfl, _⟩ := h
          simp
    · simp only [Option.some.injEq, Prod.mk.injEq] at h
      obtain ⟨rfl, _⟩ := h
      rfl
  · simp only [Option.some.injEq, Prod.mk.injEq] at h
    obtain ⟨rfl, _⟩ := h
    rfl

theorem release_event_individual (ev ev1 : Nat → event) (ne : Option Nat) (e : Nat)
    (h : release_event ev ne e = some ev1) (q : Nat) :
    (ev1 q).individual = (ev q).individual := by
  unfold release_event at h
  split at h
  · simp at h
  · split at h
    · simp at h
    · simp only [Option.some.injEq] at h
      subst h
      simp

/-- A remove changes the owner of no event. -/
theorem remove_event_from_event_list_individual (m m1 : model) (k : event_kind)
    (e time : Nat) (h : remove_event_from_event_list k e m time = some m1) (q : Nat) :
    (m1.events q).individual = (m.events q).individual := by
  unfold remove_event_from_event_list at h
  dsimp only at h
  split at h
  · simp at h
  · rename_i ev head hun
    split at h
    · simp at h
    · rename_i ev1 hrel
      simp only [Option.some.injEq] at h
      subst h
      show (ev1 q).individual = _
      rw [release_event_individual _ _ _ _ hrel q, unlink_event_individual _ _ _ _ _ _ hun q]

theorem set_up_events_loop_individual (l : List Nat) :
    ∀ (ev : Nat → event) (q : Nat),
      ((l.foldl (fun ev i => set_last (set_next ev i (some (i + 1))) (i + 1) (some i)) ev)
        q).individual = (ev q).individual := by
  induction l with
  | nil => intro ev q; rfl
  | cons a l ih =>
    intro ev q
    rw [List.foldl_cons, ih]
    simp

/-- After `set_up_events` no event has an owner. -/
theorem set_up_events_individual (m m1 : model) (h : set_up_events m = some m1) (q : Nat) :
    (m1.events q).individual = none := by
  unfold set_up_events at h
  dsimp only at h
  split at h
  · simp at h
  · simp only [Option.some.injEq] at h
    subst h
    simp only [set_last_individual, set_next_individual]
    rw [set_up_events_loop_individual]
    rfl

/-- A run of adds of individuals below `N` and of removes keeps the owners below `N`. -/
theorem pool_run_owners (N : Nat) :
    ∀ (ops : List pool_op) (m : model) (b : buckets) (m1 : model) (b1 : buckets),
      pool_run (m, b) ops = some (m1, b1) →
      (∀ k i t, pool_op.add k i t ∈ ops → i < N) →
      (∀ q j, (m.events q).individual = some j → j < N) →
      ∀ q j, (m1.events q).individual = some j → j < N
  | [], m, b, m1, b1, h, _, hown => by
    simp only [pool_run, Option.some.injEq, Prod.mk.injEq] at h
    obtain ⟨rfl, _⟩ := h
    exact hown
  | pool_op.add k i t :: ops, m, b, m1, b1, h, hadd, hown => by
    simp only [pool_run, pool_step] at h
    split at h
    · simp at h
    · rename_i s1 hs
      split at hs
      · simp at hs
      · rename_i e m2 h2
        simp only [Option.some.injEq] at hs
        subst hs
        exact pool_run_owners N ops _ _ m1 b1 h
          (fun k1 i1 t1 hm => hadd k1 i1 t1 (List.mem_cons_of_mem _ hm))
          (add_individual_to_event_list_owners N m m2 k i t e h2 (hadd k i t (by simp)) hown)
  | pool_op.remove k e t :: ops, m, b, m1, b1, h, hadd, hown => by
    simp only [pool_run, pool_step] at h
    split at h
    · simp at h
    · rename_i s1 hs
      split at hs
      · simp at hs
      · rename_i m2 h2
        simp only [Option.some.injEq] at hs
        subst hs
        exact pool_run_owners N ops _ _ m1 b1 h
          (fun k1 i1 t1 hm => hadd k1 i1 t1 (List.mem_cons_of_mem _ hm))
          (fun q j hq => hown q j
            (by rw [← remove_event_from_event_list_individual m m2 k e t h2 q]; exact hq))

/-- The owners of the events of `pool_after n ops` are below `N` when the adds
of `ops` add individuals below `N`. -/
theorem pool_after_owners (n N : Nat) (ops : List pool_op)
    (hadd : ∀ k i t, pool_op.add k i t ∈ ops → i < N) :
    ∀ q j, ((pool_after n ops).events q).individual = some j → j < N := by
  intro q j hq
  unfold pool_after at hq
  cases hf : fresh_pool n with
  | none =>
    rw [hf] at hq
    simp [calloc_model, calloc_events] at hq
  | some m =>
    rw [hf] at hq
    simp only [Option.some_bind] at hq
    cases hr : pool_run (m, fun _ _ => []) ops with
    | none =>
      rw [hr] at hq
      simp [calloc_model, calloc_events] at hq
    | some s =>
      rw [hr] at hq
      exact pool_run_owners N ops m _ s.1 s.2 hr hadd
        (fun q j h => by rw [set_up_events_individual _ m hf q] at h; simp at h) q j hq

/-- C11 at a concrete model of two individuals: the build pairs persons 0 and 1,
and the only call of `new_infection` made by `transmit_virus` infects person 1
with infector 0. -/
theorem transmit_virus_no_self_infection_witness :
    ∃ m1, build_daily_newtork contact_example = some m1 ∧
      infections_of_transmit_virus m1 = [(1, 0)] ∧
      (∀ p ∈ infections_of_transmit_virus m1, p.1 ≠ p.2) ∧
      (∀ (m0 : model), ∀ p ∈ infections_of_seed m0.params.n_seed_infection m0, p.1 = p.2) := by
  have hv : (build_daily_newtork contact_example).map infections_of_transmit_virus =
      some [(1, 0)] := by decide
  cases h : build_daily_newtork contact_example with
  | none => simp [h] at hv
  | some m1 =>
    rw [h] at hv
    exact ⟨m1, rfl, by simpa using hv,
      transmit_virus_no_self_infection contact_example m1 (List.Perm.refl _) h
        (pool_after_owners 2 2 [pool_op.add event_kind.presymptomatic 0 0]
          (fun k i t hm => by
            simp only [List.mem_singleton, pool_op.add.injEq] at hm
            omega))⟩


/-! ## The contract of `new_infection` -/

/-- With three events never handed out, `new_infection` returns. -/
theorem new_infection_some (m : model) (c i : Nat) (b : buckets) (f g g2 : Nat)
    (fs dead : List Nat) (hpool : pool_inv m b (f :: g :: g2 :: fs) dead) :
    ∃ m1, new_infection m c i = some m1 := by
  by_cases hb : m.rng.bernoulli m.rng_calls = true
  · obtain ⟨ma, ha, _, hpa⟩ := pool_inv_add
      { m with
        population := Function.update m.population c
          { m.population c with
            infector := some i
            status := disease_status.ASYMPTOMATIC
            time_infected := m.time
            time_asymptomatic := m.time }
        rng_calls := m.rng_calls + 1 } b f g (g2 :: fs) dead event_kind.asymptomatic c m.time
      (pool_inv_congr m _ b _ dead rfl rfl rfl hpool)
    obtain ⟨mb, hb2, _, _⟩ := pool_inv_add
      { ma with
        population := Function.update ma.population c
          { ma.population c with
            current_event := some f
            time_recovered := m.time + m.rng.draw (m.rng_calls + 1)
            next_event_type := disease_status.RECOVERED }
        rng_calls := m.rng_calls + 2 } _ g g2 fs dead event_kind.recovered c
      (m.time + m.rng.draw (m.rng_calls + 1))
      (pool_inv_congr ma _ _ _ dead rfl rfl rfl hpa)
    refine ⟨mb, ?_⟩
    unfold new_infection
    rw [if_pos hb]
    dsimp only
    rw [ha]
    dsimp only
    rw [hb2]
  · obtain ⟨ma, ha, _, hpa⟩ := pool_inv_add
      { m with
        population := Function.update m.population c
          { m.population c with
            infector := some i
            status := disease_status.PRESYMPTOMATIC
            time_infected := m.time }
        rng_calls := m.rng_calls + 1 } b f g (g2 :: fs) dead event_kind.presymptomatic c m.time
      (pool_inv_congr m _ b _ dead rfl rfl rfl hpool)
    obtain ⟨mb, hb2, _, _⟩ := pool_inv_add
      { ma with
        population := Function.update ma.population c
          { ma.population c with
            current_event := some f
            time_symptomatic := m.time + m.rng.draw (m.rng_calls + 1)
            next_event_type := disease_status.SYMPTOMATIC }
        rng_calls := m.rng_calls + 2 } _ g g2 fs dead event_kind.symptomatic c
      (m.time + m.rng.draw (m.rng_calls + 1))
      (pool_inv_congr ma _ _ _ dead rfl rfl rfl hpa)
    refine ⟨mb, ?_⟩
    unfold new_infection
    rw [if_neg hb]
    dsimp only
    rw [ha]
    dsimp only
    rw [hb2]

/-- An add changes only the event pool and the event lists. -/
theorem add_individual_to_event_list_rest (m m1 : model) (k : event_kind)
    (indiv time e : Nat) (h : add_individual_to_event_list k indiv time m = some (e, m1)) :
    m1.population = m.population ∧ m1.params = m.params ∧ m1.time = m.time ∧
    m1.rng = m.rng ∧ m1.rng_calls = m.rng_calls ∧ m1.interactions = m.interactions ∧
    m1.interaction_day_idx = m.interaction_day_idx := by
  obtain ⟨ev, ne, ls, rfl⟩ := add_individual_to_event_list_shape _ _ _ _ _ _ h
  exact ⟨rfl, rfl, rfl, rfl, rfl, rfl, rfl⟩

/-- A remove changes only the event pool and the event lists. -/
theorem remove_event_from_event_list_rest (m m1 : model) (k : event_kind)
    (e time : Nat) (h : remove_event_from_event_list k e m time = some m1) :
    m1.population = m.population ∧ m1.params = m.params ∧ m1.time = m.time ∧
    m1.rng = m.rng ∧ m1.rng_calls = m.rng_calls ∧ m1.interactions = m.interactions ∧
    m1.interaction_day_idx = m.interaction_day_idx ∧ m1.next_event = m.next_event := by
  unfold remove_event_from_event_list at h
  dsimp only at h
  split at h
  · simp at h
  · split at h
    · simp at h
    · simp only [Option.some.injEq] at h
      subst h
      exact ⟨rfl, rfl, rfl, rfl, rfl, rfl, rfl, rfl⟩

/-- C12: on a pool with three events never handed out, `new_infection` at time
`t` returns; afterwards `time_infected = t` and the status is not `UNINFECTED`.
When the Bernoulli draw succeeds the status is `ASYMPTOMATIC`, the individual's
event `f` is at the head of `asymptomatic[t]` and its event `g` at the head of
`recovered[t + draw]`, `time_recovered = t + draw` and `next_event_type` is
`RECOVERED`; otherwise the status is `PRESYMPTOMATIC`, `f` is at the head of
`presymptomatic[t]`, `g` at the head of `symptomatic[t + draw]`,
`time_symptomatic = t + draw` and `next_event_type` is `SYMPTOMATIC`.  In either
case exactly the two events `f` and `g` have left the free ring. -/
theorem new_infection_spec (m : model) (c i : Nat) (b : buckets) (f g g2 : Nat)
    (fs dead : List Nat) (hpool : pool_inv m b (f :: g :: g2 :: fs) dead)
    (hlen : (f :: g :: g2 :: fs ++ dead).length ≤ 6 * m.params.n_total) :
    ∃ m1, new_infection m c i = some m1 ∧
      (m1.population c).time_infected = m.time ∧
      (m1.population c).status ≠ disease_status.UNINFECTED ∧
      (m1.events f).individual = some c ∧ (m1.events g).individual = some c ∧
      free_ring m = f :: g :: g2 :: fs ++ dead ∧ free_ring m1 = g2 :: fs ++ dead ∧
      (m.rng.bernoulli m.rng_calls = true →
        (m1.population c).status = disease_status.ASYMPTOMATIC ∧
        (m1.population c).time_recovered = m.time + m.rng.draw (m.rng_calls + 1) ∧
        (m1.population c).next_event_type = disease_status.RECOVERED ∧
        bucket_walk m1 event_kind.asymptomatic m.time =
          some (f :: b event_kind.asymptomatic m.time) ∧
        bucket_walk m1 event_kind.recovered (m.time + m.rng.draw (m.rng_calls + 1)) =
          some (g :: b event_kind.recovered (m.time + m.rng.draw (m.rng_calls + 1))) ∧
        pool_inv m1 ((b.set event_kind.asymptomatic m.time
            (f :: b event_kind.asymptomatic m.time)).set event_kind.recovered
            (m.time + m.rng.draw (m.rng_calls + 1))
            (g :: b event_kind.recovered (m.time + m.rng.draw (m.rng_calls + 1))))
          (g2 :: fs) dead) ∧
      (m.rng.bernoulli m.rng_calls = false →
        (m1.population c).status = disease_status.PRESYMPTOMATIC ∧
        (m1.population c).time_symptomatic = m.time + m.rng.draw (m.rng_calls + 1) ∧
        (m1.population c).next_event_type = disease_status.SYMPTOMATIC ∧
        bucket_walk m1 event_kind.presymptomatic m.time =
          some (f :: b event_kind.presymptomatic m.time) ∧
        bucket_walk m1 event_kind.symptomatic (m.time + m.rng.draw (m.rng_calls + 1)) =
          some (g :: b event_kind.symptomatic (m.time + m.rng.draw (m.rng_calls + 1))) ∧
        pool_inv m1 ((b.set event_kind.presymptomatic m.time
            (f :: b event_kind.presymptomatic m.time)).set event_kind.symptomatic
            (m.time + m.rng.draw (m.rng_calls + 1))
            (g :: b event_kind.symptomatic (m.time + m.rng.draw (m.rng_calls + 1))))
          (g2 :: fs) dead) := by
  obtain ⟨m1, h⟩ := new_infection_some m c i b f g g2 fs dead hpool
  refine ⟨m1, h, ?_⟩
  have hring := free_ring_of_inv m b _ dead hpool hlen
  have hfg : f ≠ g := by
    have := hpool.nodup_ring
    intro hfg
    simp [hfg] at this
  unfold new_infection at h
  split at h
  · rename_i hb
    dsimp only at h
    split at h
    · simp at h
    · rename_i e ma h1
      obtain ⟨rfl, hp1⟩ := add_individual_to_event_list_step _ _ b f g (g2 :: fs) dead _ _ _ _ h1
        (pool_inv_congr m _ b _ dead rfl rfl rfl hpool)
      have ho1 := add_individual_to_event_list_owner _ _ _ _ _ _ h1
      have hq1 := (add_individual_to_event_list_rest _ _ _ _ _ _ h1).1
      have hr1 := (add_individual_to_event_list_rest _ _ _ _ _ _ h1).2.1
      split at h
      · simp at h
      · rename_i e2 mb h2
        obtain ⟨rfl, hp2⟩ := add_individual_to_event_list_step _ _ _ g g2 fs dead _ _ _ _ h2
          (pool_inv_congr ma _ _ _ dead rfl rfl rfl hp1)
        have ho2 := add_individual_to_event_list_owner _ _ _ _ _ _ h2
        have ho3 := add_individual_to_event_list_individual _ _ _ _ _ _ h2 e hfg
        have hq2 := (add_individual_to_event_list_rest _ _ _ _ _ _ h2).1
        have hr2 := (add_individual_to_event_list_rest _ _ _ _ _ _ h2).2.1
        dsimp only at hq1 hq2 hr1 hr2
        simp only [Option.some.injEq] at h
        subst h
        rw [buckets_set_other _ _ _ _ _ _ (by simp)] at hp2
        have hw1 := bucket_walk_of_inv _ _ _ _ hp2 event_kind.asymptomatic m.time
        have hw2 := bucket_walk_of_inv _ _ _ _ hp2 event_kind.recovered
          (m.time + m.rng.draw (m.rng_calls + 1))
        rw [buckets_set_other _ _ _ _ _ _ (by simp), buckets_set_same] at hw1
        rw [buckets_set_same] at hw2
        have hring1 := free_ring_of_inv _ _ _ dead hp2
          (by rw [hr2, hr1]; simp only [List.cons_append, List.length_cons] at hlen ⊢; omega)
        have hpc : ∀ x : individual, Function.update ma.population c x c = x := fun x => by simp
        have hpa := congrFun hq1 c
        rw [Function.update_same] at hpa
        refine ⟨by rw [hq2, hpc]; simp [hpa], by rw [hq2, hpc]; simp [hpa], ho3.trans ho1, ho2, hring, hring1, fun _ => ?_, fun hf => ?_⟩
        · exact ⟨by rw [hq2, hpc]; simp [hpa], by rw [hq2, hpc], by rw [hq2, hpc], hw1, hw2, hp2⟩
        · rw [hb] at hf; cases hf
  · rename_i hb
    dsimp only at h
    split at h
    · simp at h
    · rename_i e ma h1
      obtain ⟨rfl, hp1⟩ := add_individual_to_event_list_step _ _ b f g (g2 :: fs) dead _ _ _ _ h1
        (pool_inv_congr m _ b _ dead rfl rfl rfl hpool)
      have ho1 := add_individual_to_event_list_owner _ _ _ _ _ _ h1
      have hq1 := (add_individual_to_event_list_rest _ _ _ _ _ _ h1).1
      have hr1 := (add_individual_to_event_list_rest _ _ _ _ _ _ h1).2.1
      split at h
      · simp at h
      · rename_i e2 mb h2
        obtain ⟨rfl, hp2⟩ := add_individual_to_event_list_step _ _ _ g g2 fs dead _ _ _ _ h2
          (pool_inv_congr ma _ _ _ dead rfl rfl rfl hp1)
        have ho2 := add_individual_to_event_list_owner _ _ _ _ _ _ h2
        have ho3 := add_individual_to_event_list_individual _ _ _ _ _ _ h2 e hfg
        have hq2 := (add_individual_to_event_list_rest _ _ _ _ _ _ h2).1
        have hr2 := (add_individual_to_event_list_rest _ _ _ _ _ _ h2).2.1
        dsimp only at hq1 hq2 hr1 hr2
        simp only [Option.some.injEq] at h
        subst h
        rw [buckets_set_other _ _ _ _ _ _ (by simp)] at hp2
        have hw1 := bucket_walk_of_inv _ _ _ _ hp2 event_kind.presymptomatic m.time
        have hw2 := bucket_walk_of_inv _ _ _ _ hp2 event_kind.symptomatic
          (m.time + m.rng.draw (m.rng_calls + 1))
        rw [buckets_set_other _ _ _ _ _ _ (by simp), buckets_set_same] at hw1
        rw [buckets_set_same] at hw2
        have hring1 := free_ring_of_inv _ _ _ dead hp2
          (by rw [hr2, hr1]; simp only [List.cons_append, List.length_cons] at hlen ⊢; omega)
        have hpc : ∀ x : individual, Function.update ma.population c x c = x := fun x => by simp
        have hpa := congrFun hq1 c
        rw [Function.update_same] at hpa
        refine ⟨by rw [hq2, hpc]; simp [hpa], by rw [hq2, hpc]; simp [hpa], ho3.trans ho1, ho2, hring, hring1, fun ht => ?_, fun _ => ?_⟩
        · exact absurd ht hb
        · exact ⟨by rw [hq2, hpc]; simp [hpa], by rw [hq2, hpc], by rw [hq2, hpc], hw1, hw2, hp2⟩

/-- The fresh pool of `n > 0` individuals satisfies the invariant with every
event never handed out. -/
theorem pool_after_nil_inv (n : Nat) (hn : 0 < n) :
    pool_inv (pool_after n []) (fun _ _ => []) (List.range' 0 (6 * n)) [] := by
  have hfresh : fresh_pool n = some (pool_after n []) := by
    unfold pool_after
    cases h : fresh_pool n with
    | none =>
      exfalso
      have h6 : ¬ (6 * n = 0) := by omega
      simp [fresh_pool, set_up_events, calloc_model, params_of_size, h6] at h
    | some m => simp [pool_run]
  exact (pool_inv_init (calloc_model (params_of_size n) rng_zero)
    (pool_after n []) hfresh (fun _ _ => rfl)).2.2

/-- C12 at a concrete model: person 1 is infected by person 0 at time 3, the
Bernoulli draw succeeds and the waiting time is 5. -/
theorem new_infection_spec_witness :
    ∃ m1, new_infection infection_example 1 0 = some m1 ∧
      (m1.population 1).time_infected = 3 ∧
      (m1.population 1).status = disease_status.ASYMPTOMATIC ∧
      (m1.population 1).time_recovered = 8 ∧
      (m1.population 1).next_event_type = disease_status.RECOVERED ∧
      bucket_walk m1 event_kind.asymptomatic 3 = some [0] ∧
      bucket_walk m1 event_kind.recovered 8 = some [1] ∧
      (m1.events 0).individual = some 1 ∧ (m1.events 1).individual = some 1 ∧
      free_ring infection_example = [0, 1, 2, 3, 4, 5, 6, 7, 8, 9, 10, 11] ∧
      free_ring m1 = [2, 3, 4, 5, 6, 7, 8, 9, 10, 11] := by
  obtain ⟨m1, h, ht, _, ho1, ho2, hr, hr1, hasym, _⟩ :=
    new_infection_spec infection_example 1 0 (fun _ _ => []) 0 1 2 (List.range' 3 9) []
      (pool_inv_congr (pool_after 2 []) infection_example _ _ _ rfl rfl rfl
        (pool_after_nil_inv 2 (by decide)))
      (by decide)
  obtain ⟨hs, htr, hne, hw1, hw2, _⟩ := hasym rfl
  exact ⟨m1, h, ht, hs, htr, hne, hw1, hw2, ho1, ho2, hr, hr1⟩


/-! ## The event lists as interventions.c uses them -/

@[simp] theorem set_next_time (ev : Nat → event) (p q : Nat) (v : Option Nat) :
    (set_next ev p v q).time = (ev q).time := by
  unfold set_next; split <;> rfl

@[simp] theorem set_next_type (ev : Nat → event) (p q : Nat) (v : Option Nat) :
    (set_next ev p v q).type = (ev q).type := by
  unfold set_next; split <;> rfl

@[simp] theorem set_last_time (ev : Nat → event) (p q : Nat) (v : Option Nat) :
    (set_last ev p v q).time = (ev q).time := by
  unfold set_last; split <;> rfl

@[simp] theorem set_last_type (ev : Nat → event) (p q : Nat) (v : Option Nat) :
    (set_last ev p v q).type = (ev q).type := by
  unfold set_last; split <;> rfl

@[simp] theorem set_individual_time (ev : Nat → event) (p q : Nat) (v : Option Nat) :
    (set_individual ev p v q).time = (ev q).time := by
  unfold set_individual; split <;> rfl

@[simp] theorem set_individual_type (ev : Nat → event) (p q : Nat) (v : Option Nat) :
    (set_individual ev p v q).type = (ev q).type := by
  unfold set_individual; split <;> rfl

@[simp] theorem set_time_type_next (ev : Nat → event) (p q t : Nat) (k : event_kind) :
    (set_time_type ev p t k q).next = (ev q).next := by
  unfold set_time_type; split <;> rfl

@[simp] theorem set_time_type_last (ev : Nat → event) (p q t : Nat) (k : event_kind) :
    (set_time_type ev p t k q).last = (ev q).last := by
  unfold set_time_type; split <;> rfl

@[simp] theorem set_time_type_individual (ev : Nat → event) (p q t : Nat) (k : event_kind) :
    (set_time_type ev p t k q).individual = (ev q).individual := by
  unfold set_time_type; split <;> rfl

@[simp] theorem set_time_type_time (ev : Nat → event) (p q t : Nat) (k : event_kind) :
    (set_time_type ev p t k q).time = if q = p then t else (ev q).time := by
  unfold set_time_type; split <;> rfl

@[simp] theorem set_time_type_type (ev : Nat → event) (p q t : Nat) (k : event_kind) :
    (set_time_type ev p t k q).type = if q = p then k else (ev q).type := by
  unfold set_time_type; split <;> rfl

/-- The invariant of the pool reads only the links of the events. -/
theorem pool_inv_congr_links (m m1 : model) (b : buckets) (fresh dead : List Nat)
    (hnext : ∀ q, (m1.events q).next = (m.events q).next)
    (hlast : ∀ q, (m1.events q).last = (m.events q).last)
    (hn : m1.next_event = m.next_event)
    (hl : ∀ k, (m1.lists k).events = (m.lists k).events ∧
      (m1.lists k).n_daily_current = (m.lists k).n_daily_current)
    (h : pool_inv m b fresh dead) : pool_inv m1 b fresh dead := by
  obtain ⟨h1, h2, h3, h4, h5, h6, h7, h8⟩ := h
  refine ⟨?_, h2, h3, h4, h5, fun k d hne => ?_, fun k d => ?_, fun k d => ?_⟩
  · obtain ⟨f, fs, hf, hne, hseg, hlst⟩ := h1
    exact ⟨f, fs, hf, by rw [hn]; exact hne,
      next_seg_congr m.events m1.events f f _ (fun q _ => hnext q) hseg,
      by rw [hlast]; exact hlst⟩
  · rw [(hl k).1]; exact h6 k d hne
  · rw [(hl k).2]; exact h7 k d
  · have := h8 k d
    cases hb : b k d with
    | nil => trivial
    | cons e r =>
      rw [hb] at this
      exact linked_congr m.events m1.events dead dead e r (fun q _ => hnext q)
        (fun q _ => hlast q) (fun y hy => hy) this

theorem link_event_time_type (ev ev1 : Nat → event) (n : Int) (head : Option Nat) (e : Nat)
    (h : link_event ev n head e = some ev1) (q : Nat) :
    (ev1 q).time = (ev q).time ∧ (ev1 q).type = (ev q).type := by
  unfold link_event at h
  split at h
  · split at h
    · simp at h
    · simp only [Option.some.injEq] at h
      subst h; simp
  · split at h
    · split at h
      · simp at h
      · simp only [Option.some.injEq] at h
        subst h; simp
    · simp only [Option.some.injEq] at h
      subst h; simp

theorem new_event_time_type (m m1 : model) (e : Nat) (h : new_event m = some (e, m1))
    (q : Nat) : (m1.events q).time = (m.events q).time ∧
      (m1.events q).type = (m.events q).type := by
  unfold new_event at h
  split at h
  · simp at h
  · split at h
    · simp at h
    · dsimp only at h
      split at h
      · simp at h
      · simp only [Option.some.injEq, Prod.mk.injEq] at h
        obtain ⟨_, rfl⟩ := h
        simp

/-- The functions of model.c never write `time` or `type`. -/
theorem add_individual_to_event_list_time_type (m m1 : model) (k : event_kind)
    (indiv time e : Nat) (h : add_individual_to_event_list k indiv time m = some (e, m1))
    (q : Nat) : (m1.events q).time = (m.events q).time ∧
      (m1.events q).type = (m.events q).type := by
  unfold add_individual_to_event_list at h
  split at h
  · simp at h
  · rename_i e0 m0 hnew
    dsimp only at h
    split at h
    · simp at h
    · rename_i ev hlink
      simp only [Option.some.injEq, Prod.mk.injEq] at h
      obtain ⟨rfl, rfl⟩ := h
      have h1 := link_event_time_type _ _ _ _ _ hlink q
      have h2 := new_event_time_type _ _ _ hnew q
      simp only [set_individual_time, set_individual_type] at h1
      exact ⟨h1.1.trans h2.1, h1.2.trans h2.2⟩

theorem unlink_event_time_type (ev ev1 : Nat → event) (n : Int) (head head1 : Option Nat)
    (e : Nat) (h : unlink_event ev n head e = some (ev1, head1)) (q : Nat) :
    (ev1 q).time = (ev q).time ∧ (ev1 q).type = (ev q).type := by
  unfold unlink_event at h
  split at h
  · split at h
    · split at h
      · simp at h
      · dsimp only at h
        split at h
        · simp at h
        · simp only [Option.some.injEq, Prod.mk.injEq] at h
          obtain ⟨rfl, _⟩ := h
          simp
    · simp only [Option.some.injEq, Prod.mk.injEq] at h
      obtain ⟨rfl, _⟩ := h
      exact ⟨rfl, rfl⟩
  · simp only [Option.some.injEq, Prod.mk.injEq] at h
    obtain ⟨rfl, _⟩ := h
    exact ⟨rfl, rfl⟩

theorem release_event_time_type (ev ev1 : Nat → event) (ne : Option Nat) (e : Nat)
    (h : release_event ev ne e = some ev1) (q : Nat) :
    (ev1 q).time = (ev q).time ∧ (ev1 q).type = (ev q).type := by
  unfold release_event at h
  split at h
  · simp at h
  · split at h
    · simp at h
    · simp only [Option.some.injEq] at h
      subst h
      simp

theorem remove_event_from_event_list_time_type (m m1 : model) (k : event_kind)
    (e time : Nat) (h : remove_event_from_event_list k e m time = some m1) (q : Nat) :
    (m1.events q).time = (m.events q).time ∧ (m1.events q).type = (m.events q).type := by
  unfold remove_event_from_event_list at h
  dsimp only at h
  split at h
  · simp at h
  · rename_i ev head hun
    split at h
    · simp at h
    · rename_i ev1 hrel
      simp only [Option.some.injEq] at h
      subst h
      have h1 := release_event_time_type _ _ _ _ hrel q
      have h2 := unlink_event_time_type _ _ _ _ _ _ hun q
      exact ⟨h1.1.trans h2.1, h1.2.trans h2.2⟩

/-- A typed add on a pool with two events never handed out: it returns the first
of them, owned by the individual and carrying the day and the kind of its
bucket, in front of that bucket. -/
theorem pool_inv_add_typed (m : model) (b : buckets) (f g : Nat) (fs dead : List Nat)
    (k : event_kind) (indiv time : Nat) (hinv : pool_inv m b (f :: g :: fs) dead) :
    ∃ m1, add_individual_to_event_list_typed k indiv time m = some (f, m1) ∧
      pool_inv m1 (b.set k time (f :: b k time)) (g :: fs) dead ∧
      pool_frame m m1 ∧ events_kept m m1 (some f) ∧
      (m1.events f).individual = some indiv ∧ (m1.events f).time = time ∧
      (m1.events f).type = k := by
  obtain ⟨m2, h2, _, hinv2⟩ := pool_inv_add m b f g fs dead k indiv time hinv
  obtain ⟨ev, ne, ls, hm2⟩ := add_individual_to_event_list_shape _ _ _ _ _ _ h2
  refine ⟨{ m2 with events := set_time_type m2.events f time k }, ?_, ?_, ?_, ?_, ?_, ?_, ?_⟩
  · simp only [add_individual_to_event_list_typed, h2]
  · exact pool_inv_congr_links m2 _ _ _ _ (fun q => by simp) (fun q => by simp) rfl
      (fun _ => ⟨rfl, rfl⟩) hinv2
  · rw [hm2]; exact ⟨rfl, rfl, rfl, rfl, rfl, rfl, rfl, rfl, rfl⟩
  · intro q hq
    have hqf : q ≠ f := fun h => hq (by rw [h])
    have h3 := add_individual_to_event_list_time_type _ _ _ _ _ _ h2 q
    have h4 := add_individual_to_event_list_individual _ _ _ _ _ _ h2 q hqf
    simp only [set_time_type_individual, set_time_type_time, set_time_type_type, hqf, if_false]
    exact ⟨h4, h3.1, h3.2⟩
  · simp only [set_time_type_individual]
    exact add_individual_to_event_list_owner _ _ _ _ _ _ h2
  · simp
  · simp

/-- A typed remove of an event that sits in the bucket it names: the event is
erased from that bucket and returned to the ring. -/
theorem pool_inv_remove_typed (m : model) (b : buckets) (fresh dead : List Nat) (e : Nat)
    (hinv : pool_inv m b fresh dead) (he : e ∈ b (m.events e).type (m.events e).time) :
    ∃ m1, remove_event_from_event_list_typed e m = some m1 ∧
      pool_inv m1 (b.set (m.events e).type (m.events e).time
        ((b (m.events e).type (m.events e).time).erase e)) fresh (dead ++ [e]) ∧
      pool_frame m m1 ∧ events_kept m m1 none := by
  obtain ⟨m1, h1, _, hinv1⟩ := pool_inv_remove m b fresh dead _ e _ hinv he
  obtain ⟨hp, hpa, ht, hr, hrc, hi, hd, _⟩ := remove_event_from_event_list_rest _ _ _ _ _ h1
  refine ⟨m1, h1, hinv1, ⟨hp, hpa, ht, hr, hrc, hi, hd, ?_, ?_⟩, fun q _ => ?_⟩
  · unfold remove_event_from_event_list at h1
    dsimp only at h1
    split at h1
    · simp at h1
    · split at h1
      · simp at h1
      · simp only [Option.some.injEq] at h1
        subst h1; rfl
  · unfold remove_event_from_event_list at h1
    dsimp only at h1
    split at h1
    · simp at h1
    · split at h1
      · simp at h1
      · simp only [Option.some.injEq] at h1
        subst h1; rfl
  · have h3 := remove_event_from_event_list_time_type _ _ _ _ _ h1 q
    exact ⟨remove_event_from_event_list_individual _ _ _ _ _ h1 q, h3.1, h3.2⟩


/-! ## Quarantine until a day -/

/-- The effect of `schedule_release` in terms of the typed add. -/
theorem schedule_release_eq (m ma : model) (i t f : Nat)
    (h : add_individual_to_event_list_typed event_kind.quarantine_release i t m =
      some (f, ma)) :
    schedule_release m i t = some
      { ma with
        population := Function.update ma.population i
          { ma.population i with quarantine_release_event := some f } } := by
  simp only [schedule_release, h]

/-- The release block of `intervention_quarantine_until` on a well-formed pool
with two events never handed out: either a later release is kept and nothing
changes, or the scheduled release is removed and a new one is put at the head of
the bucket of `time`. -/
theorem reschedule_release_spec (m : model) (b : buckets) (f g : Nat) (fs dead : List Nat)
    (i t : Nat) (maxof : Bool) (hinv : pool_inv m b (f :: g :: fs) dead)
    (hrel : release_handle_ok m b i) :
    ∃ m1, reschedule_release m i t maxof = some m1 ∧
      ((∃ r, (m.population i).quarantine_release_event = some r ∧ maxof = true ∧
          (m.events r).time > t ∧ m1 = m) ∨
        ((∀ r, (m.population i).quarantine_release_event = some r →
            ¬(maxof = true ∧ (m.events r).time > t)) ∧
          pool_inv m1 ((release_erased m b i).set event_kind.quarantine_release t
            (f :: release_erased m b i event_kind.quarantine_release t)) (g :: fs)
            (release_returned m dead i) ∧
          m1.population = Function.update m.population i
            { m.population i with quarantine_release_event := some f } ∧
          m1.params = m.params ∧ m1.time = m.time ∧ m1.rng = m.rng ∧
          m1.rng_calls = m.rng_calls ∧ m1.interactions = m.interactions ∧
          m1.interaction_day_idx = m.interaction_day_idx ∧
          events_kept m m1 (some f) ∧ (m1.events f).individual = some i ∧
          (m1.events f).time = t ∧ (m1.events f).type = event_kind.quarantine_release)) := by
  unfold reschedule_release
  cases hr : (m.population i).quarantine_release_event with
  | none =>
    obtain ⟨ma, ha, hpa, ⟨hp, hpar, htm, hrng, hrc, hint, hday, _, _⟩, hk, ho, hti, hty⟩ :=
      pool_inv_add_typed m b f g fs dead event_kind.quarantine_release i t hinv
    refine ⟨{ ma with
        population := Function.update ma.population i
          { ma.population i with quarantine_release_event := some f } },
      schedule_release_eq m ma i t f ha, Or.inr ⟨by simp, ?_, ?_, hpar, htm, hrng,
      hrc, hint, hday, hk, ho, hti, hty⟩⟩
    · simp only [release_erased, release_returned, hr]
      exact pool_inv_congr ma _ _ _ _ rfl rfl rfl hpa
    · show Function.update ma.population i _ = _
      rw [hp]
  | some r =>
    dsimp only
    by_cases hkeep : maxof = true ∧ (m.events r).time > t
    · rw [if_pos hkeep]
      exact ⟨m, rfl, Or.inl ⟨r, rfl, hkeep.1, hkeep.2, rfl⟩⟩
    · rw [if_neg hkeep]
      obtain ⟨hty0, hmem0, _⟩ := hrel r hr
      obtain ⟨mr, hrm, hpr, ⟨hp1, hpar1, htm1, hrng1, hrc1, hint1, hday1, _, _⟩, hk1⟩ :=
        pool_inv_remove_typed m b (f :: g :: fs) dead r hinv (by rw [hty0]; exact hmem0)
      obtain ⟨ma, ha, hpa, ⟨hp, hpar, htm, hrng, hrc, hint, hday, _, _⟩, hk, ho, hti, hty⟩ :=
        pool_inv_add_typed mr _ f g fs (dead ++ [r]) event_kind.quarantine_release i t hpr
      refine ⟨{ ma with
          population := Function.update ma.population i
            { ma.population i with quarantine_release_event := some f } },
        by rw [hrm]; exact schedule_release_eq mr ma i t f ha,
        Or.inr ⟨fun r1 h1 => by cases h1; exact hkeep, ?_, ?_, hpar.trans hpar1,
          htm.trans htm1, hrng.trans hrng1, hrc.trans hrc1, hint.trans hint1,
          hday.trans hday1, ?_, ho, hti, hty⟩⟩
      · simp only [release_erased, release_returned, hr]
        rw [hty0] at hpa
        exact pool_inv_congr ma _ _ _ _ rfl rfl rfl hpa
      · show Function.update ma.population i _ = _
        rw [hp, hp1]
      · intro q hq
        obtain ⟨a1, a2, a3⟩ := hk q hq
        obtain ⟨c1, c2, c3⟩ := hk1 q (by simp)
        exact ⟨a1.trans c1, a2.trans c2, a3.trans c3⟩

/-- The first block of `intervention_quarantine_until` on a well-formed pool:
an individual with a quarantine event is left alone; one without gets the event
`f` at the head of today's bucket of the quarantined list and is flagged. -/
theorem quarantine_start_spec (m : model) (b : buckets) (f g : Nat) (fs dead : List Nat)
    (i : Nat) (hinv : pool_inv m b (f :: g :: fs) dead) :
    ∃ m1, quarantine_start m i = some m1 ∧
      ((∃ q, (m.population i).quarantine_event = some q ∧ m1 = m) ∨
        ((m.population i).quarantine_event = none ∧
          pool_inv m1 (b.set event_kind.quarantined m.time
            (f :: b event_kind.quarantined m.time)) (g :: fs) dead ∧
          m1.population = Function.update m.population i
            { m.population i with
              quarantine_event := some f
              quarantined := true
              time_quarantined := m.time } ∧
          m1.params = m.params ∧ m1.time = m.time ∧ m1.rng = m.rng ∧
          m1.rng_calls = m.rng_calls ∧ m1.interactions = m.interactions ∧
          m1.interaction_day_idx = m.interaction_day_idx ∧
          events_kept m m1 (some f) ∧ (m1.events f).individual = some i ∧
          (m1.events f).time = m.time ∧ (m1.events f).type = event_kind.quarantined)) := by
  unfold quarantine_start
  cases hq : (m.population i).quarantine_event with
  | some q => exact ⟨m, rfl, Or.inl ⟨q, rfl, rfl⟩⟩
  | none =>
    obtain ⟨ma, ha, hpa, ⟨hp, hpar, htm, hrng, hrc, hint, hday, _, _⟩, hk, ho, hti, hty⟩ :=
      pool_inv_add_typed m b f g fs dead event_kind.quarantined i m.time hinv
    refine ⟨{ ma with
        population := Function.update ma.population i
          (set_quarantine_status { ma.population i with quarantine_event := some f }
            ma.params ma.time true) },
      by simp only [ha], Or.inr ⟨rfl, pool_inv_congr ma _ _ _ _ rfl rfl rfl hpa, ?_, hpar, htm,
        hrng, hrc, hint, hday, hk, ho, hti, hty⟩⟩
    show Function.update ma.population i _ = _
    rw [hp, htm]
    simp [set_quarantine_status]

/-- The first block of `intervention_quarantine_until` as the release block
sees it: it returns, leaves two events never handed out at the head of the ring
and changes neither the release list nor any event of a bucket. -/
theorem quarantine_start_release (m : model) (b : buckets) (f g g2 : Nat)
    (fs dead : List Nat) (i : Nat) (hinv : pool_inv m b (f :: g :: g2 :: fs) dead) :
    ∃ m1 b1 f1 g1 fs1, quarantine_start m i = some m1 ∧
      pool_inv m1 b1 (f1 :: g1 :: fs1) dead ∧
      (∀ d, b1 event_kind.quarantine_release d = b event_kind.quarantine_release d) ∧
      (m1.population i).quarantine_release_event =
        (m.population i).quarantine_release_event ∧
      (∀ k d e, e ∈ b k d → (m1.events e).individual = (m.events e).individual ∧
        (m1.events e).time = (m.events e).time ∧ (m1.events e).type = (m.events e).type) ∧
      m1.time = m.time ∧ m1.params = m.params := by
  obtain ⟨m1, h1, hcase⟩ := quarantine_start_spec m b f g (g2 :: fs) dead i hinv
  rcases hcase with ⟨q, _, rfl⟩ | ⟨_, hp, hpop, hpar, htm, _, _, _, _, hk, _, _, _⟩
  · exact ⟨m1, b, f, g, g2 :: fs, h1, hinv, fun _ => rfl, rfl, fun _ _ _ _ => ⟨rfl, rfl, rfl⟩,
      rfl, rfl⟩
  · refine ⟨m1, _, g, g2, fs, h1, hp, fun d => buckets_set_other _ _ _ _ _ _ (by simp), ?_,
      fun k d e he => hk e ?_, htm, hpar⟩
    · rw [hpop, Function.update_same]
    · intro hef
      simp only [Option.some.injEq] at hef
      subst hef
      exact hinv.disj_ring k d e he (by simp)

/-- C15: for an individual whose only scheduled release `re` is at day `r`, and a
`t_release` other than today, `intervention_quarantine_until` on a well-formed
pool returns; afterwards the individual's release handle names an event of the
release list, owned by it, in the bucket of day `max(r, t_release)` when `maxof`
is set and of day `t_release` otherwise, and no other event of the release list
is owned by it.  With `maxof` set the release is never earlier than `r`. -/
theorem intervention_quarantine_until_release (m : model) (b : buckets) (f g g2 : Nat)
    (fs dead : List Nat) (i t re r : Nat) (maxof : Bool)
    (hinv : pool_inv m b (f :: g :: g2 :: fs) dead)
    (ht : t ≠ m.time)
    (hre : (m.population i).quarantine_release_event = some re)
    (hty : (m.events re).type = event_kind.quarantine_release)
    (htime : (m.events re).time = r)
    (hmem : re ∈ b event_kind.quarantine_release r)
    (hown : (m.events re).individual = some i)
    (honly : ∀ d e, e ∈ b event_kind.quarantine_release d →
      (m.events e).individual = some i → e = re) :
    ∃ m1 re1, intervention_quarantine_until m i t maxof = some m1 ∧
      (m1.population i).quarantine_release_event = some re1 ∧
      (m1.events re1).individual = some i ∧
      (m1.events re1).time = (if maxof = true then max r t else t) ∧
      (∃ l, bucket_walk m1 event_kind.quarantine_release
          (if maxof = true then max r t else t) = some l ∧ re1 ∈ l) ∧
      (∀ d l e, bucket_walk m1 event_kind.quarantine_release d = some l → e ∈ l →
        (m1.events e).individual = some i →
          e = re1 ∧ d = (if maxof = true then max r t else t)) ∧
      (maxof = true → r ≤ (m1.events re1).time) := by
  obtain ⟨m1, b1, f1, g1, fs1, h1, hp1, hb1, hrel1, hk1, htm1, _⟩ :=
    quarantine_start_release m b f g g2 fs dead i hinv
  have hre1 : (m1.population i).quarantine_release_event = some re := by rw [hrel1, hre]
  have hmeta := hk1 _ _ re hmem
  have hok : release_handle_ok m1 b1 i := by
    intro x hx
    rw [hre1] at hx
    simp only [Option.some.injEq] at hx
    subst hx
    rw [hmeta.1, hmeta.2.1, hmeta.2.2, hb1, htime]
    exact ⟨hty, hmem, hown⟩
  obtain ⟨m2, h2, hcase⟩ := reschedule_release_spec m1 b1 f1 g1 fs1 dead i t maxof hp1 hok
  have hrun : intervention_quarantine_until m i t maxof = some m2 := by
    unfold intervention_quarantine_until
    rw [if_neg ht, h1]
    exact h2
  rcases hcase with ⟨x, hx, hmax, hgt, rfl⟩ | ⟨hno, hp2, hpop2, _, _, _, _, _, _, hk2, ho2,
      hti2, _⟩
  · -- a later release is kept
    rw [hre1] at hx
    simp only [Option.some.injEq] at hx
    subst hx
    rw [hmeta.2.1, htime] at hgt
    have hD : (if maxof = true then max r t else t) = r := by
      rw [if_pos hmax]; exact max_eq_left (by omega)
    rw [hD]
    refine ⟨m2, re, hrun, hre1, by rw [hmeta.1]; exact hown, by rw [hmeta.2.1]; exact htime,
      ⟨_, bucket_walk_of_inv m2 b1 _ _ hp1 _ _, by rw [hb1]; exact hmem⟩, ?_,
      fun _ => by rw [hmeta.2.1, htime]⟩
    intro d l e hw hel hoe
    rw [bucket_walk_of_inv m2 b1 _ _ hp1] at hw
    simp only [Option.some.injEq] at hw
    subst hw
    rw [hb1] at hel
    have hee : e = re := honly d e hel (by rw [← (hk1 _ _ e hel).1]; exact hoe)
    subst hee
    exact ⟨rfl, (hinv.disj_bucket _ _ _ _ e hel hmem).2⟩
  · -- the release is rescheduled at `t`
    have hnk := hno re hre1
    rw [hmeta.2.1, htime] at hnk
    have hD : (if maxof = true then max r t else t) = t := by
      by_cases hmax : maxof = true
      · rw [if_pos hmax]
        exact max_eq_right (by
          by_contra hlt
          exact hnk ⟨hmax, by omega⟩)
      · rw [if_neg hmax]
    rw [hD]
    have hE : ∀ d e, e ∈ release_erased m1 b1 i event_kind.quarantine_release d →
        e ∈ b event_kind.quarantine_release d ∧ e ≠ re := by
      intro d e he
      simp only [release_erased, hre1, hmeta.2.1, htime] at he
      by_cases hd : d = r
      · subst hd
        rw [buckets_set_same, hb1] at he
        exact ⟨List.mem_of_mem_erase he, fun hee => by
          subst hee
          exact (List.Nodup.not_mem_erase (hinv.nodup_bucket _ _)) he⟩
      · rw [buckets_set_other _ _ _ _ _ _ (by simp [hd]), hb1] at he
        exact ⟨he, fun hee => by
          subst hee
          exact hd (hinv.disj_bucket _ _ _ _ e he hmem).2⟩
    have hf1 : ∀ d, f1 ∉ b event_kind.quarantine_release d := by
      intro d hfb
      rw [← hb1] at hfb
      exact hp1.disj_ring _ d f1 hfb (by simp)
    have hpopi : (m2.population i).quarantine_release_event = some f1 := by
      rw [hpop2, Function.update_same]
    have hwalk : ∀ d, bucket_walk m2 event_kind.quarantine_release d =
        some (if d = t then f1 :: release_erased m1 b1 i event_kind.quarantine_release t
          else release_erased m1 b1 i event_kind.quarantine_release d) := by
      intro d
      rw [bucket_walk_of_inv m2 _ _ _ hp2]
      by_cases hd : d = t
      · subst hd
        rw [buckets_set_same, if_pos rfl]
      · rw [buckets_set_other _ _ _ _ _ _ (by simp [hd]), if_neg hd]
    refine ⟨m2, f1, hrun, hpopi, ho2, hti2, ⟨_, hwalk t, by simp⟩, ?_, fun hmax => ?_⟩
    · intro d l e hw hel hoe
      rw [hwalk d] at hw
      simp only [Option.some.injEq] at hw
      subst hw
      have hold : e ∈ release_erased m1 b1 i event_kind.quarantine_release d → False := by
        intro he
        obtain ⟨heb, hne⟩ := hE d e he
        have hef : e ≠ f1 := fun h => hf1 d (h ▸ heb)
        have h3 := (hk2 e (by simpa using hef)).1
        have h4 := (hk1 _ _ e heb).1
        exact hne (honly d e heb (by rw [← h4, ← h3]; exact hoe))
      by_cases hd : d = t
      · subst hd
        rw [if_pos rfl] at hel
        rcases List.mem_cons.mp hel with h | h
        · exact ⟨h, rfl⟩
        · exact (hold h).elim
      · rw [if_neg hd] at hel
        exact (hold hel).elim
    · rw [hti2]
      rw [if_pos hmax] at hD
      exact le_of_max_le_left (le_of_eq hD)

/-- `intervention_quarantine_until` for an individual with neither a quarantine
event nor a scheduled release, on a well-formed pool and for a day other than
today: the individual is flagged, its quarantine event `f` is put in today's
bucket and its release event `g` in the bucket of day `t`. -/
theorem intervention_quarantine_until_new (m : model) (b : buckets) (f g g2 : Nat)
    (fs dead : List Nat) (i t : Nat) (maxof : Bool)
    (hinv : pool_inv m b (f :: g :: g2 :: fs) dead) (ht : t ≠ m.time)
    (hq : (m.population i).quarantine_event = none)
    (hr : (m.population i).quarantine_release_event = none) :
    ∃ m1, intervention_quarantine_until m i t maxof = some m1 ∧
      pool_inv m1 ((b.set event_kind.quarantined m.time
          (f :: b event_kind.quarantined m.time)).set event_kind.quarantine_release t
          (g :: b event_kind.quarantine_release t)) (g2 :: fs) dead ∧
      m1.population = Function.update m.population i
        { m.population i with
          quarantine_event := some f
          quarantined := true
          time_quarantined := m.time
          quarantine_release_event := some g } ∧
      m1.time = m.time ∧ m1.params = m.params ∧
      (∀ q, q ≠ f → q ≠ g → (m1.events q).individual = (m.events q).individual ∧
        (m1.events q).time = (m.events q).time ∧ (m1.events q).type = (m.events q).type) ∧
      (m1.events f).individual = some i ∧ (m1.events f).time = m.time ∧
      (m1.events f).type = event_kind.quarantined ∧
      (m1.events g).individual = some i ∧ (m1.events g).time = t ∧
      (m1.events g).type = event_kind.quarantine_release := by
  have hfg : f ≠ g := by
    have := hinv.nodup_ring
    intro h
    simp [h] at this
  obtain ⟨m1, h1, hcase⟩ := quarantine_start_spec m b f g (g2 :: fs) dead i hinv
  rcases hcase with ⟨q, hq1, _⟩ | ⟨_, hp1, hpop1, hpar1, htm1, _, _, _, _, hk1, ho1, hti1, hty1⟩
  · rw [hq] at hq1; cases hq1
  have hr1 : (m1.population i).quarantine_release_event = none := by
    rw [hpop1, Function.update_same]; exact hr
  have hok : release_handle_ok m1 (b.set event_kind.quarantined m.time
      (f :: b event_kind.quarantined m.time)) i := by
    intro x hx
    rw [hr1] at hx; cases hx
  obtain ⟨m2, h2, hcase2⟩ := reschedule_release_spec m1 _ g g2 fs dead i t maxof hp1 hok
  rcases hcase2 with ⟨x, hx, _⟩ | ⟨_, hp2, hpop2, hpar2, htm2, _, _, _, _, hk2, ho2, hti2, hty2⟩
  · rw [hr1] at hx; cases hx
  refine ⟨m2, ?_, ?_, ?_, htm2.trans htm1, hpar2.trans hpar1, ?_, ?_, ?_, ?_, ho2, hti2, hty2⟩
  · unfold intervention_quarantine_until
    rw [if_neg ht, h1]
    exact h2
  · simp only [release_erased, release_returned, hr1] at hp2
    rw [buckets_set_other _ _ _ _ _ _ (by simp)] at hp2
    exact hp2
  · rw [hpop2, hpop1]
    simp
  · intro q hqf hqg
    obtain ⟨a1, a2, a3⟩ := hk2 q (by simpa using hqg)
    obtain ⟨c1, c2, c3⟩ := hk1 q (by simpa using hqf)
    exact ⟨a1.trans c1, a2.trans c2, a3.trans c3⟩
  · rw [(hk2 f (by simpa using hfg)).1]; exact ho1
  · rw [(hk2 f (by simpa using hfg)).2.1]; exact hti1
  · rw [(hk2 f (by simpa using hfg)).2.2]; exact hty1

/-- C15 at a concrete run: person 0 is quarantined at time 1 until day 5, and a
second call with `maxof` set and day 9 moves its only release to day 9. -/
theorem intervention_quarantine_until_release_witness :
    ∃ m1 m2 re1, intervention_quarantine_until quarantine_example 0 5 false = some m1 ∧
      intervention_quarantine_until m1 0 9 true = some m2 ∧
      (m2.population 0).quarantine_release_event = some re1 ∧
      (m2.events re1).individual = some 0 ∧ (m2.events re1).time = 9 ∧
      (∃ l, bucket_walk m2 event_kind.quarantine_release 9 = some l ∧ re1 ∈ l) ∧
      (∀ d l e, bucket_walk m2 event_kind.quarantine_release d = some l → e ∈ l →
        (m2.events e).individual = some 0 → e = re1 ∧ d = 9) := by
  obtain ⟨m1, h1, hp1, hpop1, htm1, _, _, _, _, _, ho1, hti1, hty1⟩ :=
    intervention_quarantine_until_new quarantine_example (fun _ _ => []) 0 1 2
      (List.range' 3 9) [] 0 5 false
      (pool_inv_congr (pool_after 2 []) quarantine_example _ _ _ rfl rfl rfl
        (pool_after_nil_inv 2 (by decide)))
      (by decide) rfl rfl
  obtain ⟨m2, re1, h2, hre, hown, htime, hmem, honly, _⟩ :=
    intervention_quarantine_until_release m1 _ 2 3 4 (List.range' 5 7) [] 0 9 1 5 true hp1
      (by rw [htm1]; decide)
      (by rw [hpop1, Function.update_same])
      hty1 hti1 (by rw [buckets_set_same]; simp) ho1
      (fun d e he _ => by
        by_cases hd : d = 5
        · subst hd
          rw [buckets_set_same] at he
          simpa using he
        · rw [buckets_set_other _ _ _ _ _ _ (by simp [hd]),
            buckets_set_other _ _ _ _ _ _ (by simp)] at he
          simp at he)
  exact ⟨m1, m2, re1, h1, h2, hre, hown, htime, hmem, honly⟩


/-! ## Quarantine until a day, twice -/

/-- The first block of `intervention_quarantine_until` keeps a valid release
handle valid and leaves the individual with a quarantine event. -/
theorem quarantine_start_handles (m : model) (b : buckets) (f g : Nat)
    (fs dead : List Nat) (i : Nat) (hinv : pool_inv m b (f :: g :: fs) dead)
    (hrel : release_handle_ok m b i) :
    ∃ m1 b1 fresh1, quarantine_start m i = some m1 ∧ pool_inv m1 b1 fresh1 dead ∧
      (fresh1 = f :: g :: fs ∨ fresh1 = g :: fs) ∧
      release_handle_ok m1 b1 i ∧ m1.time = m.time ∧
      (∃ q, (m1.population i).quarantine_event = some q) := by
  obtain ⟨m1, h1, hcase⟩ := quarantine_start_spec m b f g fs dead i hinv
  rcases hcase with ⟨q, hq, rfl⟩ | ⟨_, hp, hpop, _, htm, _, _, _, _, hk, _, _, _⟩
  · exact ⟨m1, b, _, h1, hinv, Or.inl rfl, hrel, rfl, q, hq⟩
  · refine ⟨m1, _, _, h1, hp, Or.inr rfl, ?_, htm, f, by rw [hpop, Function.update_same]⟩
    intro r hr
    rw [hpop, Function.update_same] at hr
    obtain ⟨a1, a2, a3⟩ := hrel r hr
    have hrf : r ≠ f := fun h => hinv.disj_ring _ _ r a2 (by simp [h])
    obtain ⟨c1, c2, c3⟩ := hk r (by simpa using hrf)
    rw [c1, c2, c3, buckets_set_other _ _ _ _ _ _ (by simp)]
    exact ⟨a1, a2, a3⟩

/-- A completed `intervention_quarantine_until` for a day other than today, on
a well-formed pool with four events never handed out: two such events are left,
the individual has a quarantine event, and its release handle either names a
kept release later than `t` or the event at the head of the release bucket of
day `t`. -/
theorem intervention_quarantine_until_cases (m : model) (b : buckets) (f g g2 g3 : Nat)
    (fs dead : List Nat) (i t : Nat) (maxof : Bool)
    (hinv : pool_inv m b (f :: g :: g2 :: g3 :: fs) dead) (ht : t ≠ m.time)
    (hrel : release_handle_ok m b i) :
    ∃ m1 b1 f1 g1 fs1 dead1, intervention_quarantine_until m i t maxof = some m1 ∧
      pool_inv m1 b1 (f1 :: g1 :: fs1) dead1 ∧ m1.time = m.time ∧
      (∃ q, (m1.population i).quarantine_event = some q) ∧
      release_handle_ok m1 b1 i ∧
      ((∃ r, (m1.population i).quarantine_release_event = some r ∧ maxof = true ∧
          (m1.events r).time > t) ∨
        (∃ re E, (m1.population i).quarantine_release_event = some re ∧
          (m1.events re).time = t ∧ b1 event_kind.quarantine_release t = re :: E)) := by
  obtain ⟨ma, ba, fra, ha, hpa, hfra, hrela, htma, hqa⟩ :=
    quarantine_start_handles m b f g (g2 :: g3 :: fs) dead i hinv hrel
  obtain ⟨fa, ga, ga2, fsa, rfl⟩ : ∃ fa ga ga2 fsa, fra = fa :: ga :: ga2 :: fsa := by
    rcases hfra with rfl | rfl
    · exact ⟨f, g, g2, g3 :: fs, rfl⟩
    · exact ⟨g, g2, g3, fs, rfl⟩
  obtain ⟨m1, h1, hcase⟩ := reschedule_release_spec ma ba fa ga (ga2 :: fsa) dead i t maxof
    hpa hrela
  have hrun : intervention_quarantine_until m i t maxof = some m1 := by
    unfold intervention_quarantine_until
    rw [if_neg ht, ha]
    exact h1
  rcases hcase with ⟨r, hr, hmax, hgt, rfl⟩ | ⟨_, hp1, hpop1, _, htm1, _, _, _, _, _, ho1,
      hti1, hty1⟩
  · exact ⟨m1, ba, fa, ga, ga2 :: fsa, dead, hrun, hpa, htma, hqa, hrela,
      Or.inl ⟨r, hr, hmax, hgt⟩⟩
  · have hnew : (m1.population i).quarantine_release_event = some fa := by
      rw [hpop1, Function.update_same]
    refine ⟨m1, _, ga, ga2, fsa, _, hrun, hp1, htm1.trans htma, ?_, ?_,
      Or.inr ⟨fa, _, hnew, hti1, by rw [buckets_set_same]⟩⟩
    · obtain ⟨q, hq⟩ := hqa
      exact ⟨q, by rw [hpop1, Function.update_same]; exact hq⟩
    · intro r hr
      rw [hnew] at hr
      simp only [Option.some.injEq] at hr
      subst hr
      rw [hti1, buckets_set_same]
      exact ⟨hty1, by simp, ho1⟩

theorem quarantine_start_of_some (m : model) (i q : Nat)
    (h : (m.population i).quarantine_event = some q) : quarantine_start m i = some m := by
  simp only [quarantine_start, h]

/-- C16: on a well-formed pool with four events never handed out and a valid
release handle, applying `intervention_quarantine_until` with `maxof` set twice
in succession with the same day succeeds both times, and the second call leaves
the individual's flag `quarantined`, its quarantine event and the day of its
scheduled release, the individuals held by every bucket and every counter
`n_daily_current` as the first call left them. -/
theorem intervention_quarantine_until_idempotent (m : model) (b : buckets)
    (f g g2 g3 : Nat) (fs dead : List Nat) (i t : Nat)
    (hinv : pool_inv m b (f :: g :: g2 :: g3 :: fs) dead)
    (hrel : release_handle_ok m b i) :
    ∃ m1 m2, intervention_quarantine_until m i t true = some m1 ∧
      intervention_quarantine_until m1 i t true = some m2 ∧
      (m2.population i).quarantined = (m1.population i).quarantined ∧
      (m2.population i).quarantine_event = (m1.population i).quarantine_event ∧
      (m2.population i).quarantine_release_event.map (fun e => (m2.events e).time) =
        (m1.population i).quarantine_release_event.map (fun e => (m1.events e).time) ∧
      (∀ k d, bucket_individuals m2 k d = bucket_individuals m1 k d) ∧
      (∀ k d, (m2.lists k).n_daily_current d = (m1.lists k).n_daily_current d) := by
  by_cases ht : t = m.time
  · have hrun : intervention_quarantine_until m i t true = some m := by
      unfold intervention_quarantine_until
      rw [if_pos ht]
    exact ⟨m, m, hrun, hrun, rfl, rfl, rfl, fun _ _ => rfl, fun _ _ => rfl⟩
  obtain ⟨m1, b1, f1, g1, fs1, dead1, h1, hp1, htm1, ⟨q, hq⟩, hrel1, hcase⟩ :=
    intervention_quarantine_until_cases m b f g g2 g3 fs dead i t true hinv ht hrel
  have ht1 : t ≠ m1.time := by rw [htm1]; exact ht
  rcases hcase with ⟨r, hr, _, hgt⟩ | ⟨re, E, hre, hti, hb⟩
  · have hrun2 : intervention_quarantine_until m1 i t true = some m1 := by
      unfold intervention_quarantine_until
      rw [if_neg ht1, quarantine_start_of_some m1 i q hq]
      simp only [reschedule_release, hr, hgt, and_self, if_true]
    exact ⟨m1, m1, h1, hrun2, rfl, rfl, rfl, fun _ _ => rfl, fun _ _ => rfl⟩
  · obtain ⟨m2, h2, hcase2⟩ := reschedule_release_spec m1 b1 f1 g1 fs1 dead1 i t true hp1 hrel1
    have hrun2 : intervention_quarantine_until m1 i t true = some m2 := by
      unfold intervention_quarantine_until
      rw [if_neg ht1, quarantine_start_of_some m1 i q hq]
      exact h2
    rcases hcase2 with ⟨r, hr, _, hgt, _⟩ | ⟨_, hp2, hpop2, _, _, _, _, _, _, hk2, ho2, hti2, _⟩
    · rw [hre] at hr
      simp only [Option.some.injEq] at hr
      subst hr
      omega
    have hown1 := (hrel1 re hre).2.2
    have hE : release_erased m1 b1 i = b1.set event_kind.quarantine_release t E := by
      simp only [release_erased, hre, hti, hb]
      rw [List.erase_cons_head]
    rw [hE, buckets_set_same] at hp2
    have hB2 : ∀ k d, (b1.set event_kind.quarantine_release t E).set
        event_kind.quarantine_release t (f1 :: E) k d =
        if k = event_kind.quarantine_release ∧ d = t then f1 :: E else b1 k d := by
      intro k d
      by_cases hkd : k = event_kind.quarantine_release ∧ d = t
      · obtain ⟨rfl, rfl⟩ := hkd
        rw [buckets_set_same, if_pos ⟨rfl, rfl⟩]
      · rw [buckets_set_other _ _ _ _ _ _ hkd, buckets_set_other _ _ _ _ _ _ hkd, if_neg hkd]
    have hkeep : ∀ k d e, e ∈ b1 k d →
        (m2.events e).individual = (m1.events e).individual := by
      intro k d e he
      have hef : e ≠ f1 := fun h => hp1.disj_ring k d e he (by simp [h])
      exact (hk2 e (by simpa using hef)).1
    refine ⟨m1, m2, h1, hrun2, ?_, ?_, ?_, fun k d => ?_, fun k d => ?_⟩
    · rw [hpop2, Function.update_same]
    · rw [hpop2, Function.update_same]
    · rw [hpop2, Function.update_same, hre]
      simp only [Option.map_some', hti2, hti]
    · unfold bucket_individuals
      rw [bucket_walk_of_inv m2 _ _ _ hp2, bucket_walk_of_inv m1 _ _ _ hp1, hB2]
      simp only [Option.map_some', Option.some.injEq]
      by_cases hkd : k = event_kind.quarantine_release ∧ d = t
      · obtain ⟨rfl, rfl⟩ := hkd
        rw [if_pos ⟨rfl, rfl⟩, hb]
        simp only [List.map_cons, List.cons.injEq]
        refine ⟨by rw [ho2, hown1], List.map_congr_left fun e he => ?_⟩
        exact hkeep _ _ e (by rw [hb]; exact List.mem_cons_of_mem _ he)
      · rw [if_neg hkd]
        exact List.map_congr_left fun e he => hkeep k d e he
    · rw [hp2.count, hp1.count, hB2]
      by_cases hkd : k = event_kind.quarantine_release ∧ d = t
      · obtain ⟨rfl, rfl⟩ := hkd
        rw [if_pos ⟨rfl, rfl⟩, hb]
        simp
      · rw [if_neg hkd]

/-- C16 at a concrete run: person 0 is quarantined at time 1 until day 5, twice. -/
theorem intervention_quarantine_until_idempotent_witness :
    ∃ m1 m2, intervention_quarantine_until quarantine_example 0 5 true = some m1 ∧
      intervention_quarantine_until m1 0 5 true = some m2 ∧
      (m2.population 0).quarantined = (m1.population 0).quarantined ∧
      (m2.population 0).quarantine_event = (m1.population 0).quarantine_event ∧
      (m2.population 0).quarantine_release_event.map (fun e => (m2.events e).time) =
        (m1.population 0).quarantine_release_event.map (fun e => (m1.events e).time) ∧
      (∀ k d, bucket_individuals m2 k d = bucket_individuals m1 k d) ∧
      (∀ k d, (m2.lists k).n_daily_current d = (m1.lists k).n_daily_current d) :=
  intervention_quarantine_until_idempotent quarantine_example (fun _ _ => []) 0 1 2 3
    (List.range' 4 8) [] 0 5
    (pool_inv_congr (pool_after 2 []) quarantine_example _ _ _ rfl rfl rfl
      (pool_after_nil_inv 2 (by decide)))
    (fun r hr => by
      have hnone : (quarantine_example.population 0).quarantine_release_event = none := by
        decide
      rw [hnone] at hr
      cases hr)

/-- The second call of the run above does work: it takes the release event 1 out
of the bucket of day 5 and puts event 2 there. -/
theorem intervention_quarantine_until_twice_example :
    ((intervention_quarantine_until quarantine_example 0 5 true).bind
      (fun m1 => intervention_quarantine_until m1 0 5 true)).map
      (fun m2 => ((m2.population 0).quarantine_release_event,
        bucket_walk m2 event_kind.quarantine_release 5,
        (m2.lists event_kind.quarantine_release).n_daily 5)) = some (some 2, some [2], 2) ∧
    (intervention_quarantine_until quarantine_example 0 5 true).map
      (fun m1 => ((m1.population 0).quarantine_release_event,
        bucket_walk m1 event_kind.quarantine_release 5,
        (m1.lists event_kind.quarantine_release).n_daily 5)) = some (some 1, some [1], 1) := by
  constructor <;> decide


/-! ## The test pipeline -/

/-- After a completed order the individual has a test in flight or is a case. -/
theorem intervention_test_order_blocks (m m1 : model) (i t : Nat)
    (h : intervention_test_order m i t = some m1) :
    ¬((m1.population i).quarantine_test_result = test_status.NO_TEST ∧
      (m1.population i).is_case = false) := by
  unfold intervention_test_order at h
  split at h
  · split at h
    · simp at h
    · simp only [Option.some.injEq] at h
      subst h
      simp
  · rename_i hc
    simp only [Option.some.injEq] at h
    subst h
    exact hc

/-- An individual with a test in flight, or a case, is left alone by any number
of orders. -/
theorem order_tests_blocked (i : Nat) :
    ∀ (ts : List Nat) (m : model),
      ¬((m.population i).quarantine_test_result = test_status.NO_TEST ∧
        (m.population i).is_case = false) → order_tests m i ts = some m
  | [], m, _ => rfl
  | t :: ts, m, h => by
    have h1 : intervention_test_order m i t = some m := by
      unfold intervention_test_order
      rw [if_neg h]
    simp only [order_tests, h1]
    exact order_tests_blocked i ts m h

/-- C18: `intervention_test_order` on a well-formed pool enqueues one event,
owned by the individual, at the head of the `test_take` bucket of the requested
day and marks the slot `TEST_ORDERED` when the slot is `NO_TEST` and the
individual is not a case; in every other situation it returns the state as it
is.  Hence any run of orders, for whatever days, has the effect of its first
order alone, and an order for an individual whose slot is not `NO_TEST` enqueues
nothing. -/
theorem intervention_test_order_spec (m : model) (b : buckets) (f g : Nat)
    (fs dead : List Nat) (i t : Nat) (hinv : pool_inv m b (f :: g :: fs) dead) :
    ((m.population i).quarantine_test_result = test_status.NO_TEST ∧
        (m.population i).is_case = false →
      ∃ m1, intervention_test_order m i t = some m1 ∧
        pool_inv m1 (b.set event_kind.test_take t (f :: b event_kind.test_take t))
          (g :: fs) dead ∧
        bucket_walk m1 event_kind.test_take t = some (f :: b event_kind.test_take t) ∧
        (m1.events f).individual = some i ∧ (m1.events f).time = t ∧
        (m1.events f).type = event_kind.test_take ∧
        m1.population = Function.update m.population i
          { m.population i with quarantine_test_result := test_status.TEST_ORDERED }) ∧
    (¬((m.population i).quarantine_test_result = test_status.NO_TEST ∧
        (m.population i).is_case = false) →
      intervention_test_order m i t = some m) ∧
    (∀ ts, order_tests m i (t :: ts) = intervention_test_order m i t) := by
  refine ⟨fun hc => ?_, fun hc => ?_, fun ts => ?_⟩
  · obtain ⟨ma, ha, hpa, ⟨hp, _⟩, _, ho, hti, hty⟩ :=
      pool_inv_add_typed m b f g fs dead event_kind.test_take i t hinv
    have hp1 : pool_inv
        { ma with
          population := Function.update ma.population i
            { ma.population i with quarantine_test_result := test_status.TEST_ORDERED } }
        (b.set event_kind.test_take t (f :: b event_kind.test_take t)) (g :: fs) dead :=
      pool_inv_congr ma _ _ _ _ rfl rfl rfl hpa
    refine ⟨_, by simp only [intervention_test_order, hc, and_self, if_true, ha], hp1, ?_, ho,
      hti, hty, ?_⟩
    · rw [bucket_walk_of_inv _ _ _ _ hp1, buckets_set_same]
    · show Function.update ma.population i _ = _
      rw [hp]
  · unfold intervention_test_order
    rw [if_neg hc]
  · cases h1 : intervention_test_order m i t with
    | none => simp only [order_tests, h1]
    | some m1 =>
      simp only [order_tests, h1]
      exact order_tests_blocked i ts m1 (intervention_test_order_blocks m m1 i t h1)

/-- C18 at a concrete run: a first order for person 0 at day 3 enqueues event 0;
further orders for days 4 and 7 change nothing. -/
theorem intervention_test_order_spec_witness :
    (∃ m1, intervention_test_order
        { quarantine_example with
          population := fun _ =>
            { calloc_individual with quarantine_test_result := test_status.NO_TEST } } 0 3 =
          some m1 ∧
        bucket_walk m1 event_kind.test_take 3 = some [0] ∧
        (m1.events 0).individual = some 0 ∧
        (m1.population 0).quarantine_test_result = test_status.TEST_ORDERED) ∧
    (order_tests
        { quarantine_example with
          population := fun _ =>
            { calloc_individual with quarantine_test_result := test_status.NO_TEST } } 0
        [3, 4, 7]).map (fun m => (bucket_walk m event_kind.test_take 3,
          bucket_walk m event_kind.test_take 4, bucket_walk m event_kind.test_take 7)) =
      some (some [0], some [], some []) := by
  obtain ⟨h1, _, _⟩ := intervention_test_order_spec
    { quarantine_example with
      population := fun _ =>
        { calloc_individual with quarantine_test_result := test_status.NO_TEST } }
    (fun _ _ => []) 0 1 (List.range' 2 10) [] 0 3
    (pool_inv_congr (pool_after 2 []) _ _ _ _ rfl rfl rfl (pool_after_nil_inv 2 (by decide)))
  obtain ⟨m1, hm1, _, hw, ho, _, _, hpop⟩ := h1 ⟨rfl, rfl⟩
  exact ⟨⟨m1, hm1, hw, ho, by rw [hpop, Function.update_same]⟩, by decide⟩


/-- C19: `intervention_test_take` at time `t` on a well-formed pool returns; the
recorded result is positive exactly when the status is neither `UNINFECTED` nor
`RECOVERED` and `t - time_infected ≥ test_insensititve_period`, and negative
otherwise; exactly one event, owned by the individual, is enqueued, at the head
of the `test_result` bucket of day `t + test_result_wait`. -/
theorem intervention_test_take_spec (m : model) (b : buckets) (f g : Nat)
    (fs dead : List Nat) (i : Nat) (hinv : pool_inv m b (f :: g :: fs) dead) :
    ∃ m1 positive, intervention_test_take m i = some m1 ∧
      (m1.population i).quarantine_test_result = test_status.result positive ∧
      (positive = true ↔
        ((m.population i).status ≠ disease_status.UNINFECTED ∧
          (m.population i).status ≠ disease_status.RECOVERED ∧
          (m.time : Int) - ((m.population i).time_infected : Int) ≥
            (m.params.test_insensititve_period : Int))) ∧
      pool_inv m1 (b.set event_kind.test_result (m.time + m.params.test_result_wait)
        (f :: b event_kind.test_result (m.time + m.params.test_result_wait))) (g :: fs) dead ∧
      bucket_walk m1 event_kind.test_result (m.time + m.params.test_result_wait) =
        some (f :: b event_kind.test_result (m.time + m.params.test_result_wait)) ∧
      (m1.events f).individual = some i ∧
      (m1.events f).time = m.time + m.params.test_result_wait ∧
      (m1.events f).type = event_kind.test_result ∧
      (∀ j, j ≠ i → m1.population j = m.population j) := by
  obtain ⟨ma, ha, hpa, ⟨hp, _⟩, _, ho, hti, hty⟩ :=
    pool_inv_add_typed
      { m with
        population := Function.update m.population i
          { m.population i with
            quarantine_test_result := test_status.result (test_outcome m (m.population i)) } }
      b f g fs dead event_kind.test_result i (m.time + m.params.test_result_wait)
      (pool_inv_congr m _ _ _ _ rfl rfl rfl hinv)
  refine ⟨ma, test_outcome m (m.population i), ?_, ?_, ?_, hpa, ?_, ho, hti, hty, ?_⟩
  · unfold intervention_test_take
    dsimp only
    rw [ha]
  · rw [hp]
    simp
  · unfold test_outcome time_infected
    by_cases hs : (m.population i).status = disease_status.UNINFECTED ∨
        (m.population i).status = disease_status.RECOVERED
    · rw [if_pos hs]
      constructor
      · intro h; cases h
      · rintro ⟨h1, h2, _⟩
        rcases hs with hs | hs
        · exact absurd hs h1
        · exact absurd hs h2
    · rw [if_neg hs]
      simp only [not_or] at hs
      simp only [decide_eq_true_eq]
      exact ⟨fun h => ⟨hs.1, hs.2, h⟩, fun h => h.2.2⟩
  · rw [bucket_walk_of_inv _ _ _ _ hpa, buckets_set_same]
  · intro j hj
    rw [hp]
    simp [hj]

/-- C19 at a concrete run: at time 1 person 0 is uninfected and tests negative;
its result event is enqueued at day 1. -/
theorem intervention_test_take_spec_witness :
    ∃ m1, intervention_test_take quarantine_example 0 = some m1 ∧
      (m1.population 0).quarantine_test_result = test_status.result false ∧
      bucket_walk m1 event_kind.test_result 1 = some [0] ∧
      (m1.events 0).individual = some 0 := by
  obtain ⟨m1, positive, h1, hres, hiff, _, hw, ho, _⟩ :=
    intervention_test_take_spec quarantine_example (fun _ _ => []) 0 1 (List.range' 2 10) [] 0
      (pool_inv_congr (pool_after 2 []) _ _ _ _ rfl rfl rfl (pool_after_nil_inv 2 (by decide)))
  have hneg : positive = false := by
    cases positive with
    | false => rfl
    | true => exact absurd rfl (hiff.mp rfl).1
  rw [hneg] at hres
  exact ⟨m1, h1, hres, hw, ho⟩

/-- An individual infected at day 2 and tested at time 5 tests positive with a
period of three days and negative with a period of four days; a recovered
individual tests negative. -/
theorem intervention_test_take_example :
    test_outcome (test_example 3)
      { calloc_individual with status := disease_status.SYMPTOMATIC, time_infected := 2 } =
      true ∧
    test_outcome (test_example 4)
      { calloc_individual with status := disease_status.SYMPTOMATIC, time_infected := 2 } =
      false ∧
    test_outcome (test_example 3)
      { calloc_individual with status := disease_status.RECOVERED, time_infected := 2 } =
      false := by
  decide


/-! ## The result of a test -/

theorem add_individual_to_event_list_typed_population (m m1 : model) (k : event_kind)
    (i t e : Nat) (h : add_individual_to_event_list_typed k i t m = some (e, m1)) :
    m1.population = m.population := by
  unfold add_individual_to_event_list_typed at h
  split at h
  · simp at h
  · rename_i e0 m0 h0
    simp only [Option.some.injEq, Prod.mk.injEq] at h
    obtain ⟨_, rfl⟩ := h
    exact (add_individual_to_event_list_rest _ _ _ _ _ _ h0).1

theorem remove_event_from_event_list_typed_population (m m1 : model) (e : Nat)
    (h : remove_event_from_event_list_typed e m = some m1) :
    m1.population = m.population :=
  (remove_event_from_event_list_rest _ _ _ _ _ h).1

theorem quarantine_start_is_case (m m1 : model) (i : Nat)
    (h : quarantine_start m i = some m1) (j : Nat) :
    (m1.population j).is_case = (m.population j).is_case := by
  unfold quarantine_start at h
  split at h
  · split at h
    · simp at h
    · rename_i e ma ha
      simp only [Option.some.injEq] at h
      subst h
      have hp := add_individual_to_event_list_typed_population _ _ _ _ _ _ ha
      show (Function.update ma.population i _ j).is_case = _
      by_cases hj : j = i
      · subst hj
        rw [Function.update_same, hp]
        simp [set_quarantine_status]
      · rw [Function.update_noteq hj, hp]
  · simp only [Option.some.injEq] at h
    subst h
    rfl

theorem schedule_release_is_case (m m1 : model) (i t : Nat)
    (h : schedule_release m i t = some m1) (j : Nat) :
    (m1.population j).is_case = (m.population j).is_case := by
  unfold schedule_release at h
  split at h
  · simp at h
  · rename_i e ma ha
    simp only [Option.some.injEq] at h
    subst h
    have hp := add_individual_to_event_list_typed_population _ _ _ _ _ _ ha
    show (Function.update ma.population i _ j).is_case = _
    by_cases hj : j = i
    · subst hj
      rw [Function.update_same, hp]
    · rw [Function.update_noteq hj, hp]

theorem reschedule_release_is_case (m m1 : model) (i t : Nat) (maxof : Bool)
    (h : reschedule_release m i t maxof = some m1) (j : Nat) :
    (m1.population j).is_case = (m.population j).is_case := by
  unfold reschedule_release at h
  split at h
  · exact schedule_release_is_case _ _ _ _ h j
  · split at h
    · simp only [Option.some.injEq] at h
      subst h
      rfl
    · split at h
      · simp at h
      · rename_i mr hr
        rw [schedule_release_is_case _ _ _ _ h j,
          remove_event_from_event_list_typed_population _ _ _ hr]

/-- `intervention_quarantine_until` makes nobody a case and no case a non-case. -/
theorem intervention_quarantine_until_is_case (m m1 : model) (i t : Nat) (maxof : Bool)
    (h : intervention_quarantine_until m i t maxof = some m1) (j : Nat) :
    (m1.population j).is_case = (m.population j).is_case := by
  unfold intervention_quarantine_until at h
  split at h
  · simp only [Option.some.injEq] at h
    subst h
    rfl
  · split at h
    · simp at h
    · rename_i ma ha
      rw [reschedule_release_is_case _ _ _ _ _ h j, quarantine_start_is_case _ _ _ ha j]

theorem intervention_test_order_is_case (m m1 : model) (i t : Nat)
    (h : intervention_test_order m i t = some m1) (j : Nat) :
    (m1.population j).is_case = (m.population j).is_case := by
  unfold intervention_test_order at h
  split at h
  · split at h
    · simp at h
    · rename_i e ma ha
      simp only [Option.some.injEq] at h
      subst h
      have hp := add_individual_to_event_list_typed_population _ _ _ _ _ _ ha
      show (Function.update ma.population i _ j).is_case = _
      by_cases hj : j = i
      · subst hj
        rw [Function.update_same, hp]
      · rw [Function.update_noteq hj, hp]
  · simp only [Option.some.injEq] at h
    subst h
    rfl

theorem index_trace_token_is_case (m m1 : model) (i tok : Nat)
    (h : index_trace_token m i = some (tok, m1)) (j : Nat) :
    (m1.population j).is_case = (m.population j).is_case := by
  unfold index_trace_token at h
  split at h
  · split at h
    · simp at h
    · rename_i tk ma ha
      simp only [Option.some.injEq, Prod.mk.injEq] at h
      obtain ⟨_, rfl⟩ := h
      have hp : ma.population = m.population := by
        unfold new_trace_token at ha
        split at ha
        · simp at ha
        · simp only [Option.some.injEq, Prod.mk.injEq] at ha
          obtain ⟨_, rfl⟩ := ha
          rfl
      show (Function.update ma.population i _ j).is_case = _
      by_cases hj : j = i
      · subst hj
        rw [Function.update_same, hp]
      · rw [Function.update_noteq hj, hp]
  · simp only [Option.some.injEq, Prod.mk.injEq] at h
    obtain ⟨_, rfl⟩ := h
    show (Function.update m.population i _ j).is_case = _
    by_cases hj : j = i
    · subst hj
      rw [Function.update_same]
    · rw [Function.update_noteq hj]

theorem notify_contact_is_case (on_traced : model → Nat → Option model)
    (hc : ∀ m c m1, on_traced m c = some m1 →
      ∀ j, (m1.population j).is_case = (m.population j).is_case)
    (m m1 : model) (r c : Nat) (h : notify_contact on_traced m r c = some m1) (j : Nat) :
    (m1.population j).is_case = (m.population j).is_case := by
  unfold notify_contact at h
  split at h
  · dsimp only at h
    generalize hg : (if (m.interactions r).traceable = none then
        ({ m with
          interactions := set_traceable m.interactions r (some (m.rng.bernoulli m.rng_calls))
          rng_calls := m.rng_calls + 1 } : model)
      else m) = ma at h
    have hpop : ma.population = m.population := by
      rw [← hg]
      split <;> rfl
    split at h
    · rw [hc _ _ _ h j, hpop]
    · simp only [Option.some.injEq] at h
      subst h
      rw [hpop]
  · simp only [Option.some.injEq] at h
    subst h
    rfl

theorem notify_records_is_case (on_traced : model → Nat → Option model)
    (hc : ∀ m c m1, on_traced m c = some m1 →
      ∀ j, (m1.population j).is_case = (m.population j).is_case) :
    ∀ (n : Nat) (head : Option Nat) (m m1 : model),
      notify_records on_traced n head m = some m1 →
      ∀ j, (m1.population j).is_case = (m.population j).is_case
  | 0, _, m, m1, h, j => by
    simp only [notify_records, Option.some.injEq] at h
    subst h
    rfl
  | n + 1, none, m, m1, h, j => by simp [notify_records] at h
  | n + 1, some r, m, m1, h, j => by
    simp only [notify_records] at h
    split at h
    · simp at h
    · split at h
      · simp at h
      · rename_i c _ m2 h2
        rw [notify_records_is_case on_traced hc n _ m2 m1 h j,
          notify_contact_is_case on_traced hc m m2 r _ h2 j]

theorem notify_days_is_case (on_traced : model → Nat → Int → Option model) (indiv : Nat)
    (hc : ∀ m c t m1, on_traced m c t = some m1 →
      ∀ j, (m1.population j).is_case = (m.population j).is_case) :
    ∀ (n : Nat) (day : Int) (m m1 : model),
      notify_days on_traced indiv n day m = some m1 →
      ∀ j, (m1.population j).is_case = (m.population j).is_case
  | 0, _, m, m1, h, j => by
    simp only [notify_days, Option.some.injEq] at h
    subst h
    rfl
  | n + 1, day, m, m1, h, j => by
    simp only [notify_days] at h
    split at h
    · simp at h
    · split at h
      · simp at h
      · rename_i m2 h2
        rw [notify_days_is_case on_traced indiv hc n _ m2 m1 h j,
          notify_records_is_case _ (fun ma c mb hab => hc ma c _ mb hab) _ _ m m2 h2 j]

theorem intervention_notify_contacts_is_case
    (on_traced : model → Nat → Int → Option model)
    (hc : ∀ m c t m1, on_traced m c t = some m1 →
      ∀ j, (m1.population j).is_case = (m.population j).is_case)
    (m m1 : model) (indiv : Nat)
    (h : intervention_notify_contacts on_traced m indiv = some m1) (j : Nat) :
    (m1.population j).is_case = (m.population j).is_case := by
  unfold intervention_notify_contacts at h
  split at h
  · simp only [Option.some.injEq] at h
    subst h
    rfl
  · exact notify_days_is_case on_traced indiv hc _ _ m m1 h j

theorem quarantine_members_is_case (notify : model → Nat → Option model)
    (hc : ∀ m c m1, notify m c = some m1 →
      ∀ j, (m1.population j).is_case = (m.population j).is_case)
    (members : Nat → Nat) (indiv time_event : Nat) (contact_trace : Bool) :
    ∀ (n idx : Nat) (m m1 : model),
      quarantine_members notify members indiv time_event contact_trace n idx m = some m1 →
      ∀ j, (m1.population j).is_case = (m.population j).is_case
  | 0, _, m, m1, h, j => by
    simp only [quarantine_members, Option.some.injEq] at h
    subst h
    rfl
  | n + 1, idx, m, m1, h, j => by
    simp only [quarantine_members] at h
    split at h
    · split at h
      · simp at h
      · rename_i ma ha
        split at h
        · simp at h
        · rename_i mb hb
          rw [quarantine_members_is_case notify hc members indiv time_event contact_trace n _
            mb m1 h j]
          have h1 := intervention_quarantine_until_is_case _ _ _ _ _ ha j
          split at hb
          · rw [hc _ _ _ hb j, h1]
          · simp only [Option.some.injEq] at hb
            subst hb
            exact h1
    · exact quarantine_members_is_case notify hc members indiv time_event contact_trace n _
        m m1 h j

theorem intervention_quarantine_household_is_case (notify : model → Nat → Option model)
    (hc : ∀ m c m1, notify m c = some m1 →
      ∀ j, (m1.population j).is_case = (m.population j).is_case)
    (m m1 : model) (indiv : Nat) (time : Option Nat) (contact_trace : Bool)
    (h : intervention_quarantine_household notify m indiv time contact_trace = some m1)
    (j : Nat) : (m1.population j).is_case = (m.population j).is_case := by
  unfold intervention_quarantine_household at h
  dsimp only at h
  split at h
  · exact quarantine_members_is_case notify hc _ _ _ _ _ _ m m1 h j
  · exact quarantine_members_is_case notify hc _ _ _ _ _ _ _ m1 h j

/-- `intervention_on_traced` makes nobody a case and no case a non-case. -/
theorem intervention_on_traced_is_case :
    ∀ (fuel : Nat) (m : model) (indiv : Nat) (t : Int) (level tok : Nat) (m1 : model),
      intervention_on_traced fuel m indiv t level tok = some m1 →
      ∀ j, (m1.population j).is_case = (m.population j).is_case
  | 0, m, indiv, t, level, tok, m1, h, j => by simp [intervention_on_traced] at h
  | fuel + 1, m, indiv, t, level, tok, m1, h, j => by
    have ih : ∀ (lv : Nat) (ma : model) (c : Nat) (tc : Int) (mb : model),
        intervention_on_traced fuel ma c tc lv tok = some mb →
        ∀ j, (mb.population j).is_case = (ma.population j).is_case :=
      fun lv ma c tc mb hab => intervention_on_traced_is_case fuel ma c tc lv tok mb hab
    simp only [intervention_on_traced] at h
    split at h
    · simp only [Option.some.injEq] at h
      subst h
      rfl
    · split at h
      · simp at h
      · rename_i ma ha
        have h1 : (ma.population j).is_case = (m.population j).is_case := by
          split at ha
          · split at ha
            · simp at ha
            · rename_i mq hq
              have hq1 := intervention_quarantine_until_is_case _ _ _ _ _ hq j
              split at ha
              · rw [intervention_quarantine_household_is_case _
                  (fun mx c my hxy => intervention_notify_contacts_is_case _
                    (fun mu cu tu mv huv => ih _ mu cu tu mv huv) mx my c hxy) _ _ _ _ _ ha j,
                  hq1]
                rfl
              · simp only [Option.some.injEq] at ha
                subst ha
                rw [hq1]
                rfl
          · simp only [Option.some.injEq] at ha
            subst ha
            rfl
        split at h
        · simp at h
        · rename_i mb hb
          have h2 : (mb.population j).is_case = (ma.population j).is_case := by
            split at hb
            · exact intervention_test_order_is_case _ _ _ _ hb j
            · simp only [Option.some.injEq] at hb
              subst hb
              rfl
          split at h
          · rw [intervention_notify_contacts_is_case _
              (fun mu cu tu mv huv => ih _ mu cu tu mv huv) _ _ _ h j, h2, h1]
          · simp only [Option.some.injEq] at h
            subst h
            rw [h2, h1]

/-- The positive-result cascade makes nobody a case and no case a non-case. -/
theorem intervention_on_positive_result_is_case (m m1 : model) (indiv : Nat)
    (h : intervention_on_positive_result m indiv = some m1) (j : Nat) :
    (m1.population j).is_case = (m.population j).is_case := by
  unfold intervention_on_positive_result at h
  split at h
  · simp at h
  · rename_i tok m0 h0
    have hi := index_trace_token_is_case _ _ _ _ h0 j
    dsimp only at h
    split at h
    · simp at h
    · rename_i te ma ha
      have h1 : (ma.population j).is_case = (m0.population j).is_case := by
        split at ha
        · split at ha
          · simp at ha
          · rename_i mq hq
            simp only [Option.some.injEq, Prod.mk.injEq] at ha
            obtain ⟨_, rfl⟩ := ha
            rw [intervention_quarantine_until_is_case _ _ _ _ _ hq j]
            rfl
        · simp only [Option.some.injEq, Prod.mk.injEq] at ha
          obtain ⟨_, rfl⟩ := ha
          rfl
      split at h
      · simp at h
      · rename_i mb hb
        have h2 : (mb.population j).is_case = (ma.population j).is_case := by
          split at hb
          · exact intervention_quarantine_household_is_case _
              (fun mx c my hxy => intervention_notify_contacts_is_case _
                (fun mu cu tu mv huv => intervention_on_traced_is_case _ mu cu tu _ _ mv huv)
                mx my c hxy) _ _ _ _ _ hb j
          · simp only [Option.some.injEq] at hb
            subst hb
            rfl
        split at h
        · rw [intervention_notify_contacts_is_case _
            (fun mu cu tu mv huv => intervention_on_traced_is_case _ mu cu tu _ _ mv huv)
            _ _ _ h j, h2, h1, hi]
        · simp only [Option.some.injEq] at h
          subst h
          rw [h2, h1, hi]

/-- `intervention_quarantine_release` for an individual with a quarantine event,
on a well-formed pool with valid handles: it returns, the flag is cleared, and
the quarantine event and the scheduled release, if any, have left their
buckets. -/
theorem intervention_quarantine_release_spec (m : model) (b : buckets)
    (fresh dead : List Nat) (i q : Nat) (hinv : pool_inv m b fresh dead)
    (hrel : release_handle_ok m b i) (hqok : quarantine_handle_ok m b i)
    (hq : (m.population i).quarantine_event = some q) :
    ∃ m1, intervention_quarantine_release m i = some m1 ∧
      (m1.population i).quarantined = false ∧
      (∀ j, (m1.population j).is_case = (m.population j).is_case) ∧
      (∀ j, (m1.population j).quarantine_test_result =
        (m.population j).quarantine_test_result) ∧
      bucket_walk m1 event_kind.quarantined (m.events q).time =
        some ((b event_kind.quarantined (m.events q).time).erase q) ∧
      ∀ r, (m.population i).quarantine_release_event = some r →
        bucket_walk m1 event_kind.quarantine_release (m.events r).time =
          some ((b event_kind.quarantine_release (m.events r).time).erase r) := by
  obtain ⟨hqty, hqmem⟩ := hqok q hq
  -- the state after the release event, if any, has been removed
  have hfirst : ∃ ma ba deada,
      (match (m.population i).quarantine_release_event with
        | none => some m
        | some r => remove_event_from_event_list_typed r m) = some ma ∧
      pool_inv ma ba fresh deada ∧ ma.population = m.population ∧
      ma.params = m.params ∧ ma.time = m.time ∧
      (ma.events q).type = (m.events q).type ∧ (ma.events q).time = (m.events q).time ∧
      (∀ d, ba event_kind.quarantined d = b event_kind.quarantined d) ∧
      ∀ r, (m.population i).quarantine_release_event = some r →
        ba event_kind.quarantine_release (m.events r).time =
          (b event_kind.quarantine_release (m.events r).time).erase r := by
    cases hr : (m.population i).quarantine_release_event with
    | none =>
      exact ⟨m, b, dead, rfl, hinv, rfl, rfl, rfl, rfl, rfl, fun _ => rfl,
        fun r h => by cases h⟩
    | some r =>
      obtain ⟨hrty, hrmem, _⟩ := hrel r hr
      obtain ⟨ma, ha, hpa, ⟨hp, hpar, htm, _⟩, hk⟩ :=
        pool_inv_remove_typed m b fresh dead r hinv (by rw [hrty]; exact hrmem)
      rw [hrty] at hpa
      refine ⟨ma, _, _, ha, hpa, hp, hpar, htm, (hk q (by simp)).2.2, (hk q (by simp)).2.1,
        fun d => buckets_set_other _ _ _ _ _ _ (by simp), fun r1 h1 => ?_⟩
      simp only [Option.some.injEq] at h1
      subst h1
      rw [buckets_set_same]
  obtain ⟨ma, ba, deada, ha, hpa, hpopa, _, _, hty, hti, hbq, hbr⟩ := hfirst
  have hqa : (ma.population i).quarantine_event = some q := by rw [hpopa]; exact hq
  obtain ⟨mb, hb, hpb, ⟨hpopb, _, _, _⟩, _⟩ :=
    pool_inv_remove_typed ma ba fresh deada q hpa
      (by rw [hty, hti, hqty, hbq]; exact hqmem)
  rw [hty, hti, hqty] at hpb
  refine ⟨{ mb with
      population := Function.update mb.population i
        (set_quarantine_status (mb.population i) mb.params mb.time false) }, ?_, ?_, ?_, ?_, ?_,
    ?_⟩
  · unfold intervention_quarantine_release
    rw [ha]
    simp only [hqa, hb]
  · show (Function.update mb.population i _ i).quarantined = false
    rw [Function.update_same]
    simp [set_quarantine_status]
  · intro j
    show (Function.update mb.population i _ j).is_case = _
    by_cases hj : j = i
    · subst hj
      rw [Function.update_same, hpopb, hpopa]
      simp [set_quarantine_status]
    · rw [Function.update_noteq hj, hpopb, hpopa]
  · intro j
    show (Function.update mb.population i _ j).quarantine_test_result = _
    by_cases hj : j = i
    · subst hj
      rw [Function.update_same, hpopb, hpopa]
      simp [set_quarantine_status]
    · rw [Function.update_noteq hj, hpopb, hpopa]
  · show bucket_walk mb _ _ = _
    rw [bucket_walk_of_inv _ _ _ _ hpb, buckets_set_same, hbq]
  · intro r hr
    show bucket_walk mb _ _ = _
    rw [bucket_walk_of_inv _ _ _ _ hpb, buckets_set_other _ _ _ _ _ _ (by simp), hbr r hr]

theorem reset_test_slot (m : model) (i : Nat) :
    ((reset_test m i).population i).quarantine_test_result = test_status.NO_TEST := by
  simp [reset_test]

theorem reset_test_is_case (m : model) (i j : Nat) :
    ((reset_test m i).population j).is_case = (m.population j).is_case := by
  unfold reset_test
  by_cases hj : j = i
  · subst hj
    simp
  · show (Function.update m.population i _ j).is_case = _
    rw [Function.update_noteq hj]

theorem reset_test_quarantined (m : model) (i j : Nat) :
    ((reset_test m i).population j).quarantined = (m.population j).quarantined := by
  unfold reset_test
  by_cases hj : j = i
  · subst hj
    simp
  · show (Function.update m.population i _ j).quarantined = _
    rw [Function.update_noteq hj]

/-- The first block of the positive branch on a well-formed pool: an individual
that is a case is left alone; one that is not becomes a case and its `CASE`
event `f` is put at the head of today's bucket. -/
theorem record_case_spec (m : model) (b : buckets) (f g : Nat) (fs dead : List Nat) (i : Nat)
    (hinv : pool_inv m b (f :: g :: fs) dead) :
    ∃ mc, record_case m i = some mc ∧ (mc.population i).is_case = true ∧
      mc.params = m.params ∧ (mc.population i).status = (m.population i).status ∧
      ((m.population i).is_case = true → mc = m) ∧
      ((m.population i).is_case = false →
        bucket_walk mc event_kind.CASE m.time = some (f :: b event_kind.CASE m.time) ∧
        (mc.events f).individual = some i ∧
        pool_inv mc (b.set event_kind.CASE m.time (f :: b event_kind.CASE m.time))
          (g :: fs) dead) := by
  unfold record_case
  by_cases hc : (m.population i).is_case = false
  · rw [if_pos hc]
    obtain ⟨ma, ha, hpa, ⟨hp, hpar, _⟩, _, ho, _, _⟩ :=
      pool_inv_add_typed
        { m with
          population := Function.update m.population i (set_case (m.population i) m.time) }
        b f g fs dead event_kind.CASE i m.time (pool_inv_congr m _ _ _ _ rfl rfl rfl hinv)
    have h1 : (ma.population i).is_case = true := by
      rw [hp]
      simp [set_case]
    have h2 : (ma.population i).status = (m.population i).status := by
      rw [hp]
      simp [set_case]
    have h3 : (m.population i).is_case = true → ma = m := by
      intro h
      rw [hc] at h
      cases h
    refine ⟨ma, by rw [ha], h1, hpar, h2, h3, fun _ => ⟨?_, ho, hpa⟩⟩
    rw [bucket_walk_of_inv _ _ _ _ hpa, buckets_set_same]
  · rw [if_neg hc]
    have hc1 : (m.population i).is_case = true := by
      cases h : (m.population i).is_case with
      | true => rfl
      | false => exact absurd h hc
    exact ⟨m, rfl, hc1, rfl, rfl, fun _ => rfl, fun h => absurd h hc⟩

/-- C20: after a completed `intervention_test_result` the test slot is `NO_TEST`.
On a well-formed pool with valid handles: when the recorded result is negative
the call returns, nobody's `is_case` changes, an individual that is not
quarantined is otherwise left as it is, and a quarantined individual is released
(its flag is cleared and its quarantine and release events leave their buckets).
When the slot holds anything else, `is_case` is true afterwards, a `CASE` event
is enqueued today exactly when the individual was not a case, and
`intervention_on_positive_result` is run, on the state after that step, exactly
when the individual is not in hospital or `allow_clinical_diagnosis` is off. -/
theorem intervention_test_result_spec (m : model) (b : buckets) (f g : Nat)
    (fs dead : List Nat) (i : Nat) (hinv : pool_inv m b (f :: g :: fs) dead)
    (hrel : release_handle_ok m b i) (hqok : quarantine_handle_ok m b i)
    (hflag : (m.population i).quarantined = true →
      ∃ q, (m.population i).quarantine_event = some q) :
    (∀ m1, intervention_test_result m i = some m1 →
      (m1.population i).quarantine_test_result = test_status.NO_TEST) ∧
    ((m.population i).quarantine_test_result = test_status.result false →
      ∃ m1, intervention_test_result m i = some m1 ∧
        (∀ j, (m1.population j).is_case = (m.population j).is_case) ∧
        ((m.population i).quarantined = false → m1 = reset_test m i) ∧
        ((m.population i).quarantined = true →
          (m1.population i).quarantined = false ∧
          ∃ q, (m.population i).quarantine_event = some q ∧
            bucket_walk m1 event_kind.quarantined (m.events q).time =
              some ((b event_kind.quarantined (m.events q).time).erase q) ∧
            ∀ r, (m.population i).quarantine_release_event = some r →
              bucket_walk m1 event_kind.quarantine_release (m.events r).time =
                some ((b event_kind.quarantine_release (m.events r).time).erase r))) ∧
    ((m.population i).quarantine_test_result ≠ test_status.result false →
      (∃ mc, record_case m i = some mc ∧ (mc.population i).is_case = true ∧
        ((m.population i).is_case = true → mc = m) ∧
        ((m.population i).is_case = false →
          bucket_walk mc event_kind.CASE m.time = some (f :: b event_kind.CASE m.time) ∧
          (mc.events f).individual = some i) ∧
        intervention_test_result m i =
          (if is_in_hospital (m.population i) = false ∨
              m.params.allow_clinical_diagnosis = false then
            intervention_on_positive_result mc i
          else some mc).map (fun m2 => reset_test m2 i)) ∧
      ∀ m1, intervention_test_result m i = some m1 → (m1.population i).is_case = true) := by
  refine ⟨fun m1 h => ?_, fun hneg => ?_, fun hpos => ?_⟩
  · unfold intervention_test_result at h
    split at h
    · simp at h
    · simp only [Option.some.injEq] at h
      subst h
      exact reset_test_slot _ i
  · by_cases hqd : (m.population i).quarantined = true
    · obtain ⟨q, hq⟩ := hflag hqd
      obtain ⟨mr, hr, hcl, hcase, _, hwq, hwr⟩ :=
        intervention_quarantine_release_spec m b _ dead i q hinv hrel hqok hq
      refine ⟨reset_test mr i, ?_, fun j => ?_, fun h => ?_, fun _ => ⟨?_, q, hq, hwq, hwr⟩⟩
      · simp only [intervention_test_result, hneg, hqd, if_true, hr]
      · rw [reset_test_is_case, hcase]
      · rw [hqd] at h; cases h
      · rw [reset_test_quarantined, hcl]
    · refine ⟨reset_test m i, ?_, fun j => reset_test_is_case m i j, fun _ => rfl,
        fun h => absurd h hqd⟩
      simp only [intervention_test_result, hneg, hqd, if_true]
      rfl
  · obtain ⟨mc, hmc, hcase, hpar, hst, hsame, hnew⟩ := record_case_spec m b f g fs dead i hinv
    have hrun : intervention_test_result m i =
        (if is_in_hospital (m.population i) = false ∨
            m.params.allow_clinical_diagnosis = false then
          intervention_on_positive_result mc i
        else some mc).map (fun m2 => reset_test m2 i) := by
      have hh : is_in_hospital (mc.population i) = is_in_hospital (m.population i) := by
        simp only [is_in_hospital, hst]
      by_cases hcond : is_in_hospital (m.population i) = false ∨
          m.params.allow_clinical_diagnosis = false
      · simp only [intervention_test_result, hpos, if_false, hmc, hh, hpar, hcond, if_true]
        cases intervention_on_positive_result mc i <;> rfl
      · simp only [intervention_test_result, hpos, if_false, hmc, hh, hpar, hcond]
        rfl
    refine ⟨⟨mc, hmc, hcase, hsame, fun h => ⟨(hnew h).1, (hnew h).2.1⟩, hrun⟩, fun m1 h => ?_⟩
    rw [hrun] at h
    split at h
    · cases hcas : intervention_on_positive_result mc i with
      | none => rw [hcas] at h; simp at h
      | some m2 =>
        rw [hcas] at h
        simp only [Option.map_some', Option.some.injEq] at h
        subst h
        rw [reset_test_is_case, intervention_on_positive_result_is_case mc m2 i hcas i, hcase]
    · simp only [Option.map_some', Option.some.injEq] at h
      subst h
      rw [reset_test_is_case, hcase]

/-- C20 at a concrete run: person 0, symptomatic and not yet a case, gets a
positive result at time 1.  It becomes a case with a `CASE` event today, the
cascade runs (it takes the trace token and quarantines the person until day 6),
and the slot is reset. -/
theorem intervention_test_result_spec_witness :
    (∀ m1, intervention_test_result result_example 0 = some m1 →
      (m1.population 0).quarantine_test_result = test_status.NO_TEST ∧
      (m1.population 0).is_case = true) ∧
    (∃ mc, record_case result_example 0 = some mc ∧
      bucket_walk mc event_kind.CASE 1 = some [0] ∧
      intervention_test_result result_example 0 =
        (intervention_on_positive_result mc 0).map (fun m2 => reset_test m2 0)) ∧
    (intervention_test_result result_example 0).map
      (fun m1 => ((m1.population 0).quarantine_test_result, (m1.population 0).is_case,
        (m1.population 0).quarantined, (m1.population 0).index_trace_token)) =
      some (test_status.NO_TEST, true, true, some 0) ∧
    (intervention_test_result result_example 0).map
      (fun m1 => (bucket_walk m1 event_kind.CASE 1, bucket_walk m1 event_kind.quarantined 1,
        bucket_walk m1 event_kind.quarantine_release 6)) =
      some (some [0], some [1], some [2]) := by
  obtain ⟨hslot, _, hpos⟩ := intervention_test_result_spec result_example (fun _ _ => [])
    0 1 (List.range' 2 10) [] 0
    (pool_inv_congr (pool_after 2 []) result_example _ _ _ rfl rfl rfl
      (pool_after_nil_inv 2 (by decide)))
    (fun r hr => by
      have hnone : (result_example.population 0).quarantine_release_event = none := by decide
      rw [hnone] at hr
      cases hr)
    (fun q hq => by
      have hnone : (result_example.population 0).quarantine_event = none := by decide
      rw [hnone] at hq
      cases hq)
    (fun h => by
      have hno : (result_example.population 0).quarantined = false := by decide
      rw [hno] at h
      cases h)
  obtain ⟨⟨mc, hmc, _, _, hnew, hrun⟩, hcase⟩ := hpos (by decide)
  refine ⟨fun m1 h => ⟨hslot m1 h, hcase m1 h⟩, ⟨mc, hmc, (hnew (by decide)).1, ?_⟩,
    by decide, by decide⟩
  rw [hrun, if_pos (Or.inl (by decide))]


/-! ## Quarantine and scheduled releases -/

/-- `quarantine_contact` for a contact that is neither in hospital, dead nor
quarantined, when the Bernoulli draw succeeds, on a well-formed pool with three
events never handed out: the contact is flagged, its quarantine event `f` is put
at the head of today's bucket and its test `g` at the head of the bucket of
`time_event`; every other bucket is as before. -/
theorem quarantine_contact_spec (m : model) (b : buckets) (f g g2 : Nat)
    (fs dead : List Nat) (c te : Nat) (hinv : pool_inv m b (f :: g :: g2 :: fs) dead)
    (hs : (m.population c).status ≠ disease_status.HOSPITALISED ∧
      (m.population c).status ≠ disease_status.DEATH ∧ (m.population c).quarantined = false)
    (hdraw : m.rng.bernoulli m.rng_calls = true) :
    ∃ m1, quarantine_contact m c te = some m1 ∧
      pool_inv m1 ((b.set event_kind.quarantined m.time
          (f :: b event_kind.quarantined m.time)).set event_kind.test_take te
          (g :: b event_kind.test_take te)) (g2 :: fs) dead ∧
      m1.population = Function.update m.population c
        { m.population c with
          quarantined := true
          time_quarantined := m.time
          quarantine_event := some f } ∧
      (m1.events f).individual = some c ∧ (m1.events g).individual = some c ∧
      (∀ q, q ≠ f → q ≠ g → (m1.events q).individual = (m.events q).individual) ∧
      m1.time = m.time ∧ m1.params = m.params ∧ m1.interactions = m.interactions ∧
      m1.interaction_day_idx = m.interaction_day_idx ∧ m1.rng = m.rng := by
  have hfg : f ≠ g := by
    have := hinv.nodup_ring
    intro h
    simp [h] at this
  obtain ⟨ma, ha, _, hpa⟩ := pool_inv_add
    { m with
      rng_calls := m.rng_calls + 1
      population := Function.update m.population c
        (set_quarantine_status (m.population c) m.params m.time true) }
    b f g (g2 :: fs) dead event_kind.quarantined c m.time
    (pool_inv_congr m _ _ _ _ rfl rfl rfl hinv)
  obtain ⟨hpopa, hpara, htma, hrnga, _, hinta, hdaya⟩ :=
    add_individual_to_event_list_rest _ _ _ _ _ _ ha
  have hoa := add_individual_to_event_list_owner _ _ _ _ _ _ ha
  obtain ⟨mb, hb, _, hpb⟩ := pool_inv_add
    { ma with
      population := Function.update ma.population c
        { ma.population c with quarantine_event := some f } }
    _ g g2 fs dead event_kind.test_take c te
    (pool_inv_congr ma _ _ _ _ rfl rfl rfl hpa)
  obtain ⟨hpopb, hparb, htmb, hrngb, _, hintb, hdayb⟩ :=
    add_individual_to_event_list_rest _ _ _ _ _ _ hb
  have hob := add_individual_to_event_list_owner _ _ _ _ _ _ hb
  have hkb := add_individual_to_event_list_individual _ _ _ _ _ _ hb
  have hka := add_individual_to_event_list_individual _ _ _ _ _ _ ha
  refine ⟨mb, ?_, ?_, ?_, ?_, hob, ?_, htmb.trans htma, hparb.trans hpara,
    hintb.trans hinta, hdayb.trans hdaya, hrngb.trans hrnga⟩
  · unfold quarantine_contact
    rw [if_pos hs, if_pos hdraw]
    simp only [ha, hb]
  · rw [buckets_set_other _ _ _ _ _ _ (by simp)] at hpb
    exact hpb
  · rw [hpopb]
    dsimp only
    rw [hpopa]
    simp [set_quarantine_status]
  · rw [hkb f hfg]
    exact hoa
  · intro q hqf hqg
    rw [hkb q hqg]
    exact hka q hqf

/-- After a completed `intervention_quarantine_until` for a day other than today,
an individual whose release handle named its only release, if any, has exactly
one event of the release list, the one its handle names, in the bucket of the
day `release_day`. -/
theorem intervention_quarantine_until_one_release (m : model) (b : buckets)
    (f g g2 : Nat) (fs dead : List Nat) (i t : Nat) (maxof : Bool)
    (hinv : pool_inv m b (f :: g :: g2 :: fs) dead) (ht : t ≠ m.time)
    (hrel : release_handle_ok m b i)
    (honly : ∀ d e, e ∈ b event_kind.quarantine_release d →
      (m.events e).individual = some i →
      (m.population i).quarantine_release_event = some e)
    (hflag : ∀ q, (m.population i).quarantine_event = some q →
      (m.population i).quarantined = true) :
    ∃ m1 re1, intervention_quarantine_until m i t maxof = some m1 ∧
      (m1.population i).quarantined = true ∧
      (m1.population i).quarantine_release_event = some re1 ∧
      (m1.events re1).individual = some i ∧
      (m1.events re1).time = release_day
        ((m.population i).quarantine_release_event.map (fun r => (m.events r).time)) t maxof ∧
      (∃ l, bucket_walk m1 event_kind.quarantine_release (m1.events re1).time = some l ∧
        re1 ∈ l) ∧
      (∀ d l e, bucket_walk m1 event_kind.quarantine_release d = some l → e ∈ l →
        (m1.events e).individual = some i → e = re1 ∧ d = (m1.events re1).time) := by
  -- the first block
  obtain ⟨ma, h1, hcase⟩ := quarantine_start_spec m b f g (g2 :: fs) dead i hinv
  obtain ⟨ba, fa, ga, fsa, hpa, hba, hrela, hka, hflaga, hpopa⟩ :
      ∃ ba fa ga fsa, pool_inv ma ba (fa :: ga :: fsa) dead ∧
        (∀ d, ba event_kind.quarantine_release d = b event_kind.quarantine_release d) ∧
        (ma.population i).quarantine_release_event =
          (m.population i).quarantine_release_event ∧
        (∀ k d e, e ∈ b k d → (ma.events e).individual = (m.events e).individual ∧
          (ma.events e).time = (m.events e).time ∧ (ma.events e).type = (m.events e).type) ∧
        (ma.population i).quarantined = true ∧
        (ma.events = m.events ∨ (m.population i).quarantine_event = none) := by
    rcases hcase with ⟨q, hq, rfl⟩ | ⟨hnone, hp, hpop, _, _, _, _, _, _, hk, _, _, _⟩
    · exact ⟨b, f, g, g2 :: fs, hinv, fun _ => rfl, rfl, fun _ _ _ _ => ⟨rfl, rfl, rfl⟩,
        hflag q hq, Or.inl rfl⟩
    · refine ⟨_, g, g2, fs, hp, fun d => buckets_set_other _ _ _ _ _ _ (by simp), ?_,
        fun k d e he => hk e ?_, ?_, Or.inr hnone⟩
      · rw [hpop, Function.update_same]
      · intro hef
        simp only [Option.some.injEq] at hef
        subst hef
        exact hinv.disj_ring k d e he (by simp)
      · rw [hpop, Function.update_same]
  have hoka : release_handle_ok ma ba i := by
    intro r hr
    rw [hrela] at hr
    obtain ⟨a1, a2, a3⟩ := hrel r hr
    obtain ⟨c1, c2, c3⟩ := hka _ _ r a2
    rw [c1, c2, c3, hba]
    exact ⟨a1, a2, a3⟩
  -- the release block
  obtain ⟨m1, h2, hcase2⟩ := reschedule_release_spec ma ba fa ga fsa dead i t maxof hpa hoka
  have hrun : intervention_quarantine_until m i t maxof = some m1 := by
    unfold intervention_quarantine_until
    rw [if_neg ht, h1]
    exact h2
  rcases hcase2 with ⟨r, hr, hmax, hgt, rfl⟩ | ⟨hno, hp2, hpop2, _, _, _, _, _, _, hk2, ho2,
      hti2, _⟩
  · -- a later release is kept
    have hr0 : (m.population i).quarantine_release_event = some r := by rw [← hrela]; exact hr
    obtain ⟨_, a2, a3⟩ := hrel r hr0
    obtain ⟨c1, c2, _⟩ := hka _ _ r a2
    refine ⟨m1, r, hrun, hflaga, hr, by rw [c1]; exact a3, ?_, ⟨_, bucket_walk_of_inv m1 ba _ _
      hpa _ _, by rw [hba, c2]; exact a2⟩, ?_⟩
    · simp only [hr0, Option.map_some', release_day]
      rw [c2] at hgt ⊢
      rw [if_pos ⟨hmax, hgt⟩]
    · intro d l e hw hel hoe
      rw [bucket_walk_of_inv m1 ba _ _ hpa] at hw
      simp only [Option.some.injEq] at hw
      subst hw
      rw [hba] at hel
      have hee := honly d e hel (by rw [← (hka _ _ e hel).1]; exact hoe)
      rw [hr0] at hee
      simp only [Option.some.injEq] at hee
      subst hee
      exact ⟨rfl, by rw [c2]; exact (hinv.disj_bucket _ _ _ _ _ hel a2).2⟩
  · -- a release at `t` is scheduled
    have hpopi : (m1.population i).quarantine_release_event = some fa := by
      rw [hpop2, Function.update_same]
    have hfa : ∀ d, fa ∉ b event_kind.quarantine_release d := by
      intro d hfb
      rw [← hba] at hfb
      exact hpa.disj_ring _ d fa hfb (by simp)
    have hE : ∀ d e, e ∈ release_erased ma ba i event_kind.quarantine_release d →
        e ∈ b event_kind.quarantine_release d ∧
        (m.population i).quarantine_release_event ≠ some e := by
      intro d e he
      unfold release_erased at he
      cases hr : (ma.population i).quarantine_release_event with
      | none =>
        rw [hr] at he
        dsimp only at he
        rw [hba] at he
        refine ⟨he, ?_⟩
        rw [← hrela, hr]
        simp
      | some r =>
        rw [hr] at he
        have hr0 : (m.population i).quarantine_release_event = some r := by
          rw [← hrela]; exact hr
        obtain ⟨_, a2, _⟩ := hrel r hr0
        obtain ⟨_, c2, _⟩ := hka _ _ r a2
        dsimp only at he
        rw [c2] at he
        by_cases hd : d = (m.events r).time
        · subst hd
          rw [buckets_set_same, hba] at he
          refine ⟨List.mem_of_mem_erase he, ?_⟩
          rw [hr0]
          intro hee
          simp only [Option.some.injEq] at hee
          subst hee
          exact (List.Nodup.not_mem_erase (hinv.nodup_bucket _ _)) he
        · rw [buckets_set_other _ _ _ _ _ _ (by simp [hd]), hba] at he
          refine ⟨he, ?_⟩
          rw [hr0]
          intro hee
          simp only [Option.some.injEq] at hee
          subst hee
          exact hd (hinv.disj_bucket _ _ _ _ _ he a2).2
    have hwalk : ∀ d, bucket_walk m1 event_kind.quarantine_release d =
        some (if d = t then fa :: release_erased ma ba i event_kind.quarantine_release t
          else release_erased ma ba i event_kind.quarantine_release d) := by
      intro d
      rw [bucket_walk_of_inv m1 _ _ _ hp2]
      by_cases hd : d = t
      · subst hd
        rw [buckets_set_same, if_pos rfl]
      · rw [buckets_set_other _ _ _ _ _ _ (by simp [hd]), if_neg hd]
    refine ⟨m1, fa, hrun, ?_, hpopi, ho2, ?_, ⟨_, by rw [hti2]; exact hwalk t, by simp⟩, ?_⟩
    · rw [hpop2, Function.update_same]
      exact hflaga
    · rw [hti2]
      cases hr0 : (m.population i).quarantine_release_event with
      | none => simp [release_day]
      | some r =>
        have hr : (ma.population i).quarantine_release_event = some r := by rw [hrela, hr0]
        obtain ⟨_, a2, _⟩ := hrel r hr0
        obtain ⟨_, c2, _⟩ := hka _ _ r a2
        have := hno r hr
        rw [c2] at this
        simp only [Option.map_some', release_day]
        rw [if_neg this]
    · intro d l e hw hel hoe
      rw [hwalk d] at hw
      simp only [Option.some.injEq] at hw
      subst hw
      have hold : e ∈ release_erased ma ba i event_kind.quarantine_release d → False := by
        intro he
        obtain ⟨heb, hne⟩ := hE d e he
        have hef : e ≠ fa := fun h => hfa d (h ▸ heb)
        have h3 := (hk2 e (by simpa using hef)).1
        have h4 := (hka _ _ e heb).1
        exact hne (honly d e heb (by rw [← h4, ← h3]; exact hoe))
      rw [hti2]
      by_cases hd : d = t
      · subst hd
        rw [if_pos rfl] at hel
        rcases List.mem_cons.mp hel with h | h
        · exact ⟨h, rfl⟩
        · exact (hold h).elim
      · rw [if_neg hd] at hel
        exact (hold hel).elim

/-- The day `release_day` is never before the day asked for. -/
theorem release_day_ge (r : Option Nat) (t : Nat) (maxof : Bool) :
    t ≤ release_day r t maxof := by
  unfold release_day
  cases r with
  | none => exact le_refl t
  | some r =>
    dsimp only
    split
    · rename_i h
      exact le_of_lt h.2
    · exact le_refl t

/-- C17, amended: on a well-formed pool with three events never handed out,
(1) `intervention_quarantine_until` for a day `t` other than today, on an
individual whose release handle names its only release event, returns and leaves
the individual quarantined with exactly one event of the release list, the one
its handle names, in the bucket of the later of the old release day and `t`
(of `t` without `maxof`), so on no day before `t`; (2) one pass of the loop body
of `quarantine_contacts` on an eligible contact `c` that has no release event
leaves `c` quarantined, with a quarantine event in today's bucket and a test in
the bucket of `te`, and with no event of the release list at all. -/
theorem quarantined_release_events (m : model) (b : buckets) (f g g2 : Nat)
    (fs dead : List Nat) (i t : Nat) (maxof : Bool) (c te : Nat)
    (hinv : pool_inv m b (f :: g :: g2 :: fs) dead) (ht : t ≠ m.time)
    (hrel : release_handle_ok m b i)
    (honly : ∀ d e, e ∈ b event_kind.quarantine_release d →
      (m.events e).individual = some i →
      (m.population i).quarantine_release_event = some e)
    (hflag : ∀ q, (m.population i).quarantine_event = some q →
      (m.population i).quarantined = true)
    (hs : (m.population c).status ≠ disease_status.HOSPITALISED ∧
      (m.population c).status ≠ disease_status.DEATH ∧ (m.population c).quarantined = false)
    (hdraw : m.rng.bernoulli m.rng_calls = true)
    (hnone : ∀ d e, e ∈ b event_kind.quarantine_release d →
      (m.events e).individual ≠ some c) :
    (∃ m1 re1, intervention_quarantine_until m i t maxof = some m1 ∧
      (m1.population i).quarantined = true ∧
      (m1.population i).quarantine_release_event = some re1 ∧
      (m1.events re1).individual = some i ∧
      (m1.events re1).time = release_day
        ((m.population i).quarantine_release_event.map (fun r => (m.events r).time)) t maxof ∧
      t ≤ (m1.events re1).time ∧
      (∃ l, bucket_walk m1 event_kind.quarantine_release (m1.events re1).time = some l ∧
        re1 ∈ l) ∧
      (∀ d l e, bucket_walk m1 event_kind.quarantine_release d = some l → e ∈ l →
        (m1.events e).individual = some i → e = re1 ∧ d = (m1.events re1).time)) ∧
    (∃ m2, quarantine_contact m c te = some m2 ∧
      (m2.population c).quarantined = true ∧
      (m2.population c).quarantine_event = some f ∧
      (m2.events f).individual = some c ∧
      bucket_walk m2 event_kind.quarantined m.time =
        some (f :: b event_kind.quarantined m.time) ∧
      (m2.events g).individual = some c ∧
      bucket_walk m2 event_kind.test_take te = some (g :: b event_kind.test_take te) ∧
      (∀ d, bucket_walk m2 event_kind.quarantine_release d =
        some (b event_kind.quarantine_release d)) ∧
      (∀ d l e, bucket_walk m2 event_kind.quarantine_release d = some l → e ∈ l →
        (m2.events e).individual ≠ some c)) := by
  constructor
  · obtain ⟨m1, re1, h1, h2, h3, h4, h5, h6, h7⟩ :=
      intervention_quarantine_until_one_release m b f g g2 fs dead i t maxof hinv ht hrel
        honly hflag
    exact ⟨m1, re1, h1, h2, h3, h4, h5, by rw [h5]; exact release_day_ge _ _ _, h6, h7⟩
  · obtain ⟨m2, hrun, hp, hpop, hof, hog, hkeep, _⟩ :=
      quarantine_contact_spec m b f g g2 fs dead c te hinv hs hdraw
    have hrel2 : ∀ d, bucket_walk m2 event_kind.quarantine_release d =
        some (b event_kind.quarantine_release d) := by
      intro d
      rw [bucket_walk_of_inv m2 _ _ _ hp, buckets_set_other _ _ _ _ _ _ (by simp),
        buckets_set_other _ _ _ _ _ _ (by simp)]
    refine ⟨m2, hrun, by rw [hpop, Function.update_same], by rw [hpop, Function.update_same],
      hof, ?_, hog, ?_, hrel2, ?_⟩
    · rw [bucket_walk_of_inv m2 _ _ _ hp, buckets_set_other _ _ _ _ _ _ (by simp),
        buckets_set_same]
    · rw [bucket_walk_of_inv m2 _ _ _ hp, buckets_set_same]
    · intro d l e hw hel
      rw [hrel2 d] at hw
      simp only [Option.some.injEq] at hw
      subst hw
      have hef : e ≠ f := fun h => hinv.disj_ring _ d e hel (by simp [h])
      have heg : e ≠ g := fun h => hinv.disj_ring _ d e hel (by simp [h])
      rw [hkeep e hef heg]
      exact hnone d e hel

/-- C17, amended, at a concrete model: on the fresh pool at time 3, person 0 put in
quarantine until day 5 gets exactly one release, on day 5, and the contact 1
quarantined by the loop body of `quarantine_contacts` gets none. -/
theorem quarantined_release_events_witness :
    (∃ m1 re1, intervention_quarantine_until infection_example 0 5 false = some m1 ∧
      (m1.population 0).quarantined = true ∧
      (m1.population 0).quarantine_release_event = some re1 ∧
      (m1.events re1).individual = some 0 ∧
      (m1.events re1).time = release_day
        ((infection_example.population 0).quarantine_release_event.map
          (fun r => (infection_example.events r).time)) 5 false ∧
      5 ≤ (m1.events re1).time ∧
      (∃ l, bucket_walk m1 event_kind.quarantine_release (m1.events re1).time = some l ∧
        re1 ∈ l) ∧
      (∀ d l e, bucket_walk m1 event_kind.quarantine_release d = some l → e ∈ l →
        (m1.events e).individual = some 0 → e = re1 ∧ d = (m1.events re1).time)) ∧
    (∃ m2, quarantine_contact infection_example 1 4 = some m2 ∧
      (m2.population 1).quarantined = true ∧
      (m2.population 1).quarantine_event = some 0 ∧
      (m2.events 0).individual = some 1 ∧
      bucket_walk m2 event_kind.quarantined infection_example.time = some (0 :: []) ∧
      (m2.events 1).individual = some 1 ∧
      bucket_walk m2 event_kind.test_take 4 = some (1 :: []) ∧
      (∀ d, bucket_walk m2 event_kind.quarantine_release d = some []) ∧
      (∀ d l e, bucket_walk m2 event_kind.quarantine_release d = some l → e ∈ l →
        (m2.events e).individual ≠ some 1)) :=
  quarantined_release_events infection_example (fun _ _ => []) 0 1 2 (List.range' 3 9) []
    0 5 false 1 4
    (pool_inv_congr (pool_after 2 []) infection_example _ _ _ rfl rfl rfl
      (pool_after_nil_inv 2 (by decide)))
    (by decide)
    (fun r hr => by
      have h0 : (infection_example.population 0).quarantine_release_event = none := by decide
      rw [h0] at hr
      cases hr)
    (fun d e he _ => by simp at he)
    (fun q hq => by
      have h0 : (infection_example.population 0).quarantine_event = none := by decide
      rw [h0] at hq
      cases hq)
    (by decide) rfl
    (fun d e he => by simp at he)

/-- C17 as stated fails: after the tick of `tick_example`, in which person 0 goes
to hospital and `quarantine_contacts` quarantines its contact person 2, person
2 is flagged, holds event 3 of the quarantined list and has a test scheduled
for day 2, and no bucket of the release list holds any event. -/
theorem one_time_step_quarantined_without_release :
    (one_time_step tick_example).map (fun m =>
      ((m.population 2).quarantined, (m.population 2).quarantine_event,
        bucket_walk m event_kind.quarantined 1)) = some (true, some 3, some [3]) ∧
    (one_time_step tick_example).map (fun m =>
      ((m.population 0).status, bucket_walk m event_kind.test_take 2, m.time)) =
      some (disease_status.HOSPITALISED, some [4], 1) ∧
    (one_time_step tick_example).map (fun m =>
      (List.range 40).all (fun d =>
        decide ((m.lists event_kind.quarantine_release).n_daily_current d = 0) &&
        decide (bucket_walk m event_kind.quarantine_release d = some []))) = some true := by
  refine ⟨by decide, by decide, by decide⟩


/-! ## Passes over today's bucket -/

theorem for_each_event_eq_ptr (body : Nat → model → Option model) :
    ∀ (n : Nat) (p : Option Nat) (m : model),
      for_each_event body n p m = (for_each_event_ptr body n p m).map Prod.snd
  | 0, p, m => by simp [for_each_event, for_each_event_ptr]
  | n + 1, none, m => by simp [for_each_event, for_each_event_ptr]
  | n + 1, some e, m => by
    simp only [for_each_event, for_each_event_ptr]
    cases body e m with
    | none => rfl
    | some m1 => exact for_each_event_eq_ptr body n _ m1

/-- One more turn of the loop runs the body on the event the loop stopped at. -/
theorem for_each_event_ptr_succ (body : Nat → model → Option model) :
    ∀ (n : Nat) (p : Option Nat) (m : model),
      for_each_event_ptr body (n + 1) p m =
        (for_each_event_ptr body n p m).bind (fun pm =>
          match pm.1 with
          | none => none
          | some e => (body e pm.2).map (fun m1 => ((pm.2.events e).next, m1)))
  | 0, none, m => by simp [for_each_event_ptr]
  | 0, some e, m => by
    simp only [for_each_event_ptr, Option.some_bind]
    cases body e m <;> rfl
  | n + 1, none, m => by simp [for_each_event_ptr]
  | n + 1, some e, m => by
    rw [for_each_event_ptr]
    conv_rhs => rw [for_each_event_ptr]
    cases body e m with
    | none => rfl
    | some m1 => exact for_each_event_ptr_succ body n _ m1

/-- The loop over a bucket `l` under an invariant `I` of the events done so far:
when every turn returns, keeps the invariant and leaves `next_event` at the next
event of the bucket, every prefix of the loop returns with the invariant. -/
theorem for_each_event_prefix (body : Nat → model → Option model)
    (I : List Nat → model → Prop) (l : List Nat) (m0 : model) (h0 : I [] m0)
    (hstep : ∀ done e rest m, l = done ++ e :: rest →
      for_each_event body done.length l.head? m0 = some m → I done m →
      ∃ m1, body e m = some m1 ∧ I (done ++ [e]) m1 ∧
        (rest ≠ [] → (m.events e).next = rest.head?)) :
    ∀ j, j ≤ l.length → ∃ mj, for_each_event body j l.head? m0 = some mj ∧
      I (l.take j) mj := by
  have key : ∀ j, j ≤ l.length → ∃ p mj, for_each_event_ptr body j l.head? m0 = some (p, mj) ∧
      (j < l.length → p = l[j]?) ∧ I (l.take j) mj := by
    intro j
    induction j with
    | zero =>
      intro _
      refine ⟨l.head?, m0, rfl, fun _ => ?_, by simpa using h0⟩
      cases l <;> simp
    | succ j ih =>
      intro hj
      obtain ⟨p, mj, hrun, hp, hI⟩ := ih (by omega)
      have hlt : j < l.length := by omega
      have hpe : p = some l[j] := by rw [hp hlt, List.getElem?_eq_getElem hlt]
      have hsplit : l = l.take j ++ l[j] :: l.drop (j + 1) := by
        rw [← List.drop_eq_getElem_cons hlt, List.take_append_drop]
      have hlen : (l.take j).length = j := by
        rw [List.length_take]; omega
      have hpre : for_each_event body (l.take j).length l.head? m0 = some mj := by
        rw [hlen, for_each_event_eq_ptr, hrun]; rfl
      obtain ⟨m1, hb, hI1, hnext⟩ := hstep _ _ _ mj hsplit hpre hI
      refine ⟨(mj.events l[j]).next, m1, ?_, fun hlt1 => ?_, ?_⟩
      · rw [for_each_event_ptr_succ, hrun, Option.some_bind, hpe]
        simp only [hb, Option.map_some']
      · have hne : l.drop (j + 1) ≠ [] := by
          intro h
          have := congrArg List.length h
          simp at this
          omega
        rw [hnext hne, List.head?_drop]
      · rw [List.take_succ, List.getElem?_eq_getElem hlt]
        exact hI1
  intro j hj
  obtain ⟨p, mj, hrun, _, hI⟩ := key j hj
  exact ⟨mj, by rw [for_each_event_eq_ptr, hrun]; rfl, hI⟩

/-! ## The loops of `quarantine_contacts` -/

theorem quarantine_fields_only_refl (a : individual) : quarantine_fields_only a a := by
  cases a; rfl

theorem quarantine_fields_only_set (a a1 : individual) (x : Bool) (y : Nat) (z : Option Nat)
    (h : quarantine_fields_only a a1) :
    quarantine_fields_only a
      { a1 with quarantined := x, time_quarantined := y, quarantine_event := z } := by
  unfold quarantine_fields_only at h ⊢
  rw [h]

theorem quarantine_fields_only_trans (a a1 a2 : individual)
    (h : quarantine_fields_only a a1) (h1 : quarantine_fields_only a1 a2) :
    quarantine_fields_only a a2 := by
  unfold quarantine_fields_only at h h1 ⊢
  rw [h1, h]

theorem contacts_inv_refl (mr : model) (br : buckets) (freshr dead : List Nat)
    (hp : pool_inv mr br freshr dead) (hh : handles_ok mr br) :
    contacts_inv mr br freshr dead mr br freshr :=
  ⟨hp, rfl, rfl, rfl, rfl, rfl, ⟨[], rfl⟩, fun _ _ _ _ => rfl, fun _ _ => rfl,
    fun _ => quarantine_fields_only_refl _, fun _ _ => rfl, hh⟩

/-- One turn of the innermost loop of `quarantine_contacts` on a pool with three
events never handed out: it returns, keeps `contacts_inv` and hands out two
events at most. -/
theorem quarantine_contact_inv (mr : model) (br : buckets) (freshr dead : List Nat)
    (m : model) (b : buckets) (fresh : List Nat) (c te : Nat)
    (h : contacts_inv mr br freshr dead m b fresh) (hlen : 2 < fresh.length) :
    ∃ m1 b1 fresh1, quarantine_contact m c te = some m1 ∧
      contacts_inv mr br freshr dead m1 b1 fresh1 ∧ fresh.length ≤ fresh1.length + 2 := by
  by_cases hs : (m.population c).status ≠ disease_status.HOSPITALISED ∧
      (m.population c).status ≠ disease_status.DEATH ∧ (m.population c).quarantined = false
  · by_cases hdraw : m.rng.bernoulli m.rng_calls = true
    · obtain ⟨f, g, g2, fs, rfl⟩ : ∃ f g g2 fs, fresh = f :: g :: g2 :: fs := by
        match fresh, hlen with
        | f :: g :: g2 :: fs, _ => exact ⟨f, g, g2, fs, rfl⟩
      obtain ⟨m1, hrun, hp, hpop, hof, hog, hkeep, htm, hpar, hint, hday, hrng⟩ :=
        quarantine_contact_spec m b f g g2 fs dead c te h.pool hs hdraw
      obtain ⟨used, hused⟩ := h.suffix
      have hfr : f ∈ freshr := by rw [hused]; simp
      have hgr : g ∈ freshr := by rw [hused]; simp
      refine ⟨m1, _, g2 :: fs, hrun, ⟨hp, htm.trans h.time, hpar.trans h.params,
        hint.trans h.interactions, hday.trans h.day_idx, hrng.trans h.rng,
        ⟨used ++ [f, g], by rw [hused]; simp⟩, ?_, ?_, ?_, ?_, ?_⟩, by simp⟩
      · intro k hk1 hk2 d
        rw [buckets_set_other _ _ _ _ _ _ (by simp [hk2]),
          buckets_set_other _ _ _ _ _ _ (by simp [hk1])]
        exact h.other k hk1 hk2 d
      · intro q hq
        rw [hkeep q (fun e => hq (e ▸ hfr)) (fun e => hq (e ▸ hgr))]
        exact h.owners q hq
      · intro p
        rw [hpop]
        by_cases hpc : p = c
        · subst hpc
          rw [Function.update_same]
          exact quarantine_fields_only_set _ _ _ _ _ (h.frame p)
        · rw [Function.update_noteq hpc]
          exact h.frame p
      · intro p hp0
        rw [hpop]
        have hpc : p ≠ c := by
          intro e
          subst e
          apply hs.1
          rw [h.hosp p hp0]
          exact hp0
        rw [Function.update_noteq hpc]
        exact h.hosp p hp0
      · intro p hq
        rw [hpop] at hq ⊢
        by_cases hpc : p = c
        · subst hpc
          rw [Function.update_same]
          refine ⟨f, rfl, ?_, hof⟩
          dsimp only
          rw [buckets_set_other _ _ _ _ _ _ (by simp), buckets_set_same]
          simp
        · rw [Function.update_noteq hpc] at hq ⊢
          obtain ⟨q, h1, h2, h3⟩ := h.handles p hq
          have hqf : q ≠ f := fun e => h.pool.disj_ring _ _ q h2 (by simp [e])
          have hqg : q ≠ g := fun e => h.pool.disj_ring _ _ q h2 (by simp [e])
          refine ⟨q, h1, ?_, by rw [hkeep q hqf hqg]; exact h3⟩
          rw [buckets_set_other _ _ _ _ _ _ (by simp)]
          by_cases hd : (m.population p).time_quarantined = m.time
          · rw [hd, buckets_set_same]
            rw [hd] at h2
            exact List.mem_cons_of_mem _ h2
          · rw [buckets_set_other _ _ _ _ _ _ (by simp [hd])]
            exact h2
    · refine ⟨{ m with rng_calls := m.rng_calls + 1 }, b, fresh, ?_,
        ⟨pool_inv_congr m _ _ _ _ rfl rfl rfl h.pool, h.time, h.params, h.interactions,
          h.day_idx, h.rng, h.suffix, h.other, h.owners, h.frame, h.hosp, h.handles⟩,
        by omega⟩
      unfold quarantine_contact
      rw [if_pos hs, if_neg hdraw]
  · refine ⟨m, b, fresh, ?_, h, by omega⟩
    unfold quarantine_contact
    rw [if_neg hs]

/-- The loop over the records of a day: it returns, keeps `contacts_inv` and hands
out two events per record at most. -/
theorem quarantine_records_inv (mr : model) (br : buckets) (freshr dead : List Nat)
    (te : Nat) :
    ∀ (n : Nat) (ptr : Option Nat) (m : model) (b : buckets) (fresh : List Nat),
      contacts_inv mr br freshr dead m b fresh →
      records_ok mr.interactions n ptr = true → 2 * n < fresh.length →
      ∃ m1 b1 fresh1, quarantine_records te n ptr m = some m1 ∧
        contacts_inv mr br freshr dead m1 b1 fresh1 ∧
        fresh.length ≤ fresh1.length + 2 * n
  | 0, ptr, m, b, fresh, h, _, _ => ⟨m, b, fresh, rfl, h, by omega⟩
  | n + 1, none, m, b, fresh, _, hok, _ => by simp [records_ok] at hok
  | n + 1, some r, m, b, fresh, h, hok, hlen => by
    simp only [records_ok, Bool.and_eq_true, Option.isSome_iff_exists] at hok
    obtain ⟨⟨c, hc⟩, hok1⟩ := hok
    obtain ⟨m1, b1, fresh1, h1, hi1, hl1⟩ :=
      quarantine_contact_inv mr br freshr dead m b fresh c te h (by omega)
    obtain ⟨m2, b2, fresh2, h2, hi2, hl2⟩ :=
      quarantine_records_inv mr br freshr dead te n (mr.interactions r).next m1 b1 fresh1
        hi1 hok1 (by omega)
    refine ⟨m2, b2, fresh2, ?_, hi2, by omega⟩
    rw [quarantine_records, h.interactions, hc]
    simp only [h1, hi1.interactions]
    exact h2

theorem quarantine_fields_only_n_interactions (a a1 : individual)
    (h : quarantine_fields_only a a1) :
    a1.n_interactions = a.n_interactions ∧ a1.interactions = a.interactions := by
  unfold quarantine_fields_only at h
  rw [h]
  exact ⟨rfl, rfl⟩

/-- The loop over the days of `quarantine_contacts`: it returns, keeps
`contacts_inv` and hands out two events per visited record at most. -/
theorem quarantine_days_inv (mr : model) (br : buckets) (freshr dead : List Nat)
    (indiv : Nat) :
    ∀ (n ddx : Nat) (day : Int) (m : model) (b : buckets) (fresh : List Nat),
      contacts_inv mr br freshr dead m b fresh →
      days_ok mr.interactions (mr.population indiv).n_interactions
        (mr.population indiv).interactions mr.params.days_of_interactions n day = true →
      2 * quarantine_visits (mr.population indiv).n_interactions
        mr.params.days_of_interactions n day < fresh.length →
      ∃ m1 b1 fresh1, quarantine_days indiv n ddx day m = some m1 ∧
        contacts_inv mr br freshr dead m1 b1 fresh1 ∧
        fresh.length ≤ fresh1.length + 2 * quarantine_visits
          (mr.population indiv).n_interactions mr.params.days_of_interactions n day
  | 0, ddx, day, m, b, fresh, h, _, _ => ⟨m, b, fresh, rfl, h, by simp [quarantine_visits]⟩
  | n + 1, ddx, day, m, b, fresh, h, hok, hlen => by
    simp only [days_ok, Bool.and_eq_true, decide_eq_true_eq] at hok
    obtain ⟨⟨hday, hrec⟩, hok1⟩ := hok
    simp only [quarantine_visits] at hlen ⊢
    obtain ⟨hni, hin⟩ := quarantine_fields_only_n_interactions _ _ (h.frame indiv)
    obtain ⟨m1, b1, fresh1, h1, hi1, hl1⟩ :
        ∃ m1 b1 fresh1,
          (if (m.population indiv).n_interactions day.toNat > 0 then
            quarantine_records (m.time + max (m.params.test_insensititve_period - ddx) 1)
              ((m.population indiv).n_interactions day.toNat - 1)
              ((m.population indiv).interactions day.toNat) m
          else some m) = some m1 ∧
          contacts_inv mr br freshr dead m1 b1 fresh1 ∧
          fresh.length ≤ fresh1.length +
            2 * ((mr.population indiv).n_interactions day.toNat - 1) := by
      split
      · rw [hni, hin]
        exact quarantine_records_inv mr br freshr dead _ _ _ m b fresh h hrec (by omega)
      · exact ⟨m, b, fresh, rfl, h, by omega⟩
    obtain ⟨m2, b2, fresh2, h2, hi2, hl2⟩ :=
      quarantine_days_inv mr br freshr dead indiv n (ddx + 1)
        (if day = 0 then (mr.params.days_of_interactions : Int) - 1 else day - 1)
        m1 b1 fresh1 hi1 hok1 (by omega)
    refine ⟨m2, b2, fresh2, ?_, hi2, by omega⟩
    rw [quarantine_days, if_neg (by omega)]
    simp only [h1, hi1.params]
    exact h2

/-! ## The turn of one individual in `transition_to_hospitalised` -/

/-- The first block of the turn: a quarantined individual loses its quarantine
event, which is returned to the pool, and its flag; nothing else changes. -/
theorem release_hospitalised_spec (m : model) (b : buckets) (fresh dead : List Nat)
    (i : Nat) (hinv : pool_inv m b fresh dead) (hh : handles_ok m b) :
    ∃ ma ba deada, release_hospitalised m i = some ma ∧ pool_inv ma ba fresh deada ∧
      handles_ok ma ba ∧ (ma.population i).quarantined = false ∧
      quarantine_fields_only (m.population i) (ma.population i) ∧
      (∀ p, p ≠ i → ma.population p = m.population p) ∧
      (∀ k, k ≠ event_kind.quarantined → ∀ d, ba k d = b k d) ∧
      (∀ q, (m.population i).quarantined = true →
        (m.population i).quarantine_event = some q →
        q ∈ deada ∧ q ∉ ba event_kind.quarantined (m.population i).time_quarantined) ∧
      (∀ y, y ∈ dead → y ∈ deada) ∧
      (∀ q, (ma.events q).individual = (m.events q).individual) ∧
      ma.time = m.time ∧ ma.params = m.params ∧ ma.interactions = m.interactions ∧
      ma.interaction_day_idx = m.interaction_day_idx ∧ ma.rng = m.rng ∧
      ma.rng_calls = m.rng_calls := by
  by_cases hq : (m.population i).quarantined = true
  · obtain ⟨q, h1, h2, h3⟩ := hh i hq
    obtain ⟨m1, hrun, _, hp⟩ := pool_inv_remove m b fresh dead event_kind.quarantined q
      (m.population i).time_quarantined hinv h2
    obtain ⟨hpop, hpar, htm, hrng, hcalls, hint, hday, _⟩ :=
      remove_event_from_event_list_rest _ _ _ _ _ hrun
    have hown := remove_event_from_event_list_individual _ _ _ _ _ hrun
    refine ⟨{ m1 with
        population := Function.update m1.population i
          (set_quarantine_status (m1.population i) m1.params m1.time false) },
      _, _, ?_, pool_inv_congr m1 _ _ _ _ rfl rfl rfl hp, ?_, ?_, ?_, ?_, ?_, ?_, ?_, hown,
      htm, hpar, hint, hday, hrng, hcalls⟩
    · unfold release_hospitalised
      rw [if_pos hq, h1]
      simp only [hrun]
    · intro p hpq
      by_cases hpi : p = i
      · subst hpi
        simp [set_quarantine_status] at hpq
      · simp only [Function.update_noteq hpi] at hpq ⊢
        rw [hpop] at hpq ⊢
        obtain ⟨q1, a1, a2, a3⟩ := hh p hpq
        have hne : q1 ≠ q := by
          intro e
          rw [e, h3] at a3
          simp only [Option.some.injEq] at a3
          exact hpi a3.symm
        refine ⟨q1, a1, ?_, by rw [hown]; exact a3⟩
        by_cases hd : (m.population p).time_quarantined = (m.population i).time_quarantined
        · rw [hd, buckets_set_same]
          rw [hd] at a2
          exact (List.mem_erase_of_ne hne).mpr a2
        · rw [buckets_set_other _ _ _ _ _ _ (by simp [hd])]
          exact a2
    · simp [set_quarantine_status]
    · simp only [Function.update_same, hpop, set_quarantine_status]
      exact quarantine_fields_only_set _ _ _ _ _ (quarantine_fields_only_refl _)
    · intro p hpi
      simp only [Function.update_noteq hpi, hpop]
    · intro k hk d
      rw [buckets_set_other _ _ _ _ _ _ (by simp [hk])]
    · intro q1 _ hq1
      rw [h1] at hq1
      simp only [Option.some.injEq] at hq1
      subst hq1
      refine ⟨by simp, ?_⟩
      rw [buckets_set_same]
      exact List.Nodup.not_mem_erase (hinv.nodup_bucket _ _)
    · intro y hy
      simp [hy]
  · refine ⟨m, b, dead, ?_, hinv, hh, by simpa using hq, quarantine_fields_only_refl _,
      fun _ _ => rfl, fun _ _ _ => rfl, fun q h => absurd h hq, fun _ h => h, fun _ => rfl,
      rfl, rfl, rfl, rfl, rfl, rfl⟩
    unfold release_hospitalised
    rw [if_neg hq]

/-- The second block of the turn: the individual becomes `HOSPITALISED`, its
symptomatic event is erased from its bucket and returned to the pool, and its
current event becomes `event`. -/
theorem admit_hospitalised_spec (m : model) (b : buckets) (fresh dead : List Nat)
    (i e s : Nat) (hinv : pool_inv m b fresh dead) (hh : handles_ok m b)
    (hs : (m.population i).current_event = some s)
    (hmem : s ∈ b event_kind.symptomatic (m.population i).time_symptomatic) :
    ∃ mb, admit_hospitalised m i e = some mb ∧
      pool_inv mb (b.set event_kind.symptomatic (m.population i).time_symptomatic
        ((b event_kind.symptomatic (m.population i).time_symptomatic).erase s))
        fresh (dead ++ [s]) ∧
      handles_ok mb (b.set event_kind.symptomatic (m.population i).time_symptomatic
        ((b event_kind.symptomatic (m.population i).time_symptomatic).erase s)) ∧
      mb.population = Function.update m.population i
        { set_hospitalised (m.population i) m.params m.time with current_event := some e } ∧
      (∀ q, (mb.events q).individual = (m.events q).individual) ∧
      mb.time = m.time ∧ mb.params = m.params ∧ mb.interactions = m.interactions ∧
      mb.interaction_day_idx = m.interaction_day_idx ∧ mb.rng = m.rng ∧
      mb.rng_calls = m.rng_calls := by
  obtain ⟨m1, hrun, _, hp⟩ := pool_inv_remove
    { m with
      population := Function.update m.population i
        (set_hospitalised (m.population i) m.params m.time) }
    b fresh dead event_kind.symptomatic s (m.population i).time_symptomatic
    (pool_inv_congr m _ _ _ _ rfl rfl rfl hinv) hmem
  obtain ⟨hpop, hpar, htm, hrng, hcalls, hint, hday, _⟩ :=
    remove_event_from_event_list_rest _ _ _ _ _ hrun
  have hown := remove_event_from_event_list_individual _ _ _ _ _ hrun
  refine ⟨{ m1 with
      population := Function.update m1.population i
        { m1.population i with current_event := some e } },
    ?_, pool_inv_congr m1 _ _ _ _ rfl rfl rfl hp, ?_, ?_, hown, htm, hpar, hint, hday, hrng,
    hcalls⟩
  · unfold admit_hospitalised
    have h1 : ((Function.update m.population i
        (set_hospitalised (m.population i) m.params m.time)) i).current_event = some s := by
      rw [Function.update_same]; exact hs
    have h2 : ((Function.update m.population i
        (set_hospitalised (m.population i) m.params m.time)) i).time_symptomatic =
        (m.population i).time_symptomatic := by
      rw [Function.update_same]; rfl
    dsimp only
    rw [h1]
    dsimp only
    rw [h2, hrun]
  · intro p hpq
    have hpp : (m.population p).quarantined = true ∧
        (({ m1 with
          population := Function.update m1.population i
            { m1.population i with current_event := some e } } : model).population p).quarantine_event
          = (m.population p).quarantine_event ∧
        (({ m1 with
          population := Function.update m1.population i
            { m1.population i with current_event := some e } } : model).population p).time_quarantined
          = (m.population p).time_quarantined := by
      by_cases hpi : p = i
      · subst hpi
        simp only [Function.update_same, hpop, set_hospitalised] at hpq ⊢
        exact ⟨hpq, trivial, trivial⟩
      · simp only [Function.update_noteq hpi, hpop] at hpq ⊢
        exact ⟨hpq, trivial, trivial⟩
    obtain ⟨hq0, hq1, hq2⟩ := hpp
    obtain ⟨q, a1, a2, a3⟩ := hh p hq0
    rw [hq1, hq2]
    refine ⟨q, a1, ?_, by rw [hown]; exact a3⟩
    rw [buckets_set_other _ _ _ _ _ _ (by simp)]
    exact a2
  · dsimp only
    rw [hpop]
    simp [set_hospitalised]

/-- The third block of the turn on a pool with two events never handed out: the
first of them is scheduled for the individual, in the death list when the
Bernoulli draw succeeds and in the recovered list otherwise, on the day the
waiting time gives. -/
theorem schedule_outcome_spec (m : model) (b : buckets) (f g : Nat) (fs dead : List Nat)
    (i : Nat) (hinv : pool_inv m b (f :: g :: fs) dead) (hh : handles_ok m b) :
    ∃ mc, schedule_outcome m i = some mc ∧
      pool_inv mc
        (b.set (if m.rng.bernoulli m.rng_calls = true then event_kind.death
            else event_kind.recovered) (m.time + m.rng.draw (m.rng_calls + 1))
          (f :: b (if m.rng.bernoulli m.rng_calls = true then event_kind.death
            else event_kind.recovered) (m.time + m.rng.draw (m.rng_calls + 1))))
        (g :: fs) dead ∧
      handles_ok mc
        (b.set (if m.rng.bernoulli m.rng_calls = true then event_kind.death
            else event_kind.recovered) (m.time + m.rng.draw (m.rng_calls + 1))
          (f :: b (if m.rng.bernoulli m.rng_calls = true then event_kind.death
            else event_kind.recovered) (m.time + m.rng.draw (m.rng_calls + 1)))) ∧
      mc.population = Function.update m.population i
        (if m.rng.bernoulli m.rng_calls = true then
          { m.population i with
            time_death := m.time + m.rng.draw (m.rng_calls + 1)
            next_event_type := disease_status.DEATH }
        else
          { m.population i with
            time_recovered := m.time + m.rng.draw (m.rng_calls + 1)
            next_event_type := disease_status.RECOVERED }) ∧
      (mc.events f).individual = some i ∧
      (∀ q, q ≠ f → (mc.events q).individual = (m.events q).individual) ∧
      mc.time = m.time ∧ mc.params = m.params ∧ mc.interactions = m.interactions ∧
      mc.interaction_day_idx = m.interaction_day_idx ∧ mc.rng = m.rng ∧
      mc.rng_calls = m.rng_calls + 2 := by
  have key : ∀ (k : event_kind) (a : individual),
      ((a.quarantined = (m.population i).quarantined ∧
        a.quarantine_event = (m.population i).quarantine_event ∧
        a.time_quarantined = (m.population i).time_quarantined)) →
      ∃ mc, add_individual_to_event_list k i (m.time + m.rng.draw (m.rng_calls + 1))
          { m with
            rng_calls := m.rng_calls + 2
            population := Function.update m.population i a } = some (f, mc) ∧
        pool_inv mc (b.set k (m.time + m.rng.draw (m.rng_calls + 1))
          (f :: b k (m.time + m.rng.draw (m.rng_calls + 1)))) (g :: fs) dead ∧
        handles_ok mc (b.set k (m.time + m.rng.draw (m.rng_calls + 1))
          (f :: b k (m.time + m.rng.draw (m.rng_calls + 1)))) ∧
        mc.population = Function.update m.population i a ∧
        (mc.events f).individual = some i ∧
        (∀ q, q ≠ f → (mc.events q).individual = (m.events q).individual) ∧
        mc.time = m.time ∧ mc.params = m.params ∧ mc.interactions = m.interactions ∧
        mc.interaction_day_idx = m.interaction_day_idx ∧ mc.rng = m.rng ∧
        mc.rng_calls = m.rng_calls + 2 := by
    intro k a ha
    obtain ⟨mc, hrun, _, hp⟩ := pool_inv_add
      { m with
        rng_calls := m.rng_calls + 2
        population := Function.update m.population i a }
      b f g fs dead k i (m.time + m.rng.draw (m.rng_calls + 1))
      (pool_inv_congr m _ _ _ _ rfl rfl rfl hinv)
    obtain ⟨hpop, hpar, htm, hrng, hcalls, hint, hday⟩ :=
      add_individual_to_event_list_rest _ _ _ _ _ _ hrun
    have hof := add_individual_to_event_list_owner _ _ _ _ _ _ hrun
    have hkeep := add_individual_to_event_list_individual _ _ _ _ _ _ hrun
    refine ⟨mc, hrun, hp, ?_, hpop, hof, hkeep, htm, hpar, hint, hday, hrng, hcalls⟩
    intro p hpq
    rw [hpop] at hpq ⊢
    have hpp : (m.population p).quarantined = true ∧
        ((Function.update m.population i a) p).quarantine_event =
          (m.population p).quarantine_event ∧
        ((Function.update m.population i a) p).time_quarantined =
          (m.population p).time_quarantined := by
      by_cases hpi : p = i
      · subst hpi
        simp only [Function.update_same] at hpq ⊢
        exact ⟨ha.1 ▸ hpq, ha.2.1, ha.2.2⟩
      · simp only [Function.update_noteq hpi] at hpq ⊢
        exact ⟨hpq, trivial, trivial⟩
    obtain ⟨hq0, hq1, hq2⟩ := hpp
    obtain ⟨q, a1, a2, a3⟩ := hh p hq0
    have hqf : q ≠ f := fun e => hinv.disj_ring _ _ q a2 (by simp [e])
    dsimp only
    rw [hq1, hq2]
    refine ⟨q, a1, ?_, by rw [hkeep q hqf]; exact a3⟩
    by_cases hc : event_kind.quarantined = k ∧
        (m.population p).time_quarantined = m.time + m.rng.draw (m.rng_calls + 1)
    · obtain ⟨rfl, hd⟩ := hc
      rw [hd, buckets_set_same]
      rw [hd] at a2
      exact List.mem_cons_of_mem _ a2
    · rw [buckets_set_other _ _ _ _ _ _ hc]
      exact a2
  by_cases hdraw : m.rng.bernoulli m.rng_calls = true
  · obtain ⟨mc, hrun, hrest⟩ := key event_kind.death
      { m.population i with
        time_death := m.time + m.rng.draw (m.rng_calls + 1)
        next_event_type := disease_status.DEATH } ⟨rfl, rfl, rfl⟩
    refine ⟨mc, ?_, ?_⟩
    · unfold schedule_outcome
      dsimp only
      rw [if_pos hdraw, hrun]
    · simp only [if_pos hdraw]
      exact hrest
  · obtain ⟨mc, hrun, hrest⟩ := key event_kind.recovered
      { m.population i with
        time_recovered := m.time + m.rng.draw (m.rng_calls + 1)
        next_event_type := disease_status.RECOVERED } ⟨rfl, rfl, rfl⟩
    refine ⟨mc, ?_, ?_⟩
    · unfold schedule_outcome
      dsimp only
      rw [if_neg hdraw, hrun]
    · simp only [if_neg hdraw]
      exact hrest

theorem quarantine_fields_only_fields (a a1 : individual)
    (h : quarantine_fields_only a a1) :
    a1.current_event = a.current_event ∧ a1.time_symptomatic = a.time_symptomatic ∧
    a1.status = a.status ∧ a1.next_event_type = a.next_event_type := by
  unfold quarantine_fields_only at h
  rw [h]
  exact ⟨rfl, rfl, rfl, rfl⟩

/-- The whole turn of individual `i` for the event `e`, on a well-formed pool with
enough events never handed out: every block returns; after the first block the
flag is cleared, the quarantine event is out of its bucket and the death and
recovered lists are as before; the turn as a whole is a `hospital_step`. -/
theorem hospitalised_event_step (m : model) (b : buckets) (fresh dead : List Nat)
    (e i s : Nat) (hinv : pool_inv m b fresh dead) (hh : handles_ok m b)
    (hown : (m.events e).individual = some i)
    (hs : (m.population i).current_event = some s)
    (hmem : s ∈ b event_kind.symptomatic (m.population i).time_symptomatic)
    (hok : contact_days_ok m i = true)
    (hlen : 1 + 2 * contact_visits m i < fresh.length) :
    ∃ ma m1 b1 fresh1 dead1 x, release_hospitalised m i = some ma ∧
      (ma.population i).quarantined = false ∧
      (∀ q, (m.population i).quarantined = true →
        (m.population i).quarantine_event = some q →
        (∃ lq, bucket_walk ma event_kind.quarantined (m.population i).time_quarantined =
          some lq ∧ q ∉ lq) ∧ q ∈ dead1) ∧
      (∀ d, bucket_walk ma event_kind.death d = bucket_walk m event_kind.death d ∧
        bucket_walk ma event_kind.recovered d = bucket_walk m event_kind.recovered d) ∧
      hospitalised_event e m = some m1 ∧
      hospital_step i e x m b fresh dead m1 b1 fresh1 dead1 := by
  obtain ⟨f, g, fs, rfl⟩ : ∃ f g fs, fresh = f :: g :: fs := by
    cases fresh with
    | nil =>
      exfalso
      simp only [List.length_nil] at hlen
      omega
    | cons f t =>
      cases t with
      | nil =>
        exfalso
        simp only [List.length_cons, List.length_nil] at hlen
        omega
      | cons g fs => exact ⟨f, g, fs, rfl⟩
  -- the first block
  obtain ⟨ma, ba, deada, hra, hpa, hha, hqa, hfoa, hotha, hba, hrema, hdeada, howna, htma,
    hpara, hinta, hdaya, hrnga, hcallsa⟩ := release_hospitalised_spec m b _ dead i hinv hh
  obtain ⟨hcea, htsa, hsta, hnta⟩ := quarantine_fields_only_fields _ _ hfoa
  obtain ⟨hnia, hina⟩ := quarantine_fields_only_n_interactions _ _ hfoa
  -- the second block
  obtain ⟨mb, hrb, hpb, hhb, hpopb, hownb, htmb, hparb, hintb, hdayb, hrngb, hcallsb⟩ :=
    admit_hospitalised_spec ma ba _ deada i e s hpa hha (by rw [hcea]; exact hs)
      (by rw [htsa, hba _ (by simp)]; exact hmem)
  rw [htsa] at hpb hhb
  have hpib : mb.population i =
      { set_hospitalised (ma.population i) ma.params ma.time with current_event := some e } := by
    rw [hpopb, Function.update_same]
  -- the third block
  obtain ⟨mc, hrc, hpc, hhc, hpopc, hownf, hownc, htmc, hparc, hintc, hdayc, hrngc, hcallsc⟩ :=
    schedule_outcome_spec mb _ f g fs (deada ++ [s]) i hpb hhb
  have hkind : (if mb.rng.bernoulli mb.rng_calls = true then event_kind.death
      else event_kind.recovered) = outcome_kind m := by
    rw [hrngb, hcallsb, hrnga, hcallsa]; rfl
  have hday : mb.time + mb.rng.draw (mb.rng_calls + 1) = outcome_day m := by
    rw [hrngb, hcallsb, hrnga, hcallsa, htmb, htma]; rfl
  rw [hkind, hday] at hpc hhc
  have hkx : outcome_kind m = event_kind.death ∨ outcome_kind m = event_kind.recovered := by
    unfold outcome_kind
    split
    · exact Or.inl rfl
    · exact Or.inr rfl
  have hpic : (mc.population i).status = disease_status.HOSPITALISED ∧
      (mc.population i).quarantined = false ∧
      (mc.population i).current_event = some e ∧
      (mc.population i).next_event_type = outcome_type m ∧
      (mc.population i).n_interactions = (m.population i).n_interactions ∧
      (mc.population i).interactions = (m.population i).interactions := by
    rw [hpopc, Function.update_same, hpib]
    unfold outcome_type
    rw [hrngb, hcallsb, hrnga, hcallsa]
    split
    · exact ⟨rfl, hqa, rfl, rfl, hnia, hina⟩
    · exact ⟨rfl, hqa, rfl, rfl, hnia, hina⟩
  obtain ⟨hstc, hqc, hcec, hntc, hnic, hinc⟩ := hpic
  have hpoc : ∀ p, p ≠ i → mc.population p = m.population p := by
    intro p hp
    rw [hpopc, Function.update_noteq hp, hpopb, Function.update_noteq hp]
    exact hotha p hp
  -- the contacts
  have hokc : days_ok mc.interactions (mc.population i).n_interactions
      (mc.population i).interactions mc.params.days_of_interactions
      mc.params.quarantine_days (mc.interaction_day_idx : Int) = true := by
    rw [hnic, hinc, hintc, hintb, hinta, hparc, hparb, hpara, hdayc, hdayb, hdaya]
    exact hok
  have hvis : quarantine_visits (mc.population i).n_interactions
      mc.params.days_of_interactions mc.params.quarantine_days
      (mc.interaction_day_idx : Int) = contact_visits m i := by
    rw [hnic, hparc, hparb, hpara, hdayc, hdayb, hdaya]; rfl
  obtain ⟨m1, b1, fresh1, hr1, hci, hl1⟩ :=
    quarantine_days_inv mc _ (g :: fs) (deada ++ [s]) i mc.params.quarantine_days 0
      (mc.interaction_day_idx : Int) mc _ (g :: fs)
      (contacts_inv_refl mc _ _ _ hpc hhc) hokc
      (by rw [hvis]; simp only [List.length_cons] at hlen ⊢; omega)
  rw [hvis] at hl1
  have hfnd := hinv.nodup_ring
  have hfg : f ∉ g :: fs := by
    intro hm
    have : (f :: (g :: fs ++ dead)).Nodup := by simpa using hfnd
    exact (List.nodup_cons.mp this).1 (List.mem_append_left _ hm)
  have hb1 : ∀ k, k = event_kind.death ∨ k = event_kind.recovered ∨
      k = event_kind.symptomatic ∨ k = event_kind.hospitalised →
      ∀ d, b1 k d = ((ba.set event_kind.symptomatic (m.population i).time_symptomatic
        ((ba event_kind.symptomatic (m.population i).time_symptomatic).erase s)).set
        (outcome_kind m) (outcome_day m)
        (f :: (ba.set event_kind.symptomatic (m.population i).time_symptomatic
          ((ba event_kind.symptomatic (m.population i).time_symptomatic).erase s))
          (outcome_kind m) (outcome_day m))) k d := by
    intro k hk d
    exact hci.other k (by rcases hk with h | h | h | h <;> simp [h])
      (by rcases hk with h | h | h | h <;> simp [h]) d
  have hm1i : m1.population i = mc.population i := hci.hosp i hstc
  refine ⟨ma, m1, b1, fresh1, deada ++ [s], f, hra, hqa, ?_, ?_, ?_, ?_⟩
  · intro q hq1 hq2
    obtain ⟨h1, h2⟩ := hrema q hq1 hq2
    exact ⟨⟨_, bucket_walk_of_inv ma ba _ _ hpa _ _, h2⟩, by simp [h1]⟩
  · intro d
    rw [bucket_walk_of_inv ma ba _ _ hpa, bucket_walk_of_inv ma ba _ _ hpa,
      bucket_walk_of_inv m b _ _ hinv, bucket_walk_of_inv m b _ _ hinv,
      hba _ (by simp), hba _ (by simp)]
    exact ⟨rfl, rfl⟩
  · unfold hospitalised_event
    rw [hown]
    simp only [hra, hrb, hrc]
    exact hr1
  · refine ⟨hci.pool, hci.handles, ?_, ?_, ?_, ?_, ?_, ?_, ?_, ?_, ?_, ?_, ?_, ?_, ?_, ?_, ?_,
      ?_, ?_, ?_, ?_, ?_, ?_, ?_⟩
    · rw [hci.time, htmc, htmb, htma]
    · rw [hci.params, hparc, hparb, hpara]
    · rw [hci.interactions, hintc, hintb, hinta]
    · rw [hci.day_idx, hdayc, hdayb, hdaya]
    · rw [hci.rng, hrngc, hrngb, hrnga]
    · obtain ⟨used, hused⟩ := hci.suffix
      exact ⟨used, by rw [hused]⟩
    · simp only [List.length_cons] at hl1 ⊢
      omega
    · intro y hy
      simp [hdeada y hy]
    · intro s1 hs1
      rw [hs] at hs1
      simp only [Option.some.injEq] at hs1
      subst hs1
      simp
    · intro d
      rw [hb1 _ (by simp) d, buckets_set_other _ _ _ _ _ _ (by
        rcases hkx with h | h <;> simp [h]),
        buckets_set_other _ _ _ _ _ _ (by simp), hba _ (by simp)]
    · intro d y hy hne
      rw [hb1 _ (by simp) d, buckets_set_other _ _ _ _ _ _ (by
        rcases hkx with h | h <;> simp [h])]
      have hys : y ≠ s := by
        intro h
        rw [hs, h] at hne
        exact hne rfl
      by_cases hd : d = (m.population i).time_symptomatic
      · subst hd
        rw [buckets_set_same, hba _ (by simp)]
        exact (List.mem_erase_of_ne hys).mpr hy
      · rw [buckets_set_other _ _ _ _ _ _ (by simp [hd]), hba _ (by simp)]
        exact hy
    · rw [hb1 _ (by rcases hkx with h | h <;> simp [h]) _, buckets_set_same]
      simp
    · intro k d y hk hy
      rw [hb1 k (by rcases hk with h | h <;> simp [h]) d]
      have hy1 : y ∈ (ba.set event_kind.symptomatic (m.population i).time_symptomatic
          ((ba event_kind.symptomatic (m.population i).time_symptomatic).erase s)) k d := by
        rw [buckets_set_other _ _ _ _ _ _ (by rcases hk with h | h <;> simp [h]),
          hba _ (by rcases hk with h | h <;> simp [h])]
        exact hy
      by_cases hc : k = outcome_kind m ∧ d = outcome_day m
      · obtain ⟨rfl, rfl⟩ := hc
        rw [buckets_set_same]
        exact List.mem_cons_of_mem _ hy1
      · rw [buckets_set_other _ _ _ _ _ _ hc]
        exact hy1
    · intro k d y hk hy
      rw [hb1 k (by rcases hk with h | h <;> simp [h]) d] at hy
      have hy1 : y ∈ (ba.set event_kind.symptomatic (m.population i).time_symptomatic
          ((ba event_kind.symptomatic (m.population i).time_symptomatic).erase s)) k d →
          y ∈ b k d := by
        intro h
        rw [buckets_set_other _ _ _ _ _ _ (by rcases hk with h | h <;> simp [h]),
          hba _ (by rcases hk with h | h <;> simp [h])] at h
        exact h
      by_cases hc : k = outcome_kind m ∧ d = outcome_day m
      · obtain ⟨rfl, rfl⟩ := hc
        rw [buckets_set_same] at hy
        rcases List.mem_cons.mp hy with h | h
        · exact Or.inr h
        · exact Or.inl (hy1 h)
      · rw [buckets_set_other _ _ _ _ _ _ hc] at hy
        exact Or.inl (hy1 hy)
    · rw [hci.owners f hfg]
      exact hownf
    · intro q hq
      have hqf : q ≠ f := fun h => hq (by simp [h])
      have hqg : q ∉ g :: fs := fun h => hq (List.mem_cons_of_mem _ h)
      rw [hci.owners q hqg, hownc q hqf, hownb, howna]
    · intro p hp
      have := hci.frame p
      rw [hpoc p hp] at this
      exact this
    · intro p hp hst
      rw [hci.hosp p (by rw [hpoc p hp]; exact hst), hpoc p hp]
    · rw [hm1i]; exact hqc
    · rw [hm1i]; exact hstc
    · rw [hm1i]; exact hcec
    · rw [hm1i]; exact hntc

/-! ## The loop of `transition_to_hospitalised` -/

/-- The invariant holds when the loop starts. -/
theorem hospital_inv_start (m0 : model) (b0 : buckets) (fresh0 dead0 : List Nat)
    (hinv : pool_inv m0 b0 fresh0 dead0) (hh : handles_ok m0 b0)
    (hbud : ((b0 event_kind.hospitalised m0.time).map (hospital_cost m0)).sum < fresh0.length)
    (hready : ∀ e, e ∈ b0 event_kind.hospitalised m0.time → hospital_ready m0 b0 e) :
    hospital_inv m0 b0 fresh0 (b0 event_kind.hospitalised m0.time) [] m0 b0 fresh0 dead0 := by
  refine ⟨hinv, rfl, rfl, rfl, rfl, rfl, ⟨[], rfl⟩, by simpa using hbud, fun _ => rfl,
    fun _ _ => rfl, hh, ?_, fun k d y _ hy => Or.inl hy, fun j e h => by simp at h⟩
  intro e he _ i hi
  refine ⟨quarantine_fields_only_refl _, ?_⟩
  intro s hs
  obtain ⟨i1, s1, h1, h2, h3, _⟩ := hready e he
  rw [hi] at h1
  simp only [Option.some.injEq] at h1
  subst h1
  rw [hs] at h2
  simp only [Option.some.injEq] at h2
  subst h2
  exact h3

/-- One turn of the loop keeps the invariant, and the event it read as
`next_event` is the next event of the bucket. -/
theorem hospital_inv_step (m0 : model) (b0 : buckets) (fresh0 dead0 l : List Nat)
    (hinv0 : pool_inv m0 b0 fresh0 dead0)
    (hl0 : b0 event_kind.hospitalised m0.time = l)
    (hnd : (l.map (fun e => (m0.events e).individual)).Nodup)
    (hready : ∀ e, e ∈ l → hospital_ready m0 b0 e)
    (done : List Nat) (e : Nat) (rest : List Nat) (m : model) (b : buckets)
    (fresh dead : List Nat) (hl : l = done ++ e :: rest)
    (hpre : for_each_event hospitalised_event done.length l.head? m0 = some m)
    (h : hospital_inv m0 b0 fresh0 l done m b fresh dead) :
    ∃ m1 b1 fresh1 dead1, hospitalised_event e m = some m1 ∧
      hospital_inv m0 b0 fresh0 l (done ++ [e]) m1 b1 fresh1 dead1 ∧
      (rest ≠ [] → (m.events e).next = rest.head?) := by
  have hlnd : l.Nodup := by rw [← hl0]; exact hinv0.nodup_bucket _ _
  have hel : e ∈ l := by rw [hl]; simp
  have hedone : e ∉ done := by
    intro hd
    rw [hl] at hlnd
    exact (List.disjoint_of_nodup_append hlnd) hd (by simp)
  have hinj : ∀ e1, e1 ∈ l → ∀ e2, e2 ∈ l →
      (m0.events e1).individual = (m0.events e2).individual → e1 = e2 :=
    fun e1 h1 e2 h2 => List.inj_on_of_nodup_map hnd h1 h2
  have hbucket0 : ∀ e1, e1 ∈ l → e1 ∉ fresh0 := by
    intro e1 h1 hf
    rw [← hl0] at h1
    exact hinv0.disj_ring _ _ e1 h1 (List.mem_append_left _ hf)
  obtain ⟨used0, hused0⟩ := h.suffix
  have hfresh_sub : ∀ q, q ∈ fresh → q ∈ fresh0 := by
    intro q hq; rw [hused0]; exact List.mem_append_right _ hq
  obtain ⟨i, s, hi0, hs0, hsmem0, hsown0, hok0⟩ := hready e hel
  obtain ⟨hfo, hsb⟩ := h.pending e hel hedone i hi0
  obtain ⟨hce, hts, _, _⟩ := quarantine_fields_only_fields _ _ hfo
  obtain ⟨hni, hin⟩ := quarantine_fields_only_n_interactions _ _ hfo
  have hown : (m.events e).individual = some i := by
    rw [h.owners e (hbucket0 e hel)]; exact hi0
  have hvis : contact_visits m i = contact_visits m0 i := by
    unfold contact_visits
    rw [hni, h.params, h.day_idx]
  have hok : contact_days_ok m i = true := by
    unfold contact_days_ok at hok0 ⊢
    rw [hni, hin, h.params, h.day_idx, h.interactions]
    exact hok0
  have hcost : hospital_cost m0 e = 1 + 2 * contact_visits m0 i := by
    unfold hospital_cost
    rw [hi0]
  have hdrop : l.drop done.length = e :: rest := by
    rw [hl, List.drop_left]
  have hdrop1 : l.drop (done ++ [e]).length = rest := by
    have : l = (done ++ [e]) ++ rest := by rw [hl]; simp
    conv_lhs => rw [this]
    rw [List.drop_left]
  have hbud := h.budget
  rw [hdrop, List.map_cons, List.sum_cons, hcost] at hbud
  obtain ⟨ma, m1, b1, fresh1, dead1, x, hra, hqa, hrem, hwalks, hrun, hst⟩ :=
    hospitalised_event_step m b fresh dead e i s h.pool h.handles hown
      (by rw [hce]; exact hs0) (by rw [hts]; exact hsb s hs0) hok (by rw [hvis]; omega)
  obtain ⟨used1, hused1⟩ := hst.suffix
  have hfresh1_sub : ∀ q, q ∈ fresh1 → q ∈ fresh := by
    intro q hq; rw [hused1]; simp [hq]
  have hxfresh : x ∈ fresh := by rw [hused1]; simp
  have hxfresh1 : x ∉ fresh1 := by
    have hn := h.pool.nodup_ring
    rw [hused1] at hn
    have hn1 : (x :: (used1 ++ fresh1 ++ dead)).Nodup := by simpa using hn
    intro hx
    exact (List.nodup_cons.mp hn1).1 (by simp [hx])
  have hown_bucket : ∀ k d y, y ∈ b k d →
      (m1.events y).individual = (m.events y).individual := by
    intro k d y hy
    exact hst.owners y (fun hf => h.pool.disj_ring k d y hy (List.mem_append_left _ hf))
  refine ⟨m1, b1, fresh1, dead1, hrun, ?_, ?_⟩
  · refine ⟨hst.pool, hst.time.trans h.time, hst.params.trans h.params,
      hst.interactions.trans h.interactions, hst.day_idx.trans h.day_idx,
      hst.rng.trans h.rng, ⟨used0 ++ x :: used1, by rw [hused0, hused1]; simp⟩, ?_, ?_, ?_,
      hst.handles, ?_, ?_, ?_⟩
    · rw [hdrop1]
      have := hst.spent
      rw [hvis] at this
      omega
    · intro d
      rw [hst.hosp_bucket d, h.bucket d]
    · intro q hq
      rw [hst.owners q (fun hf => hq (hfresh_sub q hf)), h.owners q hq]
    · intro e1 he1 hnd1 i1 hi1
      have hne : e1 ≠ e := fun hh => hnd1 (by simp [hh])
      have hnd2 : e1 ∉ done := fun hh => hnd1 (by simp [hh])
      have hii : i1 ≠ i := by
        intro hh
        apply hne
        apply hinj e1 he1 e hel
        rw [hi1, hi0, hh]
      obtain ⟨hfo1, hsb1⟩ := h.pending e1 he1 hnd2 i1 hi1
      refine ⟨quarantine_fields_only_trans _ _ _ hfo1 (hst.others i1 hii), ?_⟩
      intro s1 hs1
      apply hst.sympt _ _ (hsb1 s1 hs1)
      rw [hce, hs0]
      intro hh
      simp only [Option.some.injEq] at hh
      subst hh
      obtain ⟨i2, s2, a1, a2, _, a4, _⟩ := hready e1 he1
      rw [hi1] at a1
      simp only [Option.some.injEq] at a1
      subst a1
      rw [hs1] at a2
      simp only [Option.some.injEq] at a2
      subst a2
      rw [hsown0] at a4
      simp only [Option.some.injEq] at a4
      exact hii a4.symm
    · intro k d y hk hy
      rcases hst.outcome_only k d y hk hy with hyb | rfl
      · rcases h.outcome_old k d y hk hyb with h1 | ⟨e1, he1, ho1⟩
        · exact Or.inl h1
        · exact Or.inr ⟨e1, by simp [he1], by rw [hown_bucket k d y hyb]; exact ho1⟩
      · exact Or.inr ⟨e, by simp, by rw [hst.owner, hi0]⟩
    · intro j e1 hj
      by_cases hjl : j < done.length
      · rw [List.getElem?_append_left hjl] at hj
        have he1d : e1 ∈ done := List.getElem?_mem hj
        have he1l : e1 ∈ l := by rw [hl]; simp [he1d]
        have hne : e1 ≠ e := fun hh => hedone (hh ▸ he1d)
        obtain ⟨mj, hmj, i1, s1, ma1, x1, p1, p2, p3, p4, p5, p6, p7, p8, p9, p10, p11, p12,
          p13, p14, p15, p16⟩ := h.results j e1 hj
        have hii : i1 ≠ i := by
          intro hh
          apply hne
          apply hinj e1 he1l e hel
          rw [p1, hi0, hh]
        have hpop1 : m1.population i1 = m.population i1 := hst.others_hosp i1 hii p9
        have hk1 : outcome_kind mj = event_kind.death ∨
            outcome_kind mj = event_kind.recovered := by
          unfold outcome_kind
          split
          · exact Or.inl rfl
          · exact Or.inr rfl
        refine ⟨mj, hmj, i1, s1, ma1, x1, p1, p2, p3, p4, ?_, p6, hst.dead _ p7,
          by rw [hpop1]; exact p8, by rw [hpop1]; exact p9, by rw [hpop1]; exact p10,
          by rw [hpop1]; exact p11, hst.outcome_grow _ _ _ hk1 p12,
          by rw [hst.owners x1 p15]; exact p13, p14, fun hf => p15 (hfresh1_sub _ hf), ?_⟩
        · intro q hq1 hq2
          obtain ⟨a1, a2⟩ := p5 q hq1 hq2
          exact ⟨a1, hst.dead _ a2⟩
        · intro k d y hk hy hoy
          rcases hst.outcome_only k d y hk hy with hyb | rfl
          · exact p16 k d y hk hyb (by rw [← hown_bucket k d y hyb]; exact hoy)
          · rw [hst.owner] at hoy
            simp only [Option.some.injEq] at hoy
            exact absurd hoy.symm hii
      · have hjeq : j = done.length := by
          have := (List.getElem?_eq_some.mp hj).1
          simp only [List.length_append, List.length_cons, List.length_nil] at this
          omega
        subst hjeq
        rw [List.getElem?_append_right (le_refl _)] at hj
        simp only [Nat.sub_self, List.getElem?_cons_zero, Option.some.injEq] at hj
        subst hj
        refine ⟨m, hpre, i, s, ma, x, hi0, hs0, hra, hqa, hrem, hwalks,
          hst.returned s (by rw [hce]; exact hs0), hst.self_quarantined, hst.self_status,
          hst.self_event, hst.self_next, hst.outcome, hst.owner, hfresh_sub x hxfresh,
          hxfresh1, ?_⟩
        intro k d y hk hy hoy
        rcases hst.outcome_only k d y hk hy with hyb | rfl
        · rcases h.outcome_old k d y hk hyb with h1 | ⟨e1, he1, ho1⟩
          · exact Or.inr h1
          · exfalso
            apply hedone
            have : e1 = e := by
              apply hinj e1 (by rw [hl]; simp [he1]) e hel
              rw [← ho1, ← hown_bucket k d y hyb, hoy, hi0]
            exact this ▸ he1
        · exact Or.inl rfl
  · intro hne
    obtain ⟨e1, r, rfl⟩ : ∃ e1 r, rest = e1 :: r := by
      cases rest with
      | nil => exact absurd rfl hne
      | cons e1 r => exact ⟨e1, r, rfl⟩
    have hb : b event_kind.hospitalised m0.time = l := by rw [h.bucket, hl0]
    have hlinks := h.pool.links event_kind.hospitalised m0.time
    rw [hb] at hlinks
    exact bucket_ok_next_of_suffix m.events dead e e1 r l hlinks
      (by rw [hl]; exact List.suffix_append _ _)

/-- Every prefix of the loop of `transition_to_hospitalised` returns with the
invariant, on a well-formed pool with enough events never handed out, when the
events of today's bucket belong to different individuals that are ready. -/
theorem transition_to_hospitalised_inv (m0 : model) (b0 : buckets) (fresh0 dead0 : List Nat)
    (hinv0 : pool_inv m0 b0 fresh0 dead0) (hh0 : handles_ok m0 b0)
    (hbud : ((b0 event_kind.hospitalised m0.time).map (hospital_cost m0)).sum <
      fresh0.length)
    (hnd : ((b0 event_kind.hospitalised m0.time).map
      (fun e => (m0.events e).individual)).Nodup)
    (hready : ∀ e, e ∈ b0 event_kind.hospitalised m0.time → hospital_ready m0 b0 e) :
    ∀ j, j ≤ (b0 event_kind.hospitalised m0.time).length →
      ∃ mj b fresh dead,
        for_each_event hospitalised_event j
          ((m0.lists event_kind.hospitalised).events m0.time) m0 = some mj ∧
        hospital_inv m0 b0 fresh0 (b0 event_kind.hospitalised m0.time)
          ((b0 event_kind.hospitalised m0.time).take j) mj b fresh dead := by
  intro j hj
  have hstart := hospital_inv_start m0 b0 fresh0 dead0 hinv0 hh0 hbud hready
  by_cases hnil : b0 event_kind.hospitalised m0.time = []
  · have hj0 : j = 0 := by
      rw [hnil] at hj
      simpa using hj
    subst hj0
    exact ⟨m0, b0, fresh0, dead0, rfl, by simpa using hstart⟩
  · obtain ⟨mj, hrun, b, fresh, dead, hI⟩ :=
      for_each_event_prefix hospitalised_event
        (fun done m => ∃ b fresh dead,
          hospital_inv m0 b0 fresh0 (b0 event_kind.hospitalised m0.time) done m b fresh dead)
        (b0 event_kind.hospitalised m0.time) m0 ⟨b0, fresh0, dead0, hstart⟩
        (fun done e rest m hl hpre ⟨b, fresh, dead, h⟩ => by
          obtain ⟨m1, b1, fresh1, dead1, h1, h2, h3⟩ :=
            hospital_inv_step m0 b0 fresh0 dead0 _ hinv0 rfl hnd hready done e rest m b
              fresh dead hl hpre h
          exact ⟨m1, h1, ⟨b1, fresh1, dead1, h2⟩, h3⟩)
        j hj
    refine ⟨mj, b, fresh, dead, ?_, hI⟩
    rw [hinv0.head _ _ hnil]
    exact hrun

/-- The call `transition_to_hospitalised` is the loop over the whole of today's
bucket. -/
theorem transition_to_hospitalised_eq (m0 : model) (b0 : buckets) (fresh0 dead0 : List Nat)
    (hinv0 : pool_inv m0 b0 fresh0 dead0) :
    transition_to_hospitalised m0 =
      for_each_event hospitalised_event (b0 event_kind.hospitalised m0.time).length
        ((m0.lists event_kind.hospitalised).events m0.time) m0 := by
  unfold transition_to_hospitalised pass_today
  rw [hinv0.count, Int.toNat_ofNat]

/-- C14: on a well-formed pool with enough events never handed out, when the
events of today's hospitalised bucket belong to different individuals, each with
its symptomatic event as current event and with contact records that exist, and
every quarantined individual holds its quarantine event, `transition_to_hospitalised`
returns, and for the `j`-th event `e` of the bucket, of individual `i`, with `mj`
the model when its turn starts and `ma` the model after the first block of the
turn: the symptomatic event `s` of `i` is out of `symptomatic[time_symptomatic]`;
in `ma` the flag of `i` is cleared, its quarantine event, if it was quarantined,
is out of its bucket, and the death and recovered lists are as in `mj`; at the
end `i` is not quarantined and that quarantine event is in no bucket of the
quarantined list; and exactly one new event `x` of `i` is in the death and
recovered lists: in `death[t + draw]` with next event type `DEATH` when the
Bernoulli draw of the turn succeeds, in `recovered[t + draw]` with `RECOVERED`
otherwise. -/
theorem transition_to_hospitalised_spec (m : model) (b : buckets) (fresh dead : List Nat)
    (hinv : pool_inv m b fresh dead) (hh : handles_ok m b)
    (hbud : ((b event_kind.hospitalised m.time).map (hospital_cost m)).sum < fresh.length)
    (hnd : ((b event_kind.hospitalised m.time).map
      (fun e => (m.events e).individual)).Nodup)
    (hready : ∀ e, e ∈ b event_kind.hospitalised m.time → hospital_ready m b e) :
    ∃ m1, transition_to_hospitalised m = some m1 ∧
      ∀ j e, (b event_kind.hospitalised m.time)[j]? = some e →
        ∃ i s mj ma x,
          (m.events e).individual = some i ∧ (m.population i).current_event = some s ∧
          for_each_event hospitalised_event j
            ((m.lists event_kind.hospitalised).events m.time) m = some mj ∧
          release_hospitalised mj i = some ma ∧
          (∃ ls, bucket_walk m1 event_kind.symptomatic (m.population i).time_symptomatic =
            some ls ∧ s ∉ ls) ∧
          (ma.population i).quarantined = false ∧
          (∀ q, (mj.population i).quarantined = true →
            (mj.population i).quarantine_event = some q →
            (∃ lq, bucket_walk ma event_kind.quarantined
              (mj.population i).time_quarantined = some lq ∧ q ∉ lq) ∧
            (∀ d lq, bucket_walk m1 event_kind.quarantined d = some lq → q ∉ lq)) ∧
          (∀ d, bucket_walk ma event_kind.death d = bucket_walk mj event_kind.death d ∧
            bucket_walk ma event_kind.recovered d =
              bucket_walk mj event_kind.recovered d) ∧
          (m1.population i).quarantined = false ∧
          (m1.events x).individual = some i ∧ (∀ k d, x ∉ b k d) ∧
          (m.rng.bernoulli mj.rng_calls = true →
            (m1.population i).next_event_type = disease_status.DEATH ∧
            ∃ lx, bucket_walk m1 event_kind.death
              (m.time + m.rng.draw (mj.rng_calls + 1)) = some lx ∧ x ∈ lx) ∧
          (m.rng.bernoulli mj.rng_calls ≠ true →
            (m1.population i).next_event_type = disease_status.RECOVERED ∧
            ∃ lx, bucket_walk m1 event_kind.recovered
              (m.time + m.rng.draw (mj.rng_calls + 1)) = some lx ∧ x ∈ lx) ∧
          (∀ k d ly y, k = event_kind.death ∨ k = event_kind.recovered →
            bucket_walk m1 k d = some ly → y ∈ ly →
            (m1.events y).individual = some i → y = x ∨ y ∈ b k d) := by
  obtain ⟨m1, b1, fresh1, dead1, hrun, hI⟩ :=
    transition_to_hospitalised_inv m b fresh dead hinv hh hbud hnd hready _ (le_refl _)
  rw [List.take_length] at hI
  refine ⟨m1, by rw [transition_to_hospitalised_eq m b fresh dead hinv]; exact hrun, ?_⟩
  intro j e hj
  have hjlt : j < (b event_kind.hospitalised m.time).length := (List.getElem?_eq_some.mp hj).1
  have hne : b event_kind.hospitalised m.time ≠ [] := by
    intro h
    rw [h] at hjlt
    simp at hjlt
  obtain ⟨mj, hmj, i, s, ma, x, p1, p2, p3, p4, p5, p6, p7, p8, p9, p10, p11, p12, p13, p14,
    p15, p16⟩ := hI.results j e hj
  rw [← hinv.head _ _ hne] at hmj
  obtain ⟨mj1, bj, freshj, deadj, hmj1, hIj⟩ :=
    transition_to_hospitalised_inv m b fresh dead hinv hh hbud hnd hready j (le_of_lt hjlt)
  rw [hmj] at hmj1
  simp only [Option.some.injEq] at hmj1
  subst hmj1
  have hout_k : outcome_kind mj = (if m.rng.bernoulli mj.rng_calls = true then
      event_kind.death else event_kind.recovered) := by
    unfold outcome_kind; rw [hIj.rng]
  have hout_t : outcome_type mj = (if m.rng.bernoulli mj.rng_calls = true then
      disease_status.DEATH else disease_status.RECOVERED) := by
    unfold outcome_type; rw [hIj.rng]
  have hout_d : outcome_day mj = m.time + m.rng.draw (mj.rng_calls + 1) := by
    unfold outcome_day; rw [hIj.rng, hIj.time]
  rw [hout_k, hout_d] at p12
  rw [hout_t] at p11
  have hdead : ∀ y, y ∈ dead1 → ∀ k d, y ∉ b1 k d :=
    fun y hy k d hb => hI.pool.disj_ring k d y hb (List.mem_append_right _ hy)
  refine ⟨i, s, mj, ma, x, p1, p2, hmj, p3,
    ⟨_, bucket_walk_of_inv m1 b1 _ _ hI.pool _ _, hdead s p7 _ _⟩, p4, ?_, p6, p8, p13,
    fun k d hx => hinv.disj_ring k d x hx (List.mem_append_left _ p14), ?_, ?_, ?_⟩
  · intro q hq1 hq2
    obtain ⟨a1, a2⟩ := p5 q hq1 hq2
    refine ⟨a1, ?_⟩
    intro d lq hw
    rw [bucket_walk_of_inv m1 b1 _ _ hI.pool] at hw
    simp only [Option.some.injEq] at hw
    subst hw
    exact hdead q a2 _ _
  · intro hb
    rw [if_pos hb] at p11 p12
    exact ⟨p11, _, bucket_walk_of_inv m1 b1 _ _ hI.pool _ _, p12⟩
  · intro hb
    rw [if_neg hb] at p11 p12
    exact ⟨p11, _, bucket_walk_of_inv m1 b1 _ _ hI.pool _ _, p12⟩
  · intro k d ly y hk hw hy hoy
    rw [bucket_walk_of_inv m1 b1 _ _ hI.pool] at hw
    simp only [Option.some.injEq] at hw
    subst hw
    exact p16 k d y hk hy hoy

/-! ## The loop of `transition_to_symptomatic` -/

/-- The turn of individual `i` for the event `e` of the symptomatic list, on a
pool with two events never handed out: the presymptomatic event `c` of `i` is
erased from its bucket and returned to the pool, the first unused event is put
in the hospitalised list on the day the waiting time gives, and `e` becomes the
current event of `i`. -/
theorem symptomatic_event_step (m : model) (b : buckets) (f g : Nat) (fs dead : List Nat)
    (e i c : Nat) (hinv : pool_inv m b (f :: g :: fs) dead)
    (hown : (m.events e).individual = some i)
    (hc : (m.population i).current_event = some c)
    (hmem : c ∈ b event_kind.presymptomatic (m.population i).time_infected) :
    ∃ m1, symptomatic_event e m = some m1 ∧
      pool_inv m1
        ((b.set event_kind.presymptomatic (m.population i).time_infected
          ((b event_kind.presymptomatic (m.population i).time_infected).erase c)).set
          event_kind.hospitalised (m.time + m.rng.draw m.rng_calls)
          (f :: (b.set event_kind.presymptomatic (m.population i).time_infected
            ((b event_kind.presymptomatic (m.population i).time_infected).erase c))
            event_kind.hospitalised (m.time + m.rng.draw m.rng_calls)))
        (g :: fs) (dead ++ [c]) ∧
      m1.population = Function.update m.population i
        { m.population i with
          status := disease_status.SYMPTOMATIC
          time_hospitalised := m.time + m.rng.draw m.rng_calls
          next_event_type := disease_status.HOSPITALISED
          current_event := some e } ∧
      (m1.events f).individual = some i ∧
      (∀ q, q ≠ f → (m1.events q).individual = (m.events q).individual) ∧
      m1.time = m.time ∧ m1.rng = m.rng := by
  obtain ⟨ma, hra, _, hpa⟩ := pool_inv_remove
    { m with
      population := Function.update m.population i
        { m.population i with status := disease_status.SYMPTOMATIC } }
    b _ dead event_kind.presymptomatic c (m.population i).time_infected
    (pool_inv_congr m _ _ _ _ rfl rfl rfl hinv) hmem
  obtain ⟨hpopa, hpara, htma, hrnga, hcallsa, hinta, hdaya, _⟩ :=
    remove_event_from_event_list_rest _ _ _ _ _ hra
  have howna := remove_event_from_event_list_individual _ _ _ _ _ hra
  obtain ⟨mb, hrb, _, hpb⟩ := pool_inv_add
    { ma with
      rng_calls := ma.rng_calls + 1
      population := Function.update ma.population i
        { ma.population i with
          time_hospitalised := ma.time + ma.rng.draw ma.rng_calls
          next_event_type := disease_status.HOSPITALISED
          current_event := some e } }
    _ f g fs (dead ++ [c]) event_kind.hospitalised i (ma.time + ma.rng.draw ma.rng_calls)
    (pool_inv_congr ma _ _ _ _ rfl rfl rfl hpa)
  obtain ⟨hpopb, hparb, htmb, hrngb, hcallsb, hintb, hdayb⟩ :=
    add_individual_to_event_list_rest _ _ _ _ _ _ hrb
  have hownf := add_individual_to_event_list_owner _ _ _ _ _ _ hrb
  have hownb := add_individual_to_event_list_individual _ _ _ _ _ _ hrb
  have hday : ma.time + ma.rng.draw ma.rng_calls = m.time + m.rng.draw m.rng_calls := by
    rw [htma, hrnga, hcallsa]
  rw [hday] at hpb
  refine ⟨mb, ?_, hpb, ?_, hownf, ?_, htmb.trans htma, hrngb.trans hrnga⟩
  · unfold symptomatic_event
    rw [hown]
    have h1 : ((Function.update m.population i
        { m.population i with status := disease_status.SYMPTOMATIC }) i).current_event =
        some c := by
      rw [Function.update_same]; exact hc
    have h2 : ((Function.update m.population i
        { m.population i with status := disease_status.SYMPTOMATIC }) i).time_infected =
        (m.population i).time_infected := by
      rw [Function.update_same]
    dsimp only
    rw [h1]
    dsimp only
    rw [h2, hra]
    dsimp only
    rw [hrb]
  · rw [hpopb]
    dsimp only
    rw [hpopa, hday]
    simp
  · intro q hq
    rw [hownb q hq, howna]

/-- One turn of the loop of `transition_to_symptomatic` keeps the invariant, and
the event it read as `next_event` is the next event of the bucket. -/
theorem symptomatic_inv_step (m0 : model) (b0 : buckets) (fresh0 dead0 l : List Nat)
    (hinv0 : pool_inv m0 b0 fresh0 dead0)
    (hl0 : b0 event_kind.symptomatic m0.time = l)
    (hnd : (l.map (fun e => (m0.events e).individual)).Nodup)
    (hready : ∀ e, e ∈ l → symptomatic_ready m0 b0 e)
    (done : List Nat) (e : Nat) (rest : List Nat) (m : model) (b : buckets)
    (fresh dead : List Nat) (hl : l = done ++ e :: rest)
    (hpre : for_each_event symptomatic_event done.length l.head? m0 = some m)
    (h : symptomatic_inv m0 b0 fresh0 l done m b fresh dead) :
    ∃ m1 b1 fresh1 dead1, symptomatic_event e m = some m1 ∧
      symptomatic_inv m0 b0 fresh0 l (done ++ [e]) m1 b1 fresh1 dead1 ∧
      (rest ≠ [] → (m.events e).next = rest.head?) := by
  have hlnd : l.Nodup := by rw [← hl0]; exact hinv0.nodup_bucket _ _
  have hel : e ∈ l := by rw [hl]; simp
  have hedone : e ∉ done := by
    intro hd
    rw [hl] at hlnd
    exact (List.disjoint_of_nodup_append hlnd) hd (by simp)
  have hinj : ∀ e1, e1 ∈ l → ∀ e2, e2 ∈ l →
      (m0.events e1).individual = (m0.events e2).individual → e1 = e2 :=
    fun e1 h1 e2 h2 => List.inj_on_of_nodup_map hnd h1 h2
  have hbucket0 : ∀ e1, e1 ∈ l → e1 ∉ fresh0 := by
    intro e1 h1 hf
    rw [← hl0] at h1
    exact hinv0.disj_ring _ _ e1 h1 (List.mem_append_left _ hf)
  obtain ⟨used0, hused0⟩ := h.suffix
  have hfresh_sub : ∀ q, q ∈ fresh → q ∈ fresh0 := by
    intro q hq; rw [hused0]; exact List.mem_append_right _ hq
  obtain ⟨i, c, hi0, hc0, _, hcown0⟩ := hready e hel
  obtain ⟨hpi, hcb⟩ := h.pending e hel hedone i hi0
  have hown : (m.events e).individual = some i := by
    rw [h.owners e (hbucket0 e hel)]; exact hi0
  have hdrop : l.drop done.length = e :: rest := by
    rw [hl, List.drop_left]
  have hdrop1 : l.drop (done ++ [e]).length = rest := by
    have : l = (done ++ [e]) ++ rest := by rw [hl]; simp
    conv_lhs => rw [this]
    rw [List.drop_left]
  have hbud := h.budget
  rw [hdrop, List.length_cons] at hbud
  obtain ⟨f, g, fs, rfl⟩ : ∃ f g fs, fresh = f :: g :: fs := by
    cases fresh with
    | nil =>
      exfalso
      simp only [List.length_nil] at hbud
      omega
    | cons f t =>
      cases t with
      | nil =>
        exfalso
        simp only [List.length_cons, List.length_nil] at hbud
        omega
      | cons g fs => exact ⟨f, g, fs, rfl⟩
  obtain ⟨m1, hrun, hp1, hpop1, hownf, hown1, htm1, hrng1⟩ :=
    symptomatic_event_step m b f g fs dead e i c h.pool hown (by rw [hpi]; exact hc0)
      (by rw [hpi]; exact hcb c hc0)
  have hfg : f ∉ g :: fs := by
    intro hm
    have : (f :: (g :: fs ++ dead)).Nodup := by simpa using h.pool.nodup_ring
    exact (List.nodup_cons.mp this).1 (List.mem_append_left _ hm)
  have hpop_other : ∀ p, p ≠ i → m1.population p = m.population p := by
    intro p hp
    rw [hpop1, Function.update_noteq hp]
  refine ⟨m1,
    (b.set event_kind.presymptomatic (m.population i).time_infected
      ((b event_kind.presymptomatic (m.population i).time_infected).erase c)).set
      event_kind.hospitalised (m.time + m.rng.draw m.rng_calls)
      (f :: (b.set event_kind.presymptomatic (m.population i).time_infected
        ((b event_kind.presymptomatic (m.population i).time_infected).erase c))
        event_kind.hospitalised (m.time + m.rng.draw m.rng_calls)),
    g :: fs, dead ++ [c], hrun, ?_, ?_⟩
  · refine ⟨hp1, htm1.trans h.time, hrng1.trans h.rng,
      ⟨used0 ++ [f], by rw [hused0]; simp⟩, ?_, ?_, ?_, ?_, ?_⟩
    · rw [hdrop1]
      simp only [List.length_cons] at hbud ⊢
      omega
    · intro d
      rw [buckets_set_other _ _ _ _ _ _ (by simp), buckets_set_other _ _ _ _ _ _ (by simp)]
      exact h.bucket d
    · intro q hq
      have hqf : q ≠ f := fun hh => hq (hfresh_sub q (by simp [hh]))
      rw [hown1 q hqf, h.owners q hq]
    · intro e1 he1 hnd1 i1 hi1
      have hne : e1 ≠ e := fun hh => hnd1 (by simp [hh])
      have hnd2 : e1 ∉ done := fun hh => hnd1 (by simp [hh])
      have hii : i1 ≠ i := by
        intro hh
        apply hne
        apply hinj e1 he1 e hel
        rw [hi1, hi0, hh]
      obtain ⟨hp, hcb1⟩ := h.pending e1 he1 hnd2 i1 hi1
      refine ⟨by rw [hpop_other i1 hii]; exact hp, ?_⟩
      intro c1 hc1
      have hcc : c1 ≠ c := by
        intro hh
        subst hh
        obtain ⟨i2, c2, a1, a2, _, a4⟩ := hready e1 he1
        rw [hi1] at a1
        simp only [Option.some.injEq] at a1
        subst a1
        rw [hc1] at a2
        simp only [Option.some.injEq] at a2
        subst a2
        rw [hcown0] at a4
        simp only [Option.some.injEq] at a4
        exact hii a4.symm
      rw [buckets_set_other _ _ _ _ _ _ (by simp)]
      by_cases hd : (m0.population i1).time_infected = (m.population i).time_infected
      · rw [hd, buckets_set_same]
        have := hcb1 c1 hc1
        rw [hd] at this
        exact (List.mem_erase_of_ne hcc).mpr this
      · rw [buckets_set_other _ _ _ _ _ _ (by simp [hd])]
        exact hcb1 c1 hc1
    · intro j e1 hj
      by_cases hjl : j < done.length
      · rw [List.getElem?_append_left hjl] at hj
        have he1d : e1 ∈ done := List.getElem?_mem hj
        have he1l : e1 ∈ l := by rw [hl]; simp [he1d]
        have hne : e1 ≠ e := fun hh => hedone (hh ▸ he1d)
        obtain ⟨mj, hmj, i1, x1, p1, p2, p3, p4, p5, p6, p7, p8, p9⟩ := h.results j e1 hj
        have hii : i1 ≠ i := by
          intro hh
          apply hne
          apply hinj e1 he1l e hel
          rw [p1, hi0, hh]
        have hx1f : x1 ≠ f := fun hh => p9 (by simp [hh])
        refine ⟨mj, hmj, i1, x1, p1, by rw [hpop_other i1 hii]; exact p2,
          by rw [hpop_other i1 hii]; exact p3, by rw [hpop_other i1 hii]; exact p4,
          by rw [hpop_other i1 hii]; exact p5, ?_, by rw [hown1 x1 hx1f]; exact p7, p8,
          fun hf => p9 (List.mem_cons_of_mem _ hf)⟩
        rw [hpop_other i1 hii]
        by_cases hd : (m.population i1).time_hospitalised = m.time + m.rng.draw m.rng_calls
        · rw [hd, buckets_set_same, buckets_set_other _ _ _ _ _ _ (by simp)]
          rw [hd] at p6
          exact List.mem_cons_of_mem _ p6
        · rw [buckets_set_other _ _ _ _ _ _ (by simp [hd]),
            buckets_set_other _ _ _ _ _ _ (by simp)]
          exact p6
      · have hjeq : j = done.length := by
          have := (List.getElem?_eq_some.mp hj).1
          simp only [List.length_append, List.length_cons, List.length_nil] at this
          omega
        subst hjeq
        rw [List.getElem?_append_right (le_refl _)] at hj
        simp only [Nat.sub_self, List.getElem?_cons_zero, Option.some.injEq] at hj
        subst hj
        have hpi1 : m1.population i =
            { m.population i with
              status := disease_status.SYMPTOMATIC
              time_hospitalised := m.time + m.rng.draw m.rng_calls
              next_event_type := disease_status.HOSPITALISED
              current_event := some e } := by
          rw [hpop1, Function.update_same]
        refine ⟨m, hpre, i, f, hi0, by rw [hpi1], by rw [hpi1], by rw [hpi1],
          by rw [hpi1, h.time, h.rng], ?_, hownf, hfresh_sub f (by simp), hfg⟩
        rw [hpi1]
        dsimp only
        rw [buckets_set_same]
        simp
  · intro hne
    obtain ⟨e1, r, rfl⟩ : ∃ e1 r, rest = e1 :: r := by
      cases rest with
      | nil => exact absurd rfl hne
      | cons e1 r => exact ⟨e1, r, rfl⟩
    have hb : b event_kind.symptomatic m0.time = l := by rw [h.bucket, hl0]
    have hlinks := h.pool.links event_kind.symptomatic m0.time
    rw [hb] at hlinks
    exact bucket_ok_next_of_suffix m.events dead e e1 r l hlinks
      (by rw [hl]; exact List.suffix_append _ _)

/-- Every prefix of the loop of `transition_to_symptomatic` returns with the
invariant, on a well-formed pool with more events never handed out than today's
bucket holds, when the events of the bucket belong to different individuals that
are ready. -/
theorem transition_to_symptomatic_inv (m0 : model) (b0 : buckets) (fresh0 dead0 : List Nat)
    (hinv0 : pool_inv m0 b0 fresh0 dead0)
    (hbud : (b0 event_kind.symptomatic m0.time).length < fresh0.length)
    (hnd : ((b0 event_kind.symptomatic m0.time).map
      (fun e => (m0.events e).individual)).Nodup)
    (hready : ∀ e, e ∈ b0 event_kind.symptomatic m0.time → symptomatic_ready m0 b0 e) :
    ∀ j, j ≤ (b0 event_kind.symptomatic m0.time).length →
      ∃ mj b fresh dead,
        for_each_event symptomatic_event j
          ((m0.lists event_kind.symptomatic).events m0.time) m0 = some mj ∧
        symptomatic_inv m0 b0 fresh0 (b0 event_kind.symptomatic m0.time)
          ((b0 event_kind.symptomatic m0.time).take j) mj b fresh dead := by
  intro j hj
  have hstart : symptomatic_inv m0 b0 fresh0 (b0 event_kind.symptomatic m0.time) [] m0 b0
      fresh0 dead0 := by
    refine ⟨hinv0, rfl, rfl, ⟨[], rfl⟩, by simpa using hbud, fun _ => rfl, fun _ _ => rfl, ?_,
      fun j e h => by simp at h⟩
    intro e he _ i hi
    refine ⟨rfl, ?_⟩
    intro c hc
    obtain ⟨i1, c1, h1, h2, h3, _⟩ := hready e he
    rw [hi] at h1
    simp only [Option.some.injEq] at h1
    subst h1
    rw [hc] at h2
    simp only [Option.some.injEq] at h2
    subst h2
    exact h3
  by_cases hnil : b0 event_kind.symptomatic m0.time = []
  · have hj0 : j = 0 := by
      rw [hnil] at hj
      simpa using hj
    subst hj0
    exact ⟨m0, b0, fresh0, dead0, rfl, by simpa using hstart⟩
  · obtain ⟨mj, hrun, b, fresh, dead, hI⟩ :=
      for_each_event_prefix symptomatic_event
        (fun done m => ∃ b fresh dead,
          symptomatic_inv m0 b0 fresh0 (b0 event_kind.symptomatic m0.time) done m b fresh dead)
        (b0 event_kind.symptomatic m0.time) m0 ⟨b0, fresh0, dead0, hstart⟩
        (fun done e rest m hl hpre ⟨b, fresh, dead, h⟩ => by
          obtain ⟨m1, b1, fresh1, dead1, h1, h2, h3⟩ :=
            symptomatic_inv_step m0 b0 fresh0 dead0 _ hinv0 rfl hnd hready done e rest m b
              fresh dead hl hpre h
          exact ⟨m1, h1, ⟨b1, fresh1, dead1, h2⟩, h3⟩)
        j hj
    refine ⟨mj, b, fresh, dead, ?_, hI⟩
    rw [hinv0.head _ _ hnil]
    exact hrun

/-! ## The current event and the next event -/

/-- On a pool with three events never handed out, `new_infection` returns and
the current event of the infected individual is the first unused event `f`,
which it put at the head of `asymptomatic[t]` or `presymptomatic[t]`; the event
of the next transition is the second one, `g`. -/
theorem new_infection_current_event (m : model) (c i : Nat) (b : buckets) (f g g2 : Nat)
    (fs dead : List Nat) (hpool : pool_inv m b (f :: g :: g2 :: fs) dead) :
    ∃ m1, new_infection m c i = some m1 ∧
      (m1.population c).current_event = some f ∧
      (m.rng.bernoulli m.rng_calls = true →
        (m1.population c).status = disease_status.ASYMPTOMATIC ∧
        (m1.population c).time_recovered = m.time + m.rng.draw (m.rng_calls + 1) ∧
        (m1.population c).next_event_type = disease_status.RECOVERED ∧
        bucket_walk m1 event_kind.asymptomatic m.time =
          some (f :: b event_kind.asymptomatic m.time) ∧
        bucket_walk m1 event_kind.recovered (m.time + m.rng.draw (m.rng_calls + 1)) =
          some (g :: b event_kind.recovered (m.time + m.rng.draw (m.rng_calls + 1)))) ∧
      (m.rng.bernoulli m.rng_calls = false →
        (m1.population c).status = disease_status.PRESYMPTOMATIC ∧
        (m1.population c).time_symptomatic = m.time + m.rng.draw (m.rng_calls + 1) ∧
        (m1.population c).next_event_type = disease_status.SYMPTOMATIC ∧
        bucket_walk m1 event_kind.presymptomatic m.time =
          some (f :: b event_kind.presymptomatic m.time) ∧
        bucket_walk m1 event_kind.symptomatic (m.time + m.rng.draw (m.rng_calls + 1)) =
          some (g :: b event_kind.symptomatic (m.time + m.rng.draw (m.rng_calls + 1)))) := by
  obtain ⟨m1, h⟩ := new_infection_some m c i b f g g2 fs dead hpool
  refine ⟨m1, h, ?_⟩
  unfold new_infection at h
  split at h
  · rename_i hb
    dsimp only at h
    split at h
    · simp at h
    · rename_i e ma h1
      obtain ⟨rfl, hp1⟩ := add_individual_to_event_list_step _ _ b f g (g2 :: fs) dead _ _ _ _ h1
        (pool_inv_congr m _ b _ dead rfl rfl rfl hpool)
      have hq1 := (add_individual_to_event_list_rest _ _ _ _ _ _ h1).1
      split at h
      · simp at h
      · rename_i e2 mb h2
        obtain ⟨rfl, hp2⟩ := add_individual_to_event_list_step _ _ _ g g2 fs dead _ _ _ _ h2
          (pool_inv_congr ma _ _ _ dead rfl rfl rfl hp1)
        have hq2 := (add_individual_to_event_list_rest _ _ _ _ _ _ h2).1
        dsimp only at hq1 hq2
        simp only [Option.some.injEq] at h
        subst h
        rw [buckets_set_other _ _ _ _ _ _ (by simp)] at hp2
        have hw1 := bucket_walk_of_inv _ _ _ _ hp2 event_kind.asymptomatic m.time
        have hw2 := bucket_walk_of_inv _ _ _ _ hp2 event_kind.recovered
          (m.time + m.rng.draw (m.rng_calls + 1))
        rw [buckets_set_other _ _ _ _ _ _ (by simp), buckets_set_same] at hw1
        rw [buckets_set_same] at hw2
        have hpc : ∀ x : individual, Function.update ma.population c x c = x := fun x => by simp
        have hpa := congrFun hq1 c
        rw [Function.update_same] at hpa
        refine ⟨by rw [hq2, hpc], fun _ => ?_, fun hf => ?_⟩
        · exact ⟨by rw [hq2, hpc]; simp [hpa], by rw [hq2, hpc], by rw [hq2, hpc], hw1, hw2⟩
        · rw [hb] at hf; cases hf
  · rename_i hb
    dsimp only at h
    split at h
    · simp at h
    · rename_i e ma h1
      obtain ⟨rfl, hp1⟩ := add_individual_to_event_list_step _ _ b f g (g2 :: fs) dead _ _ _ _ h1
        (pool_inv_congr m _ b _ dead rfl rfl rfl hpool)
      have hq1 := (add_individual_to_event_list_rest _ _ _ _ _ _ h1).1
      split at h
      · simp at h
      · rename_i e2 mb h2
        obtain ⟨rfl, hp2⟩ := add_individual_to_event_list_step _ _ _ g g2 fs dead _ _ _ _ h2
          (pool_inv_congr ma _ _ _ dead rfl rfl rfl hp1)
        have hq2 := (add_individual_to_event_list_rest _ _ _ _ _ _ h2).1
        dsimp only at hq1 hq2
        simp only [Option.some.injEq] at h
        subst h
        rw [buckets_set_other _ _ _ _ _ _ (by simp)] at hp2
        have hw1 := bucket_walk_of_inv _ _ _ _ hp2 event_kind.presymptomatic m.time
        have hw2 := bucket_walk_of_inv _ _ _ _ hp2 event_kind.symptomatic
          (m.time + m.rng.draw (m.rng_calls + 1))
        rw [buckets_set_other _ _ _ _ _ _ (by simp), buckets_set_same] at hw1
        rw [buckets_set_same] at hw2
        have hpc : ∀ x : individual, Function.update ma.population c x c = x := fun x => by simp
        have hpa := congrFun hq1 c
        rw [Function.update_same] at hpa
        refine ⟨by rw [hq2, hpc], fun ht => ?_, fun _ => ?_⟩
        · exact absurd ht hb
        · exact ⟨by rw [hq2, hpc]; simp [hpa], by rw [hq2, hpc], by rw [hq2, hpc], hw1, hw2⟩

/-- C13, amended: the current event is an event of the list of the status just
entered, and the event of the list of `next_event_type` is another event.
(1) After `new_infection` on a pool with three events never handed out, the
current event `f` is in `asymptomatic[t]` (or `presymptomatic[t]`) and the event
`g` of the next transition is in `recovered[time_recovered]` (or
`symptomatic[time_symptomatic]`), where `f` is not.  (2) After
`transition_to_symptomatic`, for every event `e` of today's symptomatic bucket,
of individual `i`: the current event of `i` is `e`, still in today's symptomatic
bucket, the next event type is `HOSPITALISED`, and the event `x` of `i` in
`hospitalised[time_hospitalised]` is another event.  (3) After
`transition_to_hospitalised`, for every event `e` of today's hospitalised
bucket, of individual `i`: the current event of `i` is `e`, still in today's
hospitalised bucket, and the follow-up event `x` of `i` in the death or recovered
list, according to the next event type, is another event. -/
theorem current_event_in_status_list (m : model) (c i : Nat) (b : buckets) (f g g2 : Nat)
    (fs dead : List Nat) (ms : model) (bs : buckets) (freshs deads : List Nat)
    (mh : model) (bh : buckets) (freshh deadh : List Nat)
    (hpool : pool_inv m b (f :: g :: g2 :: fs) dead)
    (hinvs : pool_inv ms bs freshs deads)
    (hbuds : (bs event_kind.symptomatic ms.time).length < freshs.length)
    (hnds : ((bs event_kind.symptomatic ms.time).map
      (fun e => (ms.events e).individual)).Nodup)
    (hreadys : ∀ e, e ∈ bs event_kind.symptomatic ms.time → symptomatic_ready ms bs e)
    (hinvh : pool_inv mh bh freshh deadh) (hhh : handles_ok mh bh)
    (hbudh : ((bh event_kind.hospitalised mh.time).map (hospital_cost mh)).sum <
      freshh.length)
    (hndh : ((bh event_kind.hospitalised mh.time).map
      (fun e => (mh.events e).individual)).Nodup)
    (hreadyh : ∀ e, e ∈ bh event_kind.hospitalised mh.time → hospital_ready mh bh e) :
    (∃ m1, new_infection m c i = some m1 ∧
      (m1.population c).current_event = some f ∧
      (m.rng.bernoulli m.rng_calls = true →
        (m1.population c).status = disease_status.ASYMPTOMATIC ∧
        (m1.population c).next_event_type = disease_status.RECOVERED ∧
        (∃ lc, bucket_walk m1 event_kind.asymptomatic m.time = some lc ∧ f ∈ lc) ∧
        ∃ ln, bucket_walk m1 event_kind.recovered (m1.population c).time_recovered =
          some ln ∧ g ∈ ln ∧ f ∉ ln) ∧
      (m.rng.bernoulli m.rng_calls = false →
        (m1.population c).status = disease_status.PRESYMPTOMATIC ∧
        (m1.population c).next_event_type = disease_status.SYMPTOMATIC ∧
        (∃ lc, bucket_walk m1 event_kind.presymptomatic m.time = some lc ∧ f ∈ lc) ∧
        ∃ ln, bucket_walk m1 event_kind.symptomatic (m1.population c).time_symptomatic =
          some ln ∧ g ∈ ln ∧ f ∉ ln)) ∧
    (∃ m1, transition_to_symptomatic ms = some m1 ∧
      ∀ (j e : Nat), (bs event_kind.symptomatic ms.time)[j]? = some e →
        ∃ i x, (ms.events e).individual = some i ∧
          (m1.population i).status = disease_status.SYMPTOMATIC ∧
          (m1.population i).current_event = some e ∧
          (m1.population i).next_event_type = disease_status.HOSPITALISED ∧
          (∃ lc, bucket_walk m1 event_kind.symptomatic ms.time = some lc ∧ e ∈ lc) ∧
          (m1.events x).individual = some i ∧
          ∃ ln, bucket_walk m1 event_kind.hospitalised (m1.population i).time_hospitalised =
            some ln ∧ x ∈ ln ∧ e ∉ ln) ∧
    (∃ m1, transition_to_hospitalised mh = some m1 ∧
      ∀ j e, (bh event_kind.hospitalised mh.time)[j]? = some e →
        ∃ i x mj, (mh.events e).individual = some i ∧
          for_each_event hospitalised_event j
            ((mh.lists event_kind.hospitalised).events mh.time) mh = some mj ∧
          (m1.population i).status = disease_status.HOSPITALISED ∧
          (m1.population i).current_event = some e ∧
          (∃ lc, bucket_walk m1 event_kind.hospitalised mh.time = some lc ∧ e ∈ lc) ∧
          (m1.events x).individual = some i ∧
          (m1.population i).next_event_type = outcome_type mj ∧
          ∃ ln, bucket_walk m1 (outcome_kind mj) (outcome_day mj) = some ln ∧
            x ∈ ln ∧ e ∉ ln) := by
  refine ⟨?_, ?_, ?_⟩
  · obtain ⟨m1, hrun, hce, ha, hp⟩ := new_infection_current_event m c i b f g g2 fs dead hpool
    have hfg : f ≠ g := by
      have := hpool.nodup_ring
      intro h
      simp [h] at this
    have hfb : ∀ k d, f ∉ b k d := fun k d hf => hpool.disj_ring k d f hf (by simp)
    refine ⟨m1, hrun, hce, fun hb => ?_, fun hb => ?_⟩
    · obtain ⟨h1, h2, h3, h4, h5⟩ := ha hb
      rw [h2]
      exact ⟨h1, h3, ⟨_, h4, by simp⟩, _, h5, by simp, by simp [hfg, hfb]⟩
    · obtain ⟨h1, h2, h3, h4, h5⟩ := hp hb
      rw [h2]
      exact ⟨h1, h3, ⟨_, h4, by simp⟩, _, h5, by simp, by simp [hfg, hfb]⟩
  · obtain ⟨m1, b1, fresh1, dead1, hrun, hI⟩ :=
      transition_to_symptomatic_inv ms bs freshs deads hinvs hbuds hnds hreadys _ (le_refl _)
    rw [List.take_length] at hI
    refine ⟨m1, ?_, ?_⟩
    · unfold transition_to_symptomatic pass_today
      rw [hinvs.count, Int.toNat_ofNat]
      exact hrun
    · intro j e hj
      obtain ⟨mj, _, i, x, p1, p2, p3, p4, _, p6, p7, _, _⟩ := hI.results j e hj
      have hel : e ∈ b1 event_kind.symptomatic ms.time := by
        rw [hI.bucket]
        exact List.getElem?_mem hj
      refine ⟨i, x, p1, p2, p3, p4, ⟨_, bucket_walk_of_inv m1 b1 _ _ hI.pool _ _, hel⟩, p7,
        _, bucket_walk_of_inv m1 b1 _ _ hI.pool _ _, p6, ?_⟩
      intro he
      have := (hI.pool.disj_bucket _ _ _ _ e hel he).1
      cases this
  · obtain ⟨m1, b1, fresh1, dead1, hrun, hI⟩ :=
      transition_to_hospitalised_inv mh bh freshh deadh hinvh hhh hbudh hndh hreadyh _
        (le_refl _)
    rw [List.take_length] at hI
    refine ⟨m1, by rw [transition_to_hospitalised_eq mh bh freshh deadh hinvh]; exact hrun, ?_⟩
    intro j e hj
    have hjlt : j < (bh event_kind.hospitalised mh.time).length :=
      (List.getElem?_eq_some.mp hj).1
    have hne : bh event_kind.hospitalised mh.time ≠ [] := by
      intro h
      rw [h] at hjlt
      simp at hjlt
    obtain ⟨mj, hmj, i, s, ma, x, p1, p2, p3, p4, p5, p6, p7, p8, p9, p10, p11, p12, p13, p14,
      p15, p16⟩ := hI.results j e hj
    rw [← hinvh.head _ _ hne] at hmj
    have hel : e ∈ b1 event_kind.hospitalised mh.time := by
      rw [hI.bucket]
      exact List.getElem?_mem hj
    refine ⟨i, x, mj, p1, hmj, p9, p10, ⟨_, bucket_walk_of_inv m1 b1 _ _ hI.pool _ _, hel⟩,
      p13, p11, _, bucket_walk_of_inv m1 b1 _ _ hI.pool _ _, p12, ?_⟩
    intro he
    have := (hI.pool.disj_bucket _ _ _ _ e hel he).1
    unfold outcome_kind at this
    split at this <;> cases this

/-! ## Concrete runs of the transitions -/

/-- The pool of `hospital_example` is well formed, with fifteen events never
handed out. -/
theorem hospital_example_inv :
    ∃ fresh dead, pool_inv hospital_example (buckets_after 3 hospital_ops) fresh dead ∧
      fresh.length = 15 := by
  obtain ⟨fresh, dead, hp, hlen⟩ :=
    pool_after_inv 3 hospital_ops (by decide) (by decide) (by decide)
  refine ⟨fresh, dead,
    pool_inv_congr (pool_after 3 hospital_ops) hospital_example _ _ _ rfl rfl rfl hp, ?_⟩
  have : count_adds hospital_ops = 3 := by decide
  omega

theorem hospital_example_handles :
    handles_ok hospital_example (buckets_after 3 hospital_ops) := by
  intro p hq
  by_cases hp0 : p = 0
  · subst hp0
    exact ⟨2, by decide, by decide, by decide⟩
  · exfalso
    have : hospital_example.population p = calloc_individual := by
      show (if p = 0 then _ else _) = _
      rw [if_neg hp0]
    rw [this] at hq
    exact absurd hq (by decide)

theorem hospital_example_ready (e : Nat)
    (he : e ∈ buckets_after 3 hospital_ops event_kind.hospitalised hospital_example.time) :
    hospital_ready hospital_example (buckets_after 3 hospital_ops) e := by
  have he1 : e = 1 := by
    have : buckets_after 3 hospital_ops event_kind.hospitalised hospital_example.time =
        [1] := by decide
    rw [this] at he
    simpa using he
  subst he1
  exact ⟨0, 0, by decide, by decide, by decide, by decide, by decide⟩

theorem hospital_example_cost :
    ((buckets_after 3 hospital_ops event_kind.hospitalised hospital_example.time).map
      (hospital_cost hospital_example)).sum = 3 := by
  decide

/-- The pool of `symptomatic_example` is well formed, with ten events never
handed out. -/
theorem symptomatic_example_inv :
    ∃ fresh dead, pool_inv symptomatic_example (buckets_after 2 symptomatic_ops) fresh dead ∧
      fresh.length = 10 := by
  obtain ⟨fresh, dead, hp, hlen⟩ :=
    pool_after_inv 2 symptomatic_ops (by decide) (by decide) (by decide)
  refine ⟨fresh, dead,
    pool_inv_congr (pool_after 2 symptomatic_ops) symptomatic_example _ _ _ rfl rfl rfl hp, ?_⟩
  have : count_adds symptomatic_ops = 2 := by decide
  omega

theorem symptomatic_example_ready (e : Nat)
    (he : e ∈ buckets_after 2 symptomatic_ops event_kind.symptomatic
      symptomatic_example.time) :
    symptomatic_ready symptomatic_example (buckets_after 2 symptomatic_ops) e := by
  have he1 : e = 1 := by
    have : buckets_after 2 symptomatic_ops event_kind.symptomatic symptomatic_example.time =
        [1] := by decide
    rw [this] at he
    simpa using he
  subst he1
  exact ⟨0, 0, by decide, by decide, by decide, by decide⟩

/-- C14 at a concrete model: in `hospital_example` the call returns; person 0,
who was quarantined, is out of quarantine, its symptomatic event 0 is out of
`symptomatic[0]`, and it has an event in `death[4]` with next event type `DEATH`. -/
theorem transition_to_hospitalised_spec_witness :
    ∃ m1, transition_to_hospitalised hospital_example = some m1 ∧
      (m1.population 0).quarantined = false ∧
      (∃ ls, bucket_walk m1 event_kind.symptomatic 0 = some ls ∧ 0 ∉ ls) ∧
      (m1.population 0).next_event_type = disease_status.DEATH ∧
      ∃ x lx, (m1.events x).individual = some 0 ∧
        bucket_walk m1 event_kind.death 4 = some lx ∧ x ∈ lx := by
  obtain ⟨fresh, dead, hp, hlen⟩ := hospital_example_inv
  obtain ⟨m1, hrun, hall⟩ :=
    transition_to_hospitalised_spec hospital_example (buckets_after 3 hospital_ops) fresh dead
      hp hospital_example_handles (by rw [hospital_example_cost]; omega) (by decide)
      hospital_example_ready
  obtain ⟨i, s, mj, ma, x, h1, h2, _, _, h5, _, _, _, h9, h10, _, h12, _, _⟩ :=
    hall 0 1 (by decide)
  have hi : i = 0 := by
    have : (hospital_example.events 1).individual = some 0 := by decide
    rw [this] at h1
    simpa using h1.symm
  subst hi
  have hs : s = 0 := by
    have : (hospital_example.population 0).current_event = some 0 := by decide
    rw [this] at h2
    simpa using h2.symm
  subst hs
  obtain ⟨hnt, lx, hlx, hx⟩ := h12 rfl
  exact ⟨m1, hrun, h9, h5, hnt, x, lx, h10, hlx, hx⟩

/-- The run of `transition_to_hospitalised` on `hospital_example`, evaluated:
person 0 is in hospital and out of quarantine with current event 1 and next
event type `DEATH`; its events 0 and 2 have left `symptomatic[0]` and
`quarantined[0]`; event 3 is in `death[4]`; its contact person 1 is quarantined
with event 4 in `quarantined[1]` and a test, event 5, in `test_take[2]`. -/
theorem transition_to_hospitalised_example :
    (transition_to_hospitalised hospital_example).map (fun m =>
      ((m.population 0).status, (m.population 0).quarantined,
        (m.population 0).current_event)) =
      some (disease_status.HOSPITALISED, false, some 1) ∧
    (transition_to_hospitalised hospital_example).map (fun m =>
      ((m.population 0).next_event_type, bucket_walk m event_kind.death 4,
        bucket_walk m event_kind.hospitalised 1)) =
      some (disease_status.DEATH, some [3], some [1]) ∧
    (transition_to_hospitalised hospital_example).map (fun m =>
      (bucket_walk m event_kind.symptomatic 0, bucket_walk m event_kind.quarantined 0,
        bucket_walk m event_kind.quarantined 1)) = some (some [], some [], some [4]) ∧
    (transition_to_hospitalised hospital_example).map (fun m =>
      ((m.population 1).quarantined, (m.population 2).quarantined,
        bucket_walk m event_kind.test_take 2)) = some (true, false, some [5]) := by
  refine ⟨by decide, by decide, by decide, by decide⟩

/-- C13 as stated fails: after `new_infection` of person 1 in `infection_example`
the next event type is `RECOVERED` with `time_recovered = 8`, and the current
event is event 0, which sits in `asymptomatic[3]`; `recovered[8]` holds event 1
only and no bucket of the recovered list holds event 0. -/
theorem new_infection_current_event_not_next :
    (new_infection infection_example 1 0).map (fun m =>
      ((m.population 1).current_event, (m.population 1).next_event_type,
        (m.population 1).time_recovered)) =
      some (some 0, disease_status.RECOVERED, 8) ∧
    (new_infection infection_example 1 0).map (fun m =>
      (bucket_walk m event_kind.recovered 8, bucket_walk m event_kind.asymptomatic 3)) =
      some (some [1], some [0]) ∧
    (new_infection infection_example 1 0).map (fun m =>
      (List.range 40).all (fun d =>
        match bucket_walk m event_kind.recovered d with
        | some l => decide (0 ∉ l)
        | none => false)) = some true := by
  refine ⟨by decide, by decide, by decide⟩

/-- C13, amended, at concrete models: person 1 infected in `infection_example`
has current event 0; person 0 of `symptomatic_example` has current event 1, the
symptomatic event of today, after `transition_to_symptomatic`; person 0 of
`hospital_example` has current event 1, the hospitalised event of today, after
`transition_to_hospitalised`. -/
theorem current_event_in_status_list_witness :
    ∃ m1 m2 m3, new_infection infection_example 1 0 = some m1 ∧
      (m1.population 1).current_event = some 0 ∧
      transition_to_symptomatic symptomatic_example = some m2 ∧
      (m2.population 0).current_event = some 1 ∧
      (m2.population 0).next_event_type = disease_status.HOSPITALISED ∧
      transition_to_hospitalised hospital_example = some m3 ∧
      (m3.population 0).current_event = some 1 ∧
      (m3.population 0).status = disease_status.HOSPITALISED := by
  obtain ⟨freshs, deads, hps, hlens⟩ := symptomatic_example_inv
  obtain ⟨freshh, deadh, hph, hlenh⟩ := hospital_example_inv
  obtain ⟨⟨m1, h1, h2, _⟩, ⟨m2, h3, h4⟩, ⟨m3, h5, h6⟩⟩ :=
    current_event_in_status_list infection_example 1 0 (fun _ _ => []) 0 1 2
      (List.range' 3 9) [] symptomatic_example (buckets_after 2 symptomatic_ops) freshs deads
      hospital_example (buckets_after 3 hospital_ops) freshh deadh
      (pool_inv_congr (pool_after 2 []) infection_example _ _ _ rfl rfl rfl
        (pool_after_nil_inv 2 (by decide)))
      hps
      (by
        have : (buckets_after 2 symptomatic_ops event_kind.symptomatic
          symptomatic_example.time).length = 1 := by decide
        omega)
      (by decide) symptomatic_example_ready
      hph hospital_example_handles (by rw [hospital_example_cost]; omega) (by decide)
      hospital_example_ready
  obtain ⟨i, x, a1, _, a3, a4, _⟩ := h4 0 1 (by decide)
  have hi : i = 0 := by
    have : (symptomatic_example.events 1).individual = some 0 := by decide
    rw [this] at a1
    simpa using a1.symm
  subst hi
  obtain ⟨i, x, mj, c1, _, c3, c4, _⟩ := h6 0 1 (by decide)
  have hi : i = 0 := by
    have : (hospital_example.events 1).individual = some 0 := by decide
    rw [this] at c1
    simpa using c1.symm
  subst hi
  exact ⟨m1, m2, m3, h1, h2, h3, a3, a4, h5, c4, c3⟩


/-! ## App users -/

/-- The value `ceil_mul` is the ceiling of the product. -/
theorem ceil_mul_eq (n : Nat) (target : fraction) :
    ceil_mul n target = ⌈(n : ℚ) * ((target.num : ℚ) / (target.den : ℚ))⌉ := by
  unfold ceil_mul
  rw [← Rat.floor_intCast_div_natCast, ← Int.ceil_neg]
  congr 1
  push_cast
  ring

theorem count_app_users_le (pop : Nat → individual) : ∀ n, count_app_users pop n ≤ n
  | 0 => le_refl 0
  | n + 1 => by
    have := count_app_users_le pop n
    simp only [count_app_users]
    split <;> omega

/-- The number of app users among the `n` individuals from `idx` on. -/
theorem count_app_users_add (pop : Nat → individual) (idx : Nat) :
    ∀ n, count_app_users pop (idx + n) = count_app_users pop idx +
      ((List.range' idx n).countP (fun i => (pop i).app_user))
  | 0 => by simp
  | n + 1 => by
    rw [← Nat.add_assoc, count_app_users, count_app_users_add pop idx n,
      List.range'_concat, List.countP_append]
    simp only [Nat.mul_one, List.countP_cons, List.countP_nil, Nat.zero_add]
    by_cases h : (pop (idx + n)).app_user = true
    · simp [h, Nat.add_assoc]
    · simp [h]

theorem countP_range_congr (p q : Nat → Bool) (idx n : Nat)
    (h : ∀ i, idx ≤ i → i < idx + n → p i = q i) :
    (List.range' idx n).countP p = (List.range' idx n).countP q := by
  apply List.countP_congr
  intro i hi
  have := List.mem_range'_1.mp hi
  rw [h i this.1 this.2]

theorem countP_range_le (p : Nat → Bool) (idx n : Nat) :
    (List.range' idx n).countP p ≤ n := by
  have := List.countP_le_length p (l := List.range' idx n)
  simpa using this

/-- The last loop of `set_up_app_users`: it leaves the individuals before `idx`
alone, keeps every app user, and the app users it makes are counted by the
non-zero entries of `users` that it reads. -/
theorem mark_app_users_spec (users : List Nat) :
    ∀ (n idx jdx : Nat) (pop : Nat → individual),
      (∀ i, i < idx → mark_app_users users n idx jdx pop i = pop i) ∧
      (∀ i, (pop i).app_user = true →
        (mark_app_users users n idx jdx pop i).app_user = true) ∧
      (List.range' idx n).countP
          (fun i => (mark_app_users users n idx jdx pop i).app_user) =
        (List.range' idx n).countP (fun i => (pop i).app_user) +
          ((users.drop jdx).take
            (n - (List.range' idx n).countP (fun i => (pop i).app_user))).countP
            (fun u => decide (u ≠ 0))
  | 0, idx, jdx, pop => by simp [mark_app_users]
  | n + 1, idx, jdx, pop => by
    by_cases hu : (pop idx).app_user = false
    · obtain ⟨h1, h2, h3⟩ := mark_app_users_spec users n (idx + 1) (jdx + 1)
        (Function.update pop idx
          { pop idx with app_user := decide (users.getD jdx 0 ≠ 0) })
      have hrun : mark_app_users users (n + 1) idx jdx pop =
          mark_app_users users n (idx + 1) (jdx + 1)
            (Function.update pop idx
              { pop idx with app_user := decide (users.getD jdx 0 ≠ 0) }) := by
        rw [mark_app_users, if_pos hu]
      rw [hrun]
      have hc : (List.range' (idx + 1) n).countP
          (fun i => ((Function.update pop idx
            { pop idx with app_user := decide (users.getD jdx 0 ≠ 0) }) i).app_user) =
          (List.range' (idx + 1) n).countP (fun i => (pop i).app_user) := by
        apply countP_range_congr
        intro i hi _
        rw [Function.update_noteq (by omega)]
      rw [hc] at h3
      have hle := countP_range_le (fun i => (pop i).app_user) (idx + 1) n
      refine ⟨?_, ?_, ?_⟩
      · intro i hi
        rw [h1 i (by omega), Function.update_noteq (by omega)]
      · intro i hi
        apply h2
        by_cases hii : i = idx
        · subst hii
          rw [hu] at hi
          cases hi
        · rw [Function.update_noteq hii]
          exact hi
      · rw [List.range'_succ, List.countP_cons, List.countP_cons, h3, h1 idx (by omega),
          Function.update_same]
        simp only [hu, Bool.false_eq_true, if_false, Nat.add_zero]
        have hk : n + 1 - (List.range' (idx + 1) n).countP (fun i => (pop i).app_user) =
            (n - (List.range' (idx + 1) n).countP (fun i => (pop i).app_user)) + 1 := by
          omega
        rw [hk]
        cases hd : users.drop jdx with
        | nil =>
          have hlen : users.length ≤ jdx := List.drop_eq_nil_iff.mp hd
          have hd1 : users.drop (jdx + 1) = [] := List.drop_eq_nil_iff.mpr (by omega)
          simp [hd1, List.getElem?_eq_none hlen]
        | cons x rest =>
          have hlt : jdx < users.length := by
            by_contra hge
            rw [List.drop_eq_nil_iff.mpr (by omega)] at hd
            cases hd
          have hx : users.drop jdx = users[jdx] :: users.drop (jdx + 1) :=
            List.drop_eq_getElem_cons hlt
          rw [hx] at hd
          simp only [List.cons.injEq] at hd
          obtain ⟨rfl, rfl⟩ := hd
          have hg : users.getD jdx 0 = users[jdx] := by
            rw [List.getD_eq_getElem?_getD, List.getElem?_eq_getElem hlt]
            rfl
          rw [hg, List.take_succ_cons, List.countP_cons]
          omega
    · have hu1 : (pop idx).app_user = true := by simpa using hu
      obtain ⟨h1, h2, h3⟩ := mark_app_users_spec users n (idx + 1) jdx pop
      have hrun : mark_app_users users (n + 1) idx jdx pop =
          mark_app_users users n (idx + 1) jdx pop := by
        rw [mark_app_users, if_neg hu]
      rw [hrun]
      have hle := countP_range_le (fun i => (pop i).app_user) (idx + 1) n
      refine ⟨fun i hi => h1 i (by omega), h2, ?_⟩
      rw [List.range'_succ, List.countP_cons, List.countP_cons, h3, h1 idx (by omega)]
      simp only [hu1, if_true]
      have hk : n + 1 - ((List.range' (idx + 1) n).countP (fun i => (pop i).app_user) + 1) =
          n - (List.range' (idx + 1) n).countP (fun i => (pop i).app_user) := by
        omega
      rw [hk]
      omega

/-- C25 as stated fails: in `app_example` one of the two persons uses the app,
so the interval of the claim is `[0, 1/2]`; the target 0 lies inside it and the
call ends in the fatal error, the target 1 lies outside it and the call
completes. -/
theorem set_up_app_users_interval_fails :
    target_in_spec_interval app_example.params.n_total
      (count_app_users app_example.population app_example.params.n_total) ⟨0, 1⟩ ∧
    (match set_up_app_users app_example ⟨0, 1⟩ with
      | Except.error e => decide (e = "Bad target app_fraction_users")
      | Except.ok _ => false) = true ∧
    ¬ target_in_spec_interval app_example.params.n_total
      (count_app_users app_example.population app_example.params.n_total) ⟨1, 1⟩ ∧
    (match set_up_app_users app_example ⟨1, 1⟩ with
      | Except.error _ => none
      | Except.ok m => some ((m.population 0).app_user, (m.population 1).app_user)) =
      some (true, true) := by
  refine ⟨by decide, by decide, by decide, by decide⟩

/-- The guard of `set_up_app_users` in terms of `ceil( n_total * target )`. -/
theorem set_up_app_users_guard (m : model) (target : fraction) :
    (ceil_mul m.params.n_total target -
        (count_app_users m.population m.params.n_total : Int) < 0 ∨
      ceil_mul m.params.n_total target -
        (count_app_users m.population m.params.n_total : Int) >
        ((m.params.n_total - count_app_users m.population m.params.n_total : Nat) : Int)) ↔
      (ceil_mul m.params.n_total target <
          (count_app_users m.population m.params.n_total : Int) ∨
        (m.params.n_total : Int) < ceil_mul m.params.n_total target) := by
  have hle := count_app_users_le m.population m.params.n_total
  rw [Nat.cast_sub hle]
  constructor <;> (intro h; rcases h with h | h <;> [left; right] <;> omega)

/-- Outside the guard `set_up_app_users` completes. -/
theorem set_up_app_users_completes (m : model) (target : fraction)
    (h : ¬ (ceil_mul m.params.n_total target <
          (count_app_users m.population m.params.n_total : Int) ∨
        (m.params.n_total : Int) < ceil_mul m.params.n_total target)) :
    ∃ m1, set_up_app_users m target = Except.ok m1 := by
  unfold set_up_app_users
  dsimp only
  rw [if_neg (fun hc => h ((set_up_app_users_guard m target).mp hc))]
  exact ⟨_, rfl⟩

/-- C25, amended: `set_up_app_users` ends in the fatal error exactly when
`ceil( n_total * target )` is below the number of individuals that use the app
already or above `n_total`; otherwise it completes. -/
theorem set_up_app_users_error (m : model) (target : fraction) :
    (set_up_app_users m target = Except.error "Bad target app_fraction_users" ↔
      (ceil_mul m.params.n_total target <
          (count_app_users m.population m.params.n_total : Int) ∨
        (m.params.n_total : Int) < ceil_mul m.params.n_total target)) ∧
    (¬ (ceil_mul m.params.n_total target <
          (count_app_users m.population m.params.n_total : Int) ∨
        (m.params.n_total : Int) < ceil_mul m.params.n_total target) →
      ∃ m1, set_up_app_users m target = Except.ok m1) := by
  have hiff := set_up_app_users_guard m target
  constructor
  · constructor
    · intro h
      unfold set_up_app_users at h
      dsimp only at h
      split at h
      · rename_i hc
        exact hiff.mp hc
      · cases h
    · intro h
      unfold set_up_app_users
      dsimp only
      rw [if_pos (hiff.mpr h)]
  · exact set_up_app_users_completes m target

/-- C26: when `set_up_app_users` completes and the shuffle returned a
permutation of the array it was given, the number of app users among the
`n_total` individuals is `ceil( n_total * target )`, and every individual that
used the app before the call still does. -/
theorem set_up_app_users_count (m m1 : model) (target : fraction)
    (hperm : ∀ l, (m.rng.shuffle m.rng_calls l).Perm l)
    (h : set_up_app_users m target = Except.ok m1) :
    (count_app_users m1.population m.params.n_total : Int) =
      ceil_mul m.params.n_total target ∧
    ∀ i, (m.population i).app_user = true → (m1.population i).app_user = true := by
  have hle := count_app_users_le m.population m.params.n_total
  unfold set_up_app_users at h
  dsimp only at h
  split at h
  · cases h
  · rename_i hc
    simp only [Except.ok.injEq] at h
    subst h
    dsimp only
    obtain ⟨_, h2, h3⟩ := mark_app_users_spec
      (m.rng.shuffle m.rng_calls
        (List.replicate (ceil_mul m.params.n_total target -
            (count_app_users m.population m.params.n_total : Int)).toNat 1 ++
          List.replicate (m.params.n_total - count_app_users m.population m.params.n_total -
            (ceil_mul m.params.n_total target -
              (count_app_users m.population m.params.n_total : Int)).toNat) 0))
      m.params.n_total 0 0 m.population
    refine ⟨?_, h2⟩
    have hP := hperm
      (List.replicate (ceil_mul m.params.n_total target -
          (count_app_users m.population m.params.n_total : Int)).toNat 1 ++
        List.replicate (m.params.n_total - count_app_users m.population m.params.n_total -
          (ceil_mul m.params.n_total target -
            (count_app_users m.population m.params.n_total : Int)).toNat) 0)
    have hcur : (List.range' 0 m.params.n_total).countP
        (fun i => (m.population i).app_user) =
        count_app_users m.population m.params.n_total := by
      have := count_app_users_add m.population 0 m.params.n_total
      simp only [Nat.zero_add, count_app_users] at this
      omega
    have hnew := count_app_users_add
      (mark_app_users (m.rng.shuffle m.rng_calls
        (List.replicate (ceil_mul m.params.n_total target -
            (count_app_users m.population m.params.n_total : Int)).toNat 1 ++
          List.replicate (m.params.n_total - count_app_users m.population m.params.n_total -
            (ceil_mul m.params.n_total target -
              (count_app_users m.population m.params.n_total : Int)).toNat) 0))
        m.params.n_total 0 0 m.population) 0 m.params.n_total
    simp only [Nat.zero_add, count_app_users] at hnew
    rw [hnew, h3, hcur]
    rw [Nat.cast_sub hle] at hc
    have hmax : ((ceil_mul m.params.n_total target -
        (count_app_users m.population m.params.n_total : Int)).toNat : Int) =
        ceil_mul m.params.n_total target -
          (count_app_users m.population m.params.n_total : Int) := by
      apply Int.toNat_of_nonneg
      omega
    have hlen := hP.length_eq
    rw [List.length_append, List.length_replicate, List.length_replicate] at hlen
    have htake : List.take (m.params.n_total - count_app_users m.population m.params.n_total)
        (List.drop 0 (m.rng.shuffle m.rng_calls
          (List.replicate (ceil_mul m.params.n_total target -
              (count_app_users m.population m.params.n_total : Int)).toNat 1 ++
            List.replicate (m.params.n_total - count_app_users m.population m.params.n_total -
              (ceil_mul m.params.n_total target -
                (count_app_users m.population m.params.n_total : Int)).toNat) 0))) =
        m.rng.shuffle m.rng_calls
          (List.replicate (ceil_mul m.params.n_total target -
              (count_app_users m.population m.params.n_total : Int)).toNat 1 ++
            List.replicate (m.params.n_total - count_app_users m.population m.params.n_total -
              (ceil_mul m.params.n_total target -
                (count_app_users m.population m.params.n_total : Int)).toNat) 0) := by
      rw [List.drop_zero]
      apply List.take_of_length_le
      omega
    rw [htake, hP.countP_eq, List.countP_append, List.countP_replicate,
      List.countP_replicate]
    simp only [ne_eq, one_ne_zero, not_false_eq_true, decide_True, if_true,
      not_true_eq_false, decide_False, Bool.false_eq_true, if_false, Nat.add_zero]
    omega

/-- C26 at a concrete model: in `app_example` with the target 1 the call
completes and both persons use the app afterwards. -/
theorem set_up_app_users_count_witness :
    ∃ m1, set_up_app_users app_example ⟨1, 1⟩ = Except.ok m1 ∧
      (count_app_users m1.population app_example.params.n_total : Int) = 2 ∧
      ∀ i, (app_example.population i).app_user = true → (m1.population i).app_user = true := by
  obtain ⟨m1, h⟩ := set_up_app_users_completes app_example ⟨1, 1⟩ (by decide)
  obtain ⟨h1, h2⟩ := set_up_app_users_count app_example m1 ⟨1, 1⟩ (fun l => List.Perm.refl l) h
  exact ⟨m1, h, h1, h2⟩

/-- C25, amended, at a concrete model: in `app_example` the target 1 is inside
the guard and the call completes. -/
theorem set_up_app_users_error_witness :
    ∃ m1, set_up_app_users app_example ⟨1, 1⟩ = Except.ok m1 :=
  (set_up_app_users_error app_example ⟨1, 1⟩).2 (by decide)


/-! ## The links of a bucket -/

/-- In a linked list of events each event points to the next one, and each event
but the first points back to the one before; the last event may point back to
itself instead. -/
theorem linked_links (ev : Nat → event) (D : List Nat) :
    ∀ (l : List Nat) (p : Nat), linked ev D p l →
      ∀ (i e e1 : Nat), (p :: l)[i]? = some e → (p :: l)[i + 1]? = some e1 →
        (ev e).next = some e1 ∧
        ((ev e1).last = some e ∨ ((p :: l)[i + 2]? = none ∧ (ev e1).last = some e1))
  | [], p, _, i, e, e1, _, h1 => by simp at h1
  | [x], p, hl, i, e, e1, h0, h1 => by
    cases i with
    | zero =>
      simp only [List.getElem?_cons_zero, Option.some.injEq, zero_add,
        List.getElem?_cons_succ] at h0 h1
      subst h0 h1
      obtain ⟨hn, h | h⟩ := hl
      · exact ⟨hn, Or.inl h.1⟩
      · exact ⟨hn, Or.inr ⟨by simp, h.1⟩⟩
    | succ i => simp at h1
  | x :: y :: r, p, hl, i, e, e1, h0, h1 => by
    cases i with
    | zero =>
      simp only [List.getElem?_cons_zero, Option.some.injEq, zero_add,
        List.getElem?_cons_succ] at h0 h1
      subst h0 h1
      exact ⟨hl.1, Or.inl hl.2.1⟩
    | succ i =>
      rw [List.getElem?_cons_succ] at h0 h1
      obtain ⟨hn, h | h⟩ := linked_links ev D (y :: r) x hl.2.2 i e e1 h0 h1
      · exact ⟨hn, Or.inl h⟩
      · refine ⟨hn, Or.inr ⟨?_, h.2⟩⟩
        rw [show i + 1 + 2 = (i + 2) + 1 from by omega, List.getElem?_cons_succ]
        exact h.1

/-- C29 as stated fails: after one add to the fresh pool of six events the bucket
holds event 0 alone, and its `next` and `last` are events 1 and 5 of the free
ring, not event 0; after three adds the bucket is 2, 1, 0, the `last` of its
head 2 is event 5 of the free ring and the `next` of its tail 0 is event 1, not
the head. -/
theorem bucket_not_a_cycle :
    (bucket_walk (pool_after 1 [add_sym]) event_kind.symptomatic 0,
      ((pool_after 1 [add_sym]).events 0).next,
      ((pool_after 1 [add_sym]).events 0).last) = (some [0], some 1, some 5) ∧
    free_ring (pool_after 1 [add_sym]) = [1, 2, 3, 4, 5] ∧
    (bucket_walk (pool_after 1 [add_sym, add_sym, add_sym]) event_kind.symptomatic 0,
      ((pool_after 1 [add_sym, add_sym, add_sym]).events 2).last,
      ((pool_after 1 [add_sym, add_sym, add_sym]).events 0).next) =
      (some [2, 1, 0], some 5, some 1) ∧
    free_ring (pool_after 1 [add_sym, add_sym, add_sym]) = [3, 4, 5] := by
  refine ⟨by decide, by decide, by decide, by decide⟩

/-- C29, amended: after a sequence of adds and removes on the pool of
`set_up_events` whose removes name events of their bucket and which adds fewer
events than the pool holds, every bucket is a chain: the walk of
`n_daily_current[day]` steps along `next` from its head visits its events, each
event of the bucket but the last has the following event as `next`, and each
event but the head has the event before it as `last`, except that the last event
may have itself as `last`. -/
theorem bucket_is_chain (n : Nat) (ops : List pool_op) (hn : 0 < n)
    (hvalid : removes_valid (pool_after n [], fun _ _ => []) ops = true)
    (hadds : count_adds ops < 6 * n) (k : event_kind) (d : Nat) :
    bucket_walk (pool_after n ops) k d = some (buckets_after n ops k d) ∧
    ∀ (i e e1 : Nat), (buckets_after n ops k d)[i]? = some e →
      (buckets_after n ops k d)[i + 1]? = some e1 →
      ((pool_after n ops).events e).next = some e1 ∧
      (((pool_after n ops).events e1).last = some e ∨
        ((buckets_after n ops k d)[i + 2]? = none ∧
          ((pool_after n ops).events e1).last = some e1)) := by
  obtain ⟨fresh, dead, hp, _⟩ := pool_after_inv n ops hn hvalid hadds
  refine ⟨bucket_walk_of_inv _ _ _ _ hp k d, ?_⟩
  intro i e e1 h0 h1
  have hl := hp.links k d
  cases hb : buckets_after n ops k d with
  | nil =>
    rw [hb] at h0
    simp at h0
  | cons p l =>
    rw [hb] at h0 h1 hl
    exact linked_links _ dead l p hl i e e1 h0 h1

/-- C29, amended, at a concrete pool: after three adds to one bucket of the fresh
pool of six events the bucket is the chain 2, 1, 0. -/
theorem bucket_is_chain_witness :
    bucket_walk (pool_after 1 [add_sym, add_sym, add_sym]) event_kind.symptomatic 0 =
      some (buckets_after 1 [add_sym, add_sym, add_sym] event_kind.symptomatic 0) ∧
    ∀ (i e e1 : Nat),
      (buckets_after 1 [add_sym, add_sym, add_sym] event_kind.symptomatic 0)[i]? = some e →
      (buckets_after 1 [add_sym, add_sym, add_sym] event_kind.symptomatic 0)[i + 1]? =
        some e1 →
      ((pool_after 1 [add_sym, add_sym, add_sym]).events e).next = some e1 ∧
      (((pool_after 1 [add_sym, add_sym, add_sym]).events e1).last = some e ∨
        ((buckets_after 1 [add_sym, add_sym, add_sym] event_kind.symptomatic 0)[i + 2]? =
            none ∧
          ((pool_after 1 [add_sym, add_sym, add_sym]).events e1).last = some e1)) :=
  bucket_is_chain 1 [add_sym, add_sym, add_sym] (by decide) (by decide) (by decide)
    event_kind.symptomatic 0


/-! ## The test-take pass of the tick driver -/

/-- The turn of the event `e` of today's test-take bucket, of individual `i`, on
a pool with two events never handed out: the result is recorded, the first
unused event is put at the head of the test-result bucket of the day the result
is due, and `e` is erased from its bucket and returned to the pool. -/
theorem test_take_event_step (m : model) (b : buckets) (f g : Nat) (fs dead : List Nat)
    (e i : Nat) (hinv : pool_inv m b (f :: g :: fs) dead)
    (hown : (m.events e).individual = some i)
    (hmem : e ∈ b event_kind.test_take m.time) :
    ∃ m1, test_take_event e m = some m1 ∧
      pool_inv m1
        ((b.set event_kind.test_result (m.time + m.params.test_result_wait)
          (f :: b event_kind.test_result (m.time + m.params.test_result_wait))).set
          event_kind.test_take m.time ((b event_kind.test_take m.time).erase e))
        (g :: fs) (dead ++ [e]) ∧
      m1.population = Function.update m.population i
        { m.population i with
          quarantine_test_result := test_status.result (tick_test_outcome (m.population i)) } ∧
      (m1.events f).individual = some i ∧
      (∀ q, q ≠ f → (m1.events q).individual = (m.events q).individual) ∧
      m1.time = m.time ∧ m1.params = m.params := by
  obtain ⟨ma, hra, _, hpa⟩ := pool_inv_add
    { m with
      population := Function.update m.population i
        { m.population i with
          quarantine_test_result := test_status.result (tick_test_outcome (m.population i)) } }
    b f g fs dead event_kind.test_result i (m.time + m.params.test_result_wait)
    (pool_inv_congr m _ _ _ _ rfl rfl rfl hinv)
  obtain ⟨hpopa, hpara, htma, _, _, _, _⟩ := add_individual_to_event_list_rest _ _ _ _ _ _ hra
  have hownf := add_individual_to_event_list_owner _ _ _ _ _ _ hra
  have howna := add_individual_to_event_list_individual _ _ _ _ _ _ hra
  obtain ⟨mb, hrb, _, hpb⟩ := pool_inv_remove ma _ (g :: fs) dead event_kind.test_take e m.time
    hpa (by rw [buckets_set_other _ _ _ _ _ _ (by simp)]; exact hmem)
  obtain ⟨hpopb, hparb, htmb, _, _, _, _, _⟩ := remove_event_from_event_list_rest _ _ _ _ _ hrb
  have hownb := remove_event_from_event_list_individual _ _ _ _ _ hrb
  rw [buckets_set_other _ _ _ _ _ _ (by simp)] at hpb
  refine ⟨mb, ?_, hpb, by rw [hpopb, hpopa], by rw [hownb]; exact hownf,
    fun q hq => by rw [hownb, howna q hq], htmb.trans htma, hparb.trans hpara⟩
  unfold test_take_event
  rw [hown]
  dsimp only
  have hres : (if (m.population i).status = disease_status.UNINFECTED ∨
      (m.population i).status = disease_status.RECOVERED then false else true) =
      tick_test_outcome (m.population i) := rfl
  rw [hres, hra]
  dsimp only
  rw [htma]
  exact hrb

/-- One turn of the loop of `quarantined_test_take` keeps the invariant, and the
event it read as `next_event` is the next event of the bucket. -/
theorem test_take_inv_step (m0 : model) (b0 : buckets) (fresh0 dead0 l : List Nat)
    (hinv0 : pool_inv m0 b0 fresh0 dead0)
    (hl0 : b0 event_kind.test_take m0.time = l)
    (hown0 : ∀ e, e ∈ l → ∃ i, (m0.events e).individual = some i)
    (done : List Nat) (e : Nat) (rest : List Nat) (m : model)
    (hl : l = done ++ e :: rest)
    (h : ∃ b fresh dead xs, test_take_inv m0 b0 fresh0 l done m b fresh dead xs) :
    ∃ m1, test_take_event e m = some m1 ∧
      (∃ b1 fresh1 dead1 xs1,
        test_take_inv m0 b0 fresh0 l (done ++ [e]) m1 b1 fresh1 dead1 xs1) ∧
      (rest ≠ [] → (m.events e).next = rest.head?) := by
  obtain ⟨b, fresh, dead, xs, h⟩ := h
  have hel : e ∈ l := by rw [hl]; simp
  have hbucket0 : ∀ e1, e1 ∈ l → e1 ∉ fresh0 := by
    intro e1 h1 hf
    rw [← hl0] at h1
    exact hinv0.disj_ring _ _ e1 h1 (List.mem_append_left _ hf)
  obtain ⟨used0, hused0⟩ := h.suffix
  have hfresh_sub : ∀ q, q ∈ fresh → q ∈ fresh0 := by
    intro q hq; rw [hused0]; exact List.mem_append_right _ hq
  obtain ⟨i, hi0⟩ := hown0 e hel
  have hown : (m.events e).individual = some i := by
    rw [h.owners e (hbucket0 e hel)]; exact hi0
  have hdrop : l.drop done.length = e :: rest := by
    rw [hl, List.drop_left]
  have hdrop1 : l.drop (done ++ [e]).length = rest := by
    have : l = (done ++ [e]) ++ rest := by rw [hl]; simp
    conv_lhs => rw [this]
    rw [List.drop_left]
  have hbud := h.budget
  rw [hdrop, List.length_cons] at hbud
  have hb := h.bucket
  rw [hdrop] at hb
  obtain ⟨f, g, fs, rfl⟩ : ∃ f g fs, fresh = f :: g :: fs := by
    cases fresh with
    | nil =>
      exfalso
      simp only [List.length_nil] at hbud
      omega
    | cons f t =>
      cases t with
      | nil =>
        exfalso
        simp only [List.length_cons, List.length_nil] at hbud
        omega
      | cons g fs => exact ⟨f, g, fs, rfl⟩
  obtain ⟨m1, hrun, hp1, hpop1, hownf, hown1, htm1, hpar1⟩ :=
    test_take_event_step m b f g fs dead e i h.pool hown
      (by rw [h.time, hb]; simp)
  have hnd : (e :: rest).Nodup := by
    rw [← hb]; exact h.pool.nodup_bucket _ _
  have herase : (b event_kind.test_take m.time).erase e = rest := by
    rw [h.time, hb]
    simp
  rw [herase] at hp1
  have hst : ∀ p, (m1.population p).status = (m.population p).status := by
    intro p
    rw [hpop1]
    by_cases hp : p = i
    · subst hp
      rw [Function.update_same]
    · rw [Function.update_noteq hp]
  refine ⟨m1, hrun,
    ⟨(b.set event_kind.test_result (m.time + m.params.test_result_wait)
        (f :: b event_kind.test_result (m.time + m.params.test_result_wait))).set
        event_kind.test_take m.time rest,
      g :: fs, dead ++ [e], f :: xs, ?_⟩, ?_⟩
  · refine ⟨hp1, htm1.trans h.time, hpar1.trans h.params,
      ⟨used0 ++ [f], by rw [hused0]; simp⟩, ?_, ?_, ?_, ?_, ?_, ?_, ?_⟩
    · rw [hdrop1]
      simp only [List.length_cons] at hbud ⊢
      omega
    · rw [hdrop1, ← h.time, buckets_set_same]
    · rw [buckets_set_other _ _ _ _ _ _ (by simp), ← h.time, ← h.params, buckets_set_same,
        h.time, h.params, h.result_bucket]
      rfl
    · rw [List.map_cons, List.map_append, List.map_cons, List.map_nil, List.reverse_append,
        List.reverse_singleton, List.singleton_append, hownf, hi0, ← h.new_owners]
      congr 1
      apply List.map_congr_left
      intro x hx
      apply hown1
      intro hxf
      have hxb : x ∈ b event_kind.test_result (m0.time + m0.params.test_result_wait) := by
        rw [h.result_bucket]
        exact List.mem_append_left _ hx
      exact h.pool.disj_ring _ _ x hxb (by simp [hxf])
    · intro q hq
      have hqf : q ≠ f := fun hh => hq (hfresh_sub q (by simp [hh]))
      rw [hown1 q hqf, h.owners q hq]
    · intro p
      rw [hst p, h.status p]
    · intro e1 he1 i1 hi1
      rw [hpop1]
      by_cases hp : i1 = i
      · subst hp
        rw [Function.update_same]
        show test_status.result (tick_test_outcome (m.population i1)) = _
        unfold tick_test_outcome
        rw [h.status i1]
      · rw [Function.update_noteq hp]
        rcases List.mem_append.mp he1 with hd | hd
        · exact h.slot e1 hd i1 hi1
        · exfalso
          simp only [List.mem_singleton] at hd
          subst hd
          rw [hi0] at hi1
          simp only [Option.some.injEq] at hi1
          exact hp hi1.symm
  · intro hne
    obtain ⟨e1, r, rfl⟩ : ∃ e1 r, rest = e1 :: r := by
      cases rest with
      | nil => exact absurd rfl hne
      | cons e1 r => exact ⟨e1, r, rfl⟩
    have hlinks := h.pool.links event_kind.test_take m0.time
    rw [hb] at hlinks
    exact bucket_ok_next_of_suffix m.events dead e e1 r _ hlinks (List.suffix_refl _)

/-- C30 as stated fails: person 0 of `test_take_example` was infected on day 4 and
takes its test on day 5, when a test is sensitive from the third day on:
`quarantined_test_take` records a positive result, `intervention_test_take` a
negative one. -/
theorem quarantined_test_take_differs :
    (quarantined_test_take test_take_example).map
      (fun m => (m.population 0).quarantine_test_result) =
      some (test_status.result true) ∧
    (intervention_test_take test_take_example 0).map
      (fun m => (m.population 0).quarantine_test_result) =
      some (test_status.result false) := by
  refine ⟨by decide, by decide⟩

/-- C30, amended: on a well-formed pool with more events never handed out than
today's test-take bucket holds, whose events all have an owner,
`quarantined_test_take` returns; afterwards today's test-take bucket is empty,
the test-result bucket of the day `t + test_result_wait` has one new event per
event of the bucket, for the same individuals, and every tested individual has
a positive result recorded exactly when its status is neither `UNINFECTED` nor
`RECOVERED`.  This is the result of `intervention_test_take` exactly for the
individuals that are uninfected or recovered or whose infection is at least
`test_insensititve_period` days old. -/
theorem quarantined_test_take_spec (m : model) (b : buckets) (fresh dead : List Nat)
    (hinv : pool_inv m b fresh dead)
    (hbud : (b event_kind.test_take m.time).length < fresh.length)
    (hown : ∀ e, e ∈ b event_kind.test_take m.time → ∃ i, (m.events e).individual = some i) :
    ∃ m1 xs, quarantined_test_take m = some m1 ∧
      bucket_walk m1 event_kind.test_take m.time = some [] ∧
      bucket_walk m1 event_kind.test_result (m.time + m.params.test_result_wait) =
        some (xs ++ b event_kind.test_result (m.time + m.params.test_result_wait)) ∧
      xs.map (fun x => (m1.events x).individual) =
        ((b event_kind.test_take m.time).map (fun e => (m.events e).individual)).reverse ∧
      ∀ e, e ∈ b event_kind.test_take m.time → ∀ i, (m.events e).individual = some i →
        (m1.population i).quarantine_test_result =
          test_status.result (tick_test_outcome (m.population i)) ∧
        ((m1.population i).quarantine_test_result =
            test_status.result (test_outcome m (m.population i)) ↔
          ((m.population i).status = disease_status.UNINFECTED ∨
            (m.population i).status = disease_status.RECOVERED ∨
            (m.time : Int) - (time_infected (m.population i) : Int) ≥
              (m.params.test_insensititve_period : Int))) := by
  have hstart : test_take_inv m b fresh (b event_kind.test_take m.time) [] m b fresh dead [] :=
    ⟨hinv, rfl, rfl, ⟨[], rfl⟩, by simpa using hbud, by simp, by simp, by simp,
      fun _ _ => rfl, fun _ => rfl, fun e he => by simp at he⟩
  have hloop : ∃ m1, for_each_event test_take_event (b event_kind.test_take m.time).length
      ((m.lists event_kind.test_take).events m.time) m = some m1 ∧
      ∃ b1 fresh1 dead1 xs,
        test_take_inv m b fresh (b event_kind.test_take m.time)
          (b event_kind.test_take m.time) m1 b1 fresh1 dead1 xs := by
    by_cases hnil : b event_kind.test_take m.time = []
    · rw [hnil]
      rw [hnil] at hstart
      exact ⟨m, rfl, b, fresh, dead, [], hstart⟩
    · obtain ⟨m1, hrun, hI⟩ :=
        for_each_event_prefix test_take_event
          (fun done m1 => ∃ b1 fresh1 dead1 xs,
            test_take_inv m b fresh (b event_kind.test_take m.time) done m1 b1 fresh1 dead1 xs)
          (b event_kind.test_take m.time) m ⟨b, fresh, dead, [], hstart⟩
          (fun done e rest m1 hl _ h =>
            test_take_inv_step m b fresh dead _ hinv rfl hown done e rest m1 hl h)
          _ (le_refl _)
      rw [List.take_length] at hI
      rw [hinv.head _ _ hnil]
      exact ⟨m1, hrun, hI⟩
  obtain ⟨m1, hrun, b1, fresh1, dead1, xs, hI⟩ := hloop
  refine ⟨m1, xs, ?_, ?_, ?_, ?_, ?_⟩
  · unfold quarantined_test_take pass_today
    rw [hinv.count, Int.toNat_ofNat]
    exact hrun
  · rw [bucket_walk_of_inv m1 b1 _ _ hI.pool, hI.bucket, List.drop_length]
  · rw [bucket_walk_of_inv m1 b1 _ _ hI.pool, hI.result_bucket]
  · exact hI.new_owners
  · intro e he i hi
    have h1 := hI.slot e he i hi
    refine ⟨h1, ?_⟩
    rw [h1]
    unfold tick_test_outcome test_outcome
    by_cases hs : (m.population i).status = disease_status.UNINFECTED ∨
        (m.population i).status = disease_status.RECOVERED
    · rw [if_pos hs, if_pos hs]
      constructor
      · intro _
        rcases hs with hs | hs
        · exact Or.inl hs
        · exact Or.inr (Or.inl hs)
      · intro _
        rfl
    · rw [if_neg hs, if_neg hs]
      constructor
      · intro h
        simp only [test_status.result.injEq] at h
        right; right
        exact of_decide_eq_true h.symm
      · intro h
        rcases h with h | h | h
        · exact absurd (Or.inl h) hs
        · exact absurd (Or.inr h) hs
        · simp only [test_status.result.injEq]
          exact (decide_eq_true h).symm

/-- C30, amended, at a concrete model: in `test_take_example` the pass returns,
empties today's bucket, puts one event for person 0 in `test_result[7]` and
records a positive result for person 0. -/
theorem quarantined_test_take_spec_witness :
    ∃ m1 xs, quarantined_test_take test_take_example = some m1 ∧
      bucket_walk m1 event_kind.test_take 5 = some [] ∧
      bucket_walk m1 event_kind.test_result 7 = some xs ∧
      xs.map (fun x => (m1.events x).individual) = [some 0] ∧
      (m1.population 0).quarantine_test_result = test_status.result true := by
  obtain ⟨fresh, dead, hp, hlen⟩ :=
    pool_after_inv 2 [pool_op.add event_kind.test_take 0 5] (by decide) (by decide) (by decide)
  have hcount : count_adds [pool_op.add event_kind.test_take 0 5] = 1 := by decide
  obtain ⟨m1, xs, h1, h2, h3, h4, h5⟩ :=
    quarantined_test_take_spec test_take_example
      (buckets_after 2 [pool_op.add event_kind.test_take 0 5]) fresh dead
      (pool_inv_congr (pool_after 2 [pool_op.add event_kind.test_take 0 5]) test_take_example
        _ _ _ rfl rfl rfl hp)
      (by
        have : (buckets_after 2 [pool_op.add event_kind.test_take 0 5] event_kind.test_take
          test_take_example.time).length = 1 := by decide
        omega)
      (fun e he => by
        have he1 : e = 0 := by
          have : buckets_after 2 [pool_op.add event_kind.test_take 0 5] event_kind.test_take
              test_take_example.time = [0] := by decide
          rw [this] at he
          simpa using he
        subst he1
        exact ⟨0, by decide⟩)
  have hb : buckets_after 2 [pool_op.add event_kind.test_take 0 5] event_kind.test_result
      (test_take_example.time + test_take_example.params.test_result_wait) = [] := by decide
  rw [hb, List.append_nil] at h3
  have hm : (buckets_after 2 [pool_op.add event_kind.test_take 0 5] event_kind.test_take
      test_take_example.time).map (fun e => (test_take_example.events e).individual) =
      [some 0] := by decide
  rw [hm] at h4
  exact ⟨m1, xs, h1, h2, h3, h4, (h5 0 (by decide) 0 (by decide)).1⟩


/-! ## The counters of the disease lists -/

/-- C27 fails on the code: `set_up_seed_infection` draws its seeds with
replacement and never looks at the status of the person drawn.  In
`seed_example` both seeds fall on person 0: after the seeding the six counters
sum to 2 although person 1 is uninfected, and after the first tick, in which
person 0 infects person 1, they sum to 3 in a population of 2. -/
theorem seeding_counts_a_person_twice :
    (set_up_seed_infection seed_example).map (fun m =>
      (disease_n_current m, (m.population 0).status, (m.population 1).status)) =
      some (2, disease_status.PRESYMPTOMATIC, disease_status.UNINFECTED) ∧
    ((set_up_seed_infection seed_example).bind one_time_step).map (fun m =>
      (disease_n_current m, (m.params.n_total : Int), m.time)) = some (3, 2, 1) ∧
    ((set_up_seed_infection seed_example).bind one_time_step).map (fun m =>
      decide (disease_n_current m ≤ (m.params.n_total : Int))) = some false := by
  refine ⟨by decide, by decide!, by decide!⟩

/-! ## The tick driver and the parameters -/

theorem transmit_days_frame (k : event_kind) :
    ∀ (n : Nat) (m m1 : model), transmit_days k n m = some m1 → transmit_frame m m1
  | 0, m, m1, h => by
    simp only [transmit_days, Option.some.injEq] at h
    subst h
    exact transmit_frame_refl m
  | n + 1, m, m1, h => by
    rw [transmit_days] at h
    split at h
    · split at h
      · simp at h
      · rename_i m2 h2
        exact transmit_frame_trans m m2 m1 (transmit_day_frame k n m m2 h2)
          (transmit_days_frame k n m2 m1 h)
    · simp only [Option.some.injEq] at h
      subst h
      exact transmit_frame_refl m

theorem transmit_virus_frame (m m1 : model) (h : transmit_virus m = some m1) :
    transmit_frame m m1 := by
  unfold transmit_virus transmit_virus_by_type at h
  split at h
  · simp at h
  · rename_i ma ha
    split at h
    · simp at h
    · rename_i mb hb
      split at h
      · simp at h
      · rename_i mc hc
        exact transmit_frame_trans _ _ _ (transmit_days_frame _ _ _ _ ha)
          (transmit_frame_trans _ _ _ (transmit_days_frame _ _ _ _ hb)
            (transmit_frame_trans _ _ _ (transmit_days_frame _ _ _ _ hc)
              (transmit_days_frame _ _ _ _ h)))

/-- A loop over a bucket keeps the parameters and the clock when every turn
does. -/
theorem for_each_event_params (body : Nat → model → Option model)
    (hbody : ∀ e m m1, body e m = some m1 → m1.params = m.params ∧ m1.time = m.time) :
    ∀ (n : Nat) (p : Option Nat) (m m1 : model), for_each_event body n p m = some m1 →
      m1.params = m.params ∧ m1.time = m.time
  | 0, p, m, m1, h => by
    simp only [for_each_event, Option.some.injEq] at h
    subst h
    exact ⟨rfl, rfl⟩
  | n + 1, none, m, m1, h => by simp [for_each_event] at h
  | n + 1, some e, m, m1, h => by
    rw [for_each_event] at h
    split at h
    · simp at h
    · rename_i m2 h2
      obtain ⟨a1, a2⟩ := hbody e m m2 h2
      obtain ⟨c1, c2⟩ := for_each_event_params body hbody n _ m2 m1 h
      exact ⟨c1.trans a1, c2.trans a2⟩

theorem add_individual_to_event_list_params (m m1 : model) (k : event_kind)
    (indiv time e : Nat) (h : add_individual_to_event_list k indiv time m = some (e, m1)) :
    m1.params = m.params ∧ m1.time = m.time :=
  ⟨(add_individual_to_event_list_rest _ _ _ _ _ _ h).2.1,
    (add_individual_to_event_list_rest _ _ _ _ _ _ h).2.2.1⟩

theorem remove_event_from_event_list_params (m m1 : model) (k : event_kind)
    (e time : Nat) (h : remove_event_from_event_list k e m time = some m1) :
    m1.params = m.params ∧ m1.time = m.time :=
  ⟨(remove_event_from_event_list_rest _ _ _ _ _ h).2.1,
    (remove_event_from_event_list_rest _ _ _ _ _ h).2.2.1⟩

theorem symptomatic_event_params (e : Nat) (m m1 : model)
    (h : symptomatic_event e m = some m1) : m1.params = m.params ∧ m1.time = m.time := by
  unfold symptomatic_event at h
  split at h
  · simp at h
  · dsimp only at h
    split at h
    · simp at h
    · split at h
      · simp at h
      · rename_i m2 h2
        obtain ⟨a1, a2⟩ := remove_event_from_event_list_params _ _ _ _ _ h2
        split at h
        · simp at h
        · rename_i x m3 h3
          obtain ⟨c1, c2⟩ := add_individual_to_event_list_params _ _ _ _ _ _ h3
          simp only [Option.some.injEq] at h
          subst h
          exact ⟨c1.trans a1, c2.trans a2⟩

theorem quarantine_contact_params (m m1 : model) (c te : Nat)
    (h : quarantine_contact m c te = some m1) : m1.params = m.params ∧ m1.time = m.time := by
  unfold quarantine_contact at h
  split at h
  · split at h
    · split at h
      · simp at h
      · rename_i e ma ha
        obtain ⟨a1, a2⟩ := add_individual_to_event_list_params _ _ _ _ _ _ ha
        split at h
        · simp at h
        · rename_i x mb hb
          obtain ⟨c1, c2⟩ := add_individual_to_event_list_params _ _ _ _ _ _ hb
          simp only [Option.some.injEq] at h
          subst h
          exact ⟨c1.trans a1, c2.trans a2⟩
    · simp only [Option.some.injEq] at h
      subst h
      exact ⟨rfl, rfl⟩
  · simp only [Option.some.injEq] at h
    subst h
    exact ⟨rfl, rfl⟩

theorem quarantine_records_params (te : Nat) :
    ∀ (n : Nat) (p : Option Nat) (m m1 : model), quarantine_records te n p m = some m1 →
      m1.params = m.params ∧ m1.time = m.time
  | 0, p, m, m1, h => by
    simp only [quarantine_records, Option.some.injEq] at h
    subst h
    exact ⟨rfl, rfl⟩
  | n + 1, none, m, m1, h => by simp [quarantine_records] at h
  | n + 1, some r, m, m1, h => by
    rw [quarantine_records] at h
    split at h
    · simp at h
    · split at h
      · simp at h
      · rename_i m2 h2
        obtain ⟨a1, a2⟩ := quarantine_contact_params _ _ _ _ h2
        obtain ⟨c1, c2⟩ := quarantine_records_params te n _ m2 m1 h
        exact ⟨c1.trans a1, c2.trans a2⟩

theorem quarantine_days_params (indiv : Nat) :
    ∀ (n ddx : Nat) (day : Int) (m m1 : model), quarantine_days indiv n ddx day m = some m1 →
      m1.params = m.params ∧ m1.time = m.time
  | 0, ddx, day, m, m1, h => by
    simp only [quarantine_days, Option.some.injEq] at h
    subst h
    exact ⟨rfl, rfl⟩
  | n + 1, ddx, day, m, m1, h => by
    rw [quarantine_days] at h
    split at h
    · simp at h
    · split at h
      · simp at h
      · rename_i m2 h2
        have hm2 : m2.params = m.params ∧ m2.time = m.time := by
          split at h2
          · exact quarantine_records_params _ _ _ _ _ h2
          · simp only [Option.some.injEq] at h2
            subst h2
            exact ⟨rfl, rfl⟩
        obtain ⟨c1, c2⟩ := quarantine_days_params indiv n _ _ m2 m1 h
        exact ⟨c1.trans hm2.1, c2.trans hm2.2⟩

theorem hospitalised_event_params (e : Nat) (m m1 : model)
    (h : hospitalised_event e m = some m1) : m1.params = m.params ∧ m1.time = m.time := by
  unfold hospitalised_event at h
  split at h
  · simp at h
  · rename_i indiv _
    split at h
    · simp at h
    · rename_i ma ha
      have hma : ma.params = m.params ∧ ma.time = m.time := by
        unfold release_hospitalised at ha
        split at ha
        · split at ha
          · simp at ha
          · split at ha
            · simp at ha
            · rename_i mq hq
              obtain ⟨a1, a2⟩ := remove_event_from_event_list_params _ _ _ _ _ hq
              simp only [Option.some.injEq] at ha
              subst ha
              exact ⟨a1, a2⟩
        · simp only [Option.some.injEq] at ha
          subst ha
          exact ⟨rfl, rfl⟩
      split at h
      · simp at h
      · rename_i mb hb
        have hmb : mb.params = ma.params ∧ mb.time = ma.time := by
          unfold admit_hospitalised at hb
          dsimp only at hb
          split at hb
          · simp at hb
          · split at hb
            · simp at hb
            · rename_i mq hq
              obtain ⟨a1, a2⟩ := remove_event_from_event_list_params _ _ _ _ _ hq
              simp only [Option.some.injEq] at hb
              subst hb
              exact ⟨a1, a2⟩
        split at h
        · simp at h
        · rename_i mc hc
          have hmc : mc.params = mb.params ∧ mc.time = mb.time := by
            unfold schedule_outcome at hc
            dsimp only at hc
            split at hc
            · split at hc
              · simp at hc
              · rename_i x mq hq
                obtain ⟨a1, a2⟩ := add_individual_to_event_list_params _ _ _ _ _ _ hq
                simp only [Option.some.injEq] at hc
                subst hc
                exact ⟨a1, a2⟩
            · split at hc
              · simp at hc
              · rename_i x mq hq
                obtain ⟨a1, a2⟩ := add_individual_to_event_list_params _ _ _ _ _ _ hq
                simp only [Option.some.injEq] at hc
                subst hc
                exact ⟨a1, a2⟩
          obtain ⟨d1, d2⟩ := quarantine_days_params _ _ _ _ _ _ h
          exact ⟨d1.trans (hmc.1.trans (hmb.1.trans hma.1)),
            d2.trans (hmc.2.trans (hmb.2.trans hma.2))⟩

theorem recovered_event_params (e : Nat) (m m1 : model)
    (h : recovered_event e m = some m1) : m1.params = m.params ∧ m1.time = m.time := by
  unfold recovered_event at h
  split at h
  · simp at h
  · split at h
    · simp at h
    · split at h
      · simp at h
      · rename_i m2 h2
        have hm2 : m2.params = m.params ∧ m2.time = m.time := by
          split at h2
          · exact remove_event_from_event_list_params _ _ _ _ _ h2
          · exact remove_event_from_event_list_params _ _ _ _ _ h2
        simp only [Option.some.injEq] at h
        subst h
        exact hm2

theorem death_event_params (e : Nat) (m m1 : model)
    (h : death_event e m = some m1) : m1.params = m.params ∧ m1.time = m.time := by
  unfold death_event at h
  split at h
  · simp at h
  · split at h
    · simp at h
    · split at h
      · simp at h
      · rename_i m2 h2
        obtain ⟨a1, a2⟩ := remove_event_from_event_list_params _ _ _ _ _ h2
        simp only [Option.some.injEq] at h
        subst h
        exact ⟨a1, a2⟩

theorem release_event_of_params (e : Nat) (m m1 : model)
    (h : release_event_of e m = some m1) : m1.params = m.params ∧ m1.time = m.time := by
  unfold release_event_of at h
  split at h
  · simp at h
  · split at h
    · split at h
      · simp at h
      · split at h
        · simp at h
        · rename_i ma ha
          obtain ⟨a1, a2⟩ := remove_event_from_event_list_params _ _ _ _ _ ha
          split at h
          · simp at h
          · rename_i mb hb
            obtain ⟨c1, c2⟩ := remove_event_from_event_list_params _ _ _ _ _ hb
            simp only [Option.some.injEq] at h
            subst h
            exact ⟨c1.trans a1, c2.trans a2⟩
    · simp only [Option.some.injEq] at h
      subst h
      exact ⟨rfl, rfl⟩

theorem test_take_event_params (e : Nat) (m m1 : model)
    (h : test_take_event e m = some m1) : m1.params = m.params ∧ m1.time = m.time := by
  unfold test_take_event at h
  split at h
  · simp at h
  · dsimp only at h
    split at h
    · simp at h
    · rename_i x ma ha
      obtain ⟨a1, a2⟩ := add_individual_to_event_list_params _ _ _ _ _ _ ha
      obtain ⟨c1, c2⟩ := remove_event_from_event_list_params _ _ _ _ _ h
      exact ⟨c1.trans a1, c2.trans a2⟩

theorem test_result_event_params (e : Nat) (m m1 : model)
    (h : test_result_event e m = some m1) : m1.params = m.params ∧ m1.time = m.time := by
  unfold test_result_event at h
  split at h
  · simp at h
  · split at h
    · simp at h
    · rename_i m2 h2
      have hm2 : m2.params = m.params ∧ m2.time = m.time := by
        split at h2
        · split at h2
          · simp at h2
          · rename_i x ma ha
            obtain ⟨a1, a2⟩ := add_individual_to_event_list_params _ _ _ _ _ _ ha
            simp only [Option.some.injEq] at h2
            subst h2
            exact ⟨a1, a2⟩
        · split at h2
          · simp at h2
          · rename_i x ma ha
            obtain ⟨a1, a2⟩ := add_individual_to_event_list_params _ _ _ _ _ _ ha
            obtain ⟨c1, c2⟩ := quarantine_days_params _ _ _ _ _ _ h2
            exact ⟨c1.trans a1, c2.trans a2⟩
      obtain ⟨c1, c2⟩ := remove_event_from_event_list_params _ _ _ _ _ h
      exact ⟨c1.trans hm2.1, c2.trans hm2.2⟩

/-- A pass over today's bucket keeps the parameters and the clock when every turn
does. -/
theorem pass_today_params (k : event_kind) (body : Nat → model → Option model)
    (hbody : ∀ e m m1, body e m = some m1 → m1.params = m.params ∧ m1.time = m.time)
    (m m1 : model) (h : pass_today k body m = some m1) :
    m1.params = m.params ∧ m1.time = m.time :=
  for_each_event_params body hbody _ _ m m1 h

/-- A completed tick keeps every parameter and moves the clock by one day. -/
theorem one_time_step_params (m m1 : model) (h : one_time_step m = some m1) :
    m1.params = m.params ∧ m1.time = m.time + 1 := by
  unfold one_time_step at h
  dsimp only at h
  split at h
  · simp at h
  · rename_i m2 h2
    have f2 := build_daily_newtork_frame _ _ h2
    split at h
    · simp at h
    · rename_i m3 h3
      have f3 := transmit_virus_frame _ _ h3
      split at h
      · simp at h
      · rename_i m4 h4
        have f4 := pass_today_params _ _ symptomatic_event_params _ _ h4
        split at h
        · simp at h
        · rename_i m5 h5
          have f5 := pass_today_params _ _ hospitalised_event_params _ _ h5
          split at h
          · simp at h
          · rename_i m6 h6
            have f6 := pass_today_params _ _ recovered_event_params _ _ h6
            split at h
            · simp at h
            · rename_i m7 h7
              have f7 := pass_today_params _ _ death_event_params _ _ h7
              split at h
              · simp at h
              · rename_i m8 h8
                have f8 := pass_today_params _ _ test_take_event_params _ _ h8
                split at h
                · simp at h
                · rename_i m9 h9
                  have f9 := pass_today_params _ _ test_result_event_params _ _ h9
                  split at h
                  · simp at h
                  · rename_i m10 h10
                    have f10 := pass_today_params _ _ release_event_of_params _ _ h10
                    simp only [Option.some.injEq] at h
                    subst h
                    constructor
                    · show m10.params = m.params
                      rw [f10.1, f9.1, f8.1, f7.1, f6.1, f5.1, f4.1, f3.2.1, f2.1]
                      rfl
                    · show m10.time = m.time + 1
                      rw [f10.2, f9.2, f8.2, f7.2, f6.2, f5.2, f4.2, f3.1, f2.2.1]
                      rfl

/-- The flags and the configured days after `update_intervention_policy` at a day
other than 0. -/
theorem update_intervention_policy_view (m : model) (time : Int) (ht : time ≠ 0) :
    policy_view (update_intervention_policy m time) =
      ((if time = m.params.app_turn_on_time then true else m.params.app_turned_on,
        if time = m.params.lockdown_time_off then false
          else if time = m.params.lockdown_time_on then true else m.params.lockdown_on,
        if time = m.params.testing_symptoms_time_off then false
          else if time = m.params.testing_symptoms_time_on then true
          else m.params.test_on_symptoms),
        (policy_view m).2) := by
  have hA : ∀ (m : model) (c : Prop) [Decidable c],
      policy_view (if c then set_param_app_turned_on m true else m) =
        ((if c then true else m.params.app_turned_on, m.params.lockdown_on,
          m.params.test_on_symptoms), (policy_view m).2) := by
    intro m c _
    split <;> rfl
  have hL : ∀ (m : model) (c : Prop) [Decidable c] (v : Bool),
      policy_view (if c then set_param_lockdown_on m v else m) =
        ((m.params.app_turned_on, if c then v else m.params.lockdown_on,
          m.params.test_on_symptoms), (policy_view m).2) := by
    intro m c _ v
    split <;> rfl
  have hT : ∀ (m : model) (c : Prop) [Decidable c] (v : Bool),
      policy_view (if c then set_param_test_on_symptoms m v else m) =
        ((m.params.app_turned_on, m.params.lockdown_on,
          if c then v else m.params.test_on_symptoms), (policy_view m).2) := by
    intro m c _ v
    split <;> rfl
  unfold update_intervention_policy
  simp only [if_neg ht]
  generalize hm1 : (if time = m.params.app_turn_on_time then set_param_app_turned_on m true
    else m) = m1
  have v1 := hA m (time = m.params.app_turn_on_time)
  rw [hm1] at v1
  generalize hm2 : (if time = m1.params.lockdown_time_on then set_param_lockdown_on m1 true
    else m1) = m2
  have v2 := hL m1 (time = m1.params.lockdown_time_on) true
  rw [hm2] at v2
  generalize hm3 : (if time = m2.params.lockdown_time_off then set_param_lockdown_on m2 false
    else m2) = m3
  have v3 := hL m2 (time = m2.params.lockdown_time_off) false
  rw [hm3] at v3
  generalize hm4 : (if time = m3.params.testing_symptoms_time_on then
    set_param_test_on_symptoms m3 true else m3) = m4
  have v4 := hT m3 (time = m3.params.testing_symptoms_time_on) true
  rw [hm4] at v4
  rw [hT m4 (time = m4.params.testing_symptoms_time_off) false]
  simp only [policy_view, Prod.mk.injEq] at v1 v2 v3 v4 ⊢
  obtain ⟨⟨a1, a2, a3⟩, a4, a5, a6, a7, a8⟩ := v1
  obtain ⟨⟨b1, b2, b3⟩, b4, b5, b6, b7, b8⟩ := v2
  obtain ⟨⟨c1, c2, c3⟩, c4, c5, c6, c7, c8⟩ := v3
  obtain ⟨⟨d1, d2, d3⟩, d4, d5, d6, d7, d8⟩ := v4
  refine ⟨⟨?_, ?_, ?_⟩, ?_, ?_, ?_, ?_, ?_⟩
  · rw [d1, c1, b1, a1]
  · rw [d2, c2, b2, a2, b6, a6, a5]
  · rw [d8, c8, b8, a8, d3, c3, b3, a3, c7, b7, a7]
  · rw [d4, c4, b4, a4]
  · rw [d5, c5, b5, a5]
  · rw [d6, c6, b6, a6]
  · rw [d7, c7, b7, a7]
  · rw [d8, c8, b8, a8]

/-- C28 as stated fails: in `policy_example` the app, the lockdown and the
testing on symptoms are configured to start on day 1; the tick that moves the
clock to day 1 leaves the three flags off, while `update_intervention_policy` at
day 1 sets them. -/
theorem one_time_step_without_policy_update :
    (one_time_step policy_example).map (fun m =>
      (m.time, m.params.app_turned_on, m.params.lockdown_on)) = some (1, false, false) ∧
    (one_time_step policy_example).map (fun m => m.params.test_on_symptoms) = some false ∧
    ((update_intervention_policy policy_example 1).params.app_turned_on,
      (update_intervention_policy policy_example 1).params.lockdown_on,
      (update_intervention_policy policy_example 1).params.test_on_symptoms) =
      (true, true, true) := by
  refine ⟨by decide, by decide, by decide⟩

/-- C28, amended: a completed `one_time_step` moves the clock by one day and
changes no parameter, so every policy flag keeps the value it had before the
tick; the flags take their configured values only in a call of
`update_intervention_policy`: at a day other than 0 it turns the app on at
`app_turn_on_time` and leaves it alone otherwise, it turns the lockdown off at
`lockdown_time_off`, else on at `lockdown_time_on`, and it turns the testing on
symptoms off at `testing_symptoms_time_off`, else on at
`testing_symptoms_time_on`. -/
theorem one_time_step_keeps_policy (m m1 : model) (time : Int)
    (h : one_time_step m = some m1) (ht : time ≠ 0) :
    m1.time = m.time + 1 ∧ m1.params = m.params ∧
    (update_intervention_policy m time).params.app_turned_on =
      (if time = m.params.app_turn_on_time then true else m.params.app_turned_on) ∧
    (update_intervention_policy m time).params.lockdown_on =
      (if time = m.params.lockdown_time_off then false
        else if time = m.params.lockdown_time_on then true else m.params.lockdown_on) ∧
    (update_intervention_policy m time).params.test_on_symptoms =
      (if time = m.params.testing_symptoms_time_off then false
        else if time = m.params.testing_symptoms_time_on then true
        else m.params.test_on_symptoms) := by
  obtain ⟨h1, h2⟩ := one_time_step_params m m1 h
  have hv := update_intervention_policy_view m time ht
  simp only [policy_view, Prod.mk.injEq] at hv
  obtain ⟨⟨a1, a2, a3⟩, _⟩ := hv
  exact ⟨h2, h1, a1, a2, a3⟩

/-- C28, amended, at a concrete model: the tick of `policy_example` returns at
day 1 with the parameters it started with. -/
theorem one_time_step_keeps_policy_witness :
    ∃ m1, one_time_step policy_example = some m1 ∧ m1.time = policy_example.time + 1 ∧
      m1.params = policy_example.params := by
  have hsome : (one_time_step policy_example).isSome = true := by decide
  obtain ⟨m1, h⟩ := Option.isSome_iff_exists.mp hsome
  obtain ⟨h1, h2, _⟩ := one_time_step_keeps_policy policy_example m1 1 h (by decide)
  exact ⟨m1, h, h1, h2⟩

/-! ## The seeding of the infection -/

/-- C34 fails on the code: `set_up_seed_infection` draws every seed with
`gsl_rng_uniform_int` and calls `new_infection` on it without looking at its
status.  In `seed_example` both draws give person 0: after the seeding one
individual, not `n_seed_infection = 2`, has left `UNINFECTED`, and it is held by
two events of the presymptomatic bucket of day 0. -/
theorem set_up_seed_infection_repeats :
    (set_up_seed_infection seed_example).map (fun m =>
      (n_infected m, m.params.n_seed_infection,
        bucket_individuals m event_kind.presymptomatic 0)) =
      some (1, 2, some [some 0, some 0]) := by
  decide!

/-! ## The running counts of the event lists -/

/-- C35 fails on the code: `one_time_step` applies `update_event_list_counters`
to every list but `quarantine_release` and `release_from_quarantine` removes
the release events from that list, which decrements its `n_current`.  In
`release_example` every count is as the code leaves it, the tick releases person
0 and the count of the release list ends at -1. -/
theorem one_time_step_negative_n_current :
    all_n_current release_example = [0, 0, 0, 0, 0, 0, 1, 0, 0, 0] ∧
    (one_time_step release_example).map (fun m =>
      (all_n_current m, m.time, (m.population 0).quarantined)) =
      some ([0, 0, 0, 0, 0, 0, 0, -1, 0, 0], 2, false) := by
  refine ⟨by decide, by decide!⟩

/-! ## The records that `quarantine_contacts` considers -/

theorem quarantine_contact_interactions (m m1 : model) (c te : Nat)
    (h : quarantine_contact m c te = some m1) : m1.interactions = m.interactions := by
  unfold quarantine_contact at h
  split at h
  · split at h
    · split at h
      · simp at h
      · rename_i e ma ha
        have a1 := (add_individual_to_event_list_rest _ _ _ _ _ _ ha).2.2.2.2.2.1
        split at h
        · simp at h
        · rename_i x mb hb
          have c1 := (add_individual_to_event_list_rest _ _ _ _ _ _ hb).2.2.2.2.2.1
          simp only [Option.some.injEq] at h
          subst h
          exact c1.trans a1
    · simp only [Option.some.injEq] at h
      subst h
      rfl
  · simp only [Option.some.injEq] at h
    subst h
    rfl

theorem quarantine_records_eq_list (te : Nat) :
    ∀ (k : Nat) (head : Option Nat) (m : model) (l : List Nat),
      interaction_walk m.interactions k head = some l →
      quarantine_records te k head m = quarantine_list te l m
  | 0, _, m, l, h => by
    simp only [interaction_walk, Option.some.injEq] at h
    subst h
    rfl
  | k + 1, none, m, l, h => by simp [interaction_walk] at h
  | k + 1, some r, m, l, h => by
    simp only [interaction_walk] at h
    split at h
    · simp at h
    · rename_i rest hrest
      simp only [Option.some.injEq] at h
      subst h
      simp only [quarantine_records, quarantine_list]
      cases hc : (m.interactions r).individual with
      | none => rfl
      | some c =>
        dsimp only
        cases hq : quarantine_contact m c te with
        | none => rfl
        | some m1 =>
          dsimp only
          have hi := quarantine_contact_interactions m m1 c te hq
          exact quarantine_records_eq_list te k _ m1 rest (by rw [hi]; exact hrest)

theorem interaction_walk_length (mem : Nat → interaction) :
    ∀ (k : Nat) (head : Option Nat) (l : List Nat),
      interaction_walk mem k head = some l → l.length = k
  | 0, _, l, h => by
    simp only [interaction_walk, Option.some.injEq] at h
    subst h
    rfl
  | k + 1, none, l, h => by simp [interaction_walk] at h
  | k + 1, some r, l, h => by
    simp only [interaction_walk] at h
    split at h
    · simp at h
    · rename_i rest hrest
      simp only [Option.some.injEq] at h
      subst h
      simp [interaction_walk_length mem k _ rest hrest]

theorem interaction_walk_dropLast (mem : Nat → interaction) :
    ∀ (k : Nat) (head : Option Nat) (l : List Nat),
      interaction_walk mem (k + 1) head = some l →
      interaction_walk mem k head = some l.dropLast
  | k, none, l, h => by simp [interaction_walk] at h
  | 0, some r, l, h => by
    simp only [interaction_walk, Option.some.injEq] at h
    subst h
    rfl
  | k + 1, some r, l, h => by
    rw [interaction_walk] at h
    split at h
    · simp at h
    · rename_i rest hrest
      simp only [Option.some.injEq] at h
      subst h
      have ih := interaction_walk_dropLast mem k _ rest hrest
      have hlen := interaction_walk_length mem _ _ rest hrest
      rw [interaction_walk, ih]
      cases rest with
      | nil => simp at hlen
      | cons a as => rfl

/-- C31 as stated fails: in `hospital_example` the day list of person 0 holds
the records of the contacts 1 and 2, in this order; `quarantine_contacts`
quarantines person 1, the contact of the first record, and leaves person 2,
the contact of the second and last record, alone. -/
theorem quarantine_contacts_takes_first_record :
    contacts hospital_example 0 0 = some [some 1, some 2] ∧
    (quarantine_contacts hospital_example 0).map (fun m =>
      ((m.population 1).quarantined, (m.population 2).quarantined,
        (m.population 2).quarantine_event)) = some (true, false, none) := by
  refine ⟨by decide, by decide!⟩

/-- C31, amended: for a day slot in which the individual has `n >= 1` records,
the loop of `quarantine_contacts` that starts at `idx = 1` runs its body on
exactly the first `n - 1` records of the day list, in list order, starting with
the head of the list; the last record is the one it leaves out. -/
theorem quarantine_contacts_skips_last (m : model) (indiv day te : Nat) (l : List Nat)
    (hn : 1 ≤ (m.population indiv).n_interactions day)
    (hw : interaction_walk m.interactions ((m.population indiv).n_interactions day)
      ((m.population indiv).interactions day) = some l) :
    quarantine_records te ((m.population indiv).n_interactions day - 1)
        ((m.population indiv).interactions day) m = quarantine_list te l.dropLast m ∧
      l.dropLast = l.take ((m.population indiv).n_interactions day - 1) ∧
      l.length = (m.population indiv).n_interactions day ∧
      l.head? = (m.population indiv).interactions day := by
  obtain ⟨k, hk⟩ : ∃ k, (m.population indiv).n_interactions day = k + 1 :=
    ⟨(m.population indiv).n_interactions day - 1, by omega⟩
  rw [hk] at hw ⊢
  have hlen := interaction_walk_length _ _ _ l hw
  refine ⟨?_, ?_, hlen, ?_⟩
  · exact quarantine_records_eq_list te k _ m _ (interaction_walk_dropLast _ _ _ l hw)
  · rw [List.dropLast_eq_take, hlen]
  · cases hh : (m.population indiv).interactions day with
    | none => rw [hh] at hw; simp [interaction_walk] at hw
    | some r =>
      rw [hh, interaction_walk] at hw
      split at hw
      · simp at hw
      · simp only [Option.some.injEq] at hw
        subst hw
        rfl

theorem quarantine_contacts_skips_last_witness :
    1 ≤ (hospital_example.population 0).n_interactions 0 ∧
    quarantine_records 2 ((hospital_example.population 0).n_interactions 0 - 1)
        ((hospital_example.population 0).interactions 0) hospital_example =
      quarantine_list 2 [0, 1].dropLast hospital_example :=
  ⟨by decide, (quarantine_contacts_skips_last hospital_example 0 0 2 [0, 1] (by decide)
    (by decide)).1⟩

/-! ## The tracing cascade -/

theorem intervention_on_traced_succ (fuel : Nat) (m : model) (indiv : Nat) (t : Int)
    (level tok : Nat) :
    intervention_on_traced (fuel + 1) m indiv t level tok =
      on_traced_step (intervention_on_traced fuel) m indiv t level tok := by
  rw [intervention_on_traced]
  rfl

theorem notify_contact_rel (R : model → model → Prop) (hR : cascade_rel R)
    (on_traced : model → Nat → Option model)
    (hc : ∀ m c m1, on_traced m c = some m1 → R m m1)
    (m m1 : model) (r c : Nat) (h : notify_contact on_traced m r c = some m1) : R m m1 := by
  unfold notify_contact at h
  split at h
  · dsimp only at h
    by_cases hn : (m.interactions r).traceable = none
    · rw [if_pos hn] at h
      have hd := hR.draw m r hn
      split at h
      · exact hR.trans _ _ _ hd (hc _ _ _ h)
      · simp only [Option.some.injEq] at h
        subst h
        exact hd
    · rw [if_neg hn] at h
      split at h
      · exact hc _ _ _ h
      · simp only [Option.some.injEq] at h
        subst h
        exact hR.refl _
  · simp only [Option.some.injEq] at h
    subst h
    exact hR.refl _

theorem notify_records_rel (R : model → model → Prop) (hR : cascade_rel R)
    (on_traced : model → Nat → Option model)
    (hc : ∀ m c m1, on_traced m c = some m1 → R m m1) :
    ∀ (n : Nat) (head : Option Nat) (m m1 : model),
      notify_records on_traced n head m = some m1 → R m m1
  | 0, _, m, m1, h => by
    simp only [notify_records, Option.some.injEq] at h
    subst h
    exact hR.refl _
  | n + 1, none, m, m1, h => by simp [notify_records] at h
  | n + 1, some r, m, m1, h => by
    simp only [notify_records] at h
    split at h
    · simp at h
    · split at h
      · simp at h
      · rename_i c _ m2 h2
        exact hR.trans _ _ _ (notify_contact_rel R hR on_traced hc m m2 r _ h2)
          (notify_records_rel R hR on_traced hc n _ m2 m1 h)

theorem notify_days_rel (R : model → model → Prop) (hR : cascade_rel R)
    (on_traced : model → Nat → Int → Option model) (indiv : Nat)
    (hc : ∀ m c t m1, on_traced m c t = some m1 → R m m1) :
    ∀ (n : Nat) (day : Int) (m m1 : model),
      notify_days on_traced indiv n day m = some m1 → R m m1
  | 0, _, m, m1, h => by
    simp only [notify_days, Option.some.injEq] at h
    subst h
    exact hR.refl _
  | n + 1, day, m, m1, h => by
    simp only [notify_days] at h
    split at h
    · simp at h
    · split at h
      · simp at h
      · rename_i m2 h2
        exact hR.trans _ _ _
          (notify_records_rel R hR _ (fun ma c mb hab => hc ma c _ mb hab) _ _ m m2 h2)
          (notify_days_rel R hR on_traced indiv hc n _ m2 m1 h)

theorem intervention_notify_contacts_rel (R : model → model → Prop) (hR : cascade_rel R)
    (on_traced : model → Nat → Int → Option model)
    (hc : ∀ m c t m1, on_traced m c t = some m1 → R m m1)
    (m m1 : model) (indiv : Nat)
    (h : intervention_notify_contacts on_traced m indiv = some m1) : R m m1 := by
  unfold intervention_notify_contacts at h
  split at h
  · simp only [Option.some.injEq] at h
    subst h
    exact hR.refl _
  · exact notify_days_rel R hR on_traced indiv hc _ _ m m1 h

theorem quarantine_members_rel (R : model → model → Prop) (hR : cascade_rel R)
    (notify : model → Nat → Option model)
    (hc : ∀ m c m1, notify m c = some m1 → R m m1)
    (members : Nat → Nat) (indiv time_event : Nat) (contact_trace : Bool) :
    ∀ (n idx : Nat) (m m1 : model),
      quarantine_members notify members indiv time_event contact_trace n idx m = some m1 →
      R m m1
  | 0, _, m, m1, h => by
    simp only [quarantine_members, Option.some.injEq] at h
    subst h
    exact hR.refl _
  | n + 1, idx, m, m1, h => by
    simp only [quarantine_members] at h
    split at h
    · split at h
      · simp at h
      · rename_i ma ha
        split at h
        · simp at h
        · rename_i mb hb
          have h1 := hR.quarantine _ _ _ _ _ ha
          have h2 : R ma mb := by
            split at hb
            · exact hc _ _ _ hb
            · simp only [Option.some.injEq] at hb
              subst hb
              exact hR.refl _
          exact hR.trans _ _ _ (hR.trans _ _ _ h1 h2)
            (quarantine_members_rel R hR notify hc members indiv time_event contact_trace n _
              mb m1 h)
    · exact quarantine_members_rel R hR notify hc members indiv time_event contact_trace n _
        m m1 h

theorem intervention_quarantine_household_rel (R : model → model → Prop)
    (hR : cascade_rel R) (notify : model → Nat → Option model)
    (hc : ∀ m c m1, notify m c = some m1 → R m m1)
    (m m1 : model) (indiv : Nat) (time : Option Nat) (contact_trace : Bool)
    (h : intervention_quarantine_household notify m indiv time contact_trace = some m1) :
    R m m1 := by
  unfold intervention_quarantine_household at h
  dsimp only at h
  split at h
  · exact quarantine_members_rel R hR notify hc _ _ _ _ _ _ m m1 h
  · exact hR.trans _ _ _ (hR.sample m)
      (quarantine_members_rel R hR notify hc _ _ _ _ _ _ _ m1 h)

theorem traced_quarantine_rel (R : model → model → Prop) (hR : cascade_rel R)
    (self : model → Nat → Int → Nat → Nat → Option model)
    (hs : ∀ m c t lv tok m1, self m c t lv tok = some m1 → R m m1)
    (m : model) (indiv tok : Nat) (m1 : model)
    (h : traced_quarantine self m indiv tok = some m1) : R m m1 := by
  unfold traced_quarantine at h
  split at h
  · split at h
    · simp at h
    · rename_i mq hq
      have hq1 := hR.trans _ _ _ (hR.sample m) (hR.quarantine _ _ _ _ _ hq)
      split at h
      · exact hR.trans _ _ _ hq1
          (intervention_quarantine_household_rel R hR _
            (fun mx c my hxy => intervention_notify_contacts_rel R hR _
              (fun mu cu tu mv huv => hs mu cu tu _ _ mv huv) mx my c hxy) _ _ _ _ _ h)
      · simp only [Option.some.injEq] at h
        subst h
        exact hq1
  · simp only [Option.some.injEq] at h
    subst h
    exact hR.refl _

theorem traced_test_rel (R : model → model → Prop) (hR : cascade_rel R)
    (m : model) (indiv : Nat) (t : Int) (m1 : model)
    (h : traced_test m indiv t = some m1) : R m m1 := by
  unfold traced_test at h
  split at h
  · exact hR.order _ _ _ _ h
  · simp only [Option.some.injEq] at h
    subst h
    exact hR.refl _

/-- One run of the body of `intervention_on_traced` keeps a relation that the
steps of the cascade and the calls handed to `self` keep. -/
theorem on_traced_step_rel (R : model → model → Prop) (hR : cascade_rel R)
    (self : model → Nat → Int → Nat → Nat → Option model)
    (hs : ∀ m c t lv tok m1, self m c t lv tok = some m1 → R m m1)
    (m : model) (indiv : Nat) (t : Int) (level tok : Nat) (m1 : model)
    (h : on_traced_step self m indiv t level tok = some m1) : R m m1 := by
  unfold on_traced_step at h
  split at h
  · simp only [Option.some.injEq] at h
    subst h
    exact hR.refl _
  · split at h
    · simp at h
    · rename_i ma ha
      have h1 := traced_quarantine_rel R hR self hs _ _ _ _ ha
      split at h
      · simp at h
      · rename_i mb hb
        have h2 := traced_test_rel R hR _ _ _ _ hb
        split at h
        · exact hR.trans _ _ _ (hR.trans _ _ _ h1 h2)
            (intervention_notify_contacts_rel R hR _
              (fun mu cu tu mv huv => hs mu cu tu _ _ mv huv) _ _ _ h)
        · simp only [Option.some.injEq] at h
          subst h
          exact hR.trans _ _ _ h1 h2

/-- A completed `intervention_on_traced` keeps every relation that the steps of
the cascade keep. -/
theorem intervention_on_traced_rel (R : model → model → Prop) (hR : cascade_rel R) :
    ∀ (fuel : Nat) (m : model) (indiv : Nat) (t : Int) (level tok : Nat) (m1 : model),
      intervention_on_traced fuel m indiv t level tok = some m1 → R m m1
  | 0, m, indiv, t, level, tok, m1, h => by simp [intervention_on_traced] at h
  | fuel + 1, m, indiv, t, level, tok, m1, h => by
    rw [intervention_on_traced_succ] at h
    exact on_traced_step_rel R hR _
      (fun ma c tc lv tk mb hab => intervention_on_traced_rel R hR fuel ma c tc lv tk mb hab)
      m indiv t level tok m1 h

theorem traced_fields_only_refl (a : individual) : traced_fields_only a a :=
  ⟨rfl, fun _ => rfl⟩

theorem traced_fields_only_trans (a a1 a2 : individual)
    (h : traced_fields_only a a1) (h1 : traced_fields_only a1 a2) :
    traced_fields_only a a2 := by
  obtain ⟨e, s⟩ := h
  obtain ⟨e1, s1⟩ := h1
  refine ⟨?_, fun hn => ?_⟩
  · rw [e1, e]
  · have h2 := s hn
    rw [s1 (by rw [h2]; exact hn), h2]

theorem record_kept_refl (r : interaction) : record_kept r r :=
  ⟨rfl, rfl, fun _ h => h⟩

theorem record_kept_trans (r r1 r2 : interaction) (h : record_kept r r1)
    (h1 : record_kept r1 r2) : record_kept r r2 :=
  ⟨h1.1.trans h.1, h1.2.1.trans h.2.1, fun v hv => h1.2.2 v (h.2.2 v hv)⟩

theorem cascade_frame_refl (m : model) : cascade_frame m m :=
  ⟨rfl, rfl, rfl, rfl, fun _ => record_kept_refl _, fun _ => traced_fields_only_refl _⟩

theorem cascade_frame_trans (a b c : model) (h : cascade_frame a b)
    (h1 : cascade_frame b c) : cascade_frame a c := by
  obtain ⟨p, t, g, d, r, q⟩ := h
  obtain ⟨p1, t1, g1, d1, r1, q1⟩ := h1
  exact ⟨p1.trans p, t1.trans t, g1.trans g, d1.trans d,
    fun x => record_kept_trans _ _ _ (r x) (r1 x),
    fun x => traced_fields_only_trans _ _ _ (q x) (q1 x)⟩

/-- A step that writes one individual, within the fields of the cascade, and
nothing else but the event pool, the lists and the draw counter. -/
theorem cascade_frame_update (m m1 : model) (i : Nat) (x : individual)
    (hp : m1.params = m.params) (ht : m1.time = m.time) (hg : m1.rng = m.rng)
    (hd : m1.interaction_day_idx = m.interaction_day_idx)
    (hi : m1.interactions = m.interactions)
    (hpop : m1.population = Function.update m.population i x)
    (hx : traced_fields_only (m.population i) x) : cascade_frame m m1 := by
  refine ⟨hp, ht, hg, hd, fun r => by rw [hi]; exact record_kept_refl _, fun p => ?_⟩
  rw [hpop]
  by_cases hpi : p = i
  · subst hpi
    rw [Function.update_same]
    exact hx
  · rw [Function.update_noteq hpi]
    exact traced_fields_only_refl _

theorem cascade_frame_same (m m1 : model)
    (hp : m1.params = m.params) (ht : m1.time = m.time) (hg : m1.rng = m.rng)
    (hd : m1.interaction_day_idx = m.interaction_day_idx)
    (hi : m1.interactions = m.interactions)
    (hpop : m1.population = m.population) : cascade_frame m m1 :=
  ⟨hp, ht, hg, hd, fun r => by rw [hi]; exact record_kept_refl _,
    fun p => by rw [hpop]; exact traced_fields_only_refl _⟩

theorem add_individual_to_event_list_typed_rest (m m1 : model) (k : event_kind)
    (i t e : Nat) (h : add_individual_to_event_list_typed k i t m = some (e, m1)) :
    m1.population = m.population ∧ m1.params = m.params ∧ m1.time = m.time ∧
    m1.rng = m.rng ∧ m1.rng_calls = m.rng_calls ∧ m1.interactions = m.interactions ∧
    m1.interaction_day_idx = m.interaction_day_idx := by
  unfold add_individual_to_event_list_typed at h
  split at h
  · simp at h
  · rename_i e0 m0 h0
    simp only [Option.some.injEq, Prod.mk.injEq] at h
    obtain ⟨_, rfl⟩ := h
    exact add_individual_to_event_list_rest m m0 _ _ _ _ h0

theorem add_typed_frame (m m1 : model) (k : event_kind) (i t e : Nat)
    (h : add_individual_to_event_list_typed k i t m = some (e, m1)) : cascade_frame m m1 := by
  obtain ⟨a, b, c, d, _, f, g⟩ := add_individual_to_event_list_typed_rest _ _ _ _ _ _ h
  exact cascade_frame_same m m1 b c d g f a

theorem remove_typed_frame (m m1 : model) (e : Nat)
    (h : remove_event_from_event_list_typed e m = some m1) : cascade_frame m m1 := by
  obtain ⟨a, b, c, d, _, f, g, _⟩ := remove_event_from_event_list_rest _ _ _ _ _ h
  exact cascade_frame_same m m1 b c d g f a

theorem quarantine_start_frame (m m1 : model) (i : Nat)
    (h : quarantine_start m i = some m1) : cascade_frame m m1 := by
  unfold quarantine_start at h
  split at h
  · split at h
    · simp at h
    · rename_i e ma ha
      simp only [Option.some.injEq] at h
      subst h
      refine cascade_frame_trans _ _ _ (add_typed_frame _ _ _ _ _ _ ha)
        (cascade_frame_update _ _ i _ rfl rfl rfl rfl rfl rfl ?_)
      refine ⟨?_, fun _ => ?_⟩ <;> simp [set_quarantine_status]
  · simp only [Option.some.injEq] at h
    subst h
    exact cascade_frame_refl _

theorem schedule_release_frame (m m1 : model) (i t : Nat)
    (h : schedule_release m i t = some m1) : cascade_frame m m1 := by
  unfold schedule_release at h
  split at h
  · simp at h
  · rename_i e ma ha
    simp only [Option.some.injEq] at h
    subst h
    exact cascade_frame_trans _ _ _ (add_typed_frame _ _ _ _ _ _ ha)
      (cascade_frame_update _ _ i _ rfl rfl rfl rfl rfl rfl ⟨rfl, fun _ => rfl⟩)

theorem reschedule_release_frame (m m1 : model) (i t : Nat) (maxof : Bool)
    (h : reschedule_release m i t maxof = some m1) : cascade_frame m m1 := by
  unfold reschedule_release at h
  split at h
  · exact schedule_release_frame _ _ _ _ h
  · split at h
    · simp only [Option.some.injEq] at h
      subst h
      exact cascade_frame_refl _
    · split at h
      · simp at h
      · rename_i mr hr
        exact cascade_frame_trans _ _ _ (remove_typed_frame _ _ _ hr)
          (schedule_release_frame _ _ _ _ h)

theorem intervention_quarantine_until_frame (m m1 : model) (i t : Nat) (maxof : Bool)
    (h : intervention_quarantine_until m i t maxof = some m1) : cascade_frame m m1 := by
  unfold intervention_quarantine_until at h
  split at h
  · simp only [Option.some.injEq] at h
    subst h
    exact cascade_frame_refl _
  · split at h
    · simp at h
    · rename_i ma ha
      exact cascade_frame_trans _ _ _ (quarantine_start_frame _ _ _ ha)
        (reschedule_release_frame _ _ _ _ _ h)

theorem intervention_test_order_frame (m m1 : model) (i t : Nat)
    (h : intervention_test_order m i t = some m1) : cascade_frame m m1 := by
  unfold intervention_test_order at h
  split at h
  · rename_i hc
    split at h
    · simp at h
    · rename_i e ma ha
      simp only [Option.some.injEq] at h
      subst h
      have hpa := (add_individual_to_event_list_typed_rest _ _ _ _ _ _ ha).1
      refine cascade_frame_trans _ _ _ (add_typed_frame _ _ _ _ _ _ ha)
        (cascade_frame_update _ _ i _ rfl rfl rfl rfl rfl rfl ⟨rfl, fun hn => ?_⟩)
      rw [hpa] at hn
      exact absurd hc.1 hn
  · simp only [Option.some.injEq] at h
    subst h
    exact cascade_frame_refl _

theorem set_traceable_kept (mem : Nat → interaction) (r : Nat) (v : Option Bool)
    (hn : (mem r).traceable = none) (q : Nat) :
    record_kept (mem q) (set_traceable mem r v q) := by
  unfold set_traceable
  by_cases hq : q = r
  · subst hq
    rw [if_pos rfl]
    refine ⟨rfl, rfl, fun w hw => ?_⟩
    rw [hn] at hw
    cases hw
  · rw [if_neg hq]
    exact record_kept_refl _

/-- The frame of the cascade holds across each of its steps. -/
theorem cascade_frame_rel : cascade_rel cascade_frame :=
  { refl := cascade_frame_refl
    trans := cascade_frame_trans
    quarantine := fun m i t maxof m1 h => intervention_quarantine_until_frame m m1 i t maxof h
    order := fun m i t m1 h => intervention_test_order_frame m m1 i t h
    sample := fun m => cascade_frame_same m _ rfl rfl rfl rfl rfl rfl
    draw := fun m r hn =>
      ⟨rfl, rfl, rfl, rfl, fun q => set_traceable_kept m.interactions r _ hn q,
        fun _ => traced_fields_only_refl _⟩ }

theorem notify_contact_congr (p : parameters) (f g : model → Nat → Option model)
    (hfg : ∀ m c, m.params = p → f m c = g m c) (m : model) (r c : Nat)
    (hm : m.params = p) : notify_contact f m r c = notify_contact g m r c := by
  unfold notify_contact
  split
  · dsimp only
    by_cases hn : (m.interactions r).traceable = none
    · simp only [if_pos hn]
      split
      · exact hfg _ _ hm
      · rfl
    · simp only [if_neg hn]
      split
      · exact hfg _ _ hm
      · rfl
  · rfl

theorem notify_records_congr (p : parameters) (f g : model → Nat → Option model)
    (hfg : ∀ m c, m.params = p → f m c = g m c)
    (hg : ∀ m c m1, g m c = some m1 → cascade_frame m m1) :
    ∀ (n : Nat) (head : Option Nat) (m : model), m.params = p →
      notify_records f n head m = notify_records g n head m
  | 0, _, m, _ => rfl
  | n + 1, none, m, _ => rfl
  | n + 1, some r, m, hm => by
    simp only [notify_records]
    cases hc : (m.interactions r).individual with
    | none => rfl
    | some c =>
      dsimp only
      rw [notify_contact_congr p f g hfg m r c hm]
      cases hq : notify_contact g m r c with
      | none => rfl
      | some m1 =>
        dsimp only
        have hp1 := (notify_contact_rel cascade_frame cascade_frame_rel g hg m m1 r c hq).1
        exact notify_records_congr p f g hfg hg n _ m1 (hp1.trans hm)

theorem notify_days_congr (p : parameters) (f g : model → Nat → Int → Option model)
    (indiv : Nat) (hfg : ∀ m c t, m.params = p → f m c t = g m c t)
    (hg : ∀ m c t m1, g m c t = some m1 → cascade_frame m m1) :
    ∀ (n : Nat) (day : Int) (m : model), m.params = p →
      notify_days f indiv n day m = notify_days g indiv n day m
  | 0, _, m, _ => rfl
  | n + 1, day, m, hm => by
    simp only [notify_days]
    split
    · rfl
    · rw [notify_records_congr p _ _ (fun ma c hma => hfg ma c _ hma)
        (fun ma c mb hab => hg ma c _ mb hab) _ _ m hm]
      cases hq : notify_records (fun m1 c => g m1 c ((m.time : Int) - (n : Int)))
          ((m.population indiv).n_interactions day.toNat)
          ((m.population indiv).interactions day.toNat) m with
      | none => rfl
      | some m1 =>
        dsimp only
        have hp1 := (notify_records_rel cascade_frame cascade_frame_rel _
          (fun ma c mb hab => hg ma c _ mb hab) _ _ m m1 hq).1
        exact notify_days_congr p f g indiv hfg hg n _ m1 (hp1.trans hm)

/-- Two callees that agree on every model with the parameters `p` give the same
`intervention_notify_contacts` on such a model. -/
theorem intervention_notify_contacts_congr (p : parameters)
    (f g : model → Nat → Int → Option model)
    (hfg : ∀ m c t, m.params = p → f m c t = g m c t)
    (hg : ∀ m c t m1, g m c t = some m1 → cascade_frame m m1)
    (m : model) (indiv : Nat) (hm : m.params = p) :
    intervention_notify_contacts f m indiv = intervention_notify_contacts g m indiv := by
  unfold intervention_notify_contacts
  split
  · rfl
  · exact notify_days_congr p f g indiv hfg hg _ _ m hm

theorem quarantine_members_no_trace (n1 n2 : model → Nat → Option model)
    (members : Nat → Nat) (indiv time_event : Nat) :
    ∀ (n idx : Nat) (m : model),
      quarantine_members n1 members indiv time_event false n idx m =
        quarantine_members n2 members indiv time_event false n idx m
  | 0, _, m => rfl
  | n + 1, idx, m => by
    simp only [quarantine_members, Bool.false_eq_true, false_and, if_false]
    split
    · cases hq : intervention_quarantine_until m (members idx) time_event true with
      | none => rfl
      | some m1 =>
        dsimp only
        exact quarantine_members_no_trace n1 n2 members indiv time_event n _ m1
    · exact quarantine_members_no_trace n1 n2 members indiv time_event n _ m

/-- Without `contact_trace`, `intervention_quarantine_household` notifies nobody:
its result does not depend on the notification. -/
theorem intervention_quarantine_household_no_trace (n1 n2 : model → Nat → Option model)
    (m : model) (indiv : Nat) (time : Option Nat) :
    intervention_quarantine_household n1 m indiv time false =
      intervention_quarantine_household n2 m indiv time false := by
  unfold intervention_quarantine_household
  dsimp only
  split
  · exact quarantine_members_no_trace n1 n2 _ _ _ _ _ _
  · exact quarantine_members_no_trace n1 n2 _ _ _ _ _ _

theorem traced_quarantine_congr (s1 s2 : model → Nat → Int → Nat → Nat → Option model)
    (m : model) (indiv tok1 tok2 : Nat) :
    traced_quarantine s1 m indiv tok1 = traced_quarantine s2 m indiv tok2 := by
  unfold traced_quarantine
  split
  · cases hq : intervention_quarantine_until (sample_transition_time m).2 indiv
        (m.time + (sample_transition_time m).1) true with
    | none => rfl
    | some m1 =>
      dsimp only
      split
      · exact intervention_quarantine_household_no_trace _ _ _ _ _
      · rfl
  · rfl

/-- The body of `intervention_on_traced` gives the same result for two callees
and two tokens when the callees, with their tokens, agree one level down on the
models with the parameters `p`; they are not called at all from a level that is
not below `tracing_network_depth`. -/
theorem on_traced_step_congr (p : parameters)
    (s1 s2 : model → Nat → Int → Nat → Nat → Option model) (tok1 tok2 level : Nat)
    (hag : level < p.tracing_network_depth → ∀ m c t, m.params = p →
      s1 m c t (level + 1) tok1 = s2 m c t (level + 1) tok2)
    (h2 : ∀ m c t m1, s2 m c t (level + 1) tok2 = some m1 → cascade_frame m m1)
    (m : model) (indiv : Nat) (t : Int) (hm : m.params = p) :
    on_traced_step s1 m indiv t level tok1 = on_traced_step s2 m indiv t level tok2 := by
  unfold on_traced_step
  split
  · rfl
  · rw [traced_quarantine_congr s1 s2 m indiv tok1 tok2]
    cases ha : traced_quarantine s2 m indiv tok2 with
    | none => rfl
    | some ma =>
      dsimp only
      cases hb : traced_test ma indiv t with
      | none => rfl
      | some mb =>
        dsimp only
        have hpa : ma.params = m.params := by
          rw [← traced_quarantine_congr (fun x _ _ _ _ => some x) s2 m indiv tok2 tok2] at ha
          exact (traced_quarantine_rel cascade_frame cascade_frame_rel _
            (fun mu cu tu lv tk mv huv => by
              simp only [Option.some.injEq] at huv
              subst huv
              exact cascade_frame_refl _) _ _ _ _ ha).1
        have hpb : mb.params = ma.params :=
          (traced_test_rel cascade_frame cascade_frame_rel _ _ _ _ hb).1
        have hmb : mb.params = p := (hpb.trans hpa).trans hm
        split
        · rename_i hlt
          rw [hmb] at hlt
          exact intervention_notify_contacts_congr p _ _
            (fun mx c tx hx => hag hlt mx c tx hx)
            (fun mx c tx my hxy => h2 mx c tx my hxy) mb indiv hmb
        · rfl

/-- The result of `intervention_on_traced` does not depend on the token. -/
theorem intervention_on_traced_token :
    ∀ (fuel : Nat) (m : model) (indiv : Nat) (t : Int) (level tok1 tok2 : Nat),
      intervention_on_traced fuel m indiv t level tok1 =
        intervention_on_traced fuel m indiv t level tok2
  | 0, m, indiv, t, level, tok1, tok2 => by simp [intervention_on_traced]
  | fuel + 1, m, indiv, t, level, tok1, tok2 => by
    rw [intervention_on_traced_succ, intervention_on_traced_succ]
    exact on_traced_step_congr m.params _ _ tok1 tok2 level
      (fun _ mx c tx _ => intervention_on_traced_token fuel mx c tx (level + 1) tok1 tok2)
      (fun mx c tx my hxy =>
        intervention_on_traced_rel cascade_frame cascade_frame_rel fuel mx c tx _ _ my hxy)
      m indiv t rfl

theorem on_traced_guarded_eq (trap : model → Nat → Int → Nat → Nat → Option model)
    (p : parameters) :
    ∀ (n level : Nat), level ≤ p.tracing_network_depth →
      p.tracing_network_depth + 1 ≤ n + level →
      ∀ (m : model) (c : Nat) (t : Int) (tok : Nat), m.params = p →
        on_traced_guarded trap p.tracing_network_depth n m c t level tok =
          intervention_on_traced (p.tracing_network_depth + 1 - level) m c t level tok
  | 0, level, hle, hn, m, c, t, tok, hm => by omega
  | n + 1, level, hle, hn, m, c, t, tok, hm => by
    have hfuel : p.tracing_network_depth + 1 - level =
        (p.tracing_network_depth - level) + 1 := by omega
    rw [hfuel, intervention_on_traced_succ]
    simp only [on_traced_guarded, if_pos hle]
    refine on_traced_step_congr p _ _ tok tok level (fun hlt mx cx tx hx => ?_)
      (fun mx cx tx my hxy =>
        intervention_on_traced_rel cascade_frame cascade_frame_rel _ mx cx tx _ _ my hxy)
      m c t hm
    have ih := on_traced_guarded_eq trap p n (level + 1) (by omega) (by omega) mx cx tx tok hx
    rw [ih]
    congr 1
    omega

theorem intervention_on_traced_fuel (p : parameters) :
    ∀ (n level : Nat), level ≤ p.tracing_network_depth →
      p.tracing_network_depth + 1 ≤ n + level →
      ∀ (m : model) (c : Nat) (t : Int) (tok : Nat), m.params = p →
        intervention_on_traced n m c t level tok =
          intervention_on_traced (p.tracing_network_depth + 1 - level) m c t level tok
  | 0, level, hle, hn, m, c, t, tok, hm => by omega
  | n + 1, level, hle, hn, m, c, t, tok, hm => by
    have hfuel : p.tracing_network_depth + 1 - level =
        (p.tracing_network_depth - level) + 1 := by omega
    rw [hfuel, intervention_on_traced_succ, intervention_on_traced_succ]
    refine on_traced_step_congr p _ _ tok tok level (fun hlt mx cx tx hx => ?_)
      (fun mx cx tx my hxy =>
        intervention_on_traced_rel cascade_frame cascade_frame_rel _ mx cx tx _ _ my hxy)
      m c t hm
    have ih := intervention_on_traced_fuel p n (level + 1) (by omega) (by omega) mx cx tx tok hx
    rw [ih]
    congr 1
    omega

/-- C22: for `tracing_network_depth >= 1`, a cascade started by
`intervention_notify_contacts` at level 1 is computed by the embedding with
`tracing_network_depth` nested calls of `intervention_on_traced`: allowing more
nested calls changes nothing, and neither does handing every call at a level
above `tracing_network_depth`, and every call nested deeper than allowed, to an
arbitrary `trap`.  So no call is nested deeper than `tracing_network_depth` and
none is made at a level above it. -/
theorem tracing_cascade_bounded (trap : model → Nat → Int → Nat → Nat → Option model)
    (m : model) (indiv tok fuel : Nat) (hd : 1 ≤ m.params.tracing_network_depth)
    (hf : m.params.tracing_network_depth ≤ fuel) :
    intervention_notify_contacts
        (fun m1 c t => on_traced_guarded trap m.params.tracing_network_depth fuel m1 c t 1 tok)
        m indiv =
      intervention_notify_contacts
        (fun m1 c t => intervention_on_traced m.params.tracing_network_depth m1 c t 1 tok)
        m indiv ∧
    intervention_notify_contacts (fun m1 c t => intervention_on_traced fuel m1 c t 1 tok)
        m indiv =
      intervention_notify_contacts
        (fun m1 c t => intervention_on_traced m.params.tracing_network_depth m1 c t 1 tok)
        m indiv := by
  have hg : ∀ (mx : model) (c : Nat) (t : Int) (my : model),
      intervention_on_traced m.params.tracing_network_depth mx c t 1 tok = some my →
      cascade_frame mx my :=
    fun mx c t my hxy =>
      intervention_on_traced_rel cascade_frame cascade_frame_rel _ mx c t _ _ my hxy
  constructor
  · refine intervention_notify_contacts_congr m.params _ _ (fun mx c t hx => ?_) hg m indiv rfl
    exact on_traced_guarded_eq trap m.params fuel 1 hd (by omega) mx c t tok hx
  · refine intervention_notify_contacts_congr m.params _ _ (fun mx c t hx => ?_) hg m indiv rfl
    exact intervention_on_traced_fuel m.params fuel 1 hd (by omega) mx c t tok hx

theorem tracing_cascade_bounded_witness :
    1 ≤ trace_example.params.tracing_network_depth ∧
    (intervention_notify_contacts
        (fun m1 c t => on_traced_guarded (fun _ _ _ _ _ => none)
          trace_example.params.tracing_network_depth 5 m1 c t 1 0) trace_example 0 =
      intervention_notify_contacts
        (fun m1 c t => intervention_on_traced trace_example.params.tracing_network_depth
          m1 c t 1 0) trace_example 0) ∧
    (intervention_notify_contacts
        (fun m1 c t => intervention_on_traced trace_example.params.tracing_network_depth
          m1 c t 1 0) trace_example 0).isSome = true :=
  ⟨by decide,
    (tracing_cascade_bounded (fun _ _ _ _ _ => none) trace_example 0 0 5 (by decide)
      (by decide)).1,
    by decide!⟩

/-- C23 as stated fails: in the cascade that `intervention_on_symptoms` starts
from person 0 in `trace_example`, `intervention_on_traced` is applied to person
1 once for each of the two records that person 0 holds of it, and, from person
1, to the index person 0 itself.  The release of person 1, put at day 6 by the
first application, ends at day 10; the index ends with a test ordered, which
only `intervention_on_traced` orders here, and its release moves from day 4 to
day 11.  With one level of tracing person 1 is still traced twice (release at
day 8 instead of day 6) and the index is not traced. -/
theorem tracing_repeats_in_one_cascade :
    (intervention_on_symptoms trace_example 0).map (fun m =>
      (m.rng_calls, release_time m 1, release_time m 0,
        (m.population 0).quarantine_test_result)) =
      some (9, some 10, some 11, test_status.TEST_ORDERED) ∧
    (intervention_on_symptoms
        { trace_example with
          params := { trace_example.params with tracing_network_depth := 1 } } 0).map
      (fun m => (m.rng_calls, release_time m 1, release_time m 0,
        (m.population 0).quarantine_test_result)) =
      some (6, some 8, some 4, test_status.NO_TEST) := by
  refine ⟨by decide!, by decide!⟩

/-- C23, amended: the token is carried through the cascade and never consulted:
`intervention_on_traced` gives the same result for every token.  What it skips
is an individual that is in hospital or a case, which it leaves untouched at
every level; every other individual gets the body of the function each time it
is reached. -/
theorem intervention_on_traced_ignores_token (fuel : Nat) (m : model) (indiv : Nat)
    (t : Int) (level tok1 tok2 : Nat) :
    intervention_on_traced fuel m indiv t level tok1 =
      intervention_on_traced fuel m indiv t level tok2 ∧
    (is_in_hospital (m.population indiv) = true ∨ (m.population indiv).is_case = true →
      intervention_on_traced (fuel + 1) m indiv t level tok1 = some m) ∧
    (¬ (is_in_hospital (m.population indiv) = true ∨ (m.population indiv).is_case = true) →
      intervention_on_traced (fuel + 1) m indiv t level tok1 =
        (traced_quarantine (intervention_on_traced fuel) m indiv tok1).bind (fun m1 =>
          (traced_test m1 indiv t).bind (fun m2 =>
            if level < m2.params.tracing_network_depth then
              intervention_notify_contacts
                (fun m3 c3 t3 => intervention_on_traced fuel m3 c3 t3 (level + 1) tok1)
                m2 indiv
            else some m2))) := by
  refine ⟨intervention_on_traced_token fuel m indiv t level tok1 tok2, fun h => ?_,
    fun h => ?_⟩
  · rw [intervention_on_traced_succ, on_traced_step, if_pos h]
  · rw [intervention_on_traced_succ, on_traced_step, if_neg h]
    cases traced_quarantine (intervention_on_traced fuel) m indiv tok1 with
    | none => rfl
    | some m1 =>
      dsimp only [Option.bind]
      cases traced_test m1 indiv t with
      | none => rfl
      | some m2 => rfl

theorem intervention_on_traced_ignores_token_witness :
    (trace_example.population 1).is_case = false ∧
    intervention_on_traced 3 trace_example 1 1 1 0 =
      intervention_on_traced 3 trace_example 1 1 1 7 ∧
    intervention_on_traced 3
        { trace_example with population := fun _ => { calloc_individual with is_case := true } }
        1 1 1 0 =
      some { trace_example with
        population := fun _ => { calloc_individual with is_case := true } } :=
  ⟨by decide, (intervention_on_traced_ignores_token 3 trace_example 1 1 1 0 7).1,
    (intervention_on_traced_ignores_token 2
      { trace_example with population := fun _ => { calloc_individual with is_case := true } }
      1 1 1 0 0).2.1 (Or.inr rfl)⟩

theorem notify_contact_decided (on_traced : model → Nat → Option model) (m : model)
    (r c : Nat) (v : Bool) (hv : (m.interactions r).traceable = some v) :
    notify_contact on_traced m r c =
      if (m.population c).app_user = true ∧ v = true then on_traced m c else some m := by
  unfold notify_contact
  by_cases ha : (m.population c).app_user = true
  · have hn : ¬ (m.interactions r).traceable = none := by rw [hv]; simp
    rw [if_pos ha]
    dsimp only
    rw [if_neg hn, hv]
    cases v
    · rw [if_neg (by simp), if_neg (by simp)]
    · rw [if_pos rfl, if_pos ⟨ha, rfl⟩]
  · rw [if_neg ha, if_neg (fun h => ha h.1)]

theorem notify_contact_undecided (on_traced : model → Nat → Option model) (m : model)
    (r c : Nat) (ha : (m.population c).app_user = true)
    (hn : (m.interactions r).traceable = none) :
    notify_contact on_traced m r c =
      if m.rng.bernoulli m.rng_calls = true then
        on_traced
          { m with
            interactions :=
              set_traceable m.interactions r (some (m.rng.bernoulli m.rng_calls))
            rng_calls := m.rng_calls + 1 } c
      else
        some
          { m with
            interactions :=
              set_traceable m.interactions r (some (m.rng.bernoulli m.rng_calls))
            rng_calls := m.rng_calls + 1 } := by
  unfold notify_contact
  simp only [if_pos ha, if_pos hn]
  have hset : (set_traceable m.interactions r (some (m.rng.bernoulli m.rng_calls)) r).traceable =
      some (m.rng.bernoulli m.rng_calls) := by
    simp [set_traceable]
  simp only [hset, Option.some.injEq]

/-- C21: `intervention_notify_contacts` decides a record lazily and once.  For a
record whose `traceable` is `UNKNOWN` and whose contact uses the app, the loop
body draws once, stores the draw on the record and traces the contact when the
draw succeeds; for a record that is decided it makes no draw and writes
nothing, and traces the contact according to the stored value; for a contact
without the app it does nothing.  Across a whole cascade run by
`intervention_notify_contacts` every decided record keeps its value and every
record keeps its contact and its link. -/
theorem notify_contacts_decides_once (fuel level tok : Nat) (m m1 : model) (indiv : Nat)
    (h : intervention_notify_contacts
      (fun ma c t => intervention_on_traced fuel ma c t level tok) m indiv = some m1) :
    (∀ r v, (m.interactions r).traceable = some v → (m1.interactions r).traceable = some v) ∧
    (∀ r, (m1.interactions r).individual = (m.interactions r).individual ∧
      (m1.interactions r).next = (m.interactions r).next) ∧
    (∀ (on_traced : model → Nat → Option model) (ma : model) (r c : Nat) (v : Bool),
      (ma.interactions r).traceable = some v →
      notify_contact on_traced ma r c =
        if (ma.population c).app_user = true ∧ v = true then on_traced ma c else some ma) ∧
    (∀ (on_traced : model → Nat → Option model) (ma : model) (r c : Nat),
      (ma.population c).app_user = true → (ma.interactions r).traceable = none →
      notify_contact on_traced ma r c =
        if ma.rng.bernoulli ma.rng_calls = true then
          on_traced
            { ma with
              interactions :=
                set_traceable ma.interactions r (some (ma.rng.bernoulli ma.rng_calls))
              rng_calls := ma.rng_calls + 1 } c
        else
          some
            { ma with
              interactions :=
                set_traceable ma.interactions r (some (ma.rng.bernoulli ma.rng_calls))
              rng_calls := ma.rng_calls + 1 }) ∧
    (∀ (on_traced : model → Nat → Option model) (ma : model) (r c : Nat),
      (ma.population c).app_user = false → notify_contact on_traced ma r c = some ma) := by
  have hf := intervention_notify_contacts_rel cascade_frame cascade_frame_rel _
    (fun mx c t my hxy =>
      intervention_on_traced_rel cascade_frame cascade_frame_rel fuel mx c t _ _ my hxy)
    m m1 indiv h
  refine ⟨fun r v hv => (hf.2.2.2.2.1 r).2.2 v hv,
    fun r => ⟨(hf.2.2.2.2.1 r).1, (hf.2.2.2.2.1 r).2.1⟩,
    fun on_traced ma r c v hv => notify_contact_decided on_traced ma r c v hv,
    fun on_traced ma r c ha hn => notify_contact_undecided on_traced ma r c ha hn,
    fun on_traced ma r c ha => ?_⟩
  unfold notify_contact
  rw [if_neg (by rw [ha]; simp)]

theorem notify_contacts_decides_once_witness :
    (decided_example.interactions 1).traceable = some false ∧
    ∃ m1, intervention_notify_contacts
        (fun ma c t => intervention_on_traced 3 ma c t 1 0) decided_example 0 = some m1 ∧
      (m1.interactions 1).traceable = some false := by
  obtain ⟨m1, h1⟩ := Option.isSome_iff_exists.1
    (by decide! : (intervention_notify_contacts
      (fun ma c t => intervention_on_traced 3 ma c t 1 0) decided_example 0).isSome = true)
  exact ⟨by decide, m1, h1,
    (notify_contacts_decides_once 3 1 0 decided_example m1 0 h1).1 1 false (by decide)⟩

/-! ## The test order on symptoms -/

theorem quarantine_start_slot (m m1 : model) (i : Nat)
    (h : quarantine_start m i = some m1) (j : Nat) :
    (m1.population j).quarantine_test_result = (m.population j).quarantine_test_result := by
  unfold quarantine_start at h
  split at h
  · split at h
    · simp at h
    · rename_i e ma ha
      simp only [Option.some.injEq] at h
      subst h
      have hp := add_individual_to_event_list_typed_population _ _ _ _ _ _ ha
      show (Function.update ma.population i _ j).quarantine_test_result = _
      by_cases hj : j = i
      · subst hj
        rw [Function.update_same, hp]
        simp [set_quarantine_status]
      · rw [Function.update_noteq hj, hp]
  · simp only [Option.some.injEq] at h
    subst h
    rfl

theorem schedule_release_slot (m m1 : model) (i t : Nat)
    (h : schedule_release m i t = some m1) (j : Nat) :
    (m1.population j).quarantine_test_result = (m.population j).quarantine_test_result := by
  unfold schedule_release at h
  split at h
  · simp at h
  · rename_i e ma ha
    simp only [Option.some.injEq] at h
    subst h
    have hp := add_individual_to_event_list_typed_population _ _ _ _ _ _ ha
    show (Function.update ma.population i _ j).quarantine_test_result = _
    by_cases hj : j = i
    · subst hj
      rw [Function.update_same, hp]
    · rw [Function.update_noteq hj, hp]

theorem reschedule_release_slot (m m1 : model) (i t : Nat) (maxof : Bool)
    (h : reschedule_release m i t maxof = some m1) (j : Nat) :
    (m1.population j).quarantine_test_result = (m.population j).quarantine_test_result := by
  unfold reschedule_release at h
  split at h
  · exact schedule_release_slot _ _ _ _ h j
  · split at h
    · simp only [Option.some.injEq] at h
      subst h
      rfl
    · split at h
      · simp at h
      · rename_i mr hr
        rw [schedule_release_slot _ _ _ _ h j,
          remove_event_from_event_list_typed_population _ _ _ hr]

/-- `intervention_quarantine_until` leaves every test slot alone. -/
theorem intervention_quarantine_until_slot (m m1 : model) (i t : Nat) (maxof : Bool)
    (h : intervention_quarantine_until m i t maxof = some m1) (j : Nat) :
    (m1.population j).quarantine_test_result = (m.population j).quarantine_test_result := by
  unfold intervention_quarantine_until at h
  split at h
  · simp only [Option.some.injEq] at h
    subst h
    rfl
  · split at h
    · simp at h
    · rename_i ma ha
      rw [reschedule_release_slot _ _ _ _ _ h j, quarantine_start_slot _ _ _ ha j]

theorem quarantine_members_slot (notify : model → Nat → Option model)
    (members : Nat → Nat) (indiv time_event : Nat) :
    ∀ (n idx : Nat) (m m1 : model),
      quarantine_members notify members indiv time_event false n idx m = some m1 →
      ∀ j, (m1.population j).quarantine_test_result = (m.population j).quarantine_test_result ∧
        (m1.population j).is_case = (m.population j).is_case
  | 0, _, m, m1, h, j => by
    simp only [quarantine_members, Option.some.injEq] at h
    subst h
    exact ⟨rfl, rfl⟩
  | n + 1, idx, m, m1, h, j => by
    simp only [quarantine_members, Bool.false_eq_true, false_and, if_false] at h
    split at h
    · split at h
      · simp at h
      · rename_i ma ha
        obtain ⟨a, b⟩ := quarantine_members_slot notify members indiv time_event n _ ma m1 h j
        exact ⟨a.trans (intervention_quarantine_until_slot _ _ _ _ _ ha j),
          b.trans (intervention_quarantine_until_is_case _ _ _ _ _ ha j)⟩
    · exact quarantine_members_slot notify members indiv time_event n _ m m1 h j

theorem index_trace_token_frame (m m0 : model) (i tok : Nat)
    (h : index_trace_token m i = some (tok, m0)) :
    m0.params = m.params ∧ m0.time = m.time ∧ m0.rng = m.rng ∧ m0.rng_calls = m.rng_calls ∧
    m0.lists = m.lists ∧ m0.events = m.events ∧
    ∀ j, (m0.population j).quarantined = (m.population j).quarantined ∧
      (m0.population j).quarantine_test_result = (m.population j).quarantine_test_result ∧
      (m0.population j).is_case = (m.population j).is_case := by
  unfold index_trace_token at h
  split at h
  · split at h
    · simp at h
    · rename_i tk ma ha
      simp only [Option.some.injEq, Prod.mk.injEq] at h
      obtain ⟨_, rfl⟩ := h
      unfold new_trace_token at ha
      split at ha
      · simp at ha
      · simp only [Option.some.injEq, Prod.mk.injEq] at ha
        obtain ⟨_, rfl⟩ := ha
        refine ⟨rfl, rfl, rfl, rfl, rfl, rfl, fun j => ?_⟩
        dsimp only
        by_cases hj : j = i
        · subst hj
          simp only [Function.update_same, and_self]
        · simp only [Function.update_noteq hj, and_self]
  · simp only [Option.some.injEq, Prod.mk.injEq] at h
    obtain ⟨_, rfl⟩ := h
    refine ⟨rfl, rfl, rfl, rfl, rfl, rfl, fun j => ?_⟩
    dsimp only
    by_cases hj : j = i
    · subst hj
      simp only [Function.update_same, and_self]
    · simp only [Function.update_noteq hj, and_self]

/-- An order of a test for an individual with no test in flight that is not a
case: the new event heads the bucket of the day, belongs to the individual and
carries the day and the kind, and the slot reads `TEST_ORDERED`. -/
theorem intervention_test_order_event (m m1 : model) (i t : Nat)
    (h : intervention_test_order m i t = some m1)
    (hslot : (m.population i).quarantine_test_result = test_status.NO_TEST)
    (hcase : (m.population i).is_case = false) :
    ∃ e, (m1.lists event_kind.test_take).events t = some e ∧
      (m1.events e).individual = some i ∧ (m1.events e).time = t ∧
      (m1.events e).type = event_kind.test_take ∧
      (m1.population i).quarantine_test_result = test_status.TEST_ORDERED := by
  unfold intervention_test_order at h
  rw [if_pos ⟨hslot, hcase⟩] at h
  split at h
  · simp at h
  · rename_i e ma ha
    simp only [Option.some.injEq] at h
    subst h
    unfold add_individual_to_event_list_typed at ha
    split at ha
    · simp at ha
    · rename_i e0 mb hb
      simp only [Option.some.injEq, Prod.mk.injEq] at ha
      obtain ⟨rfl, rfl⟩ := ha
      refine ⟨e0, (add_individual_to_event_list_lists m mb _ _ _ _ hb).1, ?_, ?_, ?_, ?_⟩
      · show (set_time_type mb.events e0 t event_kind.test_take e0).individual = _
        rw [set_time_type_individual]
        exact add_individual_to_event_list_owner _ _ _ _ _ _ hb
      · show (set_time_type mb.events e0 t event_kind.test_take e0).time = _
        simp [set_time_type]
      · show (set_time_type mb.events e0 t event_kind.test_take e0).type = _
        simp [set_time_type]
      · dsimp only
        rw [Function.update_same]

theorem intervention_quarantine_household_slot (notify : model → Nat → Option model)
    (m m1 : model) (indiv : Nat) (time : Option Nat)
    (h : intervention_quarantine_household notify m indiv time false = some m1) (j : Nat) :
    (m1.population j).quarantine_test_result = (m.population j).quarantine_test_result ∧
      (m1.population j).is_case = (m.population j).is_case := by
  unfold intervention_quarantine_household at h
  dsimp only at h
  split at h
  · exact quarantine_members_slot notify _ _ _ _ _ m m1 h j
  · exact quarantine_members_slot notify _ _ _ _ _ _ m1 h j

/-- C24 fails on the code: in `symptoms_example` community testing on symptoms
is on, person 0 has no test in flight, is not a case and is not quarantined, and
the self-quarantine draw fails: `intervention_on_symptoms` returns without a
test order; the slot of person 0 still reads `NO_TEST` and the bucket of day
`t + test_order_wait = 1` of the test_take list is empty.  The comment of the
function lists the order as its item 2, "if we have community testing on
symptoms and a test has not been ordered already then order one", without a
condition on the quarantine; the code has the order inside `if( quarantine )`. -/
theorem intervention_on_symptoms_without_test :
    (symptoms_example.params.test_on_symptoms,
      (symptoms_example.population 0).quarantine_test_result,
      (symptoms_example.population 0).is_case,
      symptoms_example.time + symptoms_example.params.test_order_wait) =
      (true, test_status.NO_TEST, false, 1) ∧
    (intervention_on_symptoms symptoms_example 0).map (fun m =>
      ((m.population 0).quarantine_test_result,
        (m.lists event_kind.test_take).n_daily_current 1,
        bucket_walk m event_kind.test_take 1)) =
      some (test_status.NO_TEST, 0, some []) := by
  refine ⟨by decide, by decide!⟩

/-- What the code of `intervention_on_symptoms` does about the test: with
community testing on symptoms, for an individual with no test in flight that is
not a case, a completed `intervention_on_symptoms` orders the test exactly when
the individual is already quarantined or the self-quarantine draw succeeds.
Then the order for day `t + test_order_wait` is
placed after the quarantine steps and before the contacts are notified: in the
state handed to the notification a test_take event of the individual heads the
bucket of that day and the slot reads `TEST_ORDERED`, and the slot still reads
`TEST_ORDERED` on return.  For an individual that is not quarantined and not
drawn, the slot still reads `NO_TEST` and no list or event has changed. -/
theorem intervention_on_symptoms_test_order (m m1 : model) (indiv : Nat)
    (h : intervention_on_symptoms m indiv = some m1)
    (htest : m.params.test_on_symptoms = true)
    (hslot : (m.population indiv).quarantine_test_result = test_status.NO_TEST)
    (hcase : (m.population indiv).is_case = false) :
    ((m.population indiv).quarantined = false ∧ m.rng.bernoulli m.rng_calls = false →
      (m1.population indiv).quarantine_test_result = test_status.NO_TEST ∧
        m1.lists = m.lists ∧ m1.events = m.events) ∧
    ((m.population indiv).quarantined = true ∨ m.rng.bernoulli m.rng_calls = true →
      (m1.population indiv).quarantine_test_result = test_status.TEST_ORDERED ∧
      ∃ tok m3 m4 e,
        intervention_test_order m3 indiv (m.time + m.params.test_order_wait) = some m4 ∧
        (m4.lists event_kind.test_take).events (m.time + m.params.test_order_wait) = some e ∧
        (m4.events e).individual = some indiv ∧
        (m4.events e).time = m.time + m.params.test_order_wait ∧
        (m4.events e).type = event_kind.test_take ∧
        (m4.population indiv).quarantine_test_result = test_status.TEST_ORDERED ∧
        (if m.params.trace_on_symptoms = true ∧
            (m.params.quarantine_on_traced = true ∨ m.params.test_on_traced = true) then
          intervention_notify_contacts
            (fun m5 c5 t5 =>
              intervention_on_traced (m.params.tracing_network_depth + 1) m5 c5 t5 1 tok)
            m4 indiv
        else some m4) = some m1) := by
  unfold intervention_on_symptoms at h
  split at h
  · simp at h
  · rename_i tok m0 h0
    obtain ⟨hp0, ht0, hg0, hc0, hl0, he0, hpop0⟩ := index_trace_token_frame _ _ _ _ h0
    dsimp only at h
    generalize hgen : (if (m0.population indiv).quarantined = true then m0
      else ({ m0 with rng_calls := m0.rng_calls + 1 } : model)) = mq at h
    have hqp : mq.params = m0.params := by rw [← hgen]; split <;> rfl
    have hqt : mq.time = m0.time := by rw [← hgen]; split <;> rfl
    have hqpop : mq.population = m0.population := by rw [← hgen]; split <;> rfl
    have hql : mq.lists = m0.lists := by rw [← hgen]; split <;> rfl
    have hqe : mq.events = m0.events := by rw [← hgen]; split <;> rfl
    rw [(hpop0 indiv).1, hg0, hc0] at h
    constructor
    · rintro ⟨hq, hb⟩
      rw [hq, hb] at h
      rw [if_neg (by simp)] at h
      simp only [Option.some.injEq] at h
      subst h
      refine ⟨?_, hql.trans hl0, hqe.trans he0⟩
      rw [hqpop, (hpop0 indiv).2.1, hslot]
    · intro hqb
      have hor : ((m.population indiv).quarantined || m.rng.bernoulli m.rng_calls) = true := by
        rcases hqb with hq | hb
        · rw [hq]; rfl
        · rw [hb]; simp
      rw [if_pos hor] at h
      split at h
      · simp at h
      · rename_i m2 h2
        have hf2 : cascade_frame mq m2 :=
          cascade_frame_trans _ _ _ (cascade_frame_rel.sample mq)
            (cascade_frame_rel.quarantine _ _ _ _ _ h2)
        have hs2 := intervention_quarantine_until_slot _ _ _ _ _ h2 indiv
        have hc2 := intervention_quarantine_until_is_case _ _ _ _ _ h2 indiv
        split at h
        · simp at h
        · rename_i m3 h3
          have hf3 : cascade_frame m2 m3 := by
            split at h3
            · exact intervention_quarantine_household_rel cascade_frame cascade_frame_rel _
                (fun mx c my hxy => intervention_notify_contacts_rel cascade_frame
                  cascade_frame_rel _
                  (fun mu cu tu mv huv => intervention_on_traced_rel cascade_frame
                    cascade_frame_rel _ mu cu tu _ _ mv huv) mx my c hxy) _ _ _ _ _ h3
            · simp only [Option.some.injEq] at h3
              subst h3
              exact cascade_frame_refl _
          have hs3 : (m3.population indiv).quarantine_test_result =
                (m2.population indiv).quarantine_test_result ∧
              (m3.population indiv).is_case = (m2.population indiv).is_case := by
            split at h3
            · exact intervention_quarantine_household_slot _ _ _ _ _ h3 indiv
            · simp only [Option.some.injEq] at h3
              subst h3
              exact ⟨rfl, rfl⟩
          have hp3 : m3.params = m.params :=
            hf3.1.trans (hf2.1.trans (hqp.trans hp0))
          have ht3 : m3.time = m.time :=
            hf3.2.1.trans (hf2.2.1.trans (hqt.trans ht0))
          have hslot3 : (m3.population indiv).quarantine_test_result = test_status.NO_TEST := by
            rw [hs3.1, hs2]
            show (mq.population indiv).quarantine_test_result = _
            rw [hqpop, (hpop0 indiv).2.1, hslot]
          have hcase3 : (m3.population indiv).is_case = false := by
            rw [hs3.2, hc2]
            show (mq.population indiv).is_case = _
            rw [hqpop, (hpop0 indiv).2.2, hcase]
          split at h
          · simp at h
          · rename_i m4 h4
            rw [hp3, ht3, if_pos htest] at h4
            obtain ⟨e, hhead, hown, htime, htype, hslot4⟩ :=
              intervention_test_order_event _ _ _ _ h4 hslot3 hcase3
            have hp4 : m4.params = m.params :=
              (intervention_test_order_frame _ _ _ _ h4).1.trans hp3
            rw [hp4, hp0] at h
            refine ⟨?_, tok, m3, m4, e, h4, hhead, hown, htime, htype, hslot4, h⟩
            split at h
            · have hf := intervention_notify_contacts_rel cascade_frame cascade_frame_rel _
                (fun mx c t my hxy => intervention_on_traced_rel cascade_frame
                  cascade_frame_rel _ mx c t _ _ my hxy) _ _ _ h
              rw [(hf.2.2.2.2.2 indiv).2 (by rw [hslot4]; simp), hslot4]
            · simp only [Option.some.injEq] at h
              subst h
              exact hslot4

theorem intervention_on_symptoms_test_order_witness :
    (ordered_example.params.test_on_symptoms = true ∧
      (ordered_example.population 0).quarantine_test_result = test_status.NO_TEST ∧
      (ordered_example.population 0).is_case = false ∧
      ordered_example.rng.bernoulli ordered_example.rng_calls = true) ∧
    ∃ m1, intervention_on_symptoms ordered_example 0 = some m1 ∧
      (m1.population 0).quarantine_test_result = test_status.TEST_ORDERED := by
  obtain ⟨m1, h1⟩ := Option.isSome_iff_exists.1
    (by decide! : (intervention_on_symptoms ordered_example 0).isSome = true)
  exact ⟨by decide, m1, h1,
    ((intervention_on_symptoms_test_order ordered_example m1 0 h1 (by decide) (by decide)
      (by decide)).2 (Or.inr (by decide))).1⟩

/-! ## The window of `intervention_notify_contacts` -/

theorem interaction_walk_next (mem mem1 : Nat → interaction)
    (h : ∀ r, (mem1 r).next = (mem r).next) :
    ∀ (n : Nat) (head : Option Nat),
      interaction_walk mem1 n head = interaction_walk mem n head
  | 0, _ => rfl
  | n + 1, none => rfl
  | n + 1, some r => by
    simp only [interaction_walk]
    rw [h r, interaction_walk_next mem mem1 h n]

theorem notify_records_eq_list (f : model → Nat → Option model)
    (hf : ∀ m c m1, f m c = some m1 → cascade_frame m m1) :
    ∀ (n : Nat) (head : Option Nat) (m : model),
      notify_records f n head m =
        match interaction_walk m.interactions n head with
        | none => none
        | some l => notify_list f l m
  | 0, _, m => rfl
  | n + 1, none, m => rfl
  | n + 1, some r, m => by
    simp only [notify_records, interaction_walk]
    cases hc : (m.interactions r).individual with
    | none =>
      cases hw : interaction_walk m.interactions n (m.interactions r).next with
      | none => rfl
      | some rest => simp [notify_list, hc]
    | some c =>
      dsimp only
      cases hq : notify_contact f m r c with
      | none =>
        cases hw : interaction_walk m.interactions n (m.interactions r).next with
        | none => rfl
        | some rest => simp [notify_list, hc, hq]
      | some m1 =>
        dsimp only
        have hfr := notify_contact_rel cascade_frame cascade_frame_rel f hf m m1 r c hq
        rw [notify_records_eq_list f hf n _ m1, (hfr.2.2.2.2.1 r).2.1,
          interaction_walk_next m.interactions m1.interactions
            (fun q => (hfr.2.2.2.2.1 q).2.1) n]
        cases hw : interaction_walk m.interactions n (m.interactions r).next with
        | none => rfl
        | some rest => simp [notify_list, hc, hq]

theorem slot_back_zero (idx doi : Nat) : slot_back idx doi 0 = idx := by
  simp [slot_back]

theorem slot_back_lt (idx doi k : Nat) (hi : idx < doi) (hk : k < doi) :
    slot_back idx doi k < doi := by
  unfold slot_back
  split <;> omega

theorem slot_back_inj (idx doi j k : Nat) (hj : j < doi) (hk : k < doi)
    (h : slot_back idx doi j = slot_back idx doi k) : j = k := by
  unfold slot_back at h
  split at h <;> split at h <;> omega

theorem ring_dec_slot (idx doi k : Nat) (hi : idx < doi) (hk : k + 1 < doi) :
    ring_dec ((slot_back idx doi k : Nat) : Int) doi = ((slot_back idx doi (k + 1) : Nat) : Int) := by
  unfold ring_dec slot_back
  split <;> split <;> split <;> omega

theorem ring_inc_slot (idx doi k : Nat) (hi : idx < doi) (hk : k + 1 < doi) :
    ring_inc ((slot_back idx doi (k + 1) : Nat) : Int) doi = ((slot_back idx doi k : Nat) : Int) := by
  unfold ring_inc slot_back
  split <;> split <;> split <;> omega

theorem ring_back_slot (idx doi : Nat) (hi : idx < doi) :
    ∀ (j k : Nat), k + j < doi →
      ring_back doi j ((slot_back idx doi k : Nat) : Int) =
        ((slot_back idx doi (k + j) : Nat) : Int)
  | 0, k, _ => rfl
  | j + 1, k, h => by
    rw [ring_back, ring_dec_slot idx doi k hi (by omega),
      ring_back_slot idx doi hi j (k + 1) (by omega)]
    congr 2
    omega

theorem notify_days_window (f : model → Nat → Int → Option model)
    (hf : ∀ m c t m1, f m c t = some m1 → cascade_frame m m1)
    (indiv idx doi t : Nat) (hi : idx < doi) :
    ∀ (k : Nat) (m : model), k ≤ doi → m.params.days_of_interactions = doi → m.time = t →
      notify_days f indiv k ((slot_back idx doi (k - 1) : Nat) : Int) m =
        notify_window f indiv idx doi t (List.range k).reverse m
  | 0, m, _, _, _ => rfl
  | k + 1, m, hk, hd, ht => by
    have hnn : ¬ (((slot_back idx doi k : Nat) : Int) < 0) := by omega
    simp only [notify_days, Nat.add_sub_cancel, if_neg hnn, Int.toNat_ofNat,
      List.range_succ, List.reverse_append, List.reverse_cons, List.reverse_nil,
      List.nil_append, List.singleton_append, notify_window, ht]
    rw [notify_records_eq_list _ (fun ma c mb hab => hf ma c _ mb hab)]
    cases hw : interaction_walk m.interactions
        ((m.population indiv).n_interactions (slot_back idx doi k))
        ((m.population indiv).interactions (slot_back idx doi k)) with
    | none => rfl
    | some l =>
      dsimp only
      cases hq : notify_list (fun m1 c => f m1 c ((t : Int) - (k : Int))) l m with
      | none => rfl
      | some m1 =>
        dsimp only
        have hrec : notify_records (fun m1 c => f m1 c ((t : Int) - (k : Int)))
            ((m.population indiv).n_interactions (slot_back idx doi k))
            ((m.population indiv).interactions (slot_back idx doi k)) m = some m1 := by
          rw [notify_records_eq_list _ (fun ma c mb hab => hf ma c _ mb hab), hw]
          exact hq
        have hfr := notify_records_rel cascade_frame cascade_frame_rel _
          (fun ma c mb hab => hf ma c _ mb hab) _ _ m m1 hrec
        cases k with
        | zero => rfl
        | succ j =>
          rw [hd, ring_inc_slot idx doi j hi (by omega)]
          have ih := notify_days_window f hf indiv idx doi t hi (j + 1) m1 (by omega)
            (by rw [hfr.1]; exact hd) (hfr.2.1.trans ht)
          rw [Nat.add_sub_cancel] at ih
          exact ih

/-- C33: for an app user with the app turned on, `quarantine_days` at most
`days_of_interactions` and today's slot within the ring,
`intervention_notify_contacts` makes exactly the visits of `notify_window` for
the days `quarantine_days - 1, ..., 1, 0` back, in this order: for each of them
it walks all the `n_interactions` records of the slot from the head of the day
list and hands `t - k` to `intervention_on_traced` for the slot `k` days back.
The slots visited are distinct slots of the ring and the last one is today's
slot. -/
theorem intervention_notify_contacts_window (fuel level tok : Nat) (m : model) (indiv : Nat)
    (happ : (m.population indiv).app_user = true) (hon : m.params.app_turned_on = true)
    (hqd : m.params.quarantine_days ≤ m.params.days_of_interactions)
    (hidx : m.interaction_day_idx < m.params.days_of_interactions) :
    intervention_notify_contacts
        (fun m1 c t => intervention_on_traced fuel m1 c t level tok) m indiv =
      notify_window (fun m1 c t => intervention_on_traced fuel m1 c t level tok) indiv
        m.interaction_day_idx m.params.days_of_interactions m.time
        (List.range m.params.quarantine_days).reverse m ∧
    ((List.range m.params.quarantine_days).map
      (slot_back m.interaction_day_idx m.params.days_of_interactions)).Nodup ∧
    (∀ k, k < m.params.quarantine_days →
      slot_back m.interaction_day_idx m.params.days_of_interactions k <
        m.params.days_of_interactions) ∧
    slot_back m.interaction_day_idx m.params.days_of_interactions 0 =
      m.interaction_day_idx := by
  refine ⟨?_, ?_, fun k hk => slot_back_lt _ _ _ hidx (by omega), slot_back_zero _ _⟩
  · unfold intervention_notify_contacts
    rw [if_neg (by rw [happ, hon]; simp)]
    have hstart : ((m.interaction_day_idx : Nat) : Int) =
        ((slot_back m.interaction_day_idx m.params.days_of_interactions 0 : Nat) : Int) := by
      rw [slot_back_zero]
    rw [hstart, ring_back_slot _ _ hidx (m.params.quarantine_days - 1) 0 (by omega),
      Nat.zero_add]
    exact notify_days_window _
      (fun mx c t my hxy =>
        intervention_on_traced_rel cascade_frame cascade_frame_rel fuel mx c t _ _ my hxy)
      indiv _ _ m.time hidx m.params.quarantine_days m hqd rfl rfl
  · refine List.Nodup.map_on (fun j hj k hk h => ?_) (List.nodup_range _)
    rw [List.mem_range] at hj hk
    exact slot_back_inj _ _ j k (by omega) (by omega) h

theorem intervention_notify_contacts_window_witness :
    ((window_example.population 0).app_user = true ∧
      window_example.params.app_turned_on = true ∧
      window_example.params.quarantine_days ≤ window_example.params.days_of_interactions ∧
      window_example.interaction_day_idx < window_example.params.days_of_interactions) ∧
    intervention_notify_contacts
        (fun m1 c t => intervention_on_traced 3 m1 c t 1 0) window_example 0 =
      notify_window (fun m1 c t => intervention_on_traced 3 m1 c t 1 0) 0
        window_example.interaction_day_idx window_example.params.days_of_interactions
        window_example.time (List.range window_example.params.quarantine_days).reverse
        window_example ∧
    (List.range window_example.params.quarantine_days).reverse.map
      (slot_back window_example.interaction_day_idx
        window_example.params.days_of_interactions) = [2, 0] :=
  ⟨by decide,
    (intervention_notify_contacts_window 3 1 0 window_example 0 (by decide) (by decide)
      (by decide) (by decide)).1,
    by decide⟩

/-! ## Test results and releases in one tick -/

/-- The turn of `release_from_quarantine` for the event `e` of today's release
bucket, owned by a quarantined individual `i`: the quarantine event of `i` and
`e` go back to the pool and the flag of `i` is cleared. -/
theorem release_event_step (m : model) (b : buckets) (fresh dead : List Nat) (e i : Nat)
    (hinv : pool_inv m b fresh dead) (hh : handles_ok m b)
    (hown : (m.events e).individual = some i)
    (hq : (m.population i).quarantined = true)
    (hmem : e ∈ b event_kind.quarantine_release m.time) :
    ∃ m1 q, release_event_of e m = some m1 ∧
      (m.population i).quarantine_event = some q ∧
      pool_inv m1
        ((b.set event_kind.quarantined (m.population i).time_quarantined
          ((b event_kind.quarantined (m.population i).time_quarantined).erase q)).set
          event_kind.quarantine_release m.time
          ((b event_kind.quarantine_release m.time).erase e))
        fresh (dead ++ [q] ++ [e]) ∧
      handles_ok m1
        ((b.set event_kind.quarantined (m.population i).time_quarantined
          ((b event_kind.quarantined (m.population i).time_quarantined).erase q)).set
          event_kind.quarantine_release m.time
          ((b event_kind.quarantine_release m.time).erase e)) ∧
      m1.population = Function.update m.population i
        (set_quarantine_status (m.population i) m.params m.time false) ∧
      (∀ x, (m1.events x).individual = (m.events x).individual) ∧
      m1.time = m.time ∧ m1.params = m.params := by
  obtain ⟨q, h1, h2, h3⟩ := hh i hq
  obtain ⟨ma, hra, _, hpa⟩ := pool_inv_remove m b fresh dead event_kind.quarantined q
    (m.population i).time_quarantined hinv h2
  obtain ⟨hpopa, hpara, htma, _, _, _, _, _⟩ := remove_event_from_event_list_rest _ _ _ _ _ hra
  have howna := remove_event_from_event_list_individual _ _ _ _ _ hra
  obtain ⟨mb, hrb, _, hpb⟩ := pool_inv_remove ma _ fresh (dead ++ [q])
    event_kind.quarantine_release e m.time hpa
    (by rw [buckets_set_other _ _ _ _ _ _ (by simp)]; exact hmem)
  obtain ⟨hpopb, hparb, htmb, _, _, _, _, _⟩ := remove_event_from_event_list_rest _ _ _ _ _ hrb
  have hownb := remove_event_from_event_list_individual _ _ _ _ _ hrb
  rw [buckets_set_other _ _ _ _ _ _ (by simp)] at hpb
  have hpopab : mb.population = m.population := hpopb.trans hpopa
  have hparab : mb.params = m.params := hparb.trans hpara
  have htmab : mb.time = m.time := htmb.trans htma
  refine ⟨{ mb with
      population := Function.update mb.population i
        (set_quarantine_status (mb.population i) mb.params mb.time false) },
    q, ?_, h1, pool_inv_congr mb _ _ _ _ rfl rfl rfl hpb, ?_, ?_,
    fun x => by show (mb.events x).individual = _; rw [hownb, howna], htmab, hparab⟩
  · unfold release_event_of
    rw [hown]
    dsimp only
    rw [if_pos hq, h1]
    dsimp only
    rw [hra]
    dsimp only
    rw [htma, hrb]
  · intro p hpq
    by_cases hpi : p = i
    · subst hpi
      simp [set_quarantine_status] at hpq
    · simp only [Function.update_noteq hpi] at hpq ⊢
      rw [hpopab] at hpq ⊢
      obtain ⟨q1, a1, a2, a3⟩ := hh p hpq
      have hne : q1 ≠ q := by
        intro hqq
        rw [hqq, h3] at a3
        simp only [Option.some.injEq] at a3
        exact hpi a3.symm
      refine ⟨q1, a1, ?_, by show (mb.events q1).individual = _; rw [hownb, howna]; exact a3⟩
      rw [buckets_set_other _ _ _ _ _ _ (by simp)]
      by_cases hd : (m.population p).time_quarantined = (m.population i).time_quarantined
      · rw [hd, buckets_set_same]
        rw [hd] at a2
        exact (List.mem_erase_of_ne hne).2 a2
      · rw [buckets_set_other _ _ _ _ _ _ (by simp [hd])]
        exact a2
  · show Function.update mb.population i _ = _
    rw [hpopab, hparab, htmab]

/-- One turn of the loop of `release_from_quarantine` keeps the invariant, and
the event it read as `next_event` is the next event of the bucket. -/
theorem release_inv_step (m0 : model) (fresh l : List Nat)
    (hown0 : ∀ e, e ∈ l → ∃ i, (m0.events e).individual = some i)
    (done : List Nat) (e : Nat) (rest : List Nat) (m : model)
    (hl : l = done ++ e :: rest)
    (h : ∃ b dead, release_inv m0 fresh l done m b dead) :
    ∃ m1, release_event_of e m = some m1 ∧
      (∃ b1 dead1, release_inv m0 fresh l (done ++ [e]) m1 b1 dead1) ∧
      (rest ≠ [] → (m.events e).next = rest.head?) := by
  obtain ⟨b, dead, h⟩ := h
  have hel : e ∈ l := by rw [hl]; simp
  obtain ⟨i, hi0⟩ := hown0 e hel
  have hown : (m.events e).individual = some i := by rw [h.owners]; exact hi0
  have hdrop : l.drop done.length = e :: rest := by rw [hl, List.drop_left]
  have hdrop1 : l.drop (done ++ [e]).length = rest := by
    have : l = (done ++ [e]) ++ rest := by rw [hl]; simp
    conv_lhs => rw [this]
    rw [List.drop_left]
  obtain ⟨kept, hb⟩ := h.bucket
  rw [hdrop] at hb
  have hnd : (kept ++ e :: rest).Nodup := by
    rw [← hb]; exact h.pool.nodup_bucket _ _
  have hek : e ∉ kept := by
    intro hk
    have := List.disjoint_of_nodup_append hnd hk
    exact this (by simp)
  have hnext : rest ≠ [] → (m.events e).next = rest.head? := by
    intro hne
    obtain ⟨e1, r, rfl⟩ : ∃ e1 r, rest = e1 :: r := by
      cases rest with
      | nil => exact absurd rfl hne
      | cons e1 r => exact ⟨e1, r, rfl⟩
    have hlinks := h.pool.links event_kind.quarantine_release m0.time
    rw [hb] at hlinks
    exact bucket_ok_next_of_suffix m.events dead e e1 r _ hlinks (List.suffix_append _ _)
  by_cases hq : (m.population i).quarantined = true
  · obtain ⟨m1, q, hrun, hqe, hp1, hh1, hpop1, hown1, htm1, hpar1⟩ :=
      release_event_step m b fresh dead e i h.pool h.handles hown hq
        (by rw [h.time, hb]; simp)
    have herase : (b event_kind.quarantine_release m.time).erase e = kept ++ rest := by
      rw [h.time, hb, List.erase_append_right _ hek, List.erase_cons_head]
    rw [herase] at hp1 hh1
    have hpi0 : m.population i = m0.population i := h.kept_flag i hq
    refine ⟨m1, hrun, ⟨_, _, ⟨hp1, htm1.trans h.time, hpar1.trans h.params,
      fun x => (hown1 x).trans (h.owners x), ⟨kept, ?_⟩, hh1, ?_, ?_, ?_⟩⟩, hnext⟩
    · rw [hdrop1, ← h.time, buckets_set_same]
    · intro e1 he1 j hj
      rw [hpop1]
      by_cases hji : j = i
      · subst hji
        rw [Function.update_same]
        simp [set_quarantine_status]
      · rw [Function.update_noteq hji]
        rcases List.mem_append.mp he1 with hd | hd
        · exact h.released e1 hd j hj
        · exfalso
          simp only [List.mem_singleton] at hd
          subst hd
          rw [hi0] at hj
          simp only [Option.some.injEq] at hj
          exact hji hj.symm
    · intro p hp
      rw [hpop1] at hp ⊢
      by_cases hpi : p = i
      · subst hpi
        rw [Function.update_same] at hp
        simp [set_quarantine_status] at hp
      · rw [Function.update_noteq hpi] at hp ⊢
        exact h.kept_flag p hp
    · intro p hp0 hp
      rw [hpop1] at hp
      by_cases hpi : p = i
      · subst hpi
        refine ⟨q, e, by rw [← hpi0]; exact hqe, hel, hi0, by simp, by simp⟩
      · rw [Function.update_noteq hpi] at hp
        obtain ⟨q1, x1, a1, a2, a3, a4, a5⟩ := h.returned p hp0 hp
        exact ⟨q1, x1, a1, a2, a3, by simp [a4], by simp [a5]⟩
  · have hrun : release_event_of e m = some m := by
      unfold release_event_of
      rw [hown]
      dsimp only
      rw [if_neg hq]
    have hqf : (m.population i).quarantined = false := by
      cases hc : (m.population i).quarantined with
      | false => rfl
      | true => exact absurd hc hq
    refine ⟨m, hrun, ⟨b, dead, ⟨h.pool, h.time, h.params, h.owners, ⟨kept ++ [e], ?_⟩,
      h.handles, ?_, h.kept_flag, h.returned⟩⟩, hnext⟩
    · rw [hdrop1, hb]
      simp
    · intro e1 he1 j hj
      rcases List.mem_append.mp he1 with hd | hd
      · exact h.released e1 hd j hj
      · simp only [List.mem_singleton] at hd
        subst hd
        rw [hi0] at hj
        simp only [Option.some.injEq] at hj
        subst hj
        exact hqf

/-- The pass `release_from_quarantine` on a well-formed pool in which every
quarantined individual holds its quarantine event and every event of today's
release bucket has an owner: it returns; afterwards no owner of an event of
that bucket is quarantined, and for every individual whose flag it cleared the
quarantine event and a release event of that individual are back in the pool. -/
theorem release_from_quarantine_spec (m : model) (b : buckets) (fresh dead : List Nat)
    (hinv : pool_inv m b fresh dead) (hh : handles_ok m b)
    (hown : ∀ e, e ∈ b event_kind.quarantine_release m.time →
      ∃ i, (m.events e).individual = some i) :
    ∃ m1 b1 dead1, release_from_quarantine m = some m1 ∧
      release_inv m fresh (b event_kind.quarantine_release m.time)
        (b event_kind.quarantine_release m.time) m1 b1 dead1 := by
  have hstart : release_inv m fresh (b event_kind.quarantine_release m.time) [] m b dead :=
    ⟨hinv, rfl, rfl, fun _ => rfl, ⟨[], by simp⟩, hh, fun e he => by simp at he,
      fun _ _ => rfl, fun p h0 h1 => by rw [h0] at h1; cases h1⟩
  have hloop : ∃ m1, for_each_event release_event_of
      (b event_kind.quarantine_release m.time).length
      ((m.lists event_kind.quarantine_release).events m.time) m = some m1 ∧
      ∃ b1 dead1, release_inv m fresh (b event_kind.quarantine_release m.time)
        (b event_kind.quarantine_release m.time) m1 b1 dead1 := by
    by_cases hnil : b event_kind.quarantine_release m.time = []
    · rw [hnil]
      rw [hnil] at hstart
      exact ⟨m, rfl, b, dead, hstart⟩
    · obtain ⟨m1, hrun, hI⟩ :=
        for_each_event_prefix release_event_of
          (fun done m1 => ∃ b1 dead1,
            release_inv m fresh (b event_kind.quarantine_release m.time) done m1 b1 dead1)
          (b event_kind.quarantine_release m.time) m ⟨b, dead, hstart⟩
          (fun done e rest m1 hl _ h => release_inv_step m fresh _ hown done e rest m1 hl h)
          _ (le_refl _)
      rw [List.take_length] at hI
      rw [hinv.head _ _ hnil]
      exact ⟨m1, hrun, hI⟩
  obtain ⟨m1, hrun, b1, dead1, hI⟩ := hloop
  refine ⟨m1, b1, dead1, ?_, hI⟩
  unfold release_from_quarantine pass_today
  rw [hinv.count, Int.toNat_ofNat]
  exact hrun

theorem quarantine_contact_kept (m m1 : model) (c te : Nat)
    (h : quarantine_contact m c te = some m1) (p : Nat)
    (hp : (m.population p).quarantined = true) : m1.population p = m.population p := by
  unfold quarantine_contact at h
  split at h
  · rename_i hc
    have hpc : p ≠ c := by
      intro hpc
      rw [hpc, hc.2.2] at hp
      cases hp
    split at h
    · split at h
      · simp at h
      · rename_i e ma ha
        have a1 := (add_individual_to_event_list_rest _ _ _ _ _ _ ha).1
        split at h
        · simp at h
        · rename_i x mb hb
          have c1 := (add_individual_to_event_list_rest _ _ _ _ _ _ hb).1
          simp only [Option.some.injEq] at h
          subst h
          rw [c1]
          dsimp only
          rw [Function.update_noteq hpc, a1]
          dsimp only
          rw [Function.update_noteq hpc]
    · simp only [Option.some.injEq] at h
      subst h
      rfl
  · simp only [Option.some.injEq] at h
    subst h
    rfl

theorem quarantine_records_kept (te : Nat) :
    ∀ (n : Nat) (ptr : Option Nat) (m m1 : model), quarantine_records te n ptr m = some m1 →
      ∀ p, (m.population p).quarantined = true → m1.population p = m.population p
  | 0, ptr, m, m1, h, p, _ => by
    simp only [quarantine_records, Option.some.injEq] at h
    subst h
    rfl
  | n + 1, none, m, m1, h, p, _ => by simp [quarantine_records] at h
  | n + 1, some r, m, m1, h, p, hp => by
    rw [quarantine_records] at h
    split at h
    · simp at h
    · split at h
      · simp at h
      · rename_i m2 h2
        have a := quarantine_contact_kept _ _ _ _ h2 p hp
        rw [quarantine_records_kept te n _ m2 m1 h p (by rw [a]; exact hp), a]

theorem quarantine_days_kept (indiv : Nat) :
    ∀ (n ddx : Nat) (day : Int) (m m1 : model), quarantine_days indiv n ddx day m = some m1 →
      ∀ p, (m.population p).quarantined = true → m1.population p = m.population p
  | 0, ddx, day, m, m1, h, p, _ => by
    simp only [quarantine_days, Option.some.injEq] at h
    subst h
    rfl
  | n + 1, ddx, day, m, m1, h, p, hp => by
    rw [quarantine_days] at h
    split at h
    · simp at h
    · split at h
      · simp at h
      · rename_i m2 h2
        have a : m2.population p = m.population p := by
          split at h2
          · exact quarantine_records_kept _ _ _ _ _ h2 p hp
          · simp only [Option.some.injEq] at h2
            subst h2
            rfl
        rw [quarantine_days_kept indiv n _ _ m2 m1 h p (by rw [a]; exact hp), a]

/-- `quarantine_contacts` leaves every individual that is already quarantined
alone. -/
theorem quarantine_contacts_kept (m m1 : model) (indiv : Nat)
    (h : quarantine_contacts m indiv = some m1) (p : Nat)
    (hp : (m.population p).quarantined = true) : m1.population p = m.population p :=
  quarantine_days_kept indiv _ _ _ m m1 h p hp

theorem handles_ok_frame (m m1 : model) (b b1 : buckets) (fresh dead : List Nat)
    (hinv : pool_inv m b fresh dead) (hh : handles_ok m b)
    (hpop : m1.population = m.population)
    (hb : ∀ d, b1 event_kind.quarantined d = b event_kind.quarantined d)
    (hown : ∀ q, q ∉ fresh → (m1.events q).individual = (m.events q).individual) :
    handles_ok m1 b1 := by
  intro p hp
  rw [hpop] at hp ⊢
  obtain ⟨q, a1, a2, a3⟩ := hh p hp
  refine ⟨q, a1, by rw [hb]; exact a2, ?_⟩
  rw [hown q (fun hq => hinv.disj_ring _ _ q a2 (List.mem_append_left _ hq))]
  exact a3

/-- One turn of the loop of `quarantined_test_result` for the event `e` of
today's bucket, owned by `i`, on a well-formed pool with enough events never
handed out: it returns and takes `e` out of the bucket; for a negative result
it puts a release event of `i` in front of today's release bucket and changes
nobody; for a positive result it leaves today's release bucket and every
quarantined individual alone. -/
theorem test_result_event_step (m : model) (b : buckets) (fresh dead : List Nat) (e i : Nat)
    (hinv : pool_inv m b fresh dead) (hh : handles_ok m b)
    (hown : (m.events e).individual = some i)
    (hmem : e ∈ b event_kind.test_result m.time)
    (hready : (m.population i).quarantine_test_result ≠ test_status.result false →
      contact_days_ok m i = true)
    (hlen : result_turn_cost m i + 1 < fresh.length) :
    ∃ m1 b1 fresh1, test_result_event e m = some m1 ∧
      pool_inv m1 b1 fresh1 (dead ++ [e]) ∧ handles_ok m1 b1 ∧
      m1.time = m.time ∧ m1.params = m.params ∧ m1.interactions = m.interactions ∧
      m1.interaction_day_idx = m.interaction_day_idx ∧
      (∃ used, fresh = used ++ fresh1) ∧
      fresh.length ≤ fresh1.length + result_turn_cost m i ∧
      b1 event_kind.test_result m.time = (b event_kind.test_result m.time).erase e ∧
      ((m.population i).quarantine_test_result = test_status.result false →
        ∃ x, b1 event_kind.quarantine_release m.time =
            x :: b event_kind.quarantine_release m.time ∧
          (m1.events x).individual = some i) ∧
      ((m.population i).quarantine_test_result ≠ test_status.result false →
        b1 event_kind.quarantine_release m.time = b event_kind.quarantine_release m.time) ∧
      (∀ q, q ∉ fresh → (m1.events q).individual = (m.events q).individual) ∧
      (∀ p, quarantine_fields_only (m.population p) (m1.population p)) ∧
      (∀ p, (m.population p).quarantined = true → m1.population p = m.population p) := by
  obtain ⟨f, g, fs, rfl⟩ : ∃ f g fs, fresh = f :: g :: fs := by
    cases fresh with
    | nil =>
      exfalso
      simp only [List.length_nil] at hlen
      omega
    | cons f t =>
      cases t with
      | nil =>
        exfalso
        simp only [List.length_cons, List.length_nil] at hlen
        unfold result_turn_cost at hlen
        split at hlen <;> omega
      | cons g fs => exact ⟨f, g, fs, rfl⟩
  have hfnd := hinv.nodup_ring
  have hfg : f ∉ g :: fs := by
    intro hm
    have : (f :: (g :: fs ++ dead)).Nodup := by simpa using hfnd
    exact (List.nodup_cons.mp this).1 (List.mem_append_left _ hm)
  by_cases hneg : (m.population i).quarantine_test_result = test_status.result false
  · obtain ⟨ma, hra, _, hpa⟩ := pool_inv_add m b f g fs dead event_kind.quarantine_release i
      m.time hinv
    obtain ⟨hpopa, hpara, htma, _, _, hinta, hdaya⟩ :=
      add_individual_to_event_list_rest _ _ _ _ _ _ hra
    have hownf := add_individual_to_event_list_owner _ _ _ _ _ _ hra
    have howna := add_individual_to_event_list_individual _ _ _ _ _ _ hra
    obtain ⟨mb, hrb, _, hpb⟩ := pool_inv_remove ma _ (g :: fs) dead event_kind.test_result e
      m.time hpa (by rw [buckets_set_other _ _ _ _ _ _ (by simp)]; exact hmem)
    obtain ⟨hpopb, hparb, htmb, _, _, hintb, hdayb, _⟩ :=
      remove_event_from_event_list_rest _ _ _ _ _ hrb
    have hownb := remove_event_from_event_list_individual _ _ _ _ _ hrb
    rw [buckets_set_other _ _ _ _ _ _ (by simp)] at hpb
    have hownab : ∀ q, q ∉ f :: g :: fs → (mb.events q).individual = (m.events q).individual := by
      intro q hq
      rw [hownb, howna q (fun hqf => hq (by simp [hqf]))]
    refine ⟨mb, _, g :: fs, ?_, hpb, ?_, htmb.trans htma, hparb.trans hpara,
      hintb.trans hinta, hdayb.trans hdaya, ⟨[f], rfl⟩, ?_, ?_, ?_, ?_, hownab, ?_, ?_⟩
    · unfold test_result_event
      rw [hown]
      dsimp only
      rw [if_pos hneg, hra]
      dsimp only
      rw [htma]
      exact hrb
    · exact handles_ok_frame m mb b _ _ dead hinv hh (hpopb.trans hpopa)
        (fun d => by
          rw [buckets_set_other _ _ _ _ _ _ (by simp), buckets_set_other _ _ _ _ _ _ (by simp)])
        hownab
    · unfold result_turn_cost
      rw [if_pos hneg]
      simp
    · rw [buckets_set_same]
    · intro _
      refine ⟨f, ?_, by rw [hownb]; exact hownf⟩
      rw [buckets_set_other _ _ _ _ _ _ (by simp), buckets_set_same]
    · intro hpos
      exact absurd hneg hpos
    · intro p
      rw [hpopb, hpopa]
      exact quarantine_fields_only_refl _
    · intro p _
      rw [hpopb, hpopa]
  · have hlen1 : 1 + 2 * contact_visits m i + 1 < (f :: g :: fs).length := by
      unfold result_turn_cost at hlen
      rw [if_neg hneg] at hlen
      exact hlen
    obtain ⟨ma, hra, _, hpa⟩ := pool_inv_add m b f g fs dead event_kind.quarantine_release i
      (m.time + 14) hinv
    obtain ⟨hpopa, hpara, htma, _, _, hinta, hdaya⟩ :=
      add_individual_to_event_list_rest _ _ _ _ _ _ hra
    have howna := add_individual_to_event_list_individual _ _ _ _ _ _ hra
    have hha : handles_ok ma
        (b.set event_kind.quarantine_release (m.time + 14)
          (f :: b event_kind.quarantine_release (m.time + 14))) :=
      handles_ok_frame m ma b _ _ dead hinv hh hpopa
        (fun d => by rw [buckets_set_other _ _ _ _ _ _ (by simp)])
        (fun q hq => howna q (fun hqf => hq (by simp [hqf])))
    have hokc : days_ok ma.interactions (ma.population i).n_interactions
        (ma.population i).interactions ma.params.days_of_interactions
        ma.params.quarantine_days (ma.interaction_day_idx : Int) = true := by
      rw [hpopa, hinta, hpara, hdaya]
      exact hready hneg
    have hvis : quarantine_visits (ma.population i).n_interactions
        ma.params.days_of_interactions ma.params.quarantine_days
        (ma.interaction_day_idx : Int) = contact_visits m i := by
      rw [hpopa, hpara, hdaya]; rfl
    obtain ⟨mc, bc, freshc, hrc, hci, hlc⟩ :=
      quarantine_days_inv ma _ (g :: fs) dead i ma.params.quarantine_days 0
        (ma.interaction_day_idx : Int) ma _ (g :: fs)
        (contacts_inv_refl ma _ _ _ hpa hha) hokc
        (by rw [hvis]; simp only [List.length_cons] at hlen1 ⊢; omega)
    rw [hvis] at hlc
    have hbc : ∀ k, k ≠ event_kind.quarantined → k ≠ event_kind.test_take → ∀ d,
        bc k d = (b.set event_kind.quarantine_release (m.time + 14)
          (f :: b event_kind.quarantine_release (m.time + 14))) k d :=
      fun k h1 h2 d => hci.other k h1 h2 d
    have hmemc : e ∈ bc event_kind.test_result m.time := by
      rw [hbc _ (by simp) (by simp), buckets_set_other _ _ _ _ _ _ (by simp)]
      exact hmem
    obtain ⟨md, hrd, _, hpd⟩ := pool_inv_remove mc bc freshc dead event_kind.test_result e
      m.time hci.pool hmemc
    obtain ⟨hpopd, hpard, htmd, _, _, hintd, hdayd, _⟩ :=
      remove_event_from_event_list_rest _ _ _ _ _ hrd
    have hownd := remove_event_from_event_list_individual _ _ _ _ _ hrd
    obtain ⟨usedc, husedc⟩ := hci.suffix
    have hfreshc : ∀ q, q ∈ freshc → q ∈ g :: fs := by
      intro q hq
      rw [husedc]
      exact List.mem_append_right _ hq
    have hownad : ∀ q, q ∉ f :: g :: fs →
        (md.events q).individual = (m.events q).individual := by
      intro q hq
      rw [hownd, hci.owners q (fun hqg => hq (List.mem_cons_of_mem _ hqg)),
        howna q (fun hqf => hq (by simp [hqf]))]
    refine ⟨md, _, freshc, ?_, hpd, ?_, ?_, ?_, ?_, ?_, ⟨f :: usedc, ?_⟩, ?_, ?_, ?_, ?_,
      hownad, ?_, ?_⟩
    · unfold test_result_event
      rw [hown]
      dsimp only
      rw [if_neg hneg, hra]
      dsimp only
      have hqc : quarantine_contacts ma i = some mc := hrc
      rw [hqc]
      dsimp only
      rw [hci.time, htma]
      exact hrd
    · intro p hp
      rw [hpopd] at hp ⊢
      obtain ⟨q, a1, a2, a3⟩ := hci.handles p hp
      refine ⟨q, a1, ?_, by rw [hownd]; exact a3⟩
      rw [buckets_set_other _ _ _ _ _ _ (by simp)]
      exact a2
    · rw [htmd, hci.time, htma]
    · rw [hpard, hci.params, hpara]
    · rw [hintd, hci.interactions, hinta]
    · rw [hdayd, hci.day_idx, hdaya]
    · rw [husedc]
      rfl
    · unfold result_turn_cost
      rw [if_neg hneg]
      simp only [List.length_cons] at hlc ⊢
      omega
    · rw [buckets_set_same, hbc _ (by simp) (by simp),
        buckets_set_other _ _ _ _ _ _ (by simp)]
    · intro hn
      exact absurd hn hneg
    · intro _
      rw [buckets_set_other _ _ _ _ _ _ (by simp), hbc _ (by simp) (by simp),
        buckets_set_other _ _ _ _ _ _ (by simp)]
    · intro p
      rw [hpopd]
      have := hci.frame p
      rw [hpopa] at this
      exact this
    · intro p hp
      rw [hpopd]
      have := quarantine_contacts_kept ma mc i hrc p (by rw [hpopa]; exact hp)
      rw [this, hpopa]

theorem quarantine_fields_only_slot (a a1 : individual) (h : quarantine_fields_only a a1) :
    a1.quarantine_test_result = a.quarantine_test_result := by
  unfold quarantine_fields_only at h
  rw [h]

/-- One turn of the loop of `quarantined_test_result` keeps the invariant, and
the event it read as `next_event` is the next event of the bucket. -/
theorem result_inv_step (m0 : model) (b0 : buckets) (fresh0 dead0 l : List Nat)
    (hinv0 : pool_inv m0 b0 fresh0 dead0)
    (hl0 : b0 event_kind.test_result m0.time = l)
    (hready0 : ∀ e, e ∈ l → result_ready m0 e)
    (done : List Nat) (e : Nat) (rest : List Nat) (m : model)
    (hl : l = done ++ e :: rest)
    (h : ∃ b fresh dead, result_inv m0 fresh0 l done m b fresh dead) :
    ∃ m1, test_result_event e m = some m1 ∧
      (∃ b1 fresh1 dead1, result_inv m0 fresh0 l (done ++ [e]) m1 b1 fresh1 dead1) ∧
      (rest ≠ [] → (m.events e).next = rest.head?) := by
  obtain ⟨b, fresh, dead, h⟩ := h
  have hel : e ∈ l := by rw [hl]; simp
  have hbucket0 : ∀ e1, e1 ∈ l → e1 ∉ fresh0 := by
    intro e1 h1 hf
    rw [← hl0] at h1
    exact hinv0.disj_ring _ _ e1 h1 (List.mem_append_left _ hf)
  obtain ⟨used0, hused0⟩ := h.suffix
  have hfresh_sub : ∀ q, q ∈ fresh → q ∈ fresh0 := by
    intro q hq; rw [hused0]; exact List.mem_append_right _ hq
  obtain ⟨i, hi0, hrd0⟩ := hready0 e hel
  have hown : (m.events e).individual = some i := by
    rw [h.owners e (hbucket0 e hel)]; exact hi0
  have hdrop : l.drop done.length = e :: rest := by rw [hl, List.drop_left]
  have hdrop1 : l.drop (done ++ [e]).length = rest := by
    have : l = (done ++ [e]) ++ rest := by rw [hl]; simp
    conv_lhs => rw [this]
    rw [List.drop_left]
  have hb := h.bucket
  rw [hdrop] at hb
  have hslot : (m.population i).quarantine_test_result =
      (m0.population i).quarantine_test_result :=
    quarantine_fields_only_slot _ _ (h.frame i)
  obtain ⟨hni, hin⟩ := quarantine_fields_only_n_interactions _ _ (h.frame i)
  have hvis : contact_visits m i = contact_visits m0 i := by
    unfold contact_visits
    rw [hni, h.params, h.day_idx]
  have hcost : result_turn_cost m i = result_cost m0 e := by
    unfold result_cost result_turn_cost
    rw [hi0, hslot, hvis]
  have hdays : contact_days_ok m i = contact_days_ok m0 i := by
    unfold contact_days_ok
    rw [hni, hin, h.interactions, h.params, h.day_idx]
  have hbud := h.budget
  rw [hdrop, List.map_cons, List.sum_cons] at hbud
  obtain ⟨m1, b1, fresh1, hrun, hp1, hh1, htm1, hpar1, hint1, hday1, ⟨used1, hused1⟩, hlen1,
      hbt1, hneg1, hpos1, hown1, hfr1, hkept1⟩ :=
    test_result_event_step m b fresh dead e i h.pool h.handles hown
      (by rw [h.time, hb]; simp)
      (fun hne => by rw [hdays]; exact hrd0 (by rw [← hslot]; exact hne))
      (by rw [hcost]; omega)
  have hnd : (e :: rest).Nodup := by
    rw [← hb]; exact h.pool.nodup_bucket _ _
  have herase : (b event_kind.test_result m.time).erase e = rest := by
    rw [h.time, hb]
    simp
  rw [herase, h.time] at hbt1
  have hrel_sub : ∀ x, x ∈ b event_kind.quarantine_release m0.time →
      x ∈ b1 event_kind.quarantine_release m0.time := by
    intro x hx
    by_cases hn : (m.population i).quarantine_test_result = test_status.result false
    · obtain ⟨x1, hx1, _⟩ := hneg1 hn
      rw [← h.time, hx1, h.time]
      exact List.mem_cons_of_mem _ hx
    · rw [← h.time, hpos1 hn, h.time]
      exact hx
  have hbown : ∀ x, x ∈ b event_kind.quarantine_release m0.time →
      (m1.events x).individual = (m.events x).individual := by
    intro x hx
    exact hown1 x (fun hf => h.pool.disj_ring _ _ x hx (List.mem_append_left _ hf))
  refine ⟨m1, hrun, ⟨b1, fresh1, dead ++ [e], ⟨hp1, htm1.trans h.time, hpar1.trans h.params,
    hint1.trans h.interactions, hday1.trans h.day_idx,
    ⟨used0 ++ used1, by rw [hused0, hused1]; simp⟩, ?_, ?_, ?_, ?_, ?_, hh1, ?_, ?_⟩⟩, ?_⟩
  · rw [hdrop1]
    rw [hcost] at hlen1
    omega
  · rw [hdrop1]
    exact hbt1
  · intro q hq
    rw [hown1 q (fun hf => hq (hfresh_sub q hf)), h.owners q hq]
  · intro p
    exact quarantine_fields_only_trans _ _ _ (h.frame p) (hfr1 p)
  · intro p hp
    have hp1 := h.kept_flag p hp
    rw [hkept1 p (by rw [hp1]; exact hp), hp1]
  · intro e1 he1 j hj hjn
    rcases List.mem_append.mp he1 with hd | hd
    · obtain ⟨x, hx, hxo⟩ := h.release e1 hd j hj hjn
      exact ⟨x, hrel_sub x hx, by rw [hbown x hx]; exact hxo⟩
    · simp only [List.mem_singleton] at hd
      subst hd
      rw [hi0] at hj
      simp only [Option.some.injEq] at hj
      subst hj
      obtain ⟨x, hx, hxo⟩ := hneg1 (by rw [hslot]; exact hjn)
      exact ⟨x, by rw [← h.time, hx]; simp, hxo⟩
  · intro x hx
    by_cases hn : (m.population i).quarantine_test_result = test_status.result false
    · obtain ⟨x1, hx1, hxo⟩ := hneg1 hn
      rw [← h.time, hx1] at hx
      rcases List.mem_cons.mp hx with rfl | hx
      · exact ⟨i, hxo⟩
      · rw [h.time] at hx
        obtain ⟨j, hj⟩ := h.release_owned x hx
        exact ⟨j, by rw [hbown x hx]; exact hj⟩
    · rw [← h.time, hpos1 hn, h.time] at hx
      obtain ⟨j, hj⟩ := h.release_owned x hx
      exact ⟨j, by rw [hbown x hx]; exact hj⟩
  · intro hne
    obtain ⟨e1, r, rfl⟩ : ∃ e1 r, rest = e1 :: r := by
      cases rest with
      | nil => exact absurd rfl hne
      | cons e1 r => exact ⟨e1, r, rfl⟩
    have hlinks := h.pool.links event_kind.test_result m0.time
    rw [hb] at hlinks
    exact bucket_ok_next_of_suffix m.events dead e e1 r _ hlinks (List.suffix_refl _)

/-- The pass `quarantined_test_result` on a well-formed pool with enough events
never handed out, in which every quarantined individual holds its quarantine
event and the events of today's buckets of the test-result and release lists
have owners: it returns and the invariant holds for the whole bucket. -/
theorem quarantined_test_result_spec (m : model) (b : buckets) (fresh dead : List Nat)
    (hinv : pool_inv m b fresh dead) (hh : handles_ok m b)
    (hready : ∀ e, e ∈ b event_kind.test_result m.time → result_ready m e)
    (hbud : ((b event_kind.test_result m.time).map (result_cost m)).sum + 1 < fresh.length)
    (hrel : ∀ x, x ∈ b event_kind.quarantine_release m.time →
      ∃ i, (m.events x).individual = some i) :
    ∃ m1 b1 fresh1 dead1, quarantined_test_result m = some m1 ∧
      result_inv m fresh (b event_kind.test_result m.time)
        (b event_kind.test_result m.time) m1 b1 fresh1 dead1 := by
  have hstart : result_inv m fresh (b event_kind.test_result m.time) [] m b fresh dead :=
    ⟨hinv, rfl, rfl, rfl, rfl, ⟨[], rfl⟩, by simpa using hbud, by simp, fun _ _ => rfl,
      fun _ => quarantine_fields_only_refl _, fun _ _ => rfl, hh,
      fun e he => by simp at he, hrel⟩
  have hloop : ∃ m1, for_each_event test_result_event
      (b event_kind.test_result m.time).length
      ((m.lists event_kind.test_result).events m.time) m = some m1 ∧
      ∃ b1 fresh1 dead1, result_inv m fresh (b event_kind.test_result m.time)
        (b event_kind.test_result m.time) m1 b1 fresh1 dead1 := by
    by_cases hnil : b event_kind.test_result m.time = []
    · rw [hnil]
      rw [hnil] at hstart
      exact ⟨m, rfl, b, fresh, dead, hstart⟩
    · obtain ⟨m1, hrun, hI⟩ :=
        for_each_event_prefix test_result_event
          (fun done m1 => ∃ b1 fresh1 dead1,
            result_inv m fresh (b event_kind.test_result m.time) done m1 b1 fresh1 dead1)
          (b event_kind.test_result m.time) m ⟨b, fresh, dead, hstart⟩
          (fun done e rest m1 hl _ h =>
            result_inv_step m b fresh dead _ hinv rfl hready done e rest m1 hl h)
          _ (le_refl _)
      rw [List.take_length] at hI
      rw [hinv.head _ _ hnil]
      exact ⟨m1, hrun, hI⟩
  obtain ⟨m1, hrun, b1, fresh1, dead1, hI⟩ := hloop
  refine ⟨m1, b1, fresh1, dead1, ?_, hI⟩
  unfold quarantined_test_result pass_today
  rw [hinv.count, Int.toNat_ofNat]
  exact hrun

theorem one_time_step_eq (m : model) :
    one_time_step m =
      (tick_before_results m).bind (fun m8 =>
        (quarantined_test_result m8).bind (fun m9 =>
          (release_from_quarantine m9).map tick_finish)) := by
  unfold one_time_step tick_before_results
  dsimp only
  generalize build_daily_newtork _ = o2
  cases o2 with
  | none => rfl
  | some m2 =>
  dsimp only
  cases transmit_virus m2 with
  | none => rfl
  | some m3 =>
  dsimp only
  cases transition_to_symptomatic m3 with
  | none => rfl
  | some m4 =>
  dsimp only
  cases transition_to_hospitalised m4 with
  | none => rfl
  | some m5 =>
  dsimp only
  cases transition_to_recovered m5 with
  | none => rfl
  | some m6 =>
  dsimp only
  cases transition_to_death m6 with
  | none => rfl
  | some m7 =>
  dsimp only
  cases quarantined_test_take m7 with
  | none => rfl
  | some m8 =>
  dsimp only [Option.bind]
  cases quarantined_test_result m8 with
  | none => rfl
  | some m9 =>
  dsimp only
  cases release_from_quarantine m9 with
  | none => rfl
  | some m10 => rfl

theorem update_event_list_counters_lists (k0 : event_kind) (m : model) (k : event_kind) :
    ((update_event_list_counters k0 m).lists k).events = (m.lists k).events ∧
    ((update_event_list_counters k0 m).lists k).n_daily_current =
      (m.lists k).n_daily_current := by
  unfold update_event_list_counters
  dsimp only
  by_cases hk : k = k0
  · subst hk
    rw [Function.update_same]
    exact ⟨rfl, rfl⟩
  · rw [Function.update_noteq hk]
    exact ⟨rfl, rfl⟩

theorem tick_finish_inv (m : model) (b : buckets) (fresh dead : List Nat)
    (h : pool_inv m b fresh dead) : pool_inv (tick_finish m) b fresh dead := by
  refine pool_inv_congr_lists m (tick_finish m) b fresh dead rfl rfl (fun k => ?_) h
  unfold tick_finish
  dsimp only
  obtain ⟨a1, a2⟩ := update_event_list_counters_lists event_kind.quarantined
    (update_event_list_counters event_kind.asymptomatic
      (update_event_list_counters event_kind.presymptomatic m)) k
  obtain ⟨c1, c2⟩ := update_event_list_counters_lists event_kind.asymptomatic
    (update_event_list_counters event_kind.presymptomatic m) k
  obtain ⟨d1, d2⟩ := update_event_list_counters_lists event_kind.presymptomatic m k
  exact ⟨a1.trans (c1.trans d1), a2.trans (c2.trans d2)⟩

/-- C32: `one_time_step` runs `quarantined_test_result` and then
`release_from_quarantine` and finishes with counters only.  From a state handed
to `quarantined_test_result` with a well-formed pool that has enough events
never handed out, in which every quarantined individual holds its quarantine
event and the events of today's test-result and release buckets have owners
(those with a positive result with existing contact records), both passes
return; for every quarantined individual with a negative result in today's
test-result bucket, the state that the tick returns has the flag cleared, and
the individual's quarantine event and a release event of the individual that was
in today's release bucket after the results are in no bucket any more. -/
theorem test_results_before_releases (m : model) (b : buckets) (fresh dead : List Nat)
    (hinv : pool_inv m b fresh dead) (hh : handles_ok m b)
    (hready : ∀ e, e ∈ b event_kind.test_result m.time → result_ready m e)
    (hbud : ((b event_kind.test_result m.time).map (result_cost m)).sum + 1 < fresh.length)
    (hrel : ∀ x, x ∈ b event_kind.quarantine_release m.time →
      ∃ i, (m.events x).individual = some i) :
    ∃ m1 m2, quarantined_test_result m = some m1 ∧ release_from_quarantine m1 = some m2 ∧
      (∀ m0, tick_before_results m0 = some m → one_time_step m0 = some (tick_finish m2)) ∧
      ∀ e, e ∈ b event_kind.test_result m.time → ∀ i, (m.events e).individual = some i →
        (m.population i).quarantined = true →
        (m.population i).quarantine_test_result = test_status.result false →
        ((tick_finish m2).population i).quarantined = false ∧
        ∃ q x, (m.population i).quarantine_event = some q ∧
          (m1.events x).individual = some i ∧
          (∃ l, bucket_walk m1 event_kind.quarantine_release m.time = some l ∧ x ∈ l) ∧
          ∀ k d, ∃ lk, bucket_walk (tick_finish m2) k d = some lk ∧ q ∉ lk ∧ x ∉ lk := by
  obtain ⟨m1, b1, fresh1, dead1, hr1, hI1⟩ :=
    quarantined_test_result_spec m b fresh dead hinv hh hready hbud hrel
  obtain ⟨m2, b2, dead2, hr2, hI2⟩ :=
    release_from_quarantine_spec m1 b1 fresh1 dead1 hI1.pool hI1.handles
      (fun x hx => hI1.release_owned x (by rw [← hI1.time]; exact hx))
  refine ⟨m1, m2, hr1, hr2, fun m0 h0 => ?_, fun e he i hi hq hn => ?_⟩
  · rw [one_time_step_eq, h0]
    dsimp only [Option.bind]
    rw [hr1]
    dsimp only
    rw [hr2]
    rfl
  · obtain ⟨x0, hx0, hx0o⟩ := hI1.release e he i hi hn
    have hpi : m1.population i = m.population i := hI1.kept_flag i hq
    have hflag : (m2.population i).quarantined = false :=
      hI2.released x0 (by rw [hI1.time]; exact hx0) i hx0o
    obtain ⟨q, x, hqe, hxl, hxo, hqd, hxd⟩ :=
      hI2.returned i (by rw [hpi]; exact hq) hflag
    have hfin := tick_finish_inv m2 b2 fresh1 dead2 hI2.pool
    refine ⟨hflag, q, x, by rw [← hpi]; exact hqe, hxo,
      ⟨_, bucket_walk_of_inv m1 b1 _ _ hI1.pool _ _, by rw [← hI1.time]; exact hxl⟩,
      fun k d => ⟨_, bucket_walk_of_inv _ b2 _ _ hfin k d, ?_, ?_⟩⟩
    · exact fun hm => hfin.disj_ring k d q hm (List.mem_append_right _ hqd)
    · exact fun hm => hfin.disj_ring k d x hm (List.mem_append_right _ hxd)

theorem negative_example_inv :
    ∃ fresh dead, pool_inv negative_example (buckets_after 2 negative_ops) fresh dead ∧
      fresh.length = 10 := by
  obtain ⟨fresh, dead, hp, hlen⟩ :=
    pool_after_inv 2 negative_ops (by decide) (by decide) (by decide)
  refine ⟨fresh, dead,
    pool_inv_congr (pool_after 2 negative_ops) negative_example _ _ _ rfl rfl rfl hp, ?_⟩
  have : count_adds negative_ops = 2 := by decide
  omega

theorem negative_example_handles :
    handles_ok negative_example (buckets_after 2 negative_ops) := by
  intro p hq
  by_cases hp0 : p = 0
  · subst hp0
    exact ⟨0, by decide, by decide, by decide⟩
  · exfalso
    have : negative_example.population p = calloc_individual := by
      show (if p = 0 then _ else _) = _
      rw [if_neg hp0]
    rw [this] at hq
    exact absurd hq (by decide)

theorem negative_example_ready (e : Nat)
    (he : e ∈ buckets_after 2 negative_ops event_kind.test_result negative_example.time) :
    result_ready negative_example e := by
  have he1 : e = 1 := by
    have : buckets_after 2 negative_ops event_kind.test_result negative_example.time =
        [1] := by decide
    rw [this] at he
    simpa using he
  subst he1
  exact ⟨0, by decide, fun hne => absurd (by decide) hne⟩

theorem test_results_before_releases_witness :
    ((negative_example.events 1).individual = some 0 ∧
      (negative_example.population 0).quarantined = true ∧
      (negative_example.population 0).quarantine_test_result = test_status.result false) ∧
    ∃ m1 m2, quarantined_test_result negative_example = some m1 ∧
      release_from_quarantine m1 = some m2 ∧
      ((tick_finish m2).population 0).quarantined = false ∧
      ∃ lq lr, bucket_walk (tick_finish m2) event_kind.quarantined 1 = some lq ∧ 0 ∉ lq ∧
        bucket_walk (tick_finish m2) event_kind.quarantine_release 2 = some lr := by
  obtain ⟨fresh, dead, hp, hlen⟩ := negative_example_inv
  obtain ⟨m1, m2, h1, h2, _, h4⟩ :=
    test_results_before_releases negative_example (buckets_after 2 negative_ops) fresh dead hp
      negative_example_handles negative_example_ready
      (by
        have : ((buckets_after 2 negative_ops event_kind.test_result
          negative_example.time).map (result_cost negative_example)).sum = 1 := by decide
        omega)
      (fun x hx => by
        have : buckets_after 2 negative_ops event_kind.quarantine_release
            negative_example.time = [] := by decide
        rw [this] at hx
        simp at hx)
  obtain ⟨hflag, q, x, hq, _, _, hall⟩ := h4 1 (by decide) 0 (by decide) (by decide) (by decide)
  have hq0 : q = 0 := by
    have : (negative_example.population 0).quarantine_event = some 0 := by decide
    rw [this] at hq
    simpa using hq.symm
  subst hq0
  obtain ⟨lq, hlq, hnq, _⟩ := hall event_kind.quarantined 1
  obtain ⟨lr, hlr, _, _⟩ := hall event_kind.quarantine_release 2
  exact ⟨by decide, m1, m2, h1, h2, hflag, lq, lr, hlq, hnq, hlr⟩

end OpenABM
